import Mathlib

/-!
# SA proposal negotiation of in.ikev2 (`ikev2_common.c`)

A shallow embedding of the proposal builder, the rule matcher and the acquire
matcher of `usr/src/cmd/cmd-inet/usr.lib/in.ikev2/common/ikev2_common.c`,
followed by the properties established about them.

Conventions of the embedding:

* C integers are `Nat`; the only place where a machine width decides the
  behaviour is the `uint8_t` loop counter of `ikev2_sa_from_rule`, which is
  reduced modulo 256 explicitly.
* A cookie passed through the nested visitors (`struct rule_data_s`,
  `struct acquire_data_s`) is a record threaded through the visitors; the
  result record the cookie points to is a field of that record.
* A parsed SA payload is a list of proposals, each with its list of
  transforms, each with its list of attributes: what the three walkers of
  `ikev2_pkt.c` hand to their visitors, in wire order.
* An abort of the process (`INVALID`, `VERIFY`) is the value `none`.
-/

namespace Ikev2

/-! ## Protocol constants

The header `ikev2.h` is not among the sources; the numeric values are those
of RFC 7296 (the source cites it), and only their being distinct matters. The
`SADB_` constants are those of the system header `net/pfkeyv2.h` (PF_KEY). -/

/-- Modelled from the spec: protocol type "none" (`ikev2_spi_proto_t`). -/
def IKEV2_PROTO_NONE : Nat := 0
/-- Modelled from the spec: protocol type IKE (`ikev2_spi_proto_t`). -/
def IKEV2_PROTO_IKE : Nat := 1
/-- Modelled from the spec: protocol type AH (`ikev2_spi_proto_t`). -/
def IKEV2_PROTO_AH : Nat := 2
/-- Modelled from the spec: protocol type ESP (`ikev2_spi_proto_t`). -/
def IKEV2_PROTO_ESP : Nat := 3
/-- Modelled from the spec: protocol type FC_ESP_HEADER (`ikev2_spi_proto_t`). -/
def IKEV2_PROTO_FC_ESP_HEADER : Nat := 4
/-- Modelled from the spec: protocol type FC_CT_AUTHENTICATION (`ikev2_spi_proto_t`). -/
def IKEV2_PROTO_FC_CT_AUTH : Nat := 5

/-- Modelled from the spec: transform type ENCR (`ikev2_xf_type_t`). -/
def IKEV2_XF_ENCR : Nat := 1
/-- Modelled from the spec: transform type PRF (`ikev2_xf_type_t`). -/
def IKEV2_XF_PRF : Nat := 2
/-- Modelled from the spec: transform type AUTH (`ikev2_xf_type_t`). -/
def IKEV2_XF_AUTH : Nat := 3
/-- Modelled from the spec: transform type DH (`ikev2_xf_type_t`). -/
def IKEV2_XF_DH : Nat := 4
/-- Modelled from the spec: transform type ESN (`ikev2_xf_type_t`). -/
def IKEV2_XF_ESN : Nat := 5

/-- Modelled from the spec: PRF identifier HMAC-MD5 (`ikev2_prf_t`). -/
def IKEV2_PRF_HMAC_MD5 : Nat := 1
/-- Modelled from the spec: PRF identifier HMAC-SHA1 (`ikev2_prf_t`). -/
def IKEV2_PRF_HMAC_SHA1 : Nat := 2
/-- Modelled from the spec: PRF identifier HMAC-SHA2-256 (`ikev2_prf_t`). -/
def IKEV2_PRF_HMAC_SHA2_256 : Nat := 5
/-- Modelled from the spec: PRF identifier HMAC-SHA2-384 (`ikev2_prf_t`). -/
def IKEV2_PRF_HMAC_SHA2_384 : Nat := 6
/-- Modelled from the spec: PRF identifier HMAC-SHA2-512 (`ikev2_prf_t`). -/
def IKEV2_PRF_HMAC_SHA2_512 : Nat := 7

/-- Modelled from the spec: the only recognised attribute type, key length. -/
def IKEV2_XF_ATTR_KEYLEN : Nat := 14
/-- Modelled from the spec: ESN identifier "no extended sequence numbers". -/
def IKEV2_ESN_NONE : Nat := 0
/-- Modelled from the spec: DH group "none". -/
def IKEV2_DH_NONE : Nat := 0
/-- Modelled from the spec: DH group MODP-2048. -/
def IKEV2_DH_MODP_2048 : Nat := 14
/-- Modelled from the spec: encryption identifier AES-CBC. -/
def IKEV2_ENCR_AES_CBC : Nat := 12
/-- Modelled from the spec: encryption identifier AES-GCM with a 16 octet ICV. -/
def IKEV2_ENCR_AES_GCM_16 : Nat := 20
/-- Modelled from the spec: authentication identifier "none". -/
def IKEV2_XF_AUTH_NONE : Nat := 0
/-- Modelled from the spec: authentication identifier HMAC-SHA1-96. -/
def IKEV2_XF_AUTH_HMAC_SHA1_96 : Nat := 2

/-- Modelled from the spec: kernel (PF_KEY) authentication algorithm "none". -/
def SADB_AALG_NONE : Nat := 0
/-- Modelled from the spec: kernel (PF_KEY) encryption algorithm "none". -/
def SADB_EALG_NONE : Nat := 0
/-- Modelled from the spec: kernel SA type AH (`sadb_msg_satype`). -/
def SADB_SATYPE_AH : Nat := 2
/-- Modelled from the spec: kernel SA type ESP (`sadb_msg_satype`). -/
def SADB_SATYPE_ESP : Nat := 3

/-- Modelled from the spec: kernel message type ACQUIRE (`sadb_msg_type`). -/
def SADB_ACQUIRE : Nat := 6
/-- Modelled from the spec: kernel extension type "proposal" (`sadb_prop_exttype`). -/
def SADB_EXT_PROPOSAL : Nat := 13
/-- Modelled from the spec: kernel authentication algorithm HMAC-MD5. -/
def SADB_AALG_MD5HMAC : Nat := 2
/-- Modelled from the spec: kernel authentication algorithm HMAC-SHA1. -/
def SADB_AALG_SHA1HMAC : Nat := 3
/-- Modelled from the spec: kernel authentication algorithm HMAC-SHA-256. -/
def SADB_AALG_SHA256HMAC : Nat := 5
/-- Modelled from the spec: kernel authentication algorithm HMAC-SHA-384. -/
def SADB_AALG_SHA384HMAC : Nat := 6
/-- Modelled from the spec: kernel authentication algorithm HMAC-SHA-512. -/
def SADB_AALG_SHA512HMAC : Nat := 7
/-- Modelled from the spec: kernel encryption algorithm DES-CBC. -/
def SADB_EALG_DESCBC : Nat := 2
/-- Modelled from the spec: kernel encryption algorithm 3DES-CBC. -/
def SADB_EALG_3DESCBC : Nat := 3
/-- Modelled from the spec: kernel encryption algorithm Blowfish. -/
def SADB_EALG_BLOWFISH : Nat := 7
/-- Modelled from the spec: kernel encryption algorithm NULL. -/
def SADB_EALG_NULL : Nat := 11
/-- Modelled from the spec: kernel encryption algorithm AES (CBC). -/
def SADB_EALG_AES : Nat := 12
/-- Modelled from the spec: kernel encryption algorithm AES-CCM, 8 octet ICV. -/
def SADB_EALG_AES_CCM_8 : Nat := 14
/-- Modelled from the spec: kernel encryption algorithm AES-CCM, 12 octet ICV. -/
def SADB_EALG_AES_CCM_12 : Nat := 15
/-- Modelled from the spec: kernel encryption algorithm AES-CCM, 16 octet ICV. -/
def SADB_EALG_AES_CCM_16 : Nat := 16
/-- Modelled from the spec: kernel encryption algorithm AES-GCM, 8 octet ICV. -/
def SADB_EALG_AES_GCM_8 : Nat := 18
/-- Modelled from the spec: kernel encryption algorithm AES-GCM, 12 octet ICV. -/
def SADB_EALG_AES_GCM_12 : Nat := 19
/-- Modelled from the spec: kernel encryption algorithm AES-GCM, 16 octet ICV. -/
def SADB_EALG_AES_GCM_16 : Nat := 20
/-- Modelled from the spec: authentication identifier HMAC-MD5-96. -/
def IKEV2_XF_AUTH_HMAC_MD5_96 : Nat := 1
/-- Modelled from the spec: notification reason NO_PROPOSAL_CHOSEN. -/
def IKEV2_N_NO_PROPOSAL_CHOSEN : Nat := 14
/-- Modelled from the spec: notification reason INVALID_KE_PAYLOAD. -/
def IKEV2_N_INVALID_KE_PAYLOAD : Nat := 17

/-- Modelled from the spec: the macro `IKE_ATTR_GET_TYPE`, which drops the
format bit (the top bit of the 16 bit attribute type). -/
def IKE_ATTR_GET_TYPE (attr_type : Nat) : Nat := attr_type % 32768

/-! ## Data model -/

/-- Modelled from the spec: cipher modes attached to an encryption algorithm
(`encr_modes_t`, declared in `pkcs11.h`). -/
inductive encr_modes_t
  | MODE_NONE
  | MODE_CBC
  | MODE_CTR
  | MODE_CCM
  | MODE_GCM
  deriving DecidableEq, Repr

/-- Modelled from the spec: the macro `MODE_IS_COMBINED`, true of the combined
(AEAD) modes. -/
def MODE_IS_COMBINED : encr_modes_t → Bool
  | .MODE_CCM => true
  | .MODE_GCM => true
  | _ => false

/-- An entry of the table `encr_data[]`; only `ed_mode` is read here. The table
itself is not among the sources and is a parameter `encr_data : Nat → encr_data_t`
of every function that consults it. -/
structure encr_data_t where
  ed_mode : encr_modes_t
  deriving DecidableEq, Repr

/-- One configured transform combination (`config_xf_t`). -/
structure config_xf_t where
  xf_encr : Nat
  xf_minbits : Nat
  xf_maxbits : Nat
  xf_auth : Nat
  xf_dh : Nat
  deriving DecidableEq, Repr

/-- A rule (`config_rule_t`): the NULL terminated array `rule_xf` is the list
of its entries; `rule_xf[i]` is NULL exactly when `i` is the length. -/
structure config_rule_t where
  rule_xf : List config_xf_t
  deriving DecidableEq, Repr

/-- A transform attribute as handed to the attribute visitor. -/
structure ikev2_attribute_t where
  attr_type : Nat
  attr_length : Nat
  deriving DecidableEq, Repr

/-- A transform as handed to the transform visitor, with the attributes held
in its sub-buffer (`buf`, `buflen`). -/
structure ikev2_transform_t where
  xf_type : Nat
  xf_id : Nat
  attrs : List ikev2_attribute_t
  deriving DecidableEq, Repr

/-- A proposal as handed to the proposal visitor: header fields, the resolved
SPI and the transforms held in its sub-buffer. -/
structure ikev2_sa_proposal_t where
  proto_proposalnr : Nat
  proto_protoid : Nat
  spi : Nat
  xfs : List ikev2_transform_t
  deriving DecidableEq, Repr

/-- The negotiation result (`ikev2_sa_result_t`). -/
structure ikev2_sa_result_t where
  sar_proto : Nat
  sar_spi : Nat
  sar_propnum : Nat
  sar_encr : Nat
  sar_encr_keylen : Nat
  sar_auth : Nat
  sar_prf : Nat
  sar_dh : Nat
  sar_esn : Nat
  sar_match : Nat
  deriving DecidableEq, Repr

/-- The result after `memset(result, 0, sizeof (*result))`. -/
def sa_result_zero : ikev2_sa_result_t :=
  { sar_proto := 0, sar_spi := 0, sar_propnum := 0, sar_encr := 0,
    sar_encr_keylen := 0, sar_auth := 0, sar_prf := 0, sar_dh := 0,
    sar_esn := 0, sar_match := 0 }

/-- Modelled from the spec: the macro `SA_RESULT_HAS`, the test of one bit of
the match bitset (`sar_match & (1 << type)`). -/
def SA_RESULT_HAS (res : ikev2_sa_result_t) (xftype : Nat) : Bool :=
  res.sar_match &&& (1 <<< xftype) != 0

/-- The static table `prf_supported[]`, in decreasing order of preference. -/
def prf_supported : List Nat :=
  [IKEV2_PRF_HMAC_SHA2_512, IKEV2_PRF_HMAC_SHA2_384, IKEV2_PRF_HMAC_SHA2_256,
   IKEV2_PRF_HMAC_SHA1, IKEV2_PRF_HMAC_MD5]

/-! ## The walkers -/

/-- Modelled from the spec: the walkers `ikev2_walk_proposals`,
`ikev2_walk_xfs` and `ikev2_walk_xfattrs` of `ikev2_pkt.c`. Each calls the
visitor on every element in order, threading the cookie; a visitor result of
`false` stops the walk early. On a well-formed buffer the walker itself
reports success, which is what the `VERIFY` around each call demands. -/
def ikev2_walk {α σ : Type} (cb : α → σ → Bool × σ) : List α → σ → σ
  | [], cookie => cookie
  | x :: rest, cookie =>
    match cb x cookie with
    | (true, cookie1) => ikev2_walk cb rest cookie1
    | (false, cookie1) => cookie1

/-! ## Rule matcher -/

/-- The cookie of the rule matcher (`struct rule_data_s`); `rd_res` is the
result record the C field points to. -/
structure rule_data_s where
  rd_xf : config_xf_t
  rd_res : ikev2_sa_result_t
  rd_prf : Nat
  rd_match : Bool
  rd_skip : Bool
  rd_has_auth : Bool
  rd_keylen_match : Bool
  deriving DecidableEq, Repr

/-- The attribute visitor `match_rule_attr_cb`. -/
def match_rule_attr_cb (attr : ikev2_attribute_t) (data : rule_data_s) :
    Bool × rule_data_s :=
  if IKE_ATTR_GET_TYPE attr.attr_type ≠ IKEV2_XF_ATTR_KEYLEN then
    (false, { data with rd_skip := true })
  else if attr.attr_length ≥ data.rd_xf.xf_minbits ∧
      attr.attr_length ≤ data.rd_xf.xf_maxbits then
    (false, { data with
      rd_res := { data.rd_res with sar_encr_keylen := attr.attr_length },
      rd_keylen_match := true })
  else
    (true, data)

/-- The tail of `match_rule_xf_cb`: record the partial match in the bitset and
tell the walker whether to go on. -/
def match_rule_xf_done (xf : ikev2_transform_t) (isMatch : Bool)
    (data : rule_data_s) : Bool × rule_data_s :=
  let data1 :=
    if isMatch then
      { data with rd_res := { data.rd_res with
          sar_match := data.rd_res.sar_match ||| (1 <<< xf.xf_type) } }
    else data
  (!data1.rd_skip, data1)

/-- The transform visitor `match_rule_xf_cb`. -/
def match_rule_xf_cb (xf : ikev2_transform_t) (data : rule_data_s) :
    Bool × rule_data_s :=
  if xf.xf_type = IKEV2_XF_ENCR then
    if data.rd_xf.xf_encr ≠ xf.xf_id then
      match_rule_xf_done xf false data
    else if xf.attrs ≠ [] then
      let data1 := ikev2_walk match_rule_attr_cb xf.attrs
        { data with rd_keylen_match := false }
      if data1.rd_skip then
        match_rule_xf_done xf false { data1 with rd_skip := false }
      else if !data1.rd_keylen_match then
        match_rule_xf_done xf false data1
      else
        match_rule_xf_done xf true
          { data1 with rd_res := { data1.rd_res with sar_encr := xf.xf_id } }
    else
      match_rule_xf_done xf true
        { data with rd_res := { data.rd_res with sar_encr := xf.xf_id } }
  else if xf.xf_type = IKEV2_XF_AUTH then
    let data1 := { data with rd_has_auth := true }
    if data1.rd_xf.xf_auth = xf.xf_id then
      match_rule_xf_done xf true
        { data1 with rd_res := { data1.rd_res with sar_auth := xf.xf_id } }
    else
      match_rule_xf_done xf false data1
  else if xf.xf_type = IKEV2_XF_PRF then
    if xf.xf_id = data.rd_prf then
      match_rule_xf_done xf true
        { data with rd_res := { data.rd_res with sar_prf := data.rd_prf } }
    else
      match_rule_xf_done xf false data
  else if xf.xf_type = IKEV2_XF_DH then
    if data.rd_xf.xf_dh = xf.xf_id then
      match_rule_xf_done xf true
        { data with rd_res := { data.rd_res with sar_dh := xf.xf_id } }
    else
      match_rule_xf_done xf false data
  else if xf.xf_type = IKEV2_XF_ESN then
    match_rule_xf_done xf false { data with rd_skip := true }
  else
    match_rule_xf_done xf false { data with rd_skip := true }

/-- The proposal visitor `match_rule_prop_cb`. -/
def match_rule_prop_cb (encr_data : Nat → encr_data_t)
    (prop : ikev2_sa_proposal_t) (data : rule_data_s) : Bool × rule_data_s :=
  if prop.proto_protoid ≠ IKEV2_PROTO_IKE then
    (false, data)
  else
    let data1 := ikev2_walk match_rule_xf_cb prop.xfs
      { data with rd_res := sa_result_zero, rd_skip := false,
                  rd_has_auth := false }
    if data1.rd_skip then
      (true, data1)
    else if !SA_RESULT_HAS data1.rd_res IKEV2_XF_ENCR ||
        !SA_RESULT_HAS data1.rd_res IKEV2_XF_PRF ||
        !SA_RESULT_HAS data1.rd_res IKEV2_XF_DH ||
        (!MODE_IS_COMBINED (encr_data data1.rd_res.sar_encr).ed_mode &&
         !SA_RESULT_HAS data1.rd_res IKEV2_XF_AUTH) then
      (true, data1)
    else
      (false, { data1 with
        rd_res := { data1.rd_res with
          sar_proto := prop.proto_protoid,
          sar_spi := prop.spi,
          sar_propnum := prop.proto_proposalnr },
        rd_match := true })

/-- The cookie `ikev2_sa_match_rule` builds for a (rule entry, PRF) pair, with
the result cleared by `memset`; the fields the initialiser does not name are
zero. -/
def rule_data_init (xf : config_xf_t) (prf : Nat) : rule_data_s :=
  { rd_xf := xf, rd_res := sa_result_zero, rd_prf := prf, rd_match := false,
    rd_skip := false, rd_has_auth := false, rd_keylen_match := false }

/-- The body of the inner loop of `ikev2_sa_match_rule` for one (rule entry,
PRF) pair: build the cookie, clear the result, walk the proposals. -/
def match_rule_pair (encr_data : Nat → encr_data_t) (xf : config_xf_t)
    (prf : Nat) (pay : List ikev2_sa_proposal_t) : rule_data_s :=
  ikev2_walk (match_rule_prop_cb encr_data) pay (rule_data_init xf prf)

/-- The inner loop of `ikev2_sa_match_rule` (`j` over `prf_supported`). -/
def match_rule_prfs (encr_data : Nat → encr_data_t) (xf : config_xf_t)
    (pay : List ikev2_sa_proposal_t) :
    List Nat → ikev2_sa_result_t → Bool × ikev2_sa_result_t
  | [], result => (false, result)
  | prf :: rest, _ =>
    let data := match_rule_pair encr_data xf prf pay
    if data.rd_match then (true, data.rd_res)
    else match_rule_prfs encr_data xf pay rest data.rd_res

/-- The outer loop of `ikev2_sa_match_rule` (`i` over `rule->rule_xf`). -/
def match_rule_xfs (encr_data : Nat → encr_data_t)
    (pay : List ikev2_sa_proposal_t) :
    List config_xf_t → ikev2_sa_result_t → Bool × ikev2_sa_result_t
  | [], result => (false, result)
  | xf :: rest, result =>
    match match_rule_prfs encr_data xf pay prf_supported result with
    | (true, result1) => (true, result1)
    | (false, result1) => match_rule_xfs encr_data pay rest result1

/-- The function `ikev2_sa_match_rule`: `pay` is the SA payload of the packet,
`result` the caller's record; the value is the return code and the record as
the function leaves it. -/
def ikev2_sa_match_rule (encr_data : Nat → encr_data_t) (rule : config_rule_t)
    (pay : List ikev2_sa_proposal_t) (result : ikev2_sa_result_t) :
    Bool × ikev2_sa_result_t :=
  match_rule_xfs encr_data pay rule.rule_xf result

/-! ## Acquire matcher -/

/-- One combination of a kernel acquire request (`sadb_comb_t`). -/
structure sadb_comb_t where
  sadb_comb_auth : Nat
  sadb_comb_encrypt : Nat
  sadb_comb_auth_minbits : Nat
  sadb_comb_auth_maxbits : Nat
  sadb_comb_encrypt_minbits : Nat
  sadb_comb_encrypt_maxbits : Nat
  deriving DecidableEq, Repr

/-- The parts of a parsed kernel message (`parsedmsg_t`) that are read here:
type and SA type of the base message, and of the extension found at
`pmsg_exts[SADB_EXT_PROPOSAL]` its type and its combinations
(`sadb_x_prop_numecombs` is the length of `combs`). -/
structure parsedmsg_t where
  sadb_msg_type : Nat
  sadb_msg_satype : Nat
  sadb_prop_exttype : Nat := SADB_EXT_PROPOSAL
  combs : List sadb_comb_t
  deriving DecidableEq, Repr

/-- The cookie of the acquire matcher (`struct acquire_data_s`). -/
structure acquire_data_s where
  ad_comb : sadb_comb_t
  ad_res : ikev2_sa_result_t
  ad_spitype : Nat
  ad_dh : Nat
  ad_skip : Bool
  ad_match : Bool
  ad_keylen_match : Bool
  deriving DecidableEq, Repr

/-- The transform visitor `match_acq_xf_cb`. The ENCR case leaves `match`
false on both of its branches; the `switch` has no default case. -/
def match_acq_xf_cb (xf : ikev2_transform_t) (data : acquire_data_s) :
    Bool × acquire_data_s :=
  let step : Bool × acquire_data_s :=
    if xf.xf_type = IKEV2_XF_ENCR then
      if xf.xf_id ≠ data.ad_comb.sadb_comb_encrypt then (false, data)
      else (false, data)
    else if xf.xf_type = IKEV2_XF_PRF then
      (false, { data with ad_skip := true })
    else if xf.xf_type = IKEV2_XF_AUTH then
      if xf.xf_id ≠ data.ad_comb.sadb_comb_auth then (false, data)
      else (true, { data with ad_res := { data.ad_res with sar_auth := xf.xf_id } })
    else if xf.xf_type = IKEV2_XF_DH then
      if xf.xf_id ≠ data.ad_dh then (false, data)
      else (true, { data with ad_res := { data.ad_res with sar_dh := xf.xf_id } })
    else if xf.xf_type = IKEV2_XF_ESN then
      if xf.xf_id ≠ IKEV2_ESN_NONE then (false, data)
      else (true, { data with ad_res := { data.ad_res with sar_esn := 0 } })
    else (false, data)
  let data1 :=
    if step.1 then
      { step.2 with ad_res := { step.2.ad_res with
          sar_match := step.2.ad_res.sar_match ||| (1 <<< xf.xf_type) } }
    else step.2
  (!data1.ad_skip, data1)

/-- The proposal visitor `match_acq_prop_cb`; `none` is the abort of
`INVALID("data->ad_spitype")`. -/
def match_acq_prop_cb (prop : ikev2_sa_proposal_t) (data : acquire_data_s) :
    Option (Bool × acquire_data_s) :=
  if prop.proto_protoid ≠ data.ad_spitype then
    some (false, data)
  else
    let data1 := ikev2_walk match_acq_xf_cb prop.xfs
      { data with ad_res := sa_result_zero, ad_skip := false }
    if data1.ad_skip then
      some (true, data1)
    else if data1.ad_spitype = IKEV2_PROTO_ESP then
      if !SA_RESULT_HAS data1.ad_res IKEV2_XF_ENCR ||
          !SA_RESULT_HAS data1.ad_res IKEV2_XF_ESN ||
          (data1.ad_comb.sadb_comb_auth != SADB_AALG_NONE &&
           !SA_RESULT_HAS data1.ad_res IKEV2_XF_AUTH) ||
          (data1.ad_dh != IKEV2_DH_NONE &&
           !SA_RESULT_HAS data1.ad_res IKEV2_XF_DH) then
        some (true, data1)
      else some (false, data1)
    else if data1.ad_spitype = IKEV2_PROTO_AH then
      if !SA_RESULT_HAS data1.ad_res IKEV2_XF_AUTH ||
          !SA_RESULT_HAS data1.ad_res IKEV2_XF_ESN ||
          (data1.ad_dh != IKEV2_DH_NONE &&
           !SA_RESULT_HAS data1.ad_res IKEV2_XF_DH) then
        some (true, data1)
      else some (false, data1)
    else if data1.ad_spitype = IKEV2_PROTO_NONE ∨
        data1.ad_spitype = IKEV2_PROTO_IKE ∨
        data1.ad_spitype = IKEV2_PROTO_FC_ESP_HEADER ∨
        data1.ad_spitype = IKEV2_PROTO_FC_CT_AUTH then
      none
    else some (false, data1)

/-- Modelled from the spec: `ikev2_walk_proposals` for a visitor that can
abort the process; otherwise as `ikev2_walk`. -/
def ikev2_walk_chk {α σ : Type} (cb : α → σ → Option (Bool × σ)) :
    List α → σ → Option σ
  | [], cookie => some cookie
  | x :: rest, cookie =>
    match cb x cookie with
    | none => none
    | some (true, cookie1) => ikev2_walk_chk cb rest cookie1
    | some (false, cookie1) => some cookie1

/-- The cookie `ikev2_sa_match_acquire` builds for a combination, with the
result cleared by `memset`; the fields the initialiser does not name are zero. -/
def acquire_data_init (comb : sadb_comb_t) (spitype dh : Nat) : acquire_data_s :=
  { ad_comb := comb, ad_res := sa_result_zero, ad_spitype := spitype, ad_dh := dh,
    ad_skip := false, ad_match := false, ad_keylen_match := false }

/-- The loop of `ikev2_sa_match_acquire` over the combinations. -/
def match_acquire_combs (spitype dh : Nat) (pay : List ikev2_sa_proposal_t) :
    List sadb_comb_t → ikev2_sa_result_t → Option (Bool × ikev2_sa_result_t)
  | [], result => some (false, result)
  | comb :: rest, _ =>
    match ikev2_walk_chk match_acq_prop_cb pay (acquire_data_init comb spitype dh) with
    | none => none
    | some data =>
      if data.ad_match then some (true, data.ad_res)
      else match_acquire_combs spitype dh pay rest data.ad_res

/-- The function `ikev2_sa_match_acquire`; `none` is the abort of
`INVALID("sadb_msg_satype")`. -/
def ikev2_sa_match_acquire (pmsg : parsedmsg_t) (dh : Nat)
    (pay : List ikev2_sa_proposal_t) (result : ikev2_sa_result_t) :
    Option (Bool × ikev2_sa_result_t) :=
  if pmsg.sadb_msg_satype = SADB_SATYPE_AH then
    match_acquire_combs IKEV2_PROTO_AH dh pay pmsg.combs result
  else if pmsg.sadb_msg_satype = SADB_SATYPE_ESP then
    match_acquire_combs IKEV2_PROTO_ESP dh pay pmsg.combs result
  else none

/-! ## Proposal builder -/

/-- Modelled from the spec: one call of an addition primitive of the proposal
builder (`ikev2_add_sa`, `ikev2_add_prop`, `ikev2_add_xform`,
`ikev2_add_xf_encr`, `ikev2_add_xf_attr`, all of `ikev2_pkt.c`) with its
arguments. -/
inductive pkt_add_t
  | sa
  | prop (propnum proto spi : Nat)
  | xform (xftype xfid : Nat)
  | xf_encr (encr minbits maxbits : Nat)
  | xf_attr (attrtype val : Nat)
  deriving DecidableEq, Repr

/-- Modelled from the spec: an outbound message under construction. An
addition either succeeds and becomes part of the message, or fails because
the buffer is full or malformed; `pkt_fits added a` says whether addition `a`
succeeds on a message to which `added` has been added. `pkt_calls` records
every addition that was attempted. -/
structure pkt_t where
  pkt_fits : List pkt_add_t → pkt_add_t → Bool
  pkt_added : List pkt_add_t
  pkt_calls : List pkt_add_t

/-- The builder state `pkt_sa_state_t` refers to the message under
construction. -/
abbrev pkt_sa_state_t := pkt_t

/-- Modelled from the spec: common behaviour of the addition primitives. -/
def pkt_try (pss : pkt_sa_state_t) (a : pkt_add_t) : Bool × pkt_sa_state_t :=
  if pss.pkt_fits pss.pkt_added a then
    (true, { pss with pkt_added := pss.pkt_added ++ [a],
                      pkt_calls := pss.pkt_calls ++ [a] })
  else
    (false, { pss with pkt_calls := pss.pkt_calls ++ [a] })

/-- Modelled from the spec: begin SA payload. -/
def ikev2_add_sa (pkt : pkt_t) : Bool × pkt_sa_state_t :=
  pkt_try pkt .sa

/-- Modelled from the spec: add proposal (number, protocol type, SPI). -/
def ikev2_add_prop (pss : pkt_sa_state_t) (propnum proto spi : Nat) :
    Bool × pkt_sa_state_t :=
  pkt_try pss (.prop propnum proto spi)

/-- Modelled from the spec: add transform (type, identifier). -/
def ikev2_add_xform (pss : pkt_sa_state_t) (xftype xfid : Nat) :
    Bool × pkt_sa_state_t :=
  pkt_try pss (.xform xftype xfid)

/-- Modelled from the spec: add encryption transform with its key-length
range. -/
def ikev2_add_xf_encr (pss : pkt_sa_state_t) (encr minbits maxbits : Nat) :
    Bool × pkt_sa_state_t :=
  pkt_try pss (.xf_encr encr minbits maxbits)

/-- Modelled from the spec: add an attribute to the last transform. -/
def ikev2_add_xf_attr (pss : pkt_sa_state_t) (attrtype val : Nat) :
    Bool × pkt_sa_state_t :=
  pkt_try pss (.xf_attr attrtype val)

/-- The PRF loop of `add_rule_xform`:
`for (i = 0; ok && i < ARRAY_SIZE(prf_supported); i++) ok &= ...`. -/
def add_rule_xform_prfs :
    List Nat → Bool → pkt_sa_state_t → Bool × pkt_sa_state_t
  | [], ok, pss => (ok, pss)
  | prf :: rest, ok, pss =>
    if ok then
      let r := ikev2_add_xform pss IKEV2_XF_PRF prf
      add_rule_xform_prfs rest (ok && r.1) r.2
    else (ok, pss)

/-- The function `add_rule_xform`. -/
def add_rule_xform (encr_data : Nat → encr_data_t) (pss : pkt_sa_state_t)
    (xf : config_xf_t) : Bool × pkt_sa_state_t :=
  let mode := (encr_data xf.xf_encr).ed_mode
  let r1 := ikev2_add_xf_encr pss xf.xf_encr xf.xf_minbits xf.xf_maxbits
  let ok1 := true && r1.1
  let r2 :=
    if !MODE_IS_COMBINED mode then
      let r := ikev2_add_xform r1.2 IKEV2_XF_AUTH xf.xf_auth
      (ok1 && r.1, r.2)
    else (ok1, r1.2)
  let r3 := ikev2_add_xform r2.2 IKEV2_XF_DH xf.xf_dh
  add_rule_xform_prfs prf_supported (r2.1 && r3.1) r3.2

/-- The loop of `ikev2_sa_from_rule`. The counter `i` is a `uint8_t`: its
increment is taken modulo 256. The loop has no bound of its own, so the
embedding counts iterations down from `fuel`; `none` means that the loop is
still running when `fuel` iterations are used up. -/
def sa_from_rule_loop (encr_data : Nat → encr_data_t)
    (rule_xf : List config_xf_t) (spi : Nat) :
    Nat → Nat → Bool → pkt_sa_state_t → Option (Bool × pkt_sa_state_t)
  | 0, _, _, _ => none
  | fuel + 1, i, ok, pss =>
    match rule_xf[i]? with
    | none => some (ok, pss)
    | some xf =>
      let r1 := ikev2_add_prop pss (i + 1) IKEV2_PROTO_IKE spi
      let r2 := add_rule_xform encr_data r1.2 xf
      sa_from_rule_loop encr_data rule_xf spi fuel ((i + 1) % 256)
        (ok && r1.1 && r2.1) r2.2

/-- The function `ikev2_sa_from_rule`, run for at most `fuel` iterations of
its loop. -/
def ikev2_sa_from_rule (encr_data : Nat → encr_data_t) (fuel : Nat)
    (pkt : pkt_t) (rule : config_rule_t) (spi : Nat) :
    Option (Bool × pkt_t) :=
  match ikev2_add_sa pkt with
  | (false, pkt1) => some (false, pkt1)
  | (true, pss) => sa_from_rule_loop encr_data rule.rule_xf spi fuel 0 true pss

/-- The statement `ok &= f(&pss, ...)`: the primitive is called on the builder
state whatever `ok` is, and its return value is folded into `ok`. -/
def pkt_and (r : Bool × pkt_sa_state_t)
    (f : pkt_sa_state_t → Bool × pkt_sa_state_t) : Bool × pkt_sa_state_t :=
  let a := f r.2
  (r.1 && a.1, a.2)

/-- The function `ikev2_pfkey_to_auth`; `none` is the abort of
`INVALID("alg")`. -/
def ikev2_pfkey_to_auth (alg : Nat) : Option Nat :=
  if alg = SADB_AALG_NONE ∨ alg = SADB_AALG_SHA256HMAC ∨ alg = SADB_AALG_SHA384HMAC ∨
      alg = SADB_AALG_SHA512HMAC then
    some alg
  else if alg = SADB_AALG_MD5HMAC then some IKEV2_XF_AUTH_HMAC_MD5_96
  else if alg = SADB_AALG_SHA1HMAC then some IKEV2_XF_AUTH_HMAC_SHA1_96
  else none

/-- The function `ikev2_pfkey_to_encr`; `none` is the abort of
`INVALID("alg")`. -/
def ikev2_pfkey_to_encr (alg : Nat) : Option Nat :=
  if alg = SADB_EALG_NONE ∨ alg = SADB_EALG_DESCBC ∨ alg = SADB_EALG_3DESCBC ∨
      alg = SADB_EALG_BLOWFISH ∨ alg = SADB_EALG_NULL ∨ alg = SADB_EALG_AES ∨
      alg = SADB_EALG_AES_CCM_8 ∨ alg = SADB_EALG_AES_CCM_12 ∨
      alg = SADB_EALG_AES_CCM_16 ∨ alg = SADB_EALG_AES_GCM_8 ∨
      alg = SADB_EALG_AES_GCM_12 ∨ alg = SADB_EALG_AES_GCM_16 then
    some alg
  else none

/-- The body of the loop of `ikev2_sa_from_acquire` for the combination with
index `i`; `r` is (`ok`, builder state) on entry. `none` is an abort: of
`INVALID` in one of the two conversions, or of one of the two `VERIFY3U` on
the bit sizes of the authentication algorithm. -/
def sa_from_acquire_comb (spi_type spi dh i : Nat) (comb : sadb_comb_t)
    (r : Bool × pkt_sa_state_t) : Option (Bool × pkt_sa_state_t) :=
  let r1 := pkt_and r (fun pss => ikev2_add_prop pss (i + 1) spi_type spi)
  let r2 : Option (Bool × pkt_sa_state_t) :=
    if comb.sadb_comb_encrypt ≠ SADB_EALG_NONE then
      match ikev2_pfkey_to_encr comb.sadb_comb_encrypt with
      | none => none
      | some encr =>
        some (pkt_and r1 (fun pss => ikev2_add_xf_encr pss encr
          comb.sadb_comb_encrypt_minbits comb.sadb_comb_encrypt_maxbits))
    else some r1
  match r2 with
  | none => none
  | some r2 =>
    let r3 : Option (Bool × pkt_sa_state_t) :=
      if comb.sadb_comb_auth ≠ SADB_AALG_NONE then
        if comb.sadb_comb_auth_minbits ≠ 0 then none
        else if comb.sadb_comb_auth_maxbits ≠ 0 then none
        else
          match ikev2_pfkey_to_auth comb.sadb_comb_auth with
          | none => none
          | some xf_auth =>
            some (pkt_and r2 (fun pss => ikev2_add_xform pss IKEV2_XF_AUTH xf_auth))
      else some r2
    match r3 with
    | none => none
    | some r3 =>
      let r4 :=
        if dh ≠ IKEV2_DH_NONE then
          pkt_and r3 (fun pss => ikev2_add_xform pss IKEV2_XF_DH dh)
        else r3
      some (pkt_and r4 (fun pss => ikev2_add_xform pss IKEV2_XF_ESN IKEV2_ESN_NONE))

/-- The loop of `ikev2_sa_from_acquire` over the combinations, from index `i`
(a `size_t`). -/
def sa_from_acquire_combs (spi_type spi dh : Nat) :
    Nat → List sadb_comb_t → Bool × pkt_sa_state_t → Option (Bool × pkt_sa_state_t)
  | _, [], r => some r
  | i, comb :: rest, r =>
    match sa_from_acquire_comb spi_type spi dh i comb r with
    | none => none
    | some r1 => sa_from_acquire_combs spi_type spi dh (i + 1) rest r1

/-- The function `ikev2_sa_from_acquire`. `none` is an abort of the process:
of an assertion (`ASSERT3U` is taken as in a build that checks it, `VERIFY3U`
is always checked) or of `INVALID`. -/
def ikev2_sa_from_acquire (pkt : pkt_t) (pmsg : parsedmsg_t) (spi dh : Nat) :
    Option (Bool × pkt_t) :=
  if pmsg.sadb_msg_type ≠ SADB_ACQUIRE then none
  else
    let spi_type : Option Nat :=
      if pmsg.sadb_msg_satype = SADB_SATYPE_AH then some IKEV2_PROTO_AH
      else if pmsg.sadb_msg_satype = SADB_SATYPE_ESP then some IKEV2_PROTO_ESP
      else none
    match spi_type with
    | none => none
    | some spi_type =>
      if pmsg.sadb_prop_exttype ≠ SADB_EXT_PROPOSAL then none
      else sa_from_acquire_combs spi_type spi dh 0 pmsg.combs (ikev2_add_sa pkt)

/-- The function `ikev2_sa_add_result`. -/
def ikev2_sa_add_result (pkt : pkt_t) (result : ikev2_sa_result_t) : Bool × pkt_t :=
  let r0 := ikev2_add_sa pkt
  let r1 := pkt_and r0 (fun pss =>
    ikev2_add_prop pss result.sar_propnum result.sar_proto result.sar_spi)
  let r2 :=
    if SA_RESULT_HAS result IKEV2_XF_ENCR then
      let a := pkt_and r1 (fun pss => ikev2_add_xform pss IKEV2_XF_ENCR result.sar_encr)
      if result.sar_encr_keylen ≠ 0 then
        pkt_and a (fun pss =>
          ikev2_add_xf_attr pss IKEV2_XF_ATTR_KEYLEN result.sar_encr_keylen)
      else a
    else r1
  let r3 :=
    if SA_RESULT_HAS result IKEV2_XF_AUTH then
      pkt_and r2 (fun pss => ikev2_add_xform pss IKEV2_XF_AUTH result.sar_auth)
    else r2
  let r4 :=
    if SA_RESULT_HAS result IKEV2_XF_DH then
      pkt_and r3 (fun pss => ikev2_add_xform pss IKEV2_XF_DH result.sar_dh)
    else r3
  let r5 :=
    if SA_RESULT_HAS result IKEV2_XF_PRF then
      pkt_and r4 (fun pss => ikev2_add_xform pss IKEV2_XF_PRF result.sar_prf)
    else r4
  if SA_RESULT_HAS result IKEV2_XF_ESN then
    pkt_and r5 (fun pss => ikev2_add_xform pss IKEV2_XF_ESN result.sar_esn)
  else r5

/-! ## Notification emitter -/

/-- Modelled from the spec: what a notification emitter does with the response
message it creates: add a notify payload (protocol type, SPI, reason code,
reason-specific data as a list of bytes), free the message, or hand it to the
transport layer (`ikev2_send`, with its is-final flag). -/
inductive resp_event_t
  | add_notify (proto spi ntype : Nat) (data : List Nat)
  | free
  | send (is_final : Bool)
  deriving DecidableEq, Repr

/-- Modelled from the spec: the byte-order function `htons` (host to network,
that is big-endian, order) on a 16 bit value, on a host that is big-endian
(`host_be = true`) or little-endian. -/
def htons (host_be : Bool) (x : Nat) : Nat :=
  if host_be then x % 65536 else (x % 256) * 256 + (x / 256) % 256

/-- The bytes of a `uint16_t` object in memory, lowest address first, on a
host that is big-endian or little-endian: what `&val, sizeof (val)` denotes. -/
def uint16_object_bytes (host_be : Bool) (val : Nat) : List Nat :=
  if host_be then [(val / 256) % 256, val % 256] else [val % 256, (val / 256) % 256]

/-- The function `ikev2_no_proposal_chosen`. `resp_created` tells whether
`ikev2_pkt_new_response` returns a message, `notify_added` whether
`ikev2_add_notify` succeeds; the value is what is done with the response, in
order. The function returns nothing. -/
def ikev2_no_proposal_chosen (resp_created notify_added : Bool) (proto spi : Nat) :
    List resp_event_t :=
  if !resp_created then []
  else if !notify_added then
    [resp_event_t.add_notify proto spi IKEV2_N_NO_PROPOSAL_CHOSEN [], resp_event_t.free]
  else
    [resp_event_t.add_notify proto spi IKEV2_N_NO_PROPOSAL_CHOSEN [],
     resp_event_t.send true]

/-- The function `ikev2_invalid_ke`, with `resp_created` and `notify_added` as
in `ikev2_no_proposal_chosen`; `val` is `htons((uint16_t)dh)` and the data of
the notify payload are the `sizeof (val)` bytes at `&val`. -/
def ikev2_invalid_ke (host_be resp_created notify_added : Bool) (proto spi dh : Nat) :
    List resp_event_t :=
  let val := htons host_be (dh % 65536)
  if !resp_created then []
  else if !notify_added then
    [resp_event_t.add_notify proto spi IKEV2_N_INVALID_KE_PAYLOAD
      (uint16_object_bytes host_be val), resp_event_t.free]
  else
    [resp_event_t.add_notify proto spi IKEV2_N_INVALID_KE_PAYLOAD
      (uint16_object_bytes host_be val), resp_event_t.send true]

/-! ## Acceptability, stated on the payload

What the visitors of the rule matcher compute, written as predicates on the
transforms and proposals of the payload. -/

/-- The key length that a list of attributes offers to a rule entry: the first
key-length attribute within the entry's range, provided that only key-length
attributes outside the range precede it. -/
def attrs_keylen (cfg : config_xf_t) : List ikev2_attribute_t → Option Nat
  | [] => none
  | a :: rest =>
    if IKE_ATTR_GET_TYPE a.attr_type ≠ IKEV2_XF_ATTR_KEYLEN then none
    else if cfg.xf_minbits ≤ a.attr_length ∧ a.attr_length ≤ cfg.xf_maxbits then
      some a.attr_length
    else attrs_keylen cfg rest

/-- Transform types that may occur in an IKE proposal. -/
def xf_type_ike (t : Nat) : Bool :=
  t = IKEV2_XF_ENCR || t = IKEV2_XF_AUTH || t = IKEV2_XF_PRF || t = IKEV2_XF_DH

/-- Whether a transform is acceptable to a (rule entry, PRF) pair. -/
def xf_acceptable (cfg : config_xf_t) (prf : Nat) (xf : ikev2_transform_t) : Bool :=
  if xf.xf_type = IKEV2_XF_ENCR then
    cfg.xf_encr = xf.xf_id && (xf.attrs = [] || (attrs_keylen cfg xf.attrs).isSome)
  else if xf.xf_type = IKEV2_XF_AUTH then cfg.xf_auth = xf.xf_id
  else if xf.xf_type = IKEV2_XF_PRF then xf.xf_id = prf
  else if xf.xf_type = IKEV2_XF_DH then cfg.xf_dh = xf.xf_id
  else false

/-- The key length recorded after a transform, given the one recorded before. -/
def xf_keylen (cfg : config_xf_t) (xf : ikev2_transform_t) (k : Nat) : Nat :=
  if xf.xf_type = IKEV2_XF_ENCR ∧ cfg.xf_encr = xf.xf_id then
    (attrs_keylen cfg xf.attrs).getD k
  else k

/-- Whether some transform of the given type in the list is acceptable to the
pair. -/
def xfs_have (cfg : config_xf_t) (prf : Nat) (xfs : List ikev2_transform_t) (t : Nat) : Bool :=
  xfs.any (fun xf => decide (xf.xf_type = t) && xf_acceptable cfg prf xf)

/-- Whether a proposal is fully acceptable to a (rule entry, PRF) pair. -/
def prop_acceptable (encr_data : Nat → encr_data_t) (cfg : config_xf_t) (prf : Nat)
    (prop : ikev2_sa_proposal_t) : Bool :=
  decide (prop.proto_protoid = IKEV2_PROTO_IKE) &&
  prop.xfs.all (fun xf => xf_type_ike xf.xf_type) &&
  xfs_have cfg prf prop.xfs IKEV2_XF_ENCR &&
  xfs_have cfg prf prop.xfs IKEV2_XF_PRF &&
  xfs_have cfg prf prop.xfs IKEV2_XF_DH &&
  (MODE_IS_COMBINED (encr_data cfg.xf_encr).ed_mode ||
    xfs_have cfg prf prop.xfs IKEV2_XF_AUTH)

/-- Whether a payload offers a (rule entry, PRF) pair a proposal that the walk
reaches and accepts: the walk ends at the first proposal that is not IKE. -/
def pair_matches (encr_data : Nat → encr_data_t) (cfg : config_xf_t) (prf : Nat)
    (pay : List ikev2_sa_proposal_t) : Bool :=
  (pay.takeWhile (fun p => decide (p.proto_protoid = IKEV2_PROTO_IKE))).any
    (prop_acceptable encr_data cfg prf)

/-- The (rule entry, PRF) pairs in the order `ikev2_sa_match_rule` tries them:
rule entries in their order, and for each all supported PRFs in theirs. -/
def rule_pairs (rule : config_rule_t) : List (config_xf_t × Nat) :=
  rule.rule_xf.flatMap (fun cfg => prf_supported.map (fun prf => (cfg, prf)))

/-- The cookie with which `match_rule_prop_cb` starts the walk of the
transforms of an IKE proposal, and the cookie that walk ends with. -/
def match_rule_prop_walk (prop : ikev2_sa_proposal_t) (data : rule_data_s) : rule_data_s :=
  ikev2_walk match_rule_xf_cb prop.xfs
    { data with rd_res := sa_result_zero, rd_skip := false, rd_has_auth := false }

/-- Whether the acquire matcher's transform visitor counts a transform as a
match for a combination and a requested DH group. -/
def acq_xf_matches (comb : sadb_comb_t) (dh : Nat) (xf : ikev2_transform_t) : Bool :=
  (decide (xf.xf_type = IKEV2_XF_AUTH) && decide (xf.xf_id = comb.sadb_comb_auth)) ||
  (decide (xf.xf_type = IKEV2_XF_DH) && decide (xf.xf_id = dh)) ||
  (decide (xf.xf_type = IKEV2_XF_ESN) && decide (xf.xf_id = IKEV2_ESN_NONE))

/-! ## What the builder adds, and what a peer reads back -/

/-- The additions `add_rule_xform` requests for a rule entry when none fails:
the encryption transform with its key-length range, the authentication
transform unless the mode is combined, the DH transform and one PRF transform
for each entry of `prf_supported`. -/
def rule_xf_adds (encr_data : Nat → encr_data_t) (xf : config_xf_t) : List pkt_add_t :=
  [pkt_add_t.xf_encr xf.xf_encr xf.xf_minbits xf.xf_maxbits] ++
  (if MODE_IS_COMBINED (encr_data xf.xf_encr).ed_mode then []
   else [pkt_add_t.xform IKEV2_XF_AUTH xf.xf_auth]) ++
  [pkt_add_t.xform IKEV2_XF_DH xf.xf_dh] ++
  prf_supported.map (fun prf => pkt_add_t.xform IKEV2_XF_PRF prf)

/-- The additions the loop of `ikev2_sa_from_rule` requests for a list of rule
entries when none fails, the first proposal carrying the number `n`. -/
def rule_adds (encr_data : Nat → encr_data_t) (spi : Nat) :
    Nat → List config_xf_t → List pkt_add_t
  | _, [] => []
  | n, xf :: rest =>
    pkt_add_t.prop n IKEV2_PROTO_IKE spi ::
      (rule_xf_adds encr_data xf ++ rule_adds encr_data spi (n + 1) rest)

/-- Whether an addition is the addition of a proposal. -/
def pkt_add_is_prop : pkt_add_t → Bool
  | pkt_add_t.prop _ _ _ => true
  | _ => false

/-- Apply a function to the last element of a list. -/
def list_map_last {α : Type} (f : α → α) : List α → List α
  | [] => []
  | [x] => [f x]
  | x :: y :: rest => x :: list_map_last f (y :: rest)

/-- Modelled from the spec: the effect of one addition on the proposals a peer
reads from the SA payload. Beginning the SA payload starts from no proposal, a
proposal is appended, a transform goes to the last proposal and an attribute to
the last transform. The wire form of the encryption transform with its
key-length range is the parameter `encr_wire`: the ENCR transforms, with their
attributes, that `ikev2_add_xf_encr` emits for (id, min bits, max bits). -/
def pkt_payload_step (encr_wire : Nat → Nat → Nat → List ikev2_transform_t)
    (props : List ikev2_sa_proposal_t) : pkt_add_t → List ikev2_sa_proposal_t
  | pkt_add_t.sa => []
  | pkt_add_t.prop propnum proto spi =>
    props ++ [{ proto_proposalnr := propnum, proto_protoid := proto, spi := spi, xfs := [] }]
  | pkt_add_t.xform xftype xfid =>
    list_map_last (fun p => { p with
      xfs := p.xfs ++ [{ xf_type := xftype, xf_id := xfid, attrs := [] }] }) props
  | pkt_add_t.xf_encr encr minbits maxbits =>
    list_map_last (fun p => { p with xfs := p.xfs ++ encr_wire encr minbits maxbits }) props
  | pkt_add_t.xf_attr attrtype val =>
    list_map_last (fun p => { p with
      xfs := list_map_last (fun t => { t with
        attrs := t.attrs ++ [{ attr_type := attrtype, attr_length := val }] }) p.xfs }) props

/-- Modelled from the spec: the proposals a peer reads from the SA payload of
a message, given what was added to it (the payload begun last). -/
def pkt_payload (encr_wire : Nat → Nat → Nat → List ikev2_transform_t)
    (added : List pkt_add_t) : List ikev2_sa_proposal_t :=
  added.foldl (pkt_payload_step encr_wire) []

/-- The proposal a peer reads for a rule entry built by `ikev2_sa_from_rule`
with proposal number `n`. -/
def rule_prop (encr_wire : Nat → Nat → Nat → List ikev2_transform_t)
    (encr_data : Nat → encr_data_t) (spi n : Nat) (xf : config_xf_t) :
    ikev2_sa_proposal_t :=
  { proto_proposalnr := n, proto_protoid := IKEV2_PROTO_IKE, spi := spi,
    xfs := encr_wire xf.xf_encr xf.xf_minbits xf.xf_maxbits ++
      ((if MODE_IS_COMBINED (encr_data xf.xf_encr).ed_mode then []
        else [{ xf_type := IKEV2_XF_AUTH, xf_id := xf.xf_auth, attrs := [] }]) ++
       ({ xf_type := IKEV2_XF_DH, xf_id := xf.xf_dh, attrs := [] } ::
        prf_supported.map (fun prf =>
          { xf_type := IKEV2_XF_PRF, xf_id := prf, attrs := [] }))) }

/-- The proposals a peer reads for a list of rule entries, numbered from `n`. -/
def rule_props (encr_wire : Nat → Nat → Nat → List ikev2_transform_t)
    (encr_data : Nat → encr_data_t) (spi : Nat) :
    Nat → List config_xf_t → List ikev2_sa_proposal_t
  | _, [] => []
  | n, xf :: rest =>
    rule_prop encr_wire encr_data spi n xf :: rule_props encr_wire encr_data spi (n + 1) rest

/-- The wire form of the encryption transform of a rule entry is faithful to
the entry: it consists of at least one transform, and each of its transforms is
an ENCR transform with the entry's encryption id that carries either a single
key-length attribute with a value in the entry's range or, when the entry's
minimum is 0, no attribute. -/
def encr_wire_ok (encr_wire : Nat → Nat → Nat → List ikev2_transform_t)
    (xf : config_xf_t) : Prop :=
  encr_wire xf.xf_encr xf.xf_minbits xf.xf_maxbits ≠ [] ∧
  ∀ t ∈ encr_wire xf.xf_encr xf.xf_minbits xf.xf_maxbits,
    t.xf_type = IKEV2_XF_ENCR ∧ t.xf_id = xf.xf_encr ∧
    ((t.attrs = [] ∧ xf.xf_minbits = 0) ∨
     ∃ a, t.attrs = [a] ∧ IKE_ATTR_GET_TYPE a.attr_type = IKEV2_XF_ATTR_KEYLEN ∧
       xf.xf_minbits ≤ a.attr_length ∧ a.attr_length ≤ xf.xf_maxbits)

/-! ## Worked examples -/

/-- A table `encr_data[]` for the worked examples: the AES-CCM identifiers
(14 to 16) are in CCM mode, the AES-GCM identifiers (18 to 20) in GCM mode and
every other identifier in CBC mode. -/
def encr_data_example : Nat → encr_data_t := fun e =>
  if 14 ≤ e ∧ e ≤ 16 then { ed_mode := .MODE_CCM }
  else if 18 ≤ e ∧ e ≤ 20 then { ed_mode := .MODE_GCM }
  else { ed_mode := .MODE_CBC }

/-- A wire form for the worked examples: one ENCR transform without attribute
when the range is [0,0], and otherwise one ENCR transform for the minimum and
one for the maximum key length. -/
def encr_wire_example (encr minbits maxbits : Nat) : List ikev2_transform_t :=
  if minbits = 0 ∧ maxbits = 0 then
    [{ xf_type := IKEV2_XF_ENCR, xf_id := encr, attrs := [] }]
  else
    [{ xf_type := IKEV2_XF_ENCR, xf_id := encr,
       attrs := [{ attr_type := 32768 + IKEV2_XF_ATTR_KEYLEN, attr_length := minbits }] },
     { xf_type := IKEV2_XF_ENCR, xf_id := encr,
       attrs := [{ attr_type := 32768 + IKEV2_XF_ATTR_KEYLEN, attr_length := maxbits }] }]

/-- A message with nothing added yet on which every addition succeeds. -/
def pkt_empty : pkt_t :=
  { pkt_fits := fun _ _ => true, pkt_added := [], pkt_calls := [] }

/-- A message with nothing added yet that has room for the SA payload header
and for nothing else. -/
def pkt_header_only : pkt_t :=
  { pkt_fits := fun _ a => decide (a = pkt_add_t.sa), pkt_added := [], pkt_calls := [] }

/-- Example rule entry: AES-CBC with 128 to 256 key bits, HMAC-SHA1-96,
MODP-2048. -/
def example_xf_cbc : config_xf_t :=
  { xf_encr := IKEV2_ENCR_AES_CBC, xf_minbits := 128, xf_maxbits := 256,
    xf_auth := IKEV2_XF_AUTH_HMAC_SHA1_96, xf_dh := IKEV2_DH_MODP_2048 }

/-- Example rule entry: AES-GCM-16 with 128 to 256 key bits, no authentication
algorithm, MODP-2048. -/
def example_xf_gcm : config_xf_t :=
  { xf_encr := IKEV2_ENCR_AES_GCM_16, xf_minbits := 128, xf_maxbits := 256,
    xf_auth := IKEV2_XF_AUTH_NONE, xf_dh := IKEV2_DH_MODP_2048 }

/-- Example peer proposal: proposal 2, IKE, offering AES-CBC with a 128 bit
key, HMAC-SHA1-96, PRF HMAC-SHA2-512 and MODP-2048. -/
def example_prop_cbc : ikev2_sa_proposal_t :=
  { proto_proposalnr := 2, proto_protoid := IKEV2_PROTO_IKE, spi := 0,
    xfs := [
      { xf_type := IKEV2_XF_ENCR, xf_id := IKEV2_ENCR_AES_CBC,
        attrs := [{ attr_type := 32768 + IKEV2_XF_ATTR_KEYLEN, attr_length := 128 }] },
      { xf_type := IKEV2_XF_AUTH, xf_id := IKEV2_XF_AUTH_HMAC_SHA1_96, attrs := [] },
      { xf_type := IKEV2_XF_PRF, xf_id := IKEV2_PRF_HMAC_SHA2_512, attrs := [] },
      { xf_type := IKEV2_XF_DH, xf_id := IKEV2_DH_MODP_2048, attrs := [] }] }

/-- Example peer proposal of another protocol: proposal 1, ESP, with an SPI
and no transforms. -/
def example_prop_esp : ikev2_sa_proposal_t :=
  { proto_proposalnr := 1, proto_protoid := IKEV2_PROTO_ESP, spi := 77, xfs := [] }

/-- Example peer proposal of another protocol: proposal 1, AH. -/
def example_prop_ah : ikev2_sa_proposal_t :=
  { proto_proposalnr := 1, proto_protoid := IKEV2_PROTO_AH, spi := 78, xfs := [] }

/-- Example peer proposal: IKE, with a first ENCR transform that has the
identifier of `example_xf_cbc` and an attribute of the unknown type 99, followed
by the transforms of `example_prop_cbc`. -/
def example_prop_unknown_attr : ikev2_sa_proposal_t :=
  { example_prop_cbc with
    xfs := { xf_type := IKEV2_XF_ENCR, xf_id := IKEV2_ENCR_AES_CBC,
             attrs := [{ attr_type := 99, attr_length := 128 }] } :: example_prop_cbc.xfs }

/-- Example peer proposal: the transforms of `example_prop_cbc` followed by a
transform of the unassigned type 9. -/
def example_prop_unknown_type : ikev2_sa_proposal_t :=
  { example_prop_cbc with
    xfs := example_prop_cbc.xfs ++ [{ xf_type := 9, xf_id := 1, attrs := [] }] }

/-- Example peer proposal: proposal 1, IKE, offering AES-GCM-16 with a 256 bit
key, MODP-2048 and the PRF HMAC-SHA2-256, and no AUTH transform. -/
def example_prop_gcm (spi : Nat) : ikev2_sa_proposal_t :=
  { proto_proposalnr := 1, proto_protoid := IKEV2_PROTO_IKE, spi := spi,
    xfs := [
      { xf_type := IKEV2_XF_ENCR, xf_id := IKEV2_ENCR_AES_GCM_16,
        attrs := [{ attr_type := 32768 + IKEV2_XF_ATTR_KEYLEN, attr_length := 256 }] },
      { xf_type := IKEV2_XF_DH, xf_id := IKEV2_DH_MODP_2048, attrs := [] },
      { xf_type := IKEV2_XF_PRF, xf_id := IKEV2_PRF_HMAC_SHA2_256, attrs := [] }] }

/-- Example combination of an AH acquire: authentication algorithm 5 (HMAC-SHA-256
in the kernel's numbering), no encryption algorithm. -/
def example_comb_ah : sadb_comb_t :=
  { sadb_comb_auth := 5, sadb_comb_encrypt := SADB_EALG_NONE,
    sadb_comb_auth_minbits := 0, sadb_comb_auth_maxbits := 0,
    sadb_comb_encrypt_minbits := 0, sadb_comb_encrypt_maxbits := 0 }

/-- Example peer proposal: proposal 1, AH, with the transforms AUTH = 5 and
ESN = NONE. -/
def example_prop_ah_auth : ikev2_sa_proposal_t :=
  { proto_proposalnr := 1, proto_protoid := IKEV2_PROTO_AH, spi := 4660,
    xfs := [{ xf_type := IKEV2_XF_AUTH, xf_id := 5, attrs := [] },
            { xf_type := IKEV2_XF_ESN, xf_id := IKEV2_ESN_NONE, attrs := [] }] }

/-- Example peer proposal: proposal 1, ESP, with ENCR = AES-CBC, AUTH = 5 and
an ESN transform whose id is 1 (extended sequence numbers), not NONE. -/
def example_prop_esp_esn : ikev2_sa_proposal_t :=
  { proto_proposalnr := 1, proto_protoid := IKEV2_PROTO_ESP, spi := 4661,
    xfs := [{ xf_type := IKEV2_XF_ENCR, xf_id := IKEV2_ENCR_AES_CBC, attrs := [] },
            { xf_type := IKEV2_XF_AUTH, xf_id := 5, attrs := [] },
            { xf_type := IKEV2_XF_ESN, xf_id := 1, attrs := [] }] }

/-- Example rule entry with an empty key-length range: AES-CBC with minimum
256 and maximum 128. -/
def example_xf_empty_range : config_xf_t :=
  { xf_encr := IKEV2_ENCR_AES_CBC, xf_minbits := 256, xf_maxbits := 128,
    xf_auth := IKEV2_XF_AUTH_HMAC_SHA1_96, xf_dh := IKEV2_DH_MODP_2048 }

/-- Example combination of an ESP acquire: encryption algorithm AES (12) with
128 to 256 key bits, no authentication algorithm. -/
def example_comb_esp : sadb_comb_t :=
  { sadb_comb_auth := SADB_AALG_NONE, sadb_comb_encrypt := SADB_EALG_AES,
    sadb_comb_auth_minbits := 0, sadb_comb_auth_maxbits := 0,
    sadb_comb_encrypt_minbits := 128, sadb_comb_encrypt_maxbits := 256 }

/-- Example peer proposal: proposal 1, ESP, with the transforms ENCR = AES-CBC
(12) and ESN = NONE. -/
def example_prop_esp_encr : ikev2_sa_proposal_t :=
  { proto_proposalnr := 1, proto_protoid := IKEV2_PROTO_ESP, spi := 4662,
    xfs := [{ xf_type := IKEV2_XF_ENCR, xf_id := IKEV2_ENCR_AES_CBC, attrs := [] },
            { xf_type := IKEV2_XF_ESN, xf_id := IKEV2_ESN_NONE, attrs := [] }] }

/-- Example peer proposal: proposal 1, IKE, offering AES-CBC with a 192 bit key
and HMAC-SHA1-96 and nothing else: no rule entry accepts it, for want of a PRF
and of a DH transform. -/
def example_prop_incomplete : ikev2_sa_proposal_t :=
  { proto_proposalnr := 1, proto_protoid := IKEV2_PROTO_IKE, spi := 9,
    xfs := [
      { xf_type := IKEV2_XF_ENCR, xf_id := IKEV2_ENCR_AES_CBC,
        attrs := [{ attr_type := 32768 + IKEV2_XF_ATTR_KEYLEN, attr_length := 192 }] },
      { xf_type := IKEV2_XF_AUTH, xf_id := IKEV2_XF_AUTH_HMAC_SHA1_96, attrs := [] }] }

/-- The result of `example_prop_cbc` accepted for `example_xf_cbc` and the PRF
HMAC-SHA2-512. -/
def example_result_cbc : ikev2_sa_result_t :=
  { sar_proto := IKEV2_PROTO_IKE, sar_spi := 0, sar_propnum := 2,
    sar_encr := IKEV2_ENCR_AES_CBC, sar_encr_keylen := 128,
    sar_auth := IKEV2_XF_AUTH_HMAC_SHA1_96, sar_prf := IKEV2_PRF_HMAC_SHA2_512,
    sar_dh := IKEV2_DH_MODP_2048, sar_esn := 0,
    sar_match := 2 ^ IKEV2_XF_ENCR + 2 ^ IKEV2_XF_PRF + 2 ^ IKEV2_XF_AUTH + 2 ^ IKEV2_XF_DH }

/-- Request a list of additions in order, each whatever the outcome of the
ones before, folding the outcomes into the flag: a run of `ok &= ...`
statements. -/
def pkt_add_all (r : Bool × pkt_sa_state_t) : List pkt_add_t → Bool × pkt_sa_state_t
  | [] => r
  | a :: rest => pkt_add_all (pkt_and r (fun pss => pkt_try pss a)) rest

/-- The outcomes (success or failure) of a list of additions requested in
order of a message with the oracle `fits` to which `added` has been added. -/
def pkt_outcomes (fits : List pkt_add_t → pkt_add_t → Bool) :
    List pkt_add_t → List pkt_add_t → List Bool
  | _, [] => []
  | added, a :: rest =>
    fits added a :: pkt_outcomes fits (if fits added a then added ++ [a] else added) rest

/-- The additions `ikev2_sa_add_result` requests after the SA payload header:
the proposal, then a transform for each type flagged in the match bitset in
the order ENCR (followed by the key-length attribute when the key length is
not zero), AUTH, DH, PRF, ESN. -/
def result_adds (result : ikev2_sa_result_t) : List pkt_add_t :=
  [pkt_add_t.prop result.sar_propnum result.sar_proto result.sar_spi] ++
  (if SA_RESULT_HAS result IKEV2_XF_ENCR then
    [pkt_add_t.xform IKEV2_XF_ENCR result.sar_encr] ++
    (if result.sar_encr_keylen ≠ 0 then
      [pkt_add_t.xf_attr IKEV2_XF_ATTR_KEYLEN result.sar_encr_keylen] else [])
   else []) ++
  (if SA_RESULT_HAS result IKEV2_XF_AUTH then
    [pkt_add_t.xform IKEV2_XF_AUTH result.sar_auth] else []) ++
  (if SA_RESULT_HAS result IKEV2_XF_DH then
    [pkt_add_t.xform IKEV2_XF_DH result.sar_dh] else []) ++
  (if SA_RESULT_HAS result IKEV2_XF_PRF then
    [pkt_add_t.xform IKEV2_XF_PRF result.sar_prf] else []) ++
  (if SA_RESULT_HAS result IKEV2_XF_ESN then
    [pkt_add_t.xform IKEV2_XF_ESN result.sar_esn] else [])

/-- The identifier a negotiation result holds for a transform type. -/
def result_xf_id (result : ikev2_sa_result_t) (t : Nat) : Nat :=
  if t = IKEV2_XF_ENCR then result.sar_encr
  else if t = IKEV2_XF_AUTH then result.sar_auth
  else if t = IKEV2_XF_DH then result.sar_dh
  else if t = IKEV2_XF_PRF then result.sar_prf
  else result.sar_esn

/-- The transform type of an addition that adds a plain transform. -/
def pkt_add_xf_type : pkt_add_t → Option Nat
  | pkt_add_t.xform t _ => some t
  | _ => none

/-- Whether the loop body of `ikev2_sa_from_acquire` runs to its end for a
combination: the encryption algorithm is none or one `ikev2_pfkey_to_encr`
knows, and the authentication algorithm is none or one `ikev2_pfkey_to_auth`
knows with both of its key-size bounds 0. -/
def comb_ok (comb : sadb_comb_t) : Bool :=
  (decide (comb.sadb_comb_encrypt = SADB_EALG_NONE) ||
    (ikev2_pfkey_to_encr comb.sadb_comb_encrypt).isSome) &&
  (decide (comb.sadb_comb_auth = SADB_AALG_NONE) ||
    (decide (comb.sadb_comb_auth_minbits = 0) && decide (comb.sadb_comb_auth_maxbits = 0) &&
      (ikev2_pfkey_to_auth comb.sadb_comb_auth).isSome))

/-- Whether `ikev2_sa_from_acquire` runs to its end for a request: the message
is an ACQUIRE for SA type AH or ESP, its proposal extension has the type of
one, and every combination passes `comb_ok`. -/
def acquire_ok (pmsg : parsedmsg_t) : Bool :=
  decide (pmsg.sadb_msg_type = SADB_ACQUIRE) &&
  (decide (pmsg.sadb_msg_satype = SADB_SATYPE_AH) ||
    decide (pmsg.sadb_msg_satype = SADB_SATYPE_ESP)) &&
  decide (pmsg.sadb_prop_exttype = SADB_EXT_PROPOSAL) &&
  pmsg.combs.all comb_ok

/-- The protocol type of the proposals built for a request of SA type AH or
ESP. -/
def acquire_proto (pmsg : parsedmsg_t) : Nat :=
  if pmsg.sadb_msg_satype = SADB_SATYPE_AH then IKEV2_PROTO_AH else IKEV2_PROTO_ESP

/-- The transforms of the proposal for a combination: ENCR with the key-length
range unless the encryption algorithm is none, AUTH unless the authentication
algorithm is none, DH unless the requested group is none, and ESN = NONE. -/
def comb_adds (dh : Nat) (comb : sadb_comb_t) : List pkt_add_t :=
  (if comb.sadb_comb_encrypt ≠ SADB_EALG_NONE then
    [pkt_add_t.xf_encr ((ikev2_pfkey_to_encr comb.sadb_comb_encrypt).getD 0)
      comb.sadb_comb_encrypt_minbits comb.sadb_comb_encrypt_maxbits] else []) ++
  (if comb.sadb_comb_auth ≠ SADB_AALG_NONE then
    [pkt_add_t.xform IKEV2_XF_AUTH ((ikev2_pfkey_to_auth comb.sadb_comb_auth).getD 0)]
   else []) ++
  (if dh ≠ IKEV2_DH_NONE then [pkt_add_t.xform IKEV2_XF_DH dh] else []) ++
  [pkt_add_t.xform IKEV2_XF_ESN IKEV2_ESN_NONE]

/-- The additions the loop of `ikev2_sa_from_acquire` requests for the
combinations from index `i` on: for each a proposal with the number `i + 1`
and its transforms. -/
def acquire_adds (proto spi dh : Nat) : Nat → List sadb_comb_t → List pkt_add_t
  | _, [] => []
  | i, comb :: rest =>
    pkt_add_t.prop (i + 1) proto spi ::
      (comb_adds dh comb ++ acquire_adds proto spi dh (i + 1) rest)

/-- Example combination of an ESP acquire as the kernel sends it for AES with
HMAC-SHA1: the key-size bounds of the authentication algorithm are 160. -/
def example_comb_esp_sha1 : sadb_comb_t :=
  { sadb_comb_auth := SADB_AALG_SHA1HMAC, sadb_comb_encrypt := SADB_EALG_AES,
    sadb_comb_auth_minbits := 160, sadb_comb_auth_maxbits := 160,
    sadb_comb_encrypt_minbits := 128, sadb_comb_encrypt_maxbits := 256 }

/-- Example ESP acquire with two combinations: AES [128,256] without
authentication, and AES-GCM-16 with HMAC-SHA-256 (key-size bounds 0). -/
def example_acquire_esp : parsedmsg_t :=
  { sadb_msg_type := SADB_ACQUIRE, sadb_msg_satype := SADB_SATYPE_ESP,
    combs := [example_comb_esp,
      { sadb_comb_auth := SADB_AALG_SHA256HMAC, sadb_comb_encrypt := SADB_EALG_AES_GCM_16,
        sadb_comb_auth_minbits := 0, sadb_comb_auth_maxbits := 0,
        sadb_comb_encrypt_minbits := 128, sadb_comb_encrypt_maxbits := 128 }] }

/-- The additions `add_rule_xform` requests for a rule entry when it attempts
the first `k` of the PRF transforms: the encryption transform with its
key-length range, the authentication transform unless the mode is combined,
the DH transform and the first `k` entries of `prf_supported`. -/
def rule_xf_calls (encr_data : Nat → encr_data_t) (xf : config_xf_t) (k : Nat) :
    List pkt_add_t :=
  [pkt_add_t.xf_encr xf.xf_encr xf.xf_minbits xf.xf_maxbits] ++
  (if MODE_IS_COMBINED (encr_data xf.xf_encr).ed_mode then []
   else [pkt_add_t.xform IKEV2_XF_AUTH xf.xf_auth]) ++
  [pkt_add_t.xform IKEV2_XF_DH xf.xf_dh] ++
  (prf_supported.take k).map (fun prf => pkt_add_t.xform IKEV2_XF_PRF prf)

/-- The additions the loop of `ikev2_sa_from_rule` requests for a list of rule
entries, the first proposal carrying the number `n`, when for the entries in
turn the numbers `ks` of PRF transforms are attempted. -/
def rule_calls (encr_data : Nat → encr_data_t) (spi : Nat) :
    Nat → List config_xf_t → List Nat → List pkt_add_t
  | n, xf :: rest, k :: ks =>
    pkt_add_t.prop n IKEV2_PROTO_IKE spi ::
      (rule_xf_calls encr_data xf k ++ rule_calls encr_data spi (n + 1) rest ks)
  | _, _, _ => []

/-- Example peer proposal: proposal 2, AH, with the transforms AUTH = 5,
DH = MODP-2048 and ESN = NONE. -/
def example_prop_ah_dh : ikev2_sa_proposal_t :=
  { proto_proposalnr := 2, proto_protoid := IKEV2_PROTO_AH, spi := 4665,
    xfs := [{ xf_type := IKEV2_XF_AUTH, xf_id := 5, attrs := [] },
            { xf_type := IKEV2_XF_DH, xf_id := IKEV2_DH_MODP_2048, attrs := [] },
            { xf_type := IKEV2_XF_ESN, xf_id := IKEV2_ESN_NONE, attrs := [] }] }

/-- Example peer proposal: the transforms of `example_prop_ah_auth` followed
by a transform of the unassigned type 9. -/
def example_prop_ah_unknown_type : ikev2_sa_proposal_t :=
  { example_prop_ah_auth with
    xfs := example_prop_ah_auth.xfs ++ [{ xf_type := 9, xf_id := 1, attrs := [] }] }

/-- Example ENCR transform: AES-CBC with the two key-length attributes 64 and
512, both outside the range [128,256] of `example_xf_cbc`. -/
def example_xf_encr_out_of_range : ikev2_transform_t :=
  { xf_type := IKEV2_XF_ENCR, xf_id := IKEV2_ENCR_AES_CBC,
    attrs := [{ attr_type := 32768 + IKEV2_XF_ATTR_KEYLEN, attr_length := 64 },
              { attr_type := 32768 + IKEV2_XF_ATTR_KEYLEN, attr_length := 512 }] }

/-- Modelled from the spec: the algorithms named by the kernel's and by the
protocol's numbering spaces that matter here. The integrity algorithms carry
the length of the truncated value where the protocol distinguishes it. -/
inductive crypto_alg_t
  | none
  | hmac_md5_96
  | hmac_sha1_96
  | des_mac
  | kpdk_md5
  | aes_xcbc_96
  | hmac_md5_128
  | hmac_sha1_160
  | hmac_sha2_256
  | hmac_sha2_384
  | hmac_sha2_512
  | des_cbc
  | tdes_cbc
  | blowfish
  | null_encr
  | aes_cbc
  | aes_ccm_8
  | aes_ccm_12
  | aes_ccm_16
  | aes_gcm_8
  | aes_gcm_12
  | aes_gcm_16
  deriving DecidableEq, Repr

/-- Modelled from the spec: the algorithm a kernel authentication algorithm
number (`SADB_AALG_*` of `net/pfkeyv2.h`) denotes. -/
def sadb_aalg_alg (alg : Nat) : Option crypto_alg_t :=
  if alg = SADB_AALG_NONE then some .none
  else if alg = SADB_AALG_MD5HMAC then some .hmac_md5_96
  else if alg = SADB_AALG_SHA1HMAC then some .hmac_sha1_96
  else if alg = SADB_AALG_SHA256HMAC then some .hmac_sha2_256
  else if alg = SADB_AALG_SHA384HMAC then some .hmac_sha2_384
  else if alg = SADB_AALG_SHA512HMAC then some .hmac_sha2_512
  else Option.none

/-- Modelled from the spec: the algorithm an AUTH transform id denotes
(transform type 3 of RFC 7296, section 3.3.2, with the SHA-2 entries of
RFC 4868). -/
def ikev2_xf_auth_alg (id : Nat) : Option crypto_alg_t :=
  if id = 0 then some .none
  else if id = 1 then some .hmac_md5_96
  else if id = 2 then some .hmac_sha1_96
  else if id = 3 then some .des_mac
  else if id = 4 then some .kpdk_md5
  else if id = 5 then some .aes_xcbc_96
  else if id = 6 then some .hmac_md5_128
  else if id = 7 then some .hmac_sha1_160
  else if id = 12 then some .hmac_sha2_256
  else if id = 13 then some .hmac_sha2_384
  else if id = 14 then some .hmac_sha2_512
  else Option.none

/-- Modelled from the spec: the algorithm a kernel encryption algorithm number
(`SADB_EALG_*` of `net/pfkeyv2.h`) denotes. -/
def sadb_ealg_alg (alg : Nat) : Option crypto_alg_t :=
  if alg = SADB_EALG_NONE then some .none
  else if alg = SADB_EALG_DESCBC then some .des_cbc
  else if alg = SADB_EALG_3DESCBC then some .tdes_cbc
  else if alg = SADB_EALG_BLOWFISH then some .blowfish
  else if alg = SADB_EALG_NULL then some .null_encr
  else if alg = SADB_EALG_AES then some .aes_cbc
  else if alg = SADB_EALG_AES_CCM_8 then some .aes_ccm_8
  else if alg = SADB_EALG_AES_CCM_12 then some .aes_ccm_12
  else if alg = SADB_EALG_AES_CCM_16 then some .aes_ccm_16
  else if alg = SADB_EALG_AES_GCM_8 then some .aes_gcm_8
  else if alg = SADB_EALG_AES_GCM_12 then some .aes_gcm_12
  else if alg = SADB_EALG_AES_GCM_16 then some .aes_gcm_16
  else Option.none

/-- Modelled from the spec: the algorithm an ENCR transform id denotes
(transform type 1 of RFC 7296, section 3.3.2, with the AES-CCM and AES-GCM
entries of RFC 4309 and RFC 4106); 0 stands for no encryption. -/
def ikev2_xf_encr_alg (id : Nat) : Option crypto_alg_t :=
  if id = 0 then some .none
  else if id = 2 then some .des_cbc
  else if id = 3 then some .tdes_cbc
  else if id = 7 then some .blowfish
  else if id = 11 then some .null_encr
  else if id = 12 then some .aes_cbc
  else if id = 14 then some .aes_ccm_8
  else if id = 15 then some .aes_ccm_12
  else if id = 16 then some .aes_ccm_16
  else if id = 18 then some .aes_gcm_8
  else if id = 19 then some .aes_gcm_12
  else if id = 20 then some .aes_gcm_16
  else Option.none

/-- Example peer proposal: proposal 1, IKE, offering AES-CBC without a
key-length attribute, HMAC-SHA1-96, PRF HMAC-SHA2-512 and MODP-2048. -/
def example_prop_cbc_no_keylen : ikev2_sa_proposal_t :=
  { proto_proposalnr := 1, proto_protoid := IKEV2_PROTO_IKE, spi := 0,
    xfs := [
      { xf_type := IKEV2_XF_ENCR, xf_id := IKEV2_ENCR_AES_CBC, attrs := [] },
      { xf_type := IKEV2_XF_AUTH, xf_id := IKEV2_XF_AUTH_HMAC_SHA1_96, attrs := [] },
      { xf_type := IKEV2_XF_PRF, xf_id := IKEV2_PRF_HMAC_SHA2_512, attrs := [] },
      { xf_type := IKEV2_XF_DH, xf_id := IKEV2_DH_MODP_2048, attrs := [] }] }

/-- Example combination of an AH acquire: HMAC-SHA1 (3 in the kernel's
numbering), no encryption algorithm, all key-size bounds 0. -/
def example_comb_ah_sha1 : sadb_comb_t :=
  { sadb_comb_auth := SADB_AALG_SHA1HMAC, sadb_comb_encrypt := SADB_EALG_NONE,
    sadb_comb_auth_minbits := 0, sadb_comb_auth_maxbits := 0,
    sadb_comb_encrypt_minbits := 0, sadb_comb_encrypt_maxbits := 0 }

/-- Example AH acquire with the one combination `example_comb_ah_sha1`. -/
def example_acquire_ah_sha1 : parsedmsg_t :=
  { sadb_msg_type := SADB_ACQUIRE, sadb_msg_satype := SADB_SATYPE_AH,
    combs := [example_comb_ah_sha1] }

/-- The proposal that `ikev2_sa_from_acquire` builds for
`example_acquire_ah_sha1` with the SPI 4666 and no DH group, as a peer's
proposal: AH, AUTH = HMAC-SHA1-96 (2), ESN = NONE. -/
def example_prop_ah_sha1 : ikev2_sa_proposal_t :=
  { proto_proposalnr := 1, proto_protoid := IKEV2_PROTO_AH, spi := 4666,
    xfs := [{ xf_type := IKEV2_XF_AUTH, xf_id := IKEV2_XF_AUTH_HMAC_SHA1_96, attrs := [] },
            { xf_type := IKEV2_XF_ESN, xf_id := IKEV2_ESN_NONE, attrs := [] }] }

end Ikev2

namespace DkiocFree

/-! ## Free-extent iteration (`dkioc_free_util.c`)

The kernel is an LP64 program: `uint64_t` and `size_t` are both 64 bits wide,
and arithmetic on them is taken modulo `U64`. -/

/-- Modelled from the spec: the error number `EINVAL` (`sys/errno.h`). -/
def EINVAL : Nat := 22
/-- Modelled from the spec: the error number `EOVERFLOW` (`sys/errno.h`). -/
def EOVERFLOW : Nat := 79

/-- The number of values of a 64 bit unsigned integer. -/
def U64 : Nat := 2 ^ 64

/-- Unary minus on a 64 bit unsigned integer. -/
def neg64 (x : Nat) : Nat := (U64 - x % U64) % U64

/-- Modelled from the spec: the macro `ISP2(x)` of `sys/sysmacros.h`,
`(((x) & ((x) - 1)) == 0)`, on a 64 bit unsigned integer. -/
def ISP2 (x : Nat) : Bool := x &&& ((x + U64 - 1) % U64) == 0

/-- Modelled from the spec: the macro `P2ALIGN(x, align)` of
`sys/sysmacros.h`, `((x) & -(align))`, on 64 bit unsigned integers. -/
def P2ALIGN (x align : Nat) : Nat := x &&& neg64 align

/-- Modelled from the spec: the macro `P2ROUNDUP(x, align)` of
`sys/sysmacros.h`, `(-(-(x) & -(align)))`, on 64 bit unsigned integers. -/
def P2ROUNDUP (x align : Nat) : Nat := neg64 (neg64 x &&& neg64 align)

/-- Search for the lowest set bit from bit `i` on, looking at `fuel` bits; the
value is the number of the bit counted from 1, or 0 when there is none. -/
def ffs_from (x : Nat) : Nat → Nat → Nat
  | 0, _ => 0
  | fuel + 1, i => if x.testBit i then i + 1 else ffs_from x fuel (i + 1)

/-- Modelled from the spec: the function `ddi_ffsll` (find first set bit in a
`long long`; bits are counted from 1, and the value is 0 for 0). -/
def ddi_ffsll (mask : Nat) : Nat := ffs_from mask 64 0

/-- Modelled from the spec: one extent of a free request
(`dkioc_free_list_ext_t` of `sys/dkio.h`): start and length, in bytes in a
request and in blocks when passed to the driver's callback. -/
structure dkioc_free_list_ext_t where
  dfle_start : Nat
  dfle_length : Nat
  deriving DecidableEq, Repr

/-- Modelled from the spec: a free request (`dkioc_free_list_t` of
`sys/dkio.h`); `dfl_num_exts` is the length of `dfl_exts`. -/
structure dkioc_free_list_t where
  dfl_offset : Nat
  dfl_exts : List dkioc_free_list_ext_t
  deriving DecidableEq, Repr

/-- The alignment and segmentation requirements of a device
(`dkioc_free_align_t`). -/
structure dkioc_free_align_t where
  dfa_bsize : Nat
  dfa_max_ext : Nat
  dfa_max_blocks : Nat
  dfa_align : Nat
  deriving DecidableEq, Repr

/-- One invocation of the driver's callback (`dfl_iter_fn_t`): the extents of
the array it is given, their number `n_ext` and the flag `last`. -/
structure dfl_call_t where
  exts : List dkioc_free_list_ext_t
  n_ext : Nat
  last : Bool
  deriving DecidableEq, Repr

/-- The driver's callback (`dfl_iter_fn_t`, with its `void *arg` as part of
the function): its return value may depend on the invocations made before. -/
abbrev dfl_iter_fn_t := List dfl_call_t → dfl_call_t → Nat

/-- The cookie of the second pass (`struct ext_arg`). The array `ea_exts`
points into is `ea_buf` (its length is the number of extents allocated) and
`ea_exts` is the index of the element the pointer is at; `ea_calls` records
the invocations of `ea_fn` made so far. -/
structure ext_arg where
  ea_ext_cnt : Nat
  ea_fn : dfl_iter_fn_t
  ea_exts : Nat
  ea_buf : List dkioc_free_list_ext_t
  ea_calls : List dfl_call_t

/-- The initializer `{ 0 }` of `earg` in `dfl_iter`. -/
def ext_arg_zero : ext_arg :=
  { ea_ext_cnt := 0, ea_fn := fun _ _ => 0, ea_exts := 0, ea_buf := [], ea_calls := [] }

/-- What a call of `dfl_iter` has done when it ends: the invocations of the
callback, and the value returned; `none` for the value means that the call
does not return, because it stores outside the allocated array or reads
through a null pointer. -/
structure dfl_result where
  calls : List dfl_call_t
  ret : Option Nat
  deriving DecidableEq, Repr

deriving instance DecidableEq for Except

/-- The function `ext_xlate`: `.error` is the error returned, `.ok` the pair
(`*startp`, `*lengthp`). -/
def ext_xlate (dfl : dkioc_free_list_t) (ext : dkioc_free_list_ext_t)
    (dfa : dkioc_free_align_t) (bshift : Nat) : Except Nat (Nat × Nat) :=
  let start := (dfl.dfl_offset + ext.dfle_start) % U64
  let end_ := (start + ext.dfle_length) % U64
  if start < dfl.dfl_offset ∨ start < ext.dfle_start then .error EOVERFLOW
  else if end_ < start ∨ end_ < ext.dfle_length then .error EOVERFLOW
  else
    let start1 := P2ROUNDUP start dfa.dfa_align >>> bshift
    let end1 := P2ALIGN end_ dfa.dfa_bsize >>> bshift
    .ok (start1, if end1 > start1 then end1 - start1 else 0)

/-- The variables of `ext_iter` that live across iterations, with the cookie
`arg` of its callback. -/
structure ext_iter_st (σ : Type) where
  n_exts : Nat
  n_blk : Nat
  newreq : Bool
  arg : σ

/-- The callback of `ext_iter` (`ext_iter_fn_t`) on a cookie of type `σ`: the
value is the return code and the cookie as the callback leaves it; `none` for
the return code means that the callback does not return. -/
abbrev ext_iter_fn_t (σ : Type) := dkioc_free_list_ext_t → Bool → σ → Option Nat × σ

/-- The decisions at the head of the body of the `while` loop of `ext_iter`,
for a remaining length `length`: `none` when the body starts a new request and
continues, and otherwise the length of the extent it passes to the callback. -/
def ext_iter_blk_len {σ : Type} (dfa : dkioc_free_align_t) (bshift : Nat)
    (st : ext_iter_st σ) (length : Nat) : Option Nat :=
  if dfa.dfa_max_ext > 0 ∧ (st.n_exts + 1) % U64 > dfa.dfa_max_ext then none
  else if dfa.dfa_max_blocks > 0 ∧ (st.n_blk + length) % U64 > dfa.dfa_max_blocks then
    if !st.newreq then none
    else some (P2ALIGN dfa.dfa_max_blocks (dfa.dfa_align >>> bshift))
  else some length

/-- The `while` loop of `ext_iter` for one translated extent. The loop has no
bound of its own: the embedding counts iterations down from `fuel`, and `none`
means that the loop is still running when they are used up. Otherwise the
value is `.error (r, arg)` when `ext_iter` returns from inside the loop, with
the return code `r` of the callback, and `.ok st` with the variables when the
loop has run to its end. -/
def ext_iter_while {σ : Type} (dfa : dkioc_free_align_t) (bshift : Nat)
    (fn : ext_iter_fn_t σ) :
    Nat → Nat → Nat → ext_iter_st σ → Option (Except (Option Nat × σ) (ext_iter_st σ))
  | 0, _, _, _ => none
  | fuel + 1, start, length, st =>
    if length > 0 then
      match ext_iter_blk_len dfa bshift st length with
      | none =>
        ext_iter_while dfa bshift fn fuel start length
          { st with newreq := true, n_exts := 0, n_blk := 0 }
      | some blk_len =>
        let r := fn { dfle_start := start, dfle_length := blk_len } st.newreq st.arg
        if r.1 ≠ some 0 then some (.error r)
        else
          ext_iter_while dfa bshift fn fuel ((start + blk_len) % U64)
            ((length + U64 - blk_len) % U64)
            { n_exts := (st.n_exts + 1) % U64, n_blk := (st.n_blk + blk_len) % U64,
              newreq := false, arg := r.2 }
    else some (.ok st)

/-- The `for` loop of `ext_iter` over the extents of the request; `fuel`
bounds the iterations of each `while` loop. -/
def ext_iter_for {σ : Type} (dfl : dkioc_free_list_t) (dfa : dkioc_free_align_t)
    (bshift : Nat) (fn : ext_iter_fn_t σ) (fuel : Nat) :
    List dkioc_free_list_ext_t → ext_iter_st σ → Option (Option Nat × σ)
  | [], st => some (some 0, st.arg)
  | ext :: rest, st =>
    match ext_xlate dfl ext dfa bshift with
    | .error r => some (some r, st.arg)
    | .ok (start, length) =>
      match ext_iter_while dfa bshift fn fuel start length st with
      | none => none
      | some (.error r) => some r
      | some (.ok st1) => ext_iter_for dfl dfa bshift fn fuel rest st1

/-- The function `ext_iter`: the value is its return code and the cookie of
the callback as it leaves it. -/
def ext_iter {σ : Type} (fuel : Nat) (dfl : dkioc_free_list_t) (dfa : dkioc_free_align_t)
    (bshift : Nat) (fn : ext_iter_fn_t σ) (arg : σ) : Option (Option Nat × σ) :=
  ext_iter_for dfl dfa bshift fn fuel dfl.dfl_exts
    { n_exts := 0, n_blk := 0, newreq := true, arg := arg }

/-- The function `count_exts`, on the counter its argument points to. -/
def count_exts : ext_iter_fn_t Nat :=
  fun _ _ n => (some 0, (n + 1) % U64)

/-- The store `args->ea_exts[args->ea_ext_cnt++] = *ext` of `process_exts`. -/
def process_exts_store (ext : Option dkioc_free_list_ext_t) (args : ext_arg) :
    Option Nat × ext_arg :=
  match ext with
  | none => (none, args)
  | some e =>
    if args.ea_exts + args.ea_ext_cnt < args.ea_buf.length then
      (some 0, { args with
        ea_buf := args.ea_buf.set (args.ea_exts + args.ea_ext_cnt) e,
        ea_ext_cnt := args.ea_ext_cnt + 1 })
    else (none, args)

/-- The function `process_exts`; `ext = none` is the null pointer. -/
def process_exts (ext : Option dkioc_free_list_ext_t) (newreq : Bool) (args : ext_arg) :
    Option Nat × ext_arg :=
  if newreq ∧ args.ea_ext_cnt > 0 then
    let call : dfl_call_t :=
      { exts := (args.ea_buf.drop args.ea_exts).take args.ea_ext_cnt,
        n_ext := args.ea_ext_cnt, last := ext.isNone }
    let r := args.ea_fn args.ea_calls call
    let args1 := { args with ea_calls := args.ea_calls ++ [call] }
    if r ≠ 0 then (some r, args1)
    else
      let args2 := { args1 with ea_exts := args1.ea_exts + args1.ea_ext_cnt, ea_ext_cnt := 0 }
      if ext.isNone then (some 0, args2)
      else process_exts_store ext args2
  else process_exts_store ext args

/-- The second pass of `dfl_iter` (from `earg.ea_ext_cnt = n_exts` to the
call that processes the final request), on an array of `cap` zeroed
extents. -/
def dfl_iter_second_pass (fuel : Nat) (dfl : dkioc_free_list_t) (dfa : dkioc_free_align_t)
    (bshift : Nat) (func : dfl_iter_fn_t) (n_exts cap : Nat) : Option dfl_result :=
  let earg : ext_arg :=
    { ea_ext_cnt := n_exts, ea_fn := func, ea_exts := 0,
      ea_buf := List.replicate cap { dfle_start := 0, dfle_length := 0 }, ea_calls := [] }
  match ext_iter fuel dfl dfa bshift (fun ext newreq args => process_exts (some ext) newreq args)
      earg with
  | none => none
  | some (r, earg1) =>
    if r ≠ some 0 then some { calls := earg1.ea_calls, ret := r }
    else
      let r2 := process_exts none true earg1
      some { calls := r2.2.ea_calls, ret := r2.1 }

/-- The function `dfl_iter`. `kmem_zalloc size kmflag` tells whether the
allocation of `size` bytes returns memory; `fuel` bounds the iterations of
each `while` loop of `ext_iter`, and `none` means that one of them is still
running when they are used up. The test of the block size is written with a
member `dba_bsize` that the structure does not have; it is read as
`dfa_bsize`. -/
def dfl_iter (fuel : Nat) (kmem_zalloc : Nat → Nat → Bool) (dfl : dkioc_free_list_t)
    (dfa : dkioc_free_align_t) (func : dfl_iter_fn_t) (kmflag dfl_flag : Nat) :
    Option dfl_result :=
  if dfl_flag ≠ 0 then some { calls := [], ret := some EINVAL }
  else if dfa.dfa_bsize = 0 ∨ !ISP2 dfa.dfa_bsize then some { calls := [], ret := some EINVAL }
  else if dfa.dfa_align = 0 ∨ !ISP2 dfa.dfa_align then some { calls := [], ret := some EINVAL }
  else if dfa.dfa_align < dfa.dfa_bsize then some { calls := [], ret := some EINVAL }
  else
    let bshift := ddi_ffsll dfa.dfa_bsize - 1
    if dfa.dfa_max_blocks > 0 ∧ dfa.dfa_max_blocks >>> bshift < dfa.dfa_align then
      some { calls := [], ret := some EINVAL }
    else
      match ext_iter fuel dfl dfa bshift count_exts 0 with
      | none => none
      | some (r, n_exts) =>
        if r ≠ some 0 then some { calls := [], ret := r }
        else if n_exts = 0 then some { calls := [], ret := some 0 }
        else
          let earg := ext_arg_zero
          let n_exts1 := earg.ea_ext_cnt
          if !kmem_zalloc (n_exts1 * 16 % U64) kmflag then
            some { calls := [], ret := some EOVERFLOW }
          else
            dfl_iter_second_pass fuel dfl dfa bshift func n_exts1 (n_exts1 * 16 % U64 / 16)

/-! ### The extents `ext_iter` passes to its callback -/

/-- The extents the `while` loop of `ext_iter` passes to a callback that
returns 0 each time, each with the flag `newreq` it is passed with, and the
variables at the end of the loop (`none` when the loop is still running after
`fuel` iterations). The callback has no part in the decisions of the loop, so
its cookie is left out. -/
def ext_emits_while (dfa : dkioc_free_align_t) (bshift : Nat) :
    Nat → Nat → Nat → ext_iter_st Unit →
      List (dkioc_free_list_ext_t × Bool) × Option (ext_iter_st Unit)
  | 0, _, _, _ => ([], none)
  | fuel + 1, start, length, st =>
    if length > 0 then
      match ext_iter_blk_len dfa bshift st length with
      | none =>
        ext_emits_while dfa bshift fuel start length
          { st with newreq := true, n_exts := 0, n_blk := 0 }
      | some blk_len =>
        let r := ext_emits_while dfa bshift fuel ((start + blk_len) % U64)
          ((length + U64 - blk_len) % U64)
          { n_exts := (st.n_exts + 1) % U64, n_blk := (st.n_blk + blk_len) % U64,
            newreq := false, arg := () }
        (({ dfle_start := start, dfle_length := blk_len }, st.newreq) :: r.1, r.2)
    else ([], some st)

/-- The extents the `for` loop of `ext_iter` passes to a callback that returns
0 each time, and the return code of the loop (`none` when a `while` loop is
still running after `fuel` iterations). -/
def ext_emits_for (dfl : dkioc_free_list_t) (dfa : dkioc_free_align_t) (bshift : Nat)
    (fuel : Nat) :
    List dkioc_free_list_ext_t → ext_iter_st Unit →
      List (dkioc_free_list_ext_t × Bool) × Option Nat
  | [], _ => ([], some 0)
  | ext :: rest, st =>
    match ext_xlate dfl ext dfa bshift with
    | .error r => ([], some r)
    | .ok (start, length) =>
      match ext_emits_while dfa bshift fuel start length st with
      | (em, none) => (em, none)
      | (em, some st1) =>
        let r := ext_emits_for dfl dfa bshift fuel rest st1
        (em ++ r.1, r.2)

/-- The extents `ext_iter` passes to a callback that returns 0 each time. -/
def ext_emits (fuel : Nat) (dfl : dkioc_free_list_t) (dfa : dkioc_free_align_t)
    (bshift : Nat) : List (dkioc_free_list_ext_t × Bool) × Option Nat :=
  ext_emits_for dfl dfa bshift fuel dfl.dfl_exts
    { n_exts := 0, n_blk := 0, newreq := true, arg := () }

/-- The calls of a callback `fn` on a list of extents, one after the other
until one does not return 0: the return code of the last call made and the
cookie. -/
def ext_run {σ : Type} (fn : ext_iter_fn_t σ) :
    List (dkioc_free_list_ext_t × Bool) → σ → Option Nat × σ
  | [], a => (some 0, a)
  | x :: rest, a =>
    let r := fn x.1 x.2 a
    if r.1 ≠ some 0 then r else ext_run fn rest r.2

/-- A callback for `ext_iter` that appends the extent and the flag it is
passed to its cookie, and returns 0. -/
def record_exts : ext_iter_fn_t (List (dkioc_free_list_ext_t × Bool)) :=
  fun ext newreq l => (some 0, l ++ [(ext, newreq)])

/-- The callback `process_exts` as `ext_iter` calls it, on an extent. -/
def process_exts_fn : ext_iter_fn_t ext_arg :=
  fun ext newreq args => process_exts (some ext) newreq args

/-- One step of the division of the extents into requests: the requests that
are complete and the request that is open. A flagged extent closes the open
request when it has an extent. -/
def req_step (s : List (List dkioc_free_list_ext_t) × List dkioc_free_list_ext_t)
    (x : dkioc_free_list_ext_t × Bool) :
    List (List dkioc_free_list_ext_t) × List dkioc_free_list_ext_t :=
  if x.2 = true ∧ s.2 ≠ [] then (s.1 ++ [s.2], [x.1]) else (s.1, s.2 ++ [x.1])

/-- The extents of the request that `process_exts` has queued: the
`ea_ext_cnt` elements of the array from `ea_exts` on. -/
def ext_arg_queued (args : ext_arg) : List dkioc_free_list_ext_t :=
  (args.ea_buf.drop args.ea_exts).take args.ea_ext_cnt

/-- The cookie of `process_exts` agrees with a division of the extents into
requests: the open request is queued in the array, and the complete requests
are the invocations made, none with the flag `last`. -/
def ext_arg_agrees (args : ext_arg)
    (s : List (List dkioc_free_list_ext_t) × List dkioc_free_list_ext_t) : Prop :=
  ext_arg_queued args = s.2 ∧ args.ea_ext_cnt = s.2.length ∧
  args.ea_calls.map (fun c => c.exts) = s.1 ∧
  (∀ c ∈ args.ea_calls, c.n_ext = c.exts.length ∧ c.last = false ∧ c.exts ≠ []) ∧
  args.ea_exts + args.ea_ext_cnt ≤ args.ea_buf.length

/-- An extent in blocks lies inside an extent of the request in bytes: turned
back to bytes with the block size, it is contained in the range from
`dfl_offset + dfle_start` to `dfl_offset + dfle_start + dfle_length`. -/
def ext_inside (dfl : dkioc_free_list_t) (dfa : dkioc_free_align_t)
    (blk_ext ext : dkioc_free_list_ext_t) : Prop :=
  dfl.dfl_offset + ext.dfle_start ≤ blk_ext.dfle_start * dfa.dfa_bsize ∧
  (blk_ext.dfle_start + blk_ext.dfle_length) * dfa.dfa_bsize ≤
    dfl.dfl_offset + ext.dfle_start + ext.dfle_length

instance (dfl : dkioc_free_list_t) (dfa : dkioc_free_align_t)
    (blk_ext ext : dkioc_free_list_ext_t) : Decidable (ext_inside dfl dfa blk_ext ext) := by
  unfold ext_inside
  exact inferInstance

/-- The length in blocks that `ext_xlate` gives an extent (0 when it returns
an error). -/
def ext_xlate_length (dfl : dkioc_free_list_t) (ext : dkioc_free_list_ext_t)
    (dfa : dkioc_free_align_t) (bshift : Nat) : Nat :=
  match ext_xlate dfl ext dfa bshift with
  | .ok (_, length) => length
  | .error _ => 0

/-! ### Worked examples -/

/-- A device of 512 byte blocks that takes at most 2 extents and 262144
blocks in a request. -/
def example_dfa_limits : dkioc_free_align_t :=
  { dfa_bsize := 512, dfa_max_ext := 2, dfa_max_blocks := 262144, dfa_align := 512 }

/-- A request of four extents, the last of 524288 blocks of 512 bytes. -/
def example_dfl_limits : dkioc_free_list_t :=
  { dfl_offset := 0,
    dfl_exts := [
      { dfle_start := 0, dfle_length := 512 },
      { dfle_start := 1024, dfle_length := 512 },
      { dfle_start := 2048, dfle_length := 1024 },
      { dfle_start := 4096, dfle_length := 268435456 }] }

/-- A device of 512 byte blocks that takes at most 2 extents in a request. -/
def example_dfa_two : dkioc_free_align_t :=
  { dfa_bsize := 512, dfa_max_ext := 2, dfa_max_blocks := 0, dfa_align := 512 }

/-- A request of three extents at the offset 4096. -/
def example_dfl_three : dkioc_free_list_t :=
  { dfl_offset := 4096,
    dfl_exts := [
      { dfle_start := 0, dfle_length := 4096 },
      { dfle_start := 8192, dfle_length := 8192 },
      { dfle_start := 32768, dfle_length := 512 }] }

/-- The invocations of the second pass for `example_dfl_three` on
`example_dfa_two`. -/
def example_calls_three : List dfl_call_t :=
  [ { exts := [{ dfle_start := 8, dfle_length := 8 }, { dfle_start := 24, dfle_length := 16 }],
      n_ext := 2, last := false },
    { exts := [{ dfle_start := 72, dfle_length := 1 }], n_ext := 1, last := true } ]

/-- A device of 512 byte blocks with an offset alignment of 4096 bytes and no
limit on a request. -/
def example_dfa_4k : dkioc_free_align_t :=
  { dfa_bsize := 512, dfa_max_ext := 0, dfa_max_blocks := 0, dfa_align := 4096 }

/-- A request of one extent of 1023 bytes that starts 1024 bytes below
2^64. -/
def example_dfl_top : dkioc_free_list_t :=
  { dfl_offset := 0,
    dfl_exts := [{ dfle_start := 2 ^ 64 - 1024, dfle_length := 1023 }] }

/-! ### Accepted alignment descriptions and covered block ranges -/

/-- The fields of the alignment description are `size_t` values. -/
def dfa_wf (dfa : dkioc_free_align_t) : Prop :=
  dfa.dfa_bsize < U64 ∧ dfa.dfa_max_ext < U64 ∧ dfa.dfa_max_blocks < U64 ∧ dfa.dfa_align < U64

instance (dfa : dkioc_free_align_t) : Decidable (dfa_wf dfa) := by
  unfold dfa_wf
  exact inferInstance

/-- The alignment description passes the checks of `dfl_iter`: block size and
alignment are not 0 and pass `ISP2`, the alignment is not below the block
size, and the test of the block limit does not reject it. -/
def dfa_accepted (dfa : dkioc_free_align_t) : Prop :=
  ¬ (dfa.dfa_bsize = 0 ∨ (!ISP2 dfa.dfa_bsize) = true) ∧
  ¬ (dfa.dfa_align = 0 ∨ (!ISP2 dfa.dfa_align) = true) ∧
  ¬ (dfa.dfa_align < dfa.dfa_bsize) ∧
  ¬ (dfa.dfa_max_blocks > 0 ∧
      dfa.dfa_max_blocks >>> (ddi_ffsll dfa.dfa_bsize - 1) < dfa.dfa_align)

instance (dfa : dkioc_free_align_t) : Decidable (dfa_accepted dfa) := by
  unfold dfa_accepted
  exact inferInstance

/-- A list of extents starts at the block `start`, each extent has a length
that is not 0 and starts where the one before it ends, and the last ends at
the block `end_` (for the empty list, `start` is `end_`). -/
def exts_cover : Nat → Nat → List dkioc_free_list_ext_t → Prop
  | start, end_, [] => start = end_
  | start, end_, e :: rest =>
    e.dfle_start = start ∧ 0 < e.dfle_length ∧ exts_cover (start + e.dfle_length) end_ rest

instance exts_cover_decidable :
    ∀ (start end_ : Nat) (l : List dkioc_free_list_ext_t), Decidable (exts_cover start end_ l)
  | start, end_, [] => by unfold exts_cover; exact inferInstance
  | start, end_, e :: rest => by
    unfold exts_cover
    have := exts_cover_decidable (start + e.dfle_length) end_ rest
    exact inferInstance

/-- A device of 512 byte blocks with an alignment of 4096 bytes that takes at
most 2097152 blocks in a request. -/
def example_dfa_4k_limit : dkioc_free_align_t :=
  { dfa_bsize := 512, dfa_max_ext := 0, dfa_max_blocks := 2097152, dfa_align := 4096 }

/-- A request of one extent of 2^31 bytes that starts at the byte 1000. -/
def example_dfl_long : dkioc_free_list_t :=
  { dfl_offset := 0,
    dfl_exts := [{ dfle_start := 1000, dfle_length := 2 ^ 31 }] }

/-- The invocations of the second pass for `example_dfl_long` on
`example_dfa_4k_limit`. -/
def example_calls_long : List dfl_call_t :=
  [ { exts := [{ dfle_start := 8, dfle_length := 2097152 }], n_ext := 1, last := false },
    { exts := [{ dfle_start := 2097160, dfle_length := 2097145 }], n_ext := 1, last := true } ]

end DkiocFree

namespace Ikev2

/-! ## Lemmas on the rule matcher -/

theorem SA_RESULT_HAS_eq_testBit (res : ikev2_sa_result_t) (t : Nat) :
    SA_RESULT_HAS res t = res.sar_match.testBit t := by
  unfold SA_RESULT_HAS
  rw [Nat.one_shiftLeft, Nat.and_two_pow]
  cases h : res.sar_match.testBit t <;> simp

theorem walk_attrs_some (attrs : List ikev2_attribute_t) (data : rule_data_s) (k : Nat)
    (h : attrs_keylen data.rd_xf attrs = some k) :
    ikev2_walk match_rule_attr_cb attrs data =
      { data with rd_res := { data.rd_res with sar_encr_keylen := k },
                  rd_keylen_match := true } := by
  induction attrs with
  | nil => simp [attrs_keylen] at h
  | cons a rest ih =>
    unfold attrs_keylen at h
    split_ifs at h with h1 h2
    · simp only [Option.some.injEq] at h
      subst h
      simp [ikev2_walk, match_rule_attr_cb, h1, h2]
    · simp only [ikev2_walk, match_rule_attr_cb, h1, h2]
      simpa using ih h

theorem walk_attrs_none (attrs : List ikev2_attribute_t) (data : rule_data_s)
    (h : attrs_keylen data.rd_xf attrs = none) :
    ikev2_walk match_rule_attr_cb attrs data = data ∨
    ikev2_walk match_rule_attr_cb attrs data = { data with rd_skip := true } := by
  induction attrs with
  | nil => simp [ikev2_walk]
  | cons a rest ih =>
    unfold attrs_keylen at h
    split_ifs at h with h1 h2
    · right
      simp [ikev2_walk, match_rule_attr_cb, h1]
    · simp only [ikev2_walk, match_rule_attr_cb, h1, h2]
      simpa using ih h

theorem attrs_keylen_nil (cfg : config_xf_t) : attrs_keylen cfg [] = none := rfl

theorem match_rule_xf_cb_step (xf : ikev2_transform_t) (data : rule_data_s)
    (hs : data.rd_skip = false) :
    (match_rule_xf_cb xf data).1 = xf_type_ike xf.xf_type ∧
    (match_rule_xf_cb xf data).2.rd_skip = !xf_type_ike xf.xf_type ∧
    (match_rule_xf_cb xf data).2.rd_xf = data.rd_xf ∧
    (match_rule_xf_cb xf data).2.rd_prf = data.rd_prf ∧
    (match_rule_xf_cb xf data).2.rd_match = data.rd_match ∧
    (match_rule_xf_cb xf data).2.rd_res.sar_match =
      (if xf_acceptable data.rd_xf data.rd_prf xf then
        data.rd_res.sar_match ||| (1 <<< xf.xf_type) else data.rd_res.sar_match) ∧
    (match_rule_xf_cb xf data).2.rd_res.sar_encr =
      (if xf.xf_type = IKEV2_XF_ENCR ∧ xf_acceptable data.rd_xf data.rd_prf xf then
        xf.xf_id else data.rd_res.sar_encr) ∧
    (match_rule_xf_cb xf data).2.rd_res.sar_encr_keylen =
      xf_keylen data.rd_xf xf data.rd_res.sar_encr_keylen := by
  obtain ⟨cfg, res, prf, m, sk, ha, km⟩ := data
  simp only at hs
  subst hs
  unfold match_rule_xf_cb
  by_cases h1 : xf.xf_type = IKEV2_XF_ENCR
  · by_cases h2 : cfg.xf_encr = xf.xf_id
    · by_cases h3 : xf.attrs = []
      · simp [h1, h2, h3, match_rule_xf_done, xf_acceptable, xf_type_ike, xf_keylen,
          attrs_keylen_nil]
      · cases hk : attrs_keylen cfg xf.attrs with
        | none =>
          rcases walk_attrs_none xf.attrs ⟨cfg, res, prf, m, false, ha, false⟩ hk with hw | hw <;>
            simp [h1, h2, h3, hw, hk, match_rule_xf_done, xf_acceptable, xf_type_ike,
              xf_keylen]
        | some k =>
          have hw := walk_attrs_some xf.attrs ⟨cfg, res, prf, m, false, ha, false⟩ k hk
          simp [h1, h2, h3, hw, hk, match_rule_xf_done, xf_acceptable, xf_type_ike,
              xf_keylen]
    · simp [h1, h2, match_rule_xf_done, xf_acceptable, xf_type_ike, xf_keylen]
  · by_cases h4 : xf.xf_type = IKEV2_XF_AUTH
    · by_cases h5 : cfg.xf_auth = xf.xf_id <;>
        simp [h4, h5, match_rule_xf_done, xf_acceptable, xf_type_ike, xf_keylen,
          IKEV2_XF_ENCR, IKEV2_XF_AUTH]
    · by_cases h6 : xf.xf_type = IKEV2_XF_PRF
      · by_cases h7 : xf.xf_id = prf <;>
          simp [h6, h7, match_rule_xf_done, xf_acceptable, xf_type_ike, xf_keylen,
            IKEV2_XF_ENCR, IKEV2_XF_AUTH, IKEV2_XF_PRF]
      · by_cases h8 : xf.xf_type = IKEV2_XF_DH
        · by_cases h9 : cfg.xf_dh = xf.xf_id <;>
            simp [h8, h9, match_rule_xf_done, xf_acceptable, xf_type_ike, xf_keylen,
              IKEV2_XF_ENCR, IKEV2_XF_AUTH, IKEV2_XF_PRF, IKEV2_XF_DH]
        · by_cases h10 : xf.xf_type = IKEV2_XF_ESN
          · simp [h10, match_rule_xf_done, xf_acceptable, xf_type_ike, xf_keylen,
              IKEV2_XF_ENCR, IKEV2_XF_AUTH, IKEV2_XF_PRF, IKEV2_XF_DH, IKEV2_XF_ESN]
          · simp [h1, h4, h6, h8, h10, match_rule_xf_done, xf_acceptable, xf_type_ike,
              xf_keylen]

theorem ikev2_walk_cons {α σ : Type} (cb : α → σ → Bool × σ) (x : α) (rest : List α)
    (cookie : σ) :
    ikev2_walk cb (x :: rest) cookie =
      if (cb x cookie).1 then ikev2_walk cb rest (cb x cookie).2 else (cb x cookie).2 := by
  rcases h : cb x cookie with ⟨b, c⟩
  cases b <;> simp [ikev2_walk, h]

theorem walk_xfs_frame (xfs : List ikev2_transform_t) (data : rule_data_s)
    (hs : data.rd_skip = false) :
    (ikev2_walk match_rule_xf_cb xfs data).rd_xf = data.rd_xf ∧
    (ikev2_walk match_rule_xf_cb xfs data).rd_prf = data.rd_prf ∧
    (ikev2_walk match_rule_xf_cb xfs data).rd_match = data.rd_match ∧
    (ikev2_walk match_rule_xf_cb xfs data).rd_skip =
      xfs.any (fun xf => !xf_type_ike xf.xf_type) := by
  induction xfs generalizing data with
  | nil => simp [ikev2_walk, hs]
  | cons xf rest ih =>
    obtain ⟨h1, h2, h3, h4, h5, -⟩ := match_rule_xf_cb_step xf data hs
    rw [ikev2_walk_cons, h1]
    cases hk : xf_type_ike xf.xf_type
    · simp [hk, h2, h3, h4, h5]
    · simp only [hk, Bool.not_true] at h2
      obtain ⟨i1, i2, i3, i4⟩ := ih _ h2
      simp [hk, i1, i2, i3, i4, h3, h4, h5]

theorem walk_xfs_ike (xfs : List ikev2_transform_t) (data : rule_data_s)
    (hs : data.rd_skip = false)
    (hk : ∀ xf ∈ xfs, xf_type_ike xf.xf_type = true) :
    (∀ t, (ikev2_walk match_rule_xf_cb xfs data).rd_res.sar_match.testBit t =
      (data.rd_res.sar_match.testBit t ||
        xfs.any (fun xf => decide (xf.xf_type = t) &&
          xf_acceptable data.rd_xf data.rd_prf xf))) ∧
    (ikev2_walk match_rule_xf_cb xfs data).rd_res.sar_encr =
      (if xfs.any (fun xf => decide (xf.xf_type = IKEV2_XF_ENCR) &&
          xf_acceptable data.rd_xf data.rd_prf xf) then data.rd_xf.xf_encr
       else data.rd_res.sar_encr) ∧
    (ikev2_walk match_rule_xf_cb xfs data).rd_res.sar_encr_keylen =
      xfs.foldl (fun k xf => xf_keylen data.rd_xf xf k) data.rd_res.sar_encr_keylen := by
  induction xfs generalizing data with
  | nil => simp [ikev2_walk]
  | cons xf rest ih =>
    obtain ⟨h1, h2, h3, h4, h5, h6, h7, h8⟩ := match_rule_xf_cb_step xf data hs
    have hk1 : xf_type_ike xf.xf_type = true := hk xf (List.mem_cons_self _ _)
    have hk2 : ∀ y ∈ rest, xf_type_ike y.xf_type = true :=
      fun y hy => hk y (List.mem_cons_of_mem _ hy)
    simp only [hk1, Bool.not_true] at h2
    obtain ⟨i1, i2, i3⟩ := ih _ h2 hk2
    rw [ikev2_walk_cons, h1, hk1]
    simp only [if_true, List.any_cons, List.foldl_cons]
    refine ⟨?_, ?_, ?_⟩
    · intro t
      rw [i1 t, h3, h4, h6]
      by_cases ha : xf_acceptable data.rd_xf data.rd_prf xf = true
      · simp only [ha, if_true, Nat.testBit_or, Nat.one_shiftLeft, Nat.testBit_two_pow,
          Bool.and_true, Bool.or_assoc]
      · simp only [ha, Bool.and_false, Bool.false_or]
        simp
    · rw [i2, h3, h4, h7]
      by_cases ha : xf_acceptable data.rd_xf data.rd_prf xf = true
      · by_cases ht : xf.xf_type = IKEV2_XF_ENCR
        · have : data.rd_xf.xf_encr = xf.xf_id := by
            simp [xf_acceptable, ht] at ha
            exact ha.1
          simp [ha, ht, this]
        · simp [ha, ht]
      · simp [ha]
    · rw [i3, h3, h8]

theorem match_rule_prop_cb_ike (encr_data : Nat → encr_data_t) (prop : ikev2_sa_proposal_t)
    (data : rule_data_s) (hp : prop.proto_protoid = IKEV2_PROTO_IKE) :
    (match_rule_prop_cb encr_data prop data).1 =
      !prop_acceptable encr_data data.rd_xf data.rd_prf prop ∧
    (match_rule_prop_cb encr_data prop data).2.rd_match =
      (data.rd_match || prop_acceptable encr_data data.rd_xf data.rd_prf prop) ∧
    (match_rule_prop_cb encr_data prop data).2.rd_xf = data.rd_xf ∧
    (match_rule_prop_cb encr_data prop data).2.rd_prf = data.rd_prf := by
  have hs : ({ data with rd_res := sa_result_zero, rd_skip := false,
                         rd_has_auth := false } : rule_data_s).rd_skip = false := rfl
  obtain ⟨f1, f2, f3, f4⟩ := walk_xfs_frame prop.xfs _ hs
  have hz : ∀ t, sa_result_zero.sar_match.testBit t = false := fun t => Nat.zero_testBit t
  dsimp only at f1 f2 f3
  unfold match_rule_prop_cb
  simp only [hp, ne_eq, not_true_eq_false, if_false]
  by_cases hall : ∀ xf ∈ prop.xfs, xf_type_ike xf.xf_type = true
  · obtain ⟨b1, b2, -⟩ := walk_xfs_ike prop.xfs _ hs hall
    dsimp only at b1 b2
    simp only [hz, Bool.false_or] at b1
    have hall' : prop.xfs.all (fun xf => xf_type_ike xf.xf_type) = true := by
      simpa using hall
    have hany : prop.xfs.any (fun xf => !xf_type_ike xf.xf_type) = false := by
      simpa using hall
    rw [hany] at f4
    generalize ikev2_walk match_rule_xf_cb prop.xfs
      { data with rd_res := sa_result_zero, rd_skip := false, rd_has_auth := false } = d1 at *
    simp only [f4, SA_RESULT_HAS_eq_testBit, b1, b2]
    simp only [prop_acceptable, xfs_have, hp, hall', decide_True, Bool.true_and]
    cases h1 : prop.xfs.any (fun xf => decide (xf.xf_type = IKEV2_XF_ENCR) &&
        xf_acceptable data.rd_xf data.rd_prf xf) <;>
    cases h2 : prop.xfs.any (fun xf => decide (xf.xf_type = IKEV2_XF_PRF) &&
        xf_acceptable data.rd_xf data.rd_prf xf) <;>
    cases h3 : prop.xfs.any (fun xf => decide (xf.xf_type = IKEV2_XF_DH) &&
        xf_acceptable data.rd_xf data.rd_prf xf) <;>
    cases h4 : prop.xfs.any (fun xf => decide (xf.xf_type = IKEV2_XF_AUTH) &&
        xf_acceptable data.rd_xf data.rd_prf xf) <;>
    cases h5 : MODE_IS_COMBINED (encr_data data.rd_xf.xf_encr).ed_mode <;>
    simp [f1, f2, f3, h5]
  · have hall' : prop.xfs.all (fun xf => xf_type_ike xf.xf_type) = false := by
      simpa using hall
    have hany : prop.xfs.any (fun xf => !xf_type_ike xf.xf_type) = true := by
      simpa using hall
    rw [hany] at f4
    generalize ikev2_walk match_rule_xf_cb prop.xfs
      { data with rd_res := sa_result_zero, rd_skip := false, rd_has_auth := false } = d1 at *
    simp [f4, prop_acceptable, hall', f1, f2, f3]

theorem match_rule_prop_cb_not_ike (encr_data : Nat → encr_data_t)
    (prop : ikev2_sa_proposal_t) (data : rule_data_s)
    (hp : prop.proto_protoid ≠ IKEV2_PROTO_IKE) :
    match_rule_prop_cb encr_data prop data = (false, data) := by
  simp [match_rule_prop_cb, hp]

theorem walk_props_match (encr_data : Nat → encr_data_t) (pay : List ikev2_sa_proposal_t)
    (data : rule_data_s) (hm : data.rd_match = false) :
    (ikev2_walk (match_rule_prop_cb encr_data) pay data).rd_match =
      pair_matches encr_data data.rd_xf data.rd_prf pay := by
  induction pay generalizing data with
  | nil => simp [ikev2_walk, pair_matches, hm]
  | cons p rest ih =>
    rw [ikev2_walk_cons]
    by_cases hp : p.proto_protoid = IKEV2_PROTO_IKE
    · obtain ⟨h1, h2, h3, h4⟩ := match_rule_prop_cb_ike encr_data p data hp
      cases ha : prop_acceptable encr_data data.rd_xf data.rd_prf p
      · rw [ha, hm] at h2
        simp only [ha, Bool.not_false] at h1
        have := ih _ h2
        rw [h3, h4] at this
        simp [h1, this, pair_matches, List.takeWhile_cons, hp, ha]
      · rw [ha] at h2
        simp only [ha, Bool.not_true] at h1
        simp [h1, h2, pair_matches, List.takeWhile_cons, hp, ha]
    · rw [match_rule_prop_cb_not_ike encr_data p data hp]
      simp [hm, pair_matches, List.takeWhile_cons, hp]

theorem match_rule_pair_match (encr_data : Nat → encr_data_t) (cfg : config_xf_t)
    (prf : Nat) (pay : List ikev2_sa_proposal_t) :
    (match_rule_pair encr_data cfg prf pay).rd_match =
      pair_matches encr_data cfg prf pay :=
  walk_props_match encr_data pay _ rfl

theorem match_rule_prfs_find (encr_data : Nat → encr_data_t) (cfg : config_xf_t)
    (pay : List ikev2_sa_proposal_t) (prfs : List Nat) (result : ikev2_sa_result_t) :
    match prfs.find? (fun prf => pair_matches encr_data cfg prf pay) with
    | some prf => match_rule_prfs encr_data cfg pay prfs result =
        (true, (match_rule_pair encr_data cfg prf pay).rd_res)
    | none => (match_rule_prfs encr_data cfg pay prfs result).1 = false := by
  induction prfs generalizing result with
  | nil => simp [match_rule_prfs]
  | cons prf rest ih =>
    cases h : pair_matches encr_data cfg prf pay
    · have := ih (match_rule_pair encr_data cfg prf pay).rd_res
      simpa [List.find?_cons, h, match_rule_prfs, match_rule_pair_match] using this
    · simp [List.find?_cons, h, match_rule_prfs, match_rule_pair_match]

/-- The rule matcher returns the result of the first (rule entry, PRF) pair, in
rule-major and PRF-minor order, to which the payload offers a proposal that
the walk reaches and accepts, and fails when there is no such pair. -/
theorem ikev2_sa_match_rule_first_pair (encr_data : Nat → encr_data_t)
    (rule : config_rule_t) (pay : List ikev2_sa_proposal_t) (result : ikev2_sa_result_t) :
    match (rule_pairs rule).find? (fun cp => pair_matches encr_data cp.1 cp.2 pay) with
    | some cp => ikev2_sa_match_rule encr_data rule pay result =
        (true, (match_rule_pair encr_data cp.1 cp.2 pay).rd_res)
    | none => (ikev2_sa_match_rule encr_data rule pay result).1 = false := by
  obtain ⟨xfs⟩ := rule
  unfold ikev2_sa_match_rule rule_pairs
  simp only
  induction xfs generalizing result with
  | nil => simp [match_rule_xfs]
  | cons cfg rest ih =>
    have h1 := match_rule_prfs_find encr_data cfg pay prf_supported result
    simp only [List.flatMap_cons, List.find?_append]
    have hmap : (prf_supported.map (fun prf => (cfg, prf))).find?
        (fun cp => pair_matches encr_data cp.1 cp.2 pay) =
        (prf_supported.find? (fun prf => pair_matches encr_data cfg prf pay)).map
          (fun prf => (cfg, prf)) := by
      rw [List.find?_map]
      rfl
    rw [hmap]
    cases hf : prf_supported.find? (fun prf => pair_matches encr_data cfg prf pay) with
    | some prf =>
      rw [hf] at h1
      simp [match_rule_xfs, h1]
    | none =>
      rw [hf] at h1
      simp only [Option.map_none', Option.none_or]
      rcases hr : match_rule_prfs encr_data cfg pay prf_supported result with ⟨b, r1⟩
      rw [hr] at h1
      simp only at h1
      subst h1
      simpa [match_rule_xfs, hr] using ih r1

theorem walk_attrs_unknown (pre post : List ikev2_attribute_t) (a : ikev2_attribute_t)
    (data : rule_data_s)
    (hpre : ∀ b ∈ pre, IKE_ATTR_GET_TYPE b.attr_type = IKEV2_XF_ATTR_KEYLEN ∧
      ¬ (data.rd_xf.xf_minbits ≤ b.attr_length ∧ b.attr_length ≤ data.rd_xf.xf_maxbits))
    (ha : IKE_ATTR_GET_TYPE a.attr_type ≠ IKEV2_XF_ATTR_KEYLEN) :
    ikev2_walk match_rule_attr_cb (pre ++ a :: post) data = { data with rd_skip := true } := by
  induction pre with
  | nil => simp [ikev2_walk, match_rule_attr_cb, ha]
  | cons b rest ih =>
    have hb := hpre b (List.mem_cons_self _ _)
    have hrest := ih (fun c hc => hpre c (List.mem_cons_of_mem _ hc))
    have hb2 : ¬ (b.attr_length ≥ data.rd_xf.xf_minbits ∧
        b.attr_length ≤ data.rd_xf.xf_maxbits) := hb.2
    simp only [List.cons_append, ikev2_walk, match_rule_attr_cb, hb.1, ne_eq,
      not_true_eq_false, if_false, hb2]
    exact hrest

/-- C1, at the failing input. The rule list has the single entry AES-CBC
[128,256] / HMAC-SHA1-96 / MODP-2048 and the payload is an ESP proposal
followed by an IKE proposal that is fully acceptable to the pair (entry,
HMAC-SHA2-512). Alone, the IKE proposal is matched; behind the ESP proposal it
is never evaluated and `ikev2_sa_match_rule` reports no match, although a
(rule, PRF) pair has an acceptable proposal in the payload. -/
theorem ikev2_sa_match_rule_misses_acceptable_proposal :
    prop_acceptable encr_data_example example_xf_cbc IKEV2_PRF_HMAC_SHA2_512
      example_prop_cbc = true ∧
    (ikev2_sa_match_rule encr_data_example { rule_xf := [example_xf_cbc] }
      [example_prop_cbc] sa_result_zero).1 = true ∧
    (ikev2_sa_match_rule encr_data_example { rule_xf := [example_xf_cbc] }
      [example_prop_esp, example_prop_cbc] sa_result_zero).1 = false := by
  decide

/-- C3, counterexample. An IKE proposal whose first transform is an ENCR
transform with the rule's encryption id and an attribute of unknown type: the
transform visitor returns true on that transform (the walk goes on to the
remaining transforms), and the proposal is accepted. -/
theorem match_rule_unknown_attr_proposal_accepted :
    (match_rule_xf_cb
      { xf_type := IKEV2_XF_ENCR, xf_id := IKEV2_ENCR_AES_CBC,
        attrs := [{ attr_type := 99, attr_length := 128 }] }
      (rule_data_init example_xf_cbc IKEV2_PRF_HMAC_SHA2_512)).1 = true ∧
    (match_rule_prop_cb encr_data_example example_prop_unknown_attr
      (rule_data_init example_xf_cbc IKEV2_PRF_HMAC_SHA2_512)).2.rd_match = true ∧
    (ikev2_sa_match_rule encr_data_example { rule_xf := [example_xf_cbc] }
      [example_prop_unknown_attr] sa_result_zero).1 = true := by
  decide

/-- C3, as amended. An ENCR transform with the rule's encryption id whose
attribute walk reaches an attribute of a type other than key length (only key
lengths outside the rule's range precede it) is rejected as a transform only:
the result and its match bitset are left as they were, the skip flag is clear
again, and the visitor returns true, so the walk goes on to the remaining
transforms of the proposal. -/
theorem match_rule_xf_cb_unknown_attr (xf : ikev2_transform_t) (data : rule_data_s)
    (pre post : List ikev2_attribute_t) (a : ikev2_attribute_t)
    (hs : data.rd_skip = false)
    (ht : xf.xf_type = IKEV2_XF_ENCR)
    (hid : xf.xf_id = data.rd_xf.xf_encr)
    (hattrs : xf.attrs = pre ++ a :: post)
    (hpre : ∀ b ∈ pre, IKE_ATTR_GET_TYPE b.attr_type = IKEV2_XF_ATTR_KEYLEN ∧
      ¬ (data.rd_xf.xf_minbits ≤ b.attr_length ∧ b.attr_length ≤ data.rd_xf.xf_maxbits))
    (ha : IKE_ATTR_GET_TYPE a.attr_type ≠ IKEV2_XF_ATTR_KEYLEN) :
    match_rule_xf_cb xf data = (true, { data with rd_keylen_match := false }) := by
  obtain ⟨cfg, res, prf, m, sk, hau, km⟩ := data
  simp only at hs hid hpre
  subst hs
  have hw := walk_attrs_unknown pre post a ⟨cfg, res, prf, m, false, hau, false⟩ hpre ha
  have hne : xf.attrs ≠ [] := by simp [hattrs]
  unfold match_rule_xf_cb
  simp only [ht, if_true, hid, ne_eq, not_true_eq_false, if_false, hne, not_false_eq_true]
  rw [← hattrs] at hw
  simp [hw, match_rule_xf_done]

/-- C3, witness of the amended statement. -/
theorem match_rule_xf_cb_unknown_attr_witness :
    match_rule_xf_cb
      { xf_type := IKEV2_XF_ENCR, xf_id := IKEV2_ENCR_AES_CBC,
        attrs := [{ attr_type := 32768 + IKEV2_XF_ATTR_KEYLEN, attr_length := 64 },
                  { attr_type := 99, attr_length := 128 },
                  { attr_type := 32768 + IKEV2_XF_ATTR_KEYLEN, attr_length := 128 }] }
      (rule_data_init example_xf_cbc IKEV2_PRF_HMAC_SHA2_512) =
    (true, { rule_data_init example_xf_cbc IKEV2_PRF_HMAC_SHA2_512 with
      rd_keylen_match := false }) :=
  match_rule_xf_cb_unknown_attr _ _
    [{ attr_type := 32768 + IKEV2_XF_ATTR_KEYLEN, attr_length := 64 }]
    [{ attr_type := 32768 + IKEV2_XF_ATTR_KEYLEN, attr_length := 128 }]
    { attr_type := 99, attr_length := 128 } rfl rfl rfl rfl (by decide) (by decide)

/-- C4. An IKE proposal that contains a transform whose type is none of ENCR,
AUTH, PRF, DH, ESN is rejected whatever the (rule, PRF) pair of the cookie and
whatever its other transforms are: the proposal visitor does not record a
match and returns true, so the walk goes on with the next proposal, for the
same pair. -/
theorem match_rule_unknown_xf_type_rejected (encr_data : Nat → encr_data_t)
    (prop : ikev2_sa_proposal_t) (rest : List ikev2_sa_proposal_t) (data : rule_data_s)
    (hp : prop.proto_protoid = IKEV2_PROTO_IKE)
    (hx : ∃ xf ∈ prop.xfs, xf.xf_type ≠ IKEV2_XF_ENCR ∧ xf.xf_type ≠ IKEV2_XF_AUTH ∧
      xf.xf_type ≠ IKEV2_XF_PRF ∧ xf.xf_type ≠ IKEV2_XF_DH ∧ xf.xf_type ≠ IKEV2_XF_ESN) :
    (match_rule_prop_cb encr_data prop data).1 = true ∧
    (match_rule_prop_cb encr_data prop data).2.rd_match = data.rd_match ∧
    (match_rule_prop_cb encr_data prop data).2.rd_xf = data.rd_xf ∧
    (match_rule_prop_cb encr_data prop data).2.rd_prf = data.rd_prf ∧
    ikev2_walk (match_rule_prop_cb encr_data) (prop :: rest) data =
      ikev2_walk (match_rule_prop_cb encr_data) rest
        (match_rule_prop_cb encr_data prop data).2 := by
  obtain ⟨h1, h2, h3, h4⟩ := match_rule_prop_cb_ike encr_data prop data hp
  have hacc : prop_acceptable encr_data data.rd_xf data.rd_prf prop = false := by
    obtain ⟨xf, hmem, e1, e2, e3, e4, -⟩ := hx
    have hall : prop.xfs.all (fun xf => xf_type_ike xf.xf_type) = false := by
      rw [List.all_eq_false]
      exact ⟨xf, hmem, by simp [xf_type_ike, e1, e2, e3, e4]⟩
    simp [prop_acceptable, hall]
  rw [hacc] at h1 h2
  simp only [Bool.not_false] at h1
  simp only [Bool.or_false] at h2
  refine ⟨h1, h2, h3, h4, ?_⟩
  rw [ikev2_walk_cons, h1]
  simp

/-- C4, witness. -/
theorem match_rule_unknown_xf_type_rejected_witness :
    (match_rule_prop_cb encr_data_example example_prop_unknown_type
      (rule_data_init example_xf_cbc IKEV2_PRF_HMAC_SHA2_512)).1 = true ∧
    (match_rule_prop_cb encr_data_example example_prop_unknown_type
      (rule_data_init example_xf_cbc IKEV2_PRF_HMAC_SHA2_512)).2.rd_match = false :=
  have h := match_rule_unknown_xf_type_rejected encr_data_example example_prop_unknown_type []
    (rule_data_init example_xf_cbc IKEV2_PRF_HMAC_SHA2_512) rfl
    ⟨{ xf_type := 9, xf_id := 1, attrs := [] }, by decide, by decide⟩
  ⟨h.1, h.2.1⟩

/-- C5. An IKE proposal made of ENCR, PRF and DH transforms only (so without
an AUTH transform), among them an ENCR transform acceptable to the rule entry,
a PRF transform with the PRF of the pair and a DH transform with the entry's
group, is accepted (match recorded, walk stopped) when the mode of the entry's
encryption algorithm is combined, and rejected (no match recorded, walk goes on
with the next proposal) when it is not. -/
theorem match_rule_no_auth_transform (encr_data : Nat → encr_data_t)
    (prop : ikev2_sa_proposal_t) (data : rule_data_s)
    (hm : data.rd_match = false)
    (hp : prop.proto_protoid = IKEV2_PROTO_IKE)
    (ht : ∀ xf ∈ prop.xfs, xf.xf_type = IKEV2_XF_ENCR ∨ xf.xf_type = IKEV2_XF_PRF ∨
      xf.xf_type = IKEV2_XF_DH)
    (he : ∃ xf ∈ prop.xfs, xf.xf_type = IKEV2_XF_ENCR ∧ xf.xf_id = data.rd_xf.xf_encr ∧
      (xf.attrs = [] ∨ ∃ k, attrs_keylen data.rd_xf xf.attrs = some k))
    (hprf : ∃ xf ∈ prop.xfs, xf.xf_type = IKEV2_XF_PRF ∧ xf.xf_id = data.rd_prf)
    (hdh : ∃ xf ∈ prop.xfs, xf.xf_type = IKEV2_XF_DH ∧ xf.xf_id = data.rd_xf.xf_dh) :
    (MODE_IS_COMBINED (encr_data data.rd_xf.xf_encr).ed_mode = true →
      (match_rule_prop_cb encr_data prop data).1 = false ∧
      (match_rule_prop_cb encr_data prop data).2.rd_match = true) ∧
    (MODE_IS_COMBINED (encr_data data.rd_xf.xf_encr).ed_mode = false →
      (match_rule_prop_cb encr_data prop data).1 = true ∧
      (match_rule_prop_cb encr_data prop data).2.rd_match = false) := by
  obtain ⟨h1, h2, -, -⟩ := match_rule_prop_cb_ike encr_data prop data hp
  have hall : prop.xfs.all (fun xf => xf_type_ike xf.xf_type) = true := by
    rw [List.all_eq_true]
    intro xf hxf
    rcases ht xf hxf with h | h | h <;> simp [xf_type_ike, h]
  have hE : xfs_have data.rd_xf data.rd_prf prop.xfs IKEV2_XF_ENCR = true := by
    obtain ⟨xf, hxf, e1, e2, e3⟩ := he
    rw [xfs_have, List.any_eq_true]
    refine ⟨xf, hxf, ?_⟩
    rcases e3 with e3 | ⟨k, e3⟩ <;> simp [xf_acceptable, e1, e2, e3]
  have hP : xfs_have data.rd_xf data.rd_prf prop.xfs IKEV2_XF_PRF = true := by
    obtain ⟨xf, hxf, e1, e2⟩ := hprf
    rw [xfs_have, List.any_eq_true]
    exact ⟨xf, hxf, by simp [xf_acceptable, e1, e2, IKEV2_XF_PRF, IKEV2_XF_ENCR, IKEV2_XF_AUTH]⟩
  have hD : xfs_have data.rd_xf data.rd_prf prop.xfs IKEV2_XF_DH = true := by
    obtain ⟨xf, hxf, e1, e2⟩ := hdh
    rw [xfs_have, List.any_eq_true]
    exact ⟨xf, hxf, by
      simp [xf_acceptable, e1, e2, IKEV2_XF_PRF, IKEV2_XF_ENCR, IKEV2_XF_AUTH, IKEV2_XF_DH]⟩
  have hA : xfs_have data.rd_xf data.rd_prf prop.xfs IKEV2_XF_AUTH = false := by
    rw [xfs_have, List.any_eq_false]
    intro xf hxf
    rcases ht xf hxf with h | h | h <;>
      simp [h, IKEV2_XF_PRF, IKEV2_XF_ENCR, IKEV2_XF_AUTH, IKEV2_XF_DH]
  have hacc : prop_acceptable encr_data data.rd_xf data.rd_prf prop =
      MODE_IS_COMBINED (encr_data data.rd_xf.xf_encr).ed_mode := by
    simp [prop_acceptable, hp, hall, hE, hP, hD, hA]
  rw [hacc] at h1 h2
  rw [hm] at h2
  constructor
  · intro hc
    rw [hc] at h1 h2
    exact ⟨h1, h2⟩
  · intro hc
    rw [hc] at h1 h2
    exact ⟨h1, h2⟩

/-- C5, witness: the AES-GCM-16 entry and a proposal without AUTH transform,
with a table in which AES-GCM-16 is a combined mode. -/
theorem match_rule_no_auth_transform_witness :
    (match_rule_prop_cb encr_data_example (example_prop_gcm 0)
      (rule_data_init example_xf_gcm IKEV2_PRF_HMAC_SHA2_256)).1 = false ∧
    (match_rule_prop_cb encr_data_example (example_prop_gcm 0)
      (rule_data_init example_xf_gcm IKEV2_PRF_HMAC_SHA2_256)).2.rd_match = true :=
  (match_rule_no_auth_transform encr_data_example (example_prop_gcm 0)
    (rule_data_init example_xf_gcm IKEV2_PRF_HMAC_SHA2_256) rfl rfl (by decide)
    ⟨_, List.mem_cons_self _ _, rfl, rfl, Or.inr ⟨256, by decide⟩⟩
    ⟨{ xf_type := IKEV2_XF_PRF, xf_id := IKEV2_PRF_HMAC_SHA2_256, attrs := [] },
      by decide, rfl, rfl⟩
    ⟨{ xf_type := IKEV2_XF_DH, xf_id := IKEV2_DH_MODP_2048, attrs := [] },
      by decide, rfl, rfl⟩).1 (by decide)

/-- C6, at the failing input. The payload is an AH proposal followed by an IKE
proposal that the pair accepts when it comes first. On the AH proposal the
proposal visitor returns false, which stops the walk: the IKE proposal behind
it is not evaluated and the pair records no match. -/
theorem match_rule_non_ike_proposal_stops_walk :
    match_rule_prop_cb encr_data_example example_prop_ah
      (rule_data_init example_xf_cbc IKEV2_PRF_HMAC_SHA2_512) =
      (false, rule_data_init example_xf_cbc IKEV2_PRF_HMAC_SHA2_512) ∧
    (match_rule_pair encr_data_example example_xf_cbc IKEV2_PRF_HMAC_SHA2_512
      [example_prop_cbc]).rd_match = true ∧
    match_rule_pair encr_data_example example_xf_cbc IKEV2_PRF_HMAC_SHA2_512
      [example_prop_ah, example_prop_cbc] =
      rule_data_init example_xf_cbc IKEV2_PRF_HMAC_SHA2_512 := by
  decide

/-- C9. With the single rule entry AES-GCM-16 [128,256] / no authentication /
MODP-2048, a table in which AES-GCM-16 is a combined mode, and a payload of one
IKE proposal offering AES-GCM-16 with key length 256, MODP-2048 and the PRF
HMAC-SHA2-256, `ikev2_sa_match_rule` returns true with that PRF, encryption
algorithm, key length and group in the result, after the pass for HMAC-SHA2-512
has ended without a match. -/
theorem ikev2_sa_match_rule_gcm_scenario (encr_data : Nat → encr_data_t)
    (result : ikev2_sa_result_t) (spi : Nat)
    (h : MODE_IS_COMBINED (encr_data IKEV2_ENCR_AES_GCM_16).ed_mode = true) :
    ikev2_sa_match_rule encr_data { rule_xf := [example_xf_gcm] } [example_prop_gcm spi]
      result =
    (true, { sar_proto := IKEV2_PROTO_IKE, sar_spi := spi, sar_propnum := 1,
             sar_encr := IKEV2_ENCR_AES_GCM_16, sar_encr_keylen := 256,
             sar_auth := 0, sar_prf := IKEV2_PRF_HMAC_SHA2_256,
             sar_dh := IKEV2_DH_MODP_2048, sar_esn := 0,
             sar_match := 2 ^ IKEV2_XF_ENCR + 2 ^ IKEV2_XF_PRF + 2 ^ IKEV2_XF_DH }) ∧
    (match_rule_pair encr_data example_xf_gcm IKEV2_PRF_HMAC_SHA2_512
      [example_prop_gcm spi]).rd_match = false := by
  simp [ikev2_sa_match_rule, match_rule_xfs, match_rule_prfs, match_rule_pair, prf_supported,
    ikev2_walk, match_rule_prop_cb, match_rule_xf_cb, match_rule_xf_done, match_rule_attr_cb,
    example_xf_gcm, example_prop_gcm, SA_RESULT_HAS, sa_result_zero, IKE_ATTR_GET_TYPE,
    IKEV2_ENCR_AES_GCM_16, IKEV2_XF_ENCR, IKEV2_XF_PRF, IKEV2_XF_AUTH, IKEV2_XF_DH,
    IKEV2_XF_ESN, IKEV2_PROTO_IKE, IKEV2_XF_ATTR_KEYLEN, IKEV2_DH_MODP_2048,
    IKEV2_PRF_HMAC_SHA2_512, IKEV2_PRF_HMAC_SHA2_384, IKEV2_PRF_HMAC_SHA2_256,
    IKEV2_XF_AUTH_NONE, rule_data_init] at h ⊢
  simp +decide [h]

/-- C9, witness: `encr_data_example` has AES-GCM-16 in a combined mode. -/
theorem ikev2_sa_match_rule_gcm_scenario_witness :
    (ikev2_sa_match_rule encr_data_example { rule_xf := [example_xf_gcm] }
      [example_prop_gcm 0] sa_result_zero).1 = true ∧
    (ikev2_sa_match_rule encr_data_example { rule_xf := [example_xf_gcm] }
      [example_prop_gcm 0] sa_result_zero).2.sar_prf = IKEV2_PRF_HMAC_SHA2_256 ∧
    (ikev2_sa_match_rule encr_data_example { rule_xf := [example_xf_gcm] }
      [example_prop_gcm 0] sa_result_zero).2.sar_encr_keylen = 256 :=
  have h := (ikev2_sa_match_rule_gcm_scenario encr_data_example sa_result_zero 0
    (by decide)).1
  ⟨by rw [h], by rw [h], by rw [h]⟩

/-! ## Lemmas on the acquire matcher -/

theorem match_acq_xf_cb_step (xf : ikev2_transform_t) (data : acquire_data_s) :
    (match_acq_xf_cb xf data).2.ad_comb = data.ad_comb ∧
    (match_acq_xf_cb xf data).2.ad_spitype = data.ad_spitype ∧
    (match_acq_xf_cb xf data).2.ad_dh = data.ad_dh ∧
    (match_acq_xf_cb xf data).2.ad_match = data.ad_match ∧
    (match_acq_xf_cb xf data).1 = !(match_acq_xf_cb xf data).2.ad_skip ∧
    (match_acq_xf_cb xf data).2.ad_skip =
      (data.ad_skip || decide (xf.xf_type = IKEV2_XF_PRF)) ∧
    (match_acq_xf_cb xf data).2.ad_res.sar_match =
      (if acq_xf_matches data.ad_comb data.ad_dh xf then
        data.ad_res.sar_match ||| (1 <<< xf.xf_type) else data.ad_res.sar_match) := by
  unfold match_acq_xf_cb acq_xf_matches
  by_cases h1 : xf.xf_type = IKEV2_XF_ENCR
  · simp [h1, IKEV2_XF_ENCR, IKEV2_XF_AUTH, IKEV2_XF_PRF, IKEV2_XF_DH, IKEV2_XF_ESN]
  · by_cases h2 : xf.xf_type = IKEV2_XF_PRF
    · simp [h2, IKEV2_XF_ENCR, IKEV2_XF_AUTH, IKEV2_XF_PRF, IKEV2_XF_DH, IKEV2_XF_ESN]
    · by_cases h3 : xf.xf_type = IKEV2_XF_AUTH
      · by_cases h4 : xf.xf_id = data.ad_comb.sadb_comb_auth <;>
          simp [h3, h4, IKEV2_XF_ENCR, IKEV2_XF_AUTH, IKEV2_XF_PRF, IKEV2_XF_DH, IKEV2_XF_ESN]
      · by_cases h5 : xf.xf_type = IKEV2_XF_DH
        · by_cases h6 : xf.xf_id = data.ad_dh <;>
            simp [h5, h6, IKEV2_XF_ENCR, IKEV2_XF_AUTH, IKEV2_XF_PRF, IKEV2_XF_DH,
              IKEV2_XF_ESN]
        · by_cases h7 : xf.xf_type = IKEV2_XF_ESN
          · by_cases h8 : xf.xf_id = IKEV2_ESN_NONE <;>
              simp [h7, h8, IKEV2_XF_ENCR, IKEV2_XF_AUTH, IKEV2_XF_PRF, IKEV2_XF_DH,
                IKEV2_XF_ESN]
          · simp [h1, h2, h3, h5, h7]

theorem walk_acq_xfs (xfs : List ikev2_transform_t) (data : acquire_data_s) :
    (ikev2_walk match_acq_xf_cb xfs data).ad_comb = data.ad_comb ∧
    (ikev2_walk match_acq_xf_cb xfs data).ad_spitype = data.ad_spitype ∧
    (ikev2_walk match_acq_xf_cb xfs data).ad_dh = data.ad_dh ∧
    (ikev2_walk match_acq_xf_cb xfs data).ad_match = data.ad_match ∧
    ∀ t, (ikev2_walk match_acq_xf_cb xfs data).ad_res.sar_match.testBit t = true →
      data.ad_res.sar_match.testBit t = true ∨
      ∃ xf ∈ xfs, xf.xf_type = t ∧ acq_xf_matches data.ad_comb data.ad_dh xf = true := by
  induction xfs generalizing data with
  | nil => simp [ikev2_walk]
  | cons xf rest ih =>
    obtain ⟨h1, h2, h3, h4, -, -, h7⟩ := match_acq_xf_cb_step xf data
    have hbit : ∀ t, (match_acq_xf_cb xf data).2.ad_res.sar_match.testBit t = true →
        data.ad_res.sar_match.testBit t = true ∨
        (xf.xf_type = t ∧ acq_xf_matches data.ad_comb data.ad_dh xf = true) := by
      intro t ht
      rw [h7] at ht
      by_cases hm : acq_xf_matches data.ad_comb data.ad_dh xf = true
      · simp only [hm, if_true, Nat.testBit_or, Nat.one_shiftLeft, Nat.testBit_two_pow,
          Bool.or_eq_true, decide_eq_true_eq] at ht
        rcases ht with ht | ht
        · exact Or.inl ht
        · exact Or.inr ⟨ht, hm⟩
      · simp only [hm] at ht
        exact Or.inl ht
    rw [ikev2_walk_cons]
    by_cases hc : (match_acq_xf_cb xf data).1 = true
    · obtain ⟨i1, i2, i3, i4, i5⟩ := ih (match_acq_xf_cb xf data).2
      simp only [hc, if_true]
      refine ⟨i1.trans h1, i2.trans h2, i3.trans h3, i4.trans h4, ?_⟩
      intro t ht
      rcases i5 t ht with h | ⟨y, hy, e1, e2⟩
      · rcases hbit t h with h | ⟨e1, e2⟩
        · exact Or.inl h
        · exact Or.inr ⟨xf, List.mem_cons_self _ _, e1, e2⟩
      · rw [h1, h3] at e2
        exact Or.inr ⟨y, List.mem_cons_of_mem _ hy, e1, e2⟩
    · simp only [hc]
      refine ⟨h1, h2, h3, h4, ?_⟩
      intro t ht
      rcases hbit t ht with h | ⟨e1, e2⟩
      · exact Or.inl h
      · exact Or.inr ⟨xf, List.mem_cons_self _ _, e1, e2⟩

theorem match_acq_prop_cb_frame (prop : ikev2_sa_proposal_t) (data data1 : acquire_data_s)
    (b : Bool) (h : match_acq_prop_cb prop data = some (b, data1)) :
    data1.ad_match = data.ad_match ∧ data1.ad_comb = data.ad_comb ∧
    data1.ad_spitype = data.ad_spitype ∧ data1.ad_dh = data.ad_dh := by
  obtain ⟨w1, w2, w3, w4, -⟩ := walk_acq_xfs prop.xfs
    { data with ad_res := sa_result_zero, ad_skip := false }
  dsimp only at w1 w2 w3 w4
  unfold match_acq_prop_cb at h
  dsimp only at h
  generalize ikev2_walk match_acq_xf_cb prop.xfs
    { data with ad_res := sa_result_zero, ad_skip := false } = d1 at *
  split_ifs at h
  all_goals
    simp only [Option.some.injEq, Prod.mk.injEq] at h
    obtain ⟨-, rfl⟩ := h
    simp [w1, w2, w3, w4]

theorem walk_acq_props_frame (pay : List ikev2_sa_proposal_t) (data data1 : acquire_data_s)
    (h : ikev2_walk_chk match_acq_prop_cb pay data = some data1) :
    data1.ad_match = data.ad_match := by
  induction pay generalizing data with
  | nil =>
    simp only [ikev2_walk_chk, Option.some.injEq] at h
    rw [← h]
  | cons p rest ih =>
    unfold ikev2_walk_chk at h
    cases hc : match_acq_prop_cb p data with
    | none => simp [hc] at h
    | some r =>
      obtain ⟨b, d⟩ := r
      have hf := (match_acq_prop_cb_frame p data d b hc).1
      cases b
      · simp only [hc, Option.some.injEq] at h
        rw [← h, hf]
      · simp only [hc] at h
        rw [ih d h, hf]

theorem match_acquire_combs_no_match (spitype dh : Nat) (pay : List ikev2_sa_proposal_t)
    (combs : List sadb_comb_t) (result r : ikev2_sa_result_t) :
    match_acquire_combs spitype dh pay combs result ≠ some (true, r) := by
  induction combs generalizing result with
  | nil => simp [match_acquire_combs]
  | cons comb rest ih =>
    unfold match_acquire_combs
    cases hw : ikev2_walk_chk match_acq_prop_cb pay (acquire_data_init comb spitype dh) with
    | none => simp
    | some d =>
      have hm : d.ad_match = false := walk_acq_props_frame pay _ d hw
      simpa [hm] using ih d.ad_res

/-- The acquire matcher never reports a match: nothing in `match_acq_prop_cb`
sets `ad_match`, the only flag `ikev2_sa_match_acquire` tests. -/
theorem ikev2_sa_match_acquire_no_match (pmsg : parsedmsg_t) (dh : Nat)
    (pay : List ikev2_sa_proposal_t) (result r : ikev2_sa_result_t) :
    ikev2_sa_match_acquire pmsg dh pay result ≠ some (true, r) := by
  unfold ikev2_sa_match_acquire
  split_ifs
  · exact match_acquire_combs_no_match _ _ _ _ _ _
  · exact match_acquire_combs_no_match _ _ _ _ _ _
  · simp

/-- C8. For a cookie whose target protocol type is ESP (whatever its
combination and DH group), an ESP proposal that has no ESN transform with id
NONE is not accepted, whatever its other transforms are: the proposal visitor
returns true, so the walk goes on with the next proposal, and no match is
reported. -/
theorem match_acq_esp_without_esn_none_rejected (prop : ikev2_sa_proposal_t)
    (data : acquire_data_s)
    (hs : data.ad_spitype = IKEV2_PROTO_ESP)
    (hp : prop.proto_protoid = IKEV2_PROTO_ESP)
    (hx : ∀ xf ∈ prop.xfs, ¬ (xf.xf_type = IKEV2_XF_ESN ∧ xf.xf_id = IKEV2_ESN_NONE)) :
    ∃ data1, match_acq_prop_cb prop data = some (true, data1) ∧
      data1.ad_match = data.ad_match ∧
      SA_RESULT_HAS data1.ad_res IKEV2_XF_ESN = false := by
  obtain ⟨w1, w2, w3, w4, w5⟩ := walk_acq_xfs prop.xfs
    { data with ad_res := sa_result_zero, ad_skip := false }
  dsimp only at w1 w2 w3 w4 w5
  have hesn : (ikev2_walk match_acq_xf_cb prop.xfs
      { data with ad_res := sa_result_zero, ad_skip := false }).ad_res.sar_match.testBit
      IKEV2_XF_ESN = false := by
    by_contra hne
    rw [Bool.not_eq_false] at hne
    rcases w5 _ hne with h | ⟨xf, hxf, e1, e2⟩
    · simp [sa_result_zero] at h
    · apply hx xf hxf
      refine ⟨e1, ?_⟩
      simpa [acq_xf_matches, e1, IKEV2_XF_ENCR, IKEV2_XF_AUTH, IKEV2_XF_PRF, IKEV2_XF_DH,
        IKEV2_XF_ESN] using e2
  unfold match_acq_prop_cb
  generalize ikev2_walk match_acq_xf_cb prop.xfs
    { data with ad_res := sa_result_zero, ad_skip := false } = d1 at *
  rw [hs] at w2
  simp only [hp, hs, ne_eq, not_true_eq_false, if_false, w2, if_true,
    SA_RESULT_HAS_eq_testBit, hesn]
  by_cases hsk : d1.ad_skip = true
  · simp [hsk, w4, hesn]
  · simp [hsk, w4, hesn]

/-- C8, witness: an ESP proposal whose ESN transform has id 1. -/
theorem match_acq_esp_without_esn_none_rejected_witness :
    ∃ data1, match_acq_prop_cb example_prop_esp_esn
        (acquire_data_init { example_comb_ah with sadb_comb_encrypt := IKEV2_ENCR_AES_CBC }
          IKEV2_PROTO_ESP IKEV2_DH_NONE) = some (true, data1) ∧
      data1.ad_match = false ∧ SA_RESULT_HAS data1.ad_res IKEV2_XF_ESN = false :=
  match_acq_esp_without_esn_none_rejected example_prop_esp_esn
    (acquire_data_init { example_comb_ah with sadb_comb_encrypt := IKEV2_ENCR_AES_CBC }
      IKEV2_PROTO_ESP IKEV2_DH_NONE) rfl rfl (by decide)

/-- C10, at the failing input. The acquire request has SA type AH and one
combination with authentication algorithm 5, no DH group is requested, and the
payload is one AH proposal with the transforms AUTH = 5 and ESN = NONE. The
proposal visitor finds every required transform type matched and returns false
to stop the walk, but it leaves `ad_match` false and the proposal's protocol
type, SPI and number unrecorded, so `ikev2_sa_match_acquire` returns false. -/
theorem ikev2_sa_match_acquire_ah_not_reported :
    (match_acq_prop_cb example_prop_ah_auth
      (acquire_data_init example_comb_ah IKEV2_PROTO_AH IKEV2_DH_NONE)).map Prod.fst =
      some false ∧
    (match_acq_prop_cb example_prop_ah_auth
      (acquire_data_init example_comb_ah IKEV2_PROTO_AH IKEV2_DH_NONE)).map
      (fun r => (SA_RESULT_HAS r.2.ad_res IKEV2_XF_AUTH, SA_RESULT_HAS r.2.ad_res IKEV2_XF_ESN,
        r.2.ad_match, r.2.ad_res.sar_propnum, r.2.ad_res.sar_spi)) =
      some (true, true, false, 0, 0) ∧
    (ikev2_sa_match_acquire
      { sadb_msg_type := 6, sadb_msg_satype := SADB_SATYPE_AH, combs := [example_comb_ah] }
      IKEV2_DH_NONE [example_prop_ah_auth] sa_result_zero).map Prod.fst = some false := by
  decide

/-! ## The result of an accepted proposal -/

theorem match_rule_xf_cb_step_ids (xf : ikev2_transform_t) (data : rule_data_s)
    (hs : data.rd_skip = false) :
    (match_rule_xf_cb xf data).2.rd_res.sar_auth =
      (if xf.xf_type = IKEV2_XF_AUTH ∧ xf_acceptable data.rd_xf data.rd_prf xf then
        xf.xf_id else data.rd_res.sar_auth) ∧
    (match_rule_xf_cb xf data).2.rd_res.sar_prf =
      (if xf.xf_type = IKEV2_XF_PRF ∧ xf_acceptable data.rd_xf data.rd_prf xf then
        xf.xf_id else data.rd_res.sar_prf) ∧
    (match_rule_xf_cb xf data).2.rd_res.sar_dh =
      (if xf.xf_type = IKEV2_XF_DH ∧ xf_acceptable data.rd_xf data.rd_prf xf then
        xf.xf_id else data.rd_res.sar_dh) ∧
    (match_rule_xf_cb xf data).2.rd_res.sar_proto = data.rd_res.sar_proto ∧
    (match_rule_xf_cb xf data).2.rd_res.sar_spi = data.rd_res.sar_spi ∧
    (match_rule_xf_cb xf data).2.rd_res.sar_propnum = data.rd_res.sar_propnum ∧
    (match_rule_xf_cb xf data).2.rd_res.sar_esn = data.rd_res.sar_esn := by
  obtain ⟨cfg, res, prf, m, sk, ha, km⟩ := data
  simp only at hs
  subst hs
  unfold match_rule_xf_cb
  by_cases h1 : xf.xf_type = IKEV2_XF_ENCR
  · by_cases h2 : cfg.xf_encr = xf.xf_id
    · by_cases h3 : xf.attrs = []
      · simp [h1, h2, h3, match_rule_xf_done, IKEV2_XF_ENCR, IKEV2_XF_AUTH, IKEV2_XF_PRF,
          IKEV2_XF_DH]
      · cases hk : attrs_keylen cfg xf.attrs with
        | none =>
          rcases walk_attrs_none xf.attrs ⟨cfg, res, prf, m, false, ha, false⟩ hk with hw | hw <;>
            simp [h1, h2, h3, hw, match_rule_xf_done, IKEV2_XF_ENCR, IKEV2_XF_AUTH,
              IKEV2_XF_PRF, IKEV2_XF_DH]
        | some k =>
          have hw := walk_attrs_some xf.attrs ⟨cfg, res, prf, m, false, ha, false⟩ k hk
          simp [h1, h2, h3, hw, match_rule_xf_done, IKEV2_XF_ENCR, IKEV2_XF_AUTH,
            IKEV2_XF_PRF, IKEV2_XF_DH]
    · simp [h1, h2, match_rule_xf_done, IKEV2_XF_ENCR, IKEV2_XF_AUTH, IKEV2_XF_PRF,
        IKEV2_XF_DH]
  · by_cases h4 : xf.xf_type = IKEV2_XF_AUTH
    · by_cases h5 : cfg.xf_auth = xf.xf_id <;>
        simp [h4, h5, match_rule_xf_done, xf_acceptable,
          IKEV2_XF_ENCR, IKEV2_XF_AUTH, IKEV2_XF_PRF, IKEV2_XF_DH]
    · by_cases h6 : xf.xf_type = IKEV2_XF_PRF
      · by_cases h7 : xf.xf_id = prf <;>
          simp [h6, h7, match_rule_xf_done, xf_acceptable,
            IKEV2_XF_ENCR, IKEV2_XF_AUTH, IKEV2_XF_PRF, IKEV2_XF_DH]
      · by_cases h8 : xf.xf_type = IKEV2_XF_DH
        · by_cases h9 : cfg.xf_dh = xf.xf_id <;>
            simp [h8, h9, match_rule_xf_done, xf_acceptable,
              IKEV2_XF_ENCR, IKEV2_XF_AUTH, IKEV2_XF_PRF, IKEV2_XF_DH]
        · by_cases h10 : xf.xf_type = IKEV2_XF_ESN
          · simp [h10, match_rule_xf_done, xf_acceptable,
              IKEV2_XF_ENCR, IKEV2_XF_AUTH, IKEV2_XF_PRF, IKEV2_XF_DH, IKEV2_XF_ESN]
          · simp [h1, h4, h6, h8, h10, match_rule_xf_done, xf_acceptable]

theorem walk_xfs_ike_ids (xfs : List ikev2_transform_t) (data : rule_data_s)
    (hs : data.rd_skip = false)
    (hk : ∀ xf ∈ xfs, xf_type_ike xf.xf_type = true) :
    (ikev2_walk match_rule_xf_cb xfs data).rd_res.sar_auth =
      (if xfs_have data.rd_xf data.rd_prf xfs IKEV2_XF_AUTH then data.rd_xf.xf_auth
       else data.rd_res.sar_auth) ∧
    (ikev2_walk match_rule_xf_cb xfs data).rd_res.sar_prf =
      (if xfs_have data.rd_xf data.rd_prf xfs IKEV2_XF_PRF then data.rd_prf
       else data.rd_res.sar_prf) ∧
    (ikev2_walk match_rule_xf_cb xfs data).rd_res.sar_dh =
      (if xfs_have data.rd_xf data.rd_prf xfs IKEV2_XF_DH then data.rd_xf.xf_dh
       else data.rd_res.sar_dh) ∧
    (ikev2_walk match_rule_xf_cb xfs data).rd_res.sar_proto = data.rd_res.sar_proto ∧
    (ikev2_walk match_rule_xf_cb xfs data).rd_res.sar_spi = data.rd_res.sar_spi ∧
    (ikev2_walk match_rule_xf_cb xfs data).rd_res.sar_propnum = data.rd_res.sar_propnum ∧
    (ikev2_walk match_rule_xf_cb xfs data).rd_res.sar_esn = data.rd_res.sar_esn := by
  induction xfs generalizing data with
  | nil => simp [ikev2_walk, xfs_have]
  | cons xf rest ih =>
    obtain ⟨h1, h2, h3, h4, -⟩ := match_rule_xf_cb_step xf data hs
    obtain ⟨g1, g2, g3, g4, g5, g6, g7⟩ := match_rule_xf_cb_step_ids xf data hs
    have hk1 : xf_type_ike xf.xf_type = true := hk xf (List.mem_cons_self _ _)
    have hk2 : ∀ y ∈ rest, xf_type_ike y.xf_type = true :=
      fun y hy => hk y (List.mem_cons_of_mem _ hy)
    simp only [hk1, Bool.not_true] at h2
    obtain ⟨i1, i2, i3, i4, i5, i6, i7⟩ := ih _ h2 hk2
    rw [ikev2_walk_cons, h1, hk1]
    simp only [if_true]
    rw [i1, i2, i3, i4, i5, i6, i7, h3, h4, g1, g2, g3, g4, g5, g6, g7]
    refine ⟨?_, ?_, ?_, rfl, rfl, rfl, rfl⟩
    · by_cases ht : xf.xf_type = IKEV2_XF_AUTH
      · by_cases ha : xf_acceptable data.rd_xf data.rd_prf xf = true
        · have : data.rd_xf.xf_auth = xf.xf_id := by
            simpa [xf_acceptable, ht, IKEV2_XF_AUTH, IKEV2_XF_ENCR] using ha
          simp [xfs_have, ht, ha, this]
        · simp [xfs_have, ht, ha]
      · simp [xfs_have, ht]
    · by_cases ht : xf.xf_type = IKEV2_XF_PRF
      · by_cases ha : xf_acceptable data.rd_xf data.rd_prf xf = true
        · have : xf.xf_id = data.rd_prf := by
            simpa [xf_acceptable, ht, IKEV2_XF_AUTH, IKEV2_XF_ENCR, IKEV2_XF_PRF] using ha
          simp [xfs_have, ht, ha, this]
        · simp [xfs_have, ht, ha]
      · simp [xfs_have, ht]
    · by_cases ht : xf.xf_type = IKEV2_XF_DH
      · by_cases ha : xf_acceptable data.rd_xf data.rd_prf xf = true
        · have : data.rd_xf.xf_dh = xf.xf_id := by
            simpa [xf_acceptable, ht, IKEV2_XF_AUTH, IKEV2_XF_ENCR, IKEV2_XF_PRF,
              IKEV2_XF_DH] using ha
          simp [xfs_have, ht, ha, this]
        · simp [xfs_have, ht, ha]
      · simp [xfs_have, ht]

theorem match_rule_prop_cb_accept (encr_data : Nat → encr_data_t) (prop : ikev2_sa_proposal_t)
    (data : rule_data_s) (hp : prop.proto_protoid = IKEV2_PROTO_IKE)
    (ha : prop_acceptable encr_data data.rd_xf data.rd_prf prop = true) :
    match_rule_prop_cb encr_data prop data =
      (false, { match_rule_prop_walk prop data with
        rd_res := { (match_rule_prop_walk prop data).rd_res with
          sar_proto := prop.proto_protoid,
          sar_spi := prop.spi,
          sar_propnum := prop.proto_proposalnr },
        rd_match := true }) := by
  have hs : ({ data with rd_res := sa_result_zero, rd_skip := false,
                         rd_has_auth := false } : rule_data_s).rd_skip = false := rfl
  obtain ⟨-, -, -, f4⟩ := walk_xfs_frame prop.xfs _ hs
  have hz : ∀ t, sa_result_zero.sar_match.testBit t = false := fun t => Nat.zero_testBit t
  simp only [prop_acceptable, Bool.and_eq_true, Bool.or_eq_true, decide_eq_true_eq,
    List.all_eq_true] at ha
  obtain ⟨⟨⟨⟨⟨-, hall⟩, a1⟩, a2⟩, a3⟩, a4⟩ := ha
  obtain ⟨b1, b2, -⟩ := walk_xfs_ike prop.xfs _ hs hall
  dsimp only at b1 b2
  simp only [hz, Bool.false_or] at b1
  have hany : prop.xfs.any (fun xf => !xf_type_ike xf.xf_type) = false := by
    simpa using hall
  rw [hany] at f4
  unfold xfs_have at a1 a2 a3 a4
  unfold match_rule_prop_cb match_rule_prop_walk
  simp only [hp, ne_eq, not_true_eq_false, if_false]
  generalize ikev2_walk match_rule_xf_cb prop.xfs
    { data with rd_res := sa_result_zero, rd_skip := false, rd_has_auth := false } = d1 at *
  simp only [f4, SA_RESULT_HAS_eq_testBit, b1, b2, a1, a2, a3]
  rcases a4 with a4 | a4 <;> simp [a4]

/-! ## Lemmas on the builder -/

theorem pkt_try_fits (pss : pkt_sa_state_t) (a : pkt_add_t) :
    (pkt_try pss a).2.pkt_fits = pss.pkt_fits := by
  unfold pkt_try
  split_ifs <;> rfl

theorem pkt_try_added (pss : pkt_sa_state_t) (a : pkt_add_t)
    (h : (pkt_try pss a).1 = true) :
    (pkt_try pss a).2.pkt_added = pss.pkt_added ++ [a] := by
  by_cases hf : pss.pkt_fits pss.pkt_added a = true <;> simp [pkt_try, hf] at h ⊢

theorem pkt_try_all_fit (pss : pkt_sa_state_t) (a : pkt_add_t)
    (hfit : ∀ l b, pss.pkt_fits l b = true) :
    (pkt_try pss a).1 = true := by
  simp [pkt_try, hfit]

theorem add_rule_xform_prfs_spec (prfs : List Nat) (ok : Bool) (pss : pkt_sa_state_t) :
    (add_rule_xform_prfs prfs ok pss).2.pkt_fits = pss.pkt_fits ∧
    ((add_rule_xform_prfs prfs ok pss).1 = true → ok = true ∧
      (add_rule_xform_prfs prfs ok pss).2.pkt_added =
        pss.pkt_added ++ prfs.map (fun prf => pkt_add_t.xform IKEV2_XF_PRF prf)) ∧
    ((∀ l b, pss.pkt_fits l b = true) → (add_rule_xform_prfs prfs ok pss).1 = ok) := by
  induction prfs generalizing ok pss with
  | nil => simp [add_rule_xform_prfs]
  | cons prf rest ih =>
    cases ok
    · simp [add_rule_xform_prfs]
    · have hf := pkt_try_fits pss (pkt_add_t.xform IKEV2_XF_PRF prf)
      obtain ⟨i1, i2, i3⟩ := ih (true && (ikev2_add_xform pss IKEV2_XF_PRF prf).1)
        (ikev2_add_xform pss IKEV2_XF_PRF prf).2
      simp only [add_rule_xform_prfs, if_true]
      refine ⟨i1.trans hf, ?_, ?_⟩
      · intro h
        obtain ⟨j1, j2⟩ := i2 h
        simp only [Bool.true_and] at j1
        have := pkt_try_added pss _ j1
        refine ⟨by simp, ?_⟩
        rw [j2]
        simp only [ikev2_add_xform] at this ⊢
        rw [this]
        simp
      · intro hfit
        have hfit2 : ∀ l b, (ikev2_add_xform pss IKEV2_XF_PRF prf).2.pkt_fits l b = true := by
          intro l b
          rw [show (ikev2_add_xform pss IKEV2_XF_PRF prf).2.pkt_fits = pss.pkt_fits from hf]
          exact hfit l b
        rw [i3 hfit2]
        simp [ikev2_add_xform, pkt_try_all_fit pss _ hfit]

theorem add_rule_xform_spec (encr_data : Nat → encr_data_t) (pss : pkt_sa_state_t)
    (xf : config_xf_t) :
    (add_rule_xform encr_data pss xf).2.pkt_fits = pss.pkt_fits ∧
    ((add_rule_xform encr_data pss xf).1 = true →
      (add_rule_xform encr_data pss xf).2.pkt_added =
        pss.pkt_added ++ rule_xf_adds encr_data xf) ∧
    ((∀ l b, pss.pkt_fits l b = true) → (add_rule_xform encr_data pss xf).1 = true) := by
  unfold add_rule_xform
  simp only [Bool.true_and]
  set r1 := ikev2_add_xf_encr pss xf.xf_encr xf.xf_minbits xf.xf_maxbits with hr1
  have f1 : r1.2.pkt_fits = pss.pkt_fits := pkt_try_fits pss _
  have a1 : r1.1 = true → r1.2.pkt_added = pss.pkt_added ++
      [pkt_add_t.xf_encr xf.xf_encr xf.xf_minbits xf.xf_maxbits] := pkt_try_added pss _
  cases hc : MODE_IS_COMBINED (encr_data xf.xf_encr).ed_mode
  · simp only [Bool.not_false, if_true]
    set r2 := ikev2_add_xform r1.2 IKEV2_XF_AUTH xf.xf_auth with hr2
    have f2 : r2.2.pkt_fits = r1.2.pkt_fits := pkt_try_fits r1.2 _
    have a2 : r2.1 = true → r2.2.pkt_added = r1.2.pkt_added ++
        [pkt_add_t.xform IKEV2_XF_AUTH xf.xf_auth] := pkt_try_added r1.2 _
    set r3 := ikev2_add_xform r2.2 IKEV2_XF_DH xf.xf_dh with hr3
    have f3 : r3.2.pkt_fits = r2.2.pkt_fits := pkt_try_fits r2.2 _
    have a3 : r3.1 = true → r3.2.pkt_added = r2.2.pkt_added ++
        [pkt_add_t.xform IKEV2_XF_DH xf.xf_dh] := pkt_try_added r2.2 _
    obtain ⟨p1, p2, p3⟩ := add_rule_xform_prfs_spec prf_supported (r1.1 && r2.1 && r3.1) r3.2
    refine ⟨by rw [p1, f3, f2, f1], ?_, ?_⟩
    · intro h
      obtain ⟨q1, q2⟩ := p2 h
      simp only [Bool.and_eq_true] at q1
      rw [q2, a3 q1.2, a2 q1.1.2, a1 q1.1.1]
      simp [rule_xf_adds, hc]
    · intro hfit
      have hfit1 : ∀ l b, r1.2.pkt_fits l b = true := by rw [f1]; exact hfit
      have hfit2 : ∀ l b, r2.2.pkt_fits l b = true := by rw [f2]; exact hfit1
      have hfit3 : ∀ l b, r3.2.pkt_fits l b = true := by rw [f3]; exact hfit2
      rw [p3 hfit3]
      have e1 : r1.1 = true := pkt_try_all_fit pss _ hfit
      have e2 : r2.1 = true := pkt_try_all_fit r1.2 _ hfit1
      have e3 : r3.1 = true := pkt_try_all_fit r2.2 _ hfit2
      simp [e1, e2, e3]
  · simp only [Bool.not_true, Bool.false_eq_true, if_false]
    set r3 := ikev2_add_xform r1.2 IKEV2_XF_DH xf.xf_dh with hr3
    have f3 : r3.2.pkt_fits = r1.2.pkt_fits := pkt_try_fits r1.2 _
    have a3 : r3.1 = true → r3.2.pkt_added = r1.2.pkt_added ++
        [pkt_add_t.xform IKEV2_XF_DH xf.xf_dh] := pkt_try_added r1.2 _
    obtain ⟨p1, p2, p3⟩ := add_rule_xform_prfs_spec prf_supported (r1.1 && r3.1) r3.2
    refine ⟨by rw [p1, f3, f1], ?_, ?_⟩
    · intro h
      obtain ⟨q1, q2⟩ := p2 h
      simp only [Bool.and_eq_true] at q1
      rw [q2, a3 q1.2, a1 q1.1]
      simp [rule_xf_adds, hc]
    · intro hfit
      have hfit1 : ∀ l b, r1.2.pkt_fits l b = true := by rw [f1]; exact hfit
      have hfit3 : ∀ l b, r3.2.pkt_fits l b = true := by rw [f3]; exact hfit1
      rw [p3 hfit3]
      have e1 : r1.1 = true := pkt_try_all_fit pss _ hfit
      have e3 : r3.1 = true := pkt_try_all_fit r1.2 _ hfit1
      simp [e1, e3]

theorem rule_adds_props (encr_data : Nat → encr_data_t) (spi n : Nat)
    (xfs : List config_xf_t) :
    (rule_adds encr_data spi n xfs).filter pkt_add_is_prop =
      (List.range xfs.length).map (fun i => pkt_add_t.prop (n + i) IKEV2_PROTO_IKE spi) := by
  induction xfs generalizing n with
  | nil => simp [rule_adds]
  | cons xf rest ih =>
    have hx : (rule_xf_adds encr_data xf).filter pkt_add_is_prop = [] := by
      unfold rule_xf_adds
      split_ifs <;> simp [pkt_add_is_prop, prf_supported]
    simp only [rule_adds, List.filter_cons, pkt_add_is_prop, if_true, List.filter_append, hx,
      List.nil_append, ih, List.length_cons, List.range_succ_eq_map, List.map_cons,
      List.map_map, Nat.add_zero]
    congr 1
    apply List.map_congr_left
    intro i _
    simp only [Function.comp_apply]
    congr 1
    omega

theorem sa_from_rule_loop_spec (encr_data : Nat → encr_data_t) (xfs : List config_xf_t)
    (spi : Nat) (hN : xfs.length ≤ 255) (fuel i : Nat) (ok : Bool) (pss : pkt_sa_state_t)
    (hi : i ≤ xfs.length) (hfuel : xfs.length - i < fuel) :
    ∃ ok1 pss1, sa_from_rule_loop encr_data xfs spi fuel i ok pss = some (ok1, pss1) ∧
      pss1.pkt_fits = pss.pkt_fits ∧
      (ok1 = true → ok = true ∧
        pss1.pkt_added = pss.pkt_added ++ rule_adds encr_data spi (i + 1) (xfs.drop i)) ∧
      ((∀ l b, pss.pkt_fits l b = true) → ok1 = ok) := by
  induction fuel generalizing i ok pss with
  | zero => omega
  | succ fuel ih =>
    unfold sa_from_rule_loop
    by_cases hlt : i < xfs.length
    · have hget : xfs[i]? = some xfs[i] := List.getElem?_eq_getElem hlt
      have hdrop : xfs.drop i = xfs[i] :: xfs.drop (i + 1) := List.drop_eq_getElem_cons hlt
      have hmod : (i + 1) % 256 = i + 1 := Nat.mod_eq_of_lt (by omega)
      simp only [hget, hmod]
      set r1 := ikev2_add_prop pss (i + 1) IKEV2_PROTO_IKE spi with hr1
      have f1 : r1.2.pkt_fits = pss.pkt_fits := pkt_try_fits pss _
      have a1 : r1.1 = true → r1.2.pkt_added = pss.pkt_added ++
          [pkt_add_t.prop (i + 1) IKEV2_PROTO_IKE spi] := pkt_try_added pss _
      obtain ⟨f2, a2, t2⟩ := add_rule_xform_spec encr_data r1.2 xfs[i]
      obtain ⟨ok1, pss1, e, f3, a3, t3⟩ := ih (i + 1)
        (ok && r1.1 && (add_rule_xform encr_data r1.2 xfs[i]).1)
        (add_rule_xform encr_data r1.2 xfs[i]).2 (by omega) (by omega)
      refine ⟨ok1, pss1, e, by rw [f3, f2, f1], ?_, ?_⟩
      · intro h
        obtain ⟨q1, q2⟩ := a3 h
        simp only [Bool.and_eq_true] at q1
        refine ⟨q1.1.1, ?_⟩
        rw [q2, a2 q1.2, a1 q1.1.2, hdrop]
        simp [rule_adds]
      · intro hfit
        have hfit1 : ∀ l b, r1.2.pkt_fits l b = true := by rw [f1]; exact hfit
        have hfit2 : ∀ l b, (add_rule_xform encr_data r1.2 xfs[i]).2.pkt_fits l b = true := by
          rw [f2]; exact hfit1
        rw [t3 hfit2, t2 hfit1]
        have e1 : r1.1 = true := pkt_try_all_fit pss _ hfit
        simp [e1]
    · have hieq : i = xfs.length := by omega
      have hget : xfs[i]? = none := by
        rw [List.getElem?_eq_none_iff]
        omega
      simp only [hget]
      refine ⟨ok, pss, rfl, rfl, ?_, fun _ => rfl⟩
      intro h
      refine ⟨h, ?_⟩
      rw [hieq, List.drop_length]
      simp [rule_adds]

theorem sa_from_rule_loop_256 (encr_data : Nat → encr_data_t) (xf : config_xf_t) (spi : Nat)
    (fuel i : Nat) (ok : Bool) (pss : pkt_sa_state_t) (hi : i < 256) :
    sa_from_rule_loop encr_data (List.replicate 256 xf) spi fuel i ok pss = none := by
  induction fuel generalizing i ok pss with
  | zero => rfl
  | succ fuel ih =>
    unfold sa_from_rule_loop
    have hget : (List.replicate 256 xf)[i]? = some xf := by
      rw [List.getElem?_replicate]
      simp [hi]
    simp only [hget]
    exact ih _ _ _ (Nat.mod_lt _ (by decide))

/-- C7, counterexample. With a rule list of 256 entries, on a message on which
every addition succeeds, the loop of `ikev2_sa_from_rule` is still running
after any number of iterations: the `uint8_t` counter wraps from 255 to 0 and
never reaches the terminating NULL. And with one rule entry on a message that
has room for the SA payload header only, the function returns failure and has
added no proposal. -/
theorem ikev2_sa_from_rule_256_entries_or_full_buffer :
    (∀ fuel, ikev2_sa_from_rule encr_data_example fuel pkt_empty
      { rule_xf := List.replicate 256 example_xf_cbc } 0 = none) ∧
    (ikev2_sa_from_rule encr_data_example 2 pkt_header_only
      { rule_xf := [example_xf_cbc] } 0).map (fun r => (r.1, r.2.pkt_added)) =
      some (false, [pkt_add_t.sa]) := by
  constructor
  · intro fuel
    simp only [ikev2_sa_from_rule, ikev2_add_sa, pkt_try, pkt_empty, if_true]
    exact sa_from_rule_loop_256 _ _ _ _ _ _ _ (by decide)
  · decide

theorem ikev2_sa_from_rule_spec (encr_data : Nat → encr_data_t) (fuel : Nat) (pkt : pkt_t)
    (rule : config_rule_t) (spi : Nat)
    (hN : rule.rule_xf.length ≤ 255) (hfuel : rule.rule_xf.length < fuel) :
    ∃ ok pkt1, ikev2_sa_from_rule encr_data fuel pkt rule spi = some (ok, pkt1) ∧
      (ok = true → pkt1.pkt_added =
        pkt.pkt_added ++ pkt_add_t.sa :: rule_adds encr_data spi 1 rule.rule_xf) ∧
      ((∀ l b, pkt.pkt_fits l b = true) → ok = true) := by
  have f0 : (ikev2_add_sa pkt).2.pkt_fits = pkt.pkt_fits := pkt_try_fits pkt _
  have a0 : (ikev2_add_sa pkt).1 = true →
      (ikev2_add_sa pkt).2.pkt_added = pkt.pkt_added ++ [pkt_add_t.sa] := pkt_try_added pkt _
  have t0 : (∀ l b, pkt.pkt_fits l b = true) → (ikev2_add_sa pkt).1 = true :=
    pkt_try_all_fit pkt _
  obtain ⟨ok1, pss1, e, -, a1, t1⟩ := sa_from_rule_loop_spec encr_data rule.rule_xf spi hN
    fuel 0 true (ikev2_add_sa pkt).2 (Nat.zero_le _) (by omega)
  unfold ikev2_sa_from_rule
  rcases hr : ikev2_add_sa pkt with ⟨b, p⟩
  rw [hr] at e a0 t0 f0 a1 t1
  simp only at e a0 t0 f0 a1 t1
  cases b
  · exact ⟨false, p, rfl, by simp, fun hfit => t0 hfit⟩
  · refine ⟨ok1, pss1, e, ?_, ?_⟩
    · intro h
      obtain ⟨-, q⟩ := a1 h
      rw [q, a0 rfl]
      simp
    · intro hfit
      exact t1 (by rw [f0]; exact hfit)

/-- C7, as amended. For a rule list of N ≤ 255 entries `ikev2_sa_from_rule`
returns (any fuel above N is enough). When it returns success, which it does
when every addition succeeds, it has added the SA payload header followed, for
the i-th entry (i = 1..N), by a proposal with number i, protocol type IKE and
the given SPI and then the entry's transforms in the order ENCR, AUTH (unless
the mode is combined), DH, and the five PRFs: in all exactly N proposals,
numbered 1..N. -/
theorem ikev2_sa_from_rule_adds (encr_data : Nat → encr_data_t) (fuel : Nat) (pkt : pkt_t)
    (rule : config_rule_t) (spi : Nat)
    (hN : rule.rule_xf.length ≤ 255) (hfuel : rule.rule_xf.length < fuel) :
    ∃ ok pkt1, ikev2_sa_from_rule encr_data fuel pkt rule spi = some (ok, pkt1) ∧
      (ok = true → pkt1.pkt_added =
        pkt.pkt_added ++ pkt_add_t.sa :: rule_adds encr_data spi 1 rule.rule_xf) ∧
      ((∀ l b, pkt.pkt_fits l b = true) → ok = true) ∧
      (rule_adds encr_data spi 1 rule.rule_xf).filter pkt_add_is_prop =
        (List.range rule.rule_xf.length).map
          (fun i => pkt_add_t.prop (1 + i) IKEV2_PROTO_IKE spi) := by
  obtain ⟨ok, pkt1, h1, h2, h3⟩ := ikev2_sa_from_rule_spec encr_data fuel pkt rule spi hN hfuel
  exact ⟨ok, pkt1, h1, h2, h3, rule_adds_props encr_data spi 1 rule.rule_xf⟩

/-- C7, witness: two rule entries on a message on which every addition
succeeds. -/
theorem ikev2_sa_from_rule_adds_witness :
    ∃ ok pkt1, ikev2_sa_from_rule encr_data_example 3 pkt_empty
        { rule_xf := [example_xf_cbc, example_xf_gcm] } 7 = some (ok, pkt1) ∧
      (ok = true → pkt1.pkt_added = pkt_empty.pkt_added ++ pkt_add_t.sa ::
        rule_adds encr_data_example 7 1 [example_xf_cbc, example_xf_gcm]) ∧
      ((∀ l b, pkt_empty.pkt_fits l b = true) → ok = true) ∧
      (rule_adds encr_data_example 7 1 [example_xf_cbc, example_xf_gcm]).filter
        pkt_add_is_prop =
        (List.range 2).map (fun i => pkt_add_t.prop (1 + i) IKEV2_PROTO_IKE 7) :=
  ikev2_sa_from_rule_adds encr_data_example 3 pkt_empty
    { rule_xf := [example_xf_cbc, example_xf_gcm] } 7 (by decide) (by decide)

/-! ## Round trip from the builder to the rule matcher -/

theorem list_map_last_append {α : Type} (f : α → α) (l : List α) (x : α) :
    list_map_last f (l ++ [x]) = l ++ [f x] := by
  induction l with
  | nil => rfl
  | cons y rest ih =>
    cases rest with
    | nil => rfl
    | cons z rest2 =>
      have h : list_map_last f (y :: z :: (rest2 ++ [x])) =
          y :: list_map_last f (z :: (rest2 ++ [x])) := rfl
      rw [List.cons_append, List.cons_append, h]
      rw [List.cons_append] at ih
      rw [ih]
      rfl

theorem pkt_payload_rule_xf_adds (encr_wire : Nat → Nat → Nat → List ikev2_transform_t)
    (encr_data : Nat → encr_data_t) (spi n : Nat) (xf : config_xf_t)
    (st : List ikev2_sa_proposal_t) :
    (pkt_add_t.prop n IKEV2_PROTO_IKE spi :: rule_xf_adds encr_data xf).foldl
      (pkt_payload_step encr_wire) st = st ++ [rule_prop encr_wire encr_data spi n xf] := by
  unfold rule_xf_adds rule_prop
  cases hc : MODE_IS_COMBINED (encr_data xf.xf_encr).ed_mode <;>
    simp [pkt_payload_step, list_map_last_append, prf_supported, hc]

theorem pkt_payload_rule_adds (encr_wire : Nat → Nat → Nat → List ikev2_transform_t)
    (encr_data : Nat → encr_data_t) (spi n : Nat) (xfs : List config_xf_t)
    (st : List ikev2_sa_proposal_t) :
    (rule_adds encr_data spi n xfs).foldl (pkt_payload_step encr_wire) st =
      st ++ rule_props encr_wire encr_data spi n xfs := by
  induction xfs generalizing n st with
  | nil => simp [rule_adds, rule_props]
  | cons xf rest ih =>
    have h := pkt_payload_rule_xf_adds encr_wire encr_data spi n xf st
    rw [List.foldl_cons] at h
    simp only [rule_adds, rule_props, List.foldl_cons, List.foldl_append, h, ih]
    simp

theorem pkt_payload_built (encr_wire : Nat → Nat → Nat → List ikev2_transform_t)
    (encr_data : Nat → encr_data_t) (spi : Nat) (xfs : List config_xf_t)
    (before : List pkt_add_t) :
    pkt_payload encr_wire (before ++ pkt_add_t.sa :: rule_adds encr_data spi 1 xfs) =
      rule_props encr_wire encr_data spi 1 xfs := by
  unfold pkt_payload
  rw [List.foldl_append, List.foldl_cons]
  simp only [pkt_payload_step]
  rw [pkt_payload_rule_adds]
  simp

theorem xfs_have_append (cfg : config_xf_t) (prf : Nat) (l1 l2 : List ikev2_transform_t)
    (t : Nat) :
    xfs_have cfg prf (l1 ++ l2) t = (xfs_have cfg prf l1 t || xfs_have cfg prf l2 t) := by
  simp [xfs_have, List.any_append]

theorem encr_wire_ok_acceptable (encr_wire : Nat → Nat → Nat → List ikev2_transform_t)
    (xf : config_xf_t) (prf : Nat) (hW : encr_wire_ok encr_wire xf) :
    (∀ t ∈ encr_wire xf.xf_encr xf.xf_minbits xf.xf_maxbits, xf_type_ike t.xf_type = true) ∧
    xfs_have xf prf (encr_wire xf.xf_encr xf.xf_minbits xf.xf_maxbits) IKEV2_XF_ENCR = true ∧
    xf.xf_minbits ≤ (encr_wire xf.xf_encr xf.xf_minbits xf.xf_maxbits).foldl
      (fun k t => xf_keylen xf t k) 0 ∧
    (encr_wire xf.xf_encr xf.xf_minbits xf.xf_maxbits).foldl
      (fun k t => xf_keylen xf t k) 0 ≤ xf.xf_maxbits := by
  obtain ⟨hne, hall⟩ := hW
  generalize encr_wire xf.xf_encr xf.xf_minbits xf.xf_maxbits = W at hne hall
  have hstep : ∀ t ∈ W, ∀ k, (xf.xf_minbits ≤ k ∧ k ≤ xf.xf_maxbits) ∨ k = 0 →
      xf.xf_minbits ≤ xf_keylen xf t k ∧ xf_keylen xf t k ≤ xf.xf_maxbits := by
    intro t ht k hk
    obtain ⟨e1, e2, e3⟩ := hall t ht
    rcases e3 with ⟨e3, e4⟩ | ⟨a, e3, e4, e5, e6⟩
    · have : xf_keylen xf t k = k := by simp [xf_keylen, e3, attrs_keylen]
      rw [this]
      rcases hk with hk | hk
      · exact hk
      · subst hk
        omega
    · have : xf_keylen xf t k = a.attr_length := by
        simp [xf_keylen, e1, e2, e3, attrs_keylen, e4, e5, e6]
      rw [this]
      exact ⟨e5, e6⟩
  have hfold : ∀ (l : List ikev2_transform_t), (∀ t ∈ l, t ∈ W) → ∀ k,
      (xf.xf_minbits ≤ k ∧ k ≤ xf.xf_maxbits) →
      xf.xf_minbits ≤ l.foldl (fun k t => xf_keylen xf t k) k ∧
      l.foldl (fun k t => xf_keylen xf t k) k ≤ xf.xf_maxbits := by
    intro l
    induction l with
    | nil => intro _ k hk; simpa using hk
    | cons t rest ih =>
      intro hl k hk
      rw [List.foldl_cons]
      exact ih (fun u hu => hl u (List.mem_cons_of_mem _ hu)) _
        (hstep t (hl t (List.mem_cons_self _ _)) k (Or.inl hk))
  refine ⟨?_, ?_, ?_⟩
  · intro t ht
    simp [xf_type_ike, (hall t ht).1]
  · cases W with
    | nil => exact absurd rfl hne
    | cons t rest =>
      obtain ⟨e1, e2, e3⟩ := hall t (List.mem_cons_self _ _)
      have hacc : xf_acceptable xf prf t = true := by
        rcases e3 with ⟨e3, -⟩ | ⟨a, e3, e4, e5, e6⟩
        · simp [xf_acceptable, e1, e2, e3]
        · simp [xf_acceptable, e1, e2, e3, attrs_keylen, e4, e5, e6]
      simp [xfs_have, e1, hacc]
  · cases W with
    | nil => exact absurd rfl hne
    | cons t rest =>
      rw [List.foldl_cons]
      exact hfold rest (fun u hu => List.mem_cons_of_mem _ hu) _
        (hstep t (List.mem_cons_self _ _) 0 (Or.inr rfl))

theorem xf_keylen_fold_other (cfg : config_xf_t) (l : List ikev2_transform_t) (k : Nat)
    (h : ∀ t ∈ l, t.xf_type ≠ IKEV2_XF_ENCR) :
    l.foldl (fun k t => xf_keylen cfg t k) k = k := by
  induction l generalizing k with
  | nil => rfl
  | cons t rest ih =>
    rw [List.foldl_cons, ih _ (fun u hu => h u (List.mem_cons_of_mem _ hu))]
    simp [xf_keylen, h t (List.mem_cons_self _ _)]

theorem rule_prop_accepted (encr_wire : Nat → Nat → Nat → List ikev2_transform_t)
    (encr_data : Nat → encr_data_t) (spi n : Nat) (xf : config_xf_t)
    (hW : encr_wire_ok encr_wire xf) :
    prop_acceptable encr_data xf IKEV2_PRF_HMAC_SHA2_512
      (rule_prop encr_wire encr_data spi n xf) = true ∧
    (match_rule_prop_walk (rule_prop encr_wire encr_data spi n xf)
      (rule_data_init xf IKEV2_PRF_HMAC_SHA2_512)).rd_res.sar_encr = xf.xf_encr ∧
    (MODE_IS_COMBINED (encr_data xf.xf_encr).ed_mode = false →
      (match_rule_prop_walk (rule_prop encr_wire encr_data spi n xf)
        (rule_data_init xf IKEV2_PRF_HMAC_SHA2_512)).rd_res.sar_auth = xf.xf_auth) ∧
    (match_rule_prop_walk (rule_prop encr_wire encr_data spi n xf)
      (rule_data_init xf IKEV2_PRF_HMAC_SHA2_512)).rd_res.sar_dh = xf.xf_dh ∧
    (match_rule_prop_walk (rule_prop encr_wire encr_data spi n xf)
      (rule_data_init xf IKEV2_PRF_HMAC_SHA2_512)).rd_res.sar_prf =
      IKEV2_PRF_HMAC_SHA2_512 ∧
    xf.xf_minbits ≤ (match_rule_prop_walk (rule_prop encr_wire encr_data spi n xf)
      (rule_data_init xf IKEV2_PRF_HMAC_SHA2_512)).rd_res.sar_encr_keylen ∧
    (match_rule_prop_walk (rule_prop encr_wire encr_data spi n xf)
      (rule_data_init xf IKEV2_PRF_HMAC_SHA2_512)).rd_res.sar_encr_keylen ≤ xf.xf_maxbits := by
  obtain ⟨w1, w2, w3, w4⟩ := encr_wire_ok_acceptable encr_wire xf IKEV2_PRF_HMAC_SHA2_512 hW
  set W := encr_wire xf.xf_encr xf.xf_minbits xf.xf_maxbits with hWdef
  set tail : List ikev2_transform_t :=
    (if MODE_IS_COMBINED (encr_data xf.xf_encr).ed_mode then []
      else [{ xf_type := IKEV2_XF_AUTH, xf_id := xf.xf_auth, attrs := [] }]) ++
    ({ xf_type := IKEV2_XF_DH, xf_id := xf.xf_dh, attrs := [] } ::
      prf_supported.map (fun prf =>
        ({ xf_type := IKEV2_XF_PRF, xf_id := prf, attrs := [] } : ikev2_transform_t)))
    with htail
  have hxfs : (rule_prop encr_wire encr_data spi n xf).xfs = W ++ tail := rfl
  have htail_ike : ∀ t ∈ tail, xf_type_ike t.xf_type = true := by
    have : tail.all (fun t => xf_type_ike t.xf_type) = true := by
      rw [htail]
      split_ifs <;>
        simp [prf_supported, xf_type_ike, IKEV2_XF_PRF, IKEV2_XF_ENCR, IKEV2_XF_AUTH,
          IKEV2_XF_DH]
    simpa [List.all_eq_true] using this
  have htail_ne : ∀ t ∈ tail, t.xf_type ≠ IKEV2_XF_ENCR := by
    have : tail.all (fun t => decide (t.xf_type ≠ IKEV2_XF_ENCR)) = true := by
      rw [htail]
      split_ifs <;>
        simp [prf_supported, IKEV2_XF_PRF, IKEV2_XF_ENCR, IKEV2_XF_AUTH, IKEV2_XF_DH]
    simpa [List.all_eq_true] using this
  have hall : ∀ t ∈ (rule_prop encr_wire encr_data spi n xf).xfs,
      xf_type_ike t.xf_type = true := by
    intro t ht
    rw [hxfs, List.mem_append] at ht
    rcases ht with ht | ht
    · exact w1 t ht
    · exact htail_ike t ht
  have hE : xfs_have xf IKEV2_PRF_HMAC_SHA2_512 (W ++ tail) IKEV2_XF_ENCR = true := by
    rw [xfs_have_append, w2]
    rfl
  have hP : xfs_have xf IKEV2_PRF_HMAC_SHA2_512 (W ++ tail) IKEV2_XF_PRF = true := by
    rw [xfs_have_append, htail, xfs_have_append]
    simp [xfs_have, prf_supported, xf_acceptable, IKEV2_XF_PRF, IKEV2_XF_ENCR, IKEV2_XF_AUTH,
      IKEV2_XF_DH]
  have hD : xfs_have xf IKEV2_PRF_HMAC_SHA2_512 (W ++ tail) IKEV2_XF_DH = true := by
    rw [xfs_have_append, htail, xfs_have_append]
    simp [xfs_have, prf_supported, xf_acceptable, IKEV2_XF_PRF, IKEV2_XF_ENCR, IKEV2_XF_AUTH,
      IKEV2_XF_DH]
  have hA : MODE_IS_COMBINED (encr_data xf.xf_encr).ed_mode = false →
      xfs_have xf IKEV2_PRF_HMAC_SHA2_512 (W ++ tail) IKEV2_XF_AUTH = true := by
    intro hc
    rw [xfs_have_append, htail, xfs_have_append]
    simp [xfs_have, prf_supported, xf_acceptable, IKEV2_XF_PRF, IKEV2_XF_ENCR, IKEV2_XF_AUTH,
      IKEV2_XF_DH, hc]
  have hs : (rule_data_init xf IKEV2_PRF_HMAC_SHA2_512).rd_skip = false := rfl
  have hwalk : ∀ p, match_rule_prop_walk p (rule_data_init xf IKEV2_PRF_HMAC_SHA2_512) =
      ikev2_walk match_rule_xf_cb p.xfs (rule_data_init xf IKEV2_PRF_HMAC_SHA2_512) :=
    fun _ => rfl
  obtain ⟨-, b2, b3⟩ := walk_xfs_ike _ _ hs hall
  obtain ⟨c1, c2, c3, -⟩ := walk_xfs_ike_ids _ _ hs hall
  rw [← hwalk] at b2 b3 c1 c2 c3
  dsimp only [rule_data_init] at b2 b3 c1 c2 c3
  rw [hxfs] at b2 b3 c1 c2 c3
  have hE' := hE
  unfold xfs_have at hE'
  rw [hE', if_pos rfl] at b2
  rw [hP, if_pos rfl] at c2
  rw [hD, if_pos rfl] at c3
  rw [List.foldl_append, xf_keylen_fold_other xf tail _ htail_ne] at b3
  have hz : sa_result_zero.sar_encr_keylen = 0 := rfl
  rw [hz] at b3
  refine ⟨?_, ?_, ?_, ?_, ?_, ?_, ?_⟩
  · have hall' : (rule_prop encr_wire encr_data spi n xf).xfs.all
        (fun t => xf_type_ike t.xf_type) = true := by
      rw [List.all_eq_true]
      exact hall
    have hp : (rule_prop encr_wire encr_data spi n xf).proto_protoid = IKEV2_PROTO_IKE := rfl
    unfold prop_acceptable
    rw [hall', hxfs, hE, hP, hD, hp]
    cases hc : MODE_IS_COMBINED (encr_data xf.xf_encr).ed_mode
    · rw [hA hc]
      rfl
    · rfl
  · exact b2
  · intro hc
    rw [hA hc, if_pos rfl] at c1
    exact c1
  · exact c3
  · exact c2
  · have h := w3
    rw [← b3] at h
    exact h
  · have h := w4
    rw [← b3] at h
    exact h

/-- C2, counterexample. With a rule list of 256 entries `ikev2_sa_from_rule`
never returns, so there is no payload to match. And for the single rule entry
AES-CBC with the empty key-length range [256,128] the build succeeds, but the
matcher run with the same rule on the payload read back from it reports no
match. -/
theorem ikev2_sa_from_rule_roundtrip_fails :
    (∀ fuel, ikev2_sa_from_rule encr_data_example fuel pkt_empty
      { rule_xf := List.replicate 256 example_xf_gcm } 1 = none) ∧
    (ikev2_sa_from_rule encr_data_example 2 pkt_empty
      { rule_xf := [example_xf_empty_range] } 1).map
      (fun r => (r.1, (ikev2_sa_match_rule encr_data_example
        { rule_xf := [example_xf_empty_range] }
        (pkt_payload encr_wire_example r.2.pkt_added) sa_result_zero).1)) =
      some (true, false) := by
  constructor
  · intro fuel
    simp only [ikev2_sa_from_rule, ikev2_add_sa, pkt_try, pkt_empty, if_true]
    exact sa_from_rule_loop_256 _ _ _ _ _ _ _ (by decide)
  · decide

/-- C2, as amended. For a rule list of 1 to 255 entries `ikev2_sa_from_rule`
returns, with success when every addition succeeds. When it returns success
and the wire form of the first entry's encryption transform is faithful to the
entry, `ikev2_sa_match_rule` run with the same rule list on the payload read
back from the message returns true, and the result has the first entry's
encryption, authentication (unless the mode is combined) and DH identifiers, a
key length within the first entry's range, the PRF HMAC-SHA2-512, proposal
number 1, protocol type IKE and the SPI given to the builder. -/
theorem ikev2_sa_from_rule_match_rule_roundtrip
    (encr_wire : Nat → Nat → Nat → List ikev2_transform_t)
    (encr_data : Nat → encr_data_t) (fuel : Nat) (pkt : pkt_t) (rule : config_rule_t)
    (spi : Nat) (result : ikev2_sa_result_t) (xf1 : config_xf_t) (rest : List config_xf_t)
    (hrule : rule.rule_xf = xf1 :: rest)
    (hN : rule.rule_xf.length ≤ 255) (hfuel : rule.rule_xf.length < fuel)
    (hW : encr_wire_ok encr_wire xf1) :
    ∃ ok pkt1, ikev2_sa_from_rule encr_data fuel pkt rule spi = some (ok, pkt1) ∧
      ((∀ l b, pkt.pkt_fits l b = true) → ok = true) ∧
      (ok = true → ∃ res,
        ikev2_sa_match_rule encr_data rule (pkt_payload encr_wire pkt1.pkt_added) result =
          (true, res) ∧
        res.sar_encr = xf1.xf_encr ∧
        (MODE_IS_COMBINED (encr_data xf1.xf_encr).ed_mode = false →
          res.sar_auth = xf1.xf_auth) ∧
        res.sar_dh = xf1.xf_dh ∧
        xf1.xf_minbits ≤ res.sar_encr_keylen ∧ res.sar_encr_keylen ≤ xf1.xf_maxbits ∧
        res.sar_prf = IKEV2_PRF_HMAC_SHA2_512 ∧ res.sar_propnum = 1 ∧
        res.sar_proto = IKEV2_PROTO_IKE ∧ res.sar_spi = spi) := by
  obtain ⟨ok, pkt1, h1, h2, h3⟩ := ikev2_sa_from_rule_spec encr_data fuel pkt rule spi hN hfuel
  refine ⟨ok, pkt1, h1, h3, fun hok => ?_⟩
  have hpay : pkt_payload encr_wire pkt1.pkt_added =
      rule_prop encr_wire encr_data spi 1 xf1 ::
        rule_props encr_wire encr_data spi 2 rest := by
    rw [h2 hok, pkt_payload_built, hrule]
    rfl
  obtain ⟨acc, r1, r2, r3, r4, r5, r6⟩ := rule_prop_accepted encr_wire encr_data spi 1 xf1 hW
  have hp : (rule_prop encr_wire encr_data spi 1 xf1).proto_protoid = IKEV2_PROTO_IKE := rfl
  have hpm : pair_matches encr_data xf1 IKEV2_PRF_HMAC_SHA2_512
      (pkt_payload encr_wire pkt1.pkt_added) = true := by
    rw [hpay]
    simp [pair_matches, List.takeWhile_cons, hp, acc]
  have hfind : (rule_pairs rule).find?
      (fun cp => pair_matches encr_data cp.1 cp.2 (pkt_payload encr_wire pkt1.pkt_added)) =
      some (xf1, IKEV2_PRF_HMAC_SHA2_512) := by
    simp [rule_pairs, hrule, prf_supported, List.find?_cons, hpm]
  have hfirst := ikev2_sa_match_rule_first_pair encr_data rule
    (pkt_payload encr_wire pkt1.pkt_added) result
  rw [hfind] at hfirst
  simp only at hfirst
  have hcb := match_rule_prop_cb_accept encr_data (rule_prop encr_wire encr_data spi 1 xf1)
    (rule_data_init xf1 IKEV2_PRF_HMAC_SHA2_512) hp acc
  have hpair : match_rule_pair encr_data xf1 IKEV2_PRF_HMAC_SHA2_512
      (pkt_payload encr_wire pkt1.pkt_added) =
      (match_rule_prop_cb encr_data (rule_prop encr_wire encr_data spi 1 xf1)
        (rule_data_init xf1 IKEV2_PRF_HMAC_SHA2_512)).2 := by
    rw [hpay]
    unfold match_rule_pair
    rw [ikev2_walk_cons, hcb]
    simp
  rw [hpair, hcb] at hfirst
  exact ⟨_, hfirst, r1, r2, r3, r5, r6, r4, rfl, rfl, rfl⟩

/-- C2, witness: the rule list AES-CBC [128,256] / HMAC-SHA1-96 / MODP-2048,
then AES-GCM-16, on a message on which every addition succeeds, with the
example wire form. -/
theorem ikev2_sa_from_rule_match_rule_roundtrip_witness :
    ∃ ok pkt1, ikev2_sa_from_rule encr_data_example 3 pkt_empty
        { rule_xf := [example_xf_cbc, example_xf_gcm] } 7 = some (ok, pkt1) ∧
      ((∀ l b, pkt_empty.pkt_fits l b = true) → ok = true) ∧
      (ok = true → ∃ res,
        ikev2_sa_match_rule encr_data_example { rule_xf := [example_xf_cbc, example_xf_gcm] }
          (pkt_payload encr_wire_example pkt1.pkt_added) sa_result_zero = (true, res) ∧
        res.sar_encr = example_xf_cbc.xf_encr ∧
        (MODE_IS_COMBINED (encr_data_example example_xf_cbc.xf_encr).ed_mode = false →
          res.sar_auth = example_xf_cbc.xf_auth) ∧
        res.sar_dh = example_xf_cbc.xf_dh ∧
        example_xf_cbc.xf_minbits ≤ res.sar_encr_keylen ∧
        res.sar_encr_keylen ≤ example_xf_cbc.xf_maxbits ∧
        res.sar_prf = IKEV2_PRF_HMAC_SHA2_512 ∧ res.sar_propnum = 1 ∧
        res.sar_proto = IKEV2_PROTO_IKE ∧ res.sar_spi = 7) :=
  ikev2_sa_from_rule_match_rule_roundtrip encr_wire_example encr_data_example 3 pkt_empty
    { rule_xf := [example_xf_cbc, example_xf_gcm] } 7 sa_result_zero example_xf_cbc
    [example_xf_gcm] rfl (by decide) (by decide)
    ⟨by decide, by
      intro t ht
      simp only [encr_wire_example, example_xf_cbc] at ht
      simp at ht
      rcases ht with rfl | rfl
      · exact ⟨rfl, rfl, Or.inr ⟨_, rfl, by decide, by decide, by decide⟩⟩
      · exact ⟨rfl, rfl, Or.inr ⟨_, rfl, by decide, by decide, by decide⟩⟩⟩

/-! ## The acquire matcher on ESP proposals -/

/-- The transform walk of the acquire matcher never flags ENCR when it starts
from an empty result: the ENCR case of `match_acq_xf_cb` leaves `match` false. -/
theorem walk_acq_xfs_no_encr (xfs : List ikev2_transform_t) (data : acquire_data_s)
    (hz : data.ad_res = sa_result_zero) :
    SA_RESULT_HAS (ikev2_walk match_acq_xf_cb xfs data).ad_res IKEV2_XF_ENCR = false := by
  obtain ⟨-, -, -, -, w5⟩ := walk_acq_xfs xfs data
  rw [SA_RESULT_HAS_eq_testBit]
  by_contra hne
  rw [Bool.not_eq_false] at hne
  rcases w5 _ hne with h | ⟨xf, -, e1, e2⟩
  · simp [hz, sa_result_zero] at h
  · simp [acq_xf_matches, e1, IKEV2_XF_ENCR, IKEV2_XF_AUTH, IKEV2_XF_PRF, IKEV2_XF_DH,
      IKEV2_XF_ESN] at e2

/-- C11. The proposal visitor of the acquire matcher accepts no ESP proposal:
for every cookie whose target protocol type is ESP and every ESP proposal it
returns true (go on with the next proposal) with ENCR not flagged in the
result, since `match_acq_xf_cb` never counts an ENCR transform as a match. At
the failing input (ESP acquire with one combination with encryption algorithm
12 and no authentication algorithm, no DH group requested, payload of one ESP
proposal with ENCR = 12 and ESN = NONE) the visitor returns true with ESN
flagged, ENCR not flagged and `ad_match` false, and `ikev2_sa_match_acquire`
returns false. -/
theorem ikev2_sa_match_acquire_esp_never_accepted :
    (∀ (prop : ikev2_sa_proposal_t) (data : acquire_data_s),
      data.ad_spitype = IKEV2_PROTO_ESP → prop.proto_protoid = IKEV2_PROTO_ESP →
      ∃ data1, match_acq_prop_cb prop data = some (true, data1) ∧
        SA_RESULT_HAS data1.ad_res IKEV2_XF_ENCR = false) ∧
    (match_acq_prop_cb example_prop_esp_encr
      (acquire_data_init example_comb_esp IKEV2_PROTO_ESP IKEV2_DH_NONE)).map
      (fun r => (r.1, SA_RESULT_HAS r.2.ad_res IKEV2_XF_ENCR,
        SA_RESULT_HAS r.2.ad_res IKEV2_XF_ESN, r.2.ad_match)) =
      some (true, false, true, false) ∧
    (ikev2_sa_match_acquire
      { sadb_msg_type := SADB_ACQUIRE, sadb_msg_satype := SADB_SATYPE_ESP,
        combs := [example_comb_esp] }
      IKEV2_DH_NONE [example_prop_esp_encr] sa_result_zero).map Prod.fst = some false := by
  refine ⟨?_, by decide, by decide⟩
  intro prop data hs hp
  have he := walk_acq_xfs_no_encr prop.xfs
    { data with ad_res := sa_result_zero, ad_skip := false } rfl
  obtain ⟨-, w2, -, -, -⟩ := walk_acq_xfs prop.xfs
    { data with ad_res := sa_result_zero, ad_skip := false }
  dsimp only at w2
  unfold match_acq_prop_cb
  generalize ikev2_walk match_acq_xf_cb prop.xfs
    { data with ad_res := sa_result_zero, ad_skip := false } = d1 at *
  rw [hs] at w2
  by_cases hsk : d1.ad_skip = true
  · simp [hp, hs, hsk, he]
  · simp [hp, hs, hsk, he, w2]

/-! ## The result the rule matcher returns -/

theorem sa_result_ext (a b : ikev2_sa_result_t)
    (h1 : a.sar_proto = b.sar_proto) (h2 : a.sar_spi = b.sar_spi)
    (h3 : a.sar_propnum = b.sar_propnum) (h4 : a.sar_encr = b.sar_encr)
    (h5 : a.sar_encr_keylen = b.sar_encr_keylen) (h6 : a.sar_auth = b.sar_auth)
    (h7 : a.sar_prf = b.sar_prf) (h8 : a.sar_dh = b.sar_dh) (h9 : a.sar_esn = b.sar_esn)
    (h10 : ∀ t, a.sar_match.testBit t = b.sar_match.testBit t) : a = b := by
  have h11 : a.sar_match = b.sar_match := Nat.eq_of_testBit_eq h10
  cases a
  cases b
  simp_all

/-- Every field of the result that `match_rule_prop_cb` leaves when it accepts
a proposal, in terms of the proposal and of the (rule entry, PRF) pair of the
cookie only. -/
theorem match_rule_prop_cb_accept_fields (encr_data : Nat → encr_data_t)
    (prop : ikev2_sa_proposal_t) (data : rule_data_s)
    (ha : prop_acceptable encr_data data.rd_xf data.rd_prf prop = true) :
    (match_rule_prop_cb encr_data prop data).1 = false ∧
    (match_rule_prop_cb encr_data prop data).2.rd_match = true ∧
    (match_rule_prop_cb encr_data prop data).2.rd_res.sar_proto = IKEV2_PROTO_IKE ∧
    (match_rule_prop_cb encr_data prop data).2.rd_res.sar_spi = prop.spi ∧
    (match_rule_prop_cb encr_data prop data).2.rd_res.sar_propnum = prop.proto_proposalnr ∧
    (match_rule_prop_cb encr_data prop data).2.rd_res.sar_encr = data.rd_xf.xf_encr ∧
    (match_rule_prop_cb encr_data prop data).2.rd_res.sar_encr_keylen =
      prop.xfs.foldl (fun k xf => xf_keylen data.rd_xf xf k) 0 ∧
    (match_rule_prop_cb encr_data prop data).2.rd_res.sar_auth =
      (if xfs_have data.rd_xf data.rd_prf prop.xfs IKEV2_XF_AUTH then data.rd_xf.xf_auth
       else 0) ∧
    (match_rule_prop_cb encr_data prop data).2.rd_res.sar_prf = data.rd_prf ∧
    (match_rule_prop_cb encr_data prop data).2.rd_res.sar_dh = data.rd_xf.xf_dh ∧
    (match_rule_prop_cb encr_data prop data).2.rd_res.sar_esn = 0 ∧
    (∀ t, (match_rule_prop_cb encr_data prop data).2.rd_res.sar_match.testBit t =
      xfs_have data.rd_xf data.rd_prf prop.xfs t) := by
  have hp : prop.proto_protoid = IKEV2_PROTO_IKE := by
    simp only [prop_acceptable, Bool.and_eq_true, decide_eq_true_eq] at ha
    exact ha.1.1.1.1.1
  rw [match_rule_prop_cb_accept encr_data prop data hp ha]
  have hs : ({ data with rd_res := sa_result_zero, rd_skip := false,
                         rd_has_auth := false } : rule_data_s).rd_skip = false := rfl
  have hz : ∀ t, sa_result_zero.sar_match.testBit t = false := fun t => Nat.zero_testBit t
  simp only [prop_acceptable, Bool.and_eq_true, Bool.or_eq_true, decide_eq_true_eq,
    List.all_eq_true] at ha
  obtain ⟨⟨⟨⟨⟨-, hall⟩, a1⟩, a2⟩, a3⟩, -⟩ := ha
  obtain ⟨b1, b2, b3⟩ := walk_xfs_ike prop.xfs _ hs hall
  obtain ⟨c1, c2, c3, -, -, -, c7⟩ := walk_xfs_ike_ids prop.xfs _ hs hall
  dsimp only at b1 b2 b3 c1 c2 c3 c7
  simp only [hz, Bool.false_or] at b1
  unfold match_rule_prop_walk
  generalize ikev2_walk match_rule_xf_cb prop.xfs
    { data with rd_res := sa_result_zero, rd_skip := false, rd_has_auth := false } = d1 at *
  have a1' := a1
  unfold xfs_have at a1'
  refine ⟨rfl, rfl, hp, rfl, rfl, ?_, ?_, ?_, ?_, ?_, ?_, ?_⟩
  · simp only [b2, a1', if_true]
  · simpa [sa_result_zero] using b3
  · simpa [sa_result_zero] using c1
  · simp only [c2, a2, if_true]
  · simp only [c3, a3, if_true]
  · simpa [sa_result_zero] using c7
  · intro t
    simp only [b1, xfs_have]

/-- No leak into an accepted proposal: the result `match_rule_prop_cb` leaves
when it accepts a proposal is the one it leaves when it starts from the fresh
cookie of the same (rule entry, PRF) pair. -/
theorem match_rule_prop_cb_accept_fresh (encr_data : Nat → encr_data_t)
    (prop : ikev2_sa_proposal_t) (data : rule_data_s)
    (ha : prop_acceptable encr_data data.rd_xf data.rd_prf prop = true) :
    (match_rule_prop_cb encr_data prop data).2.rd_res =
      (match_rule_prop_cb encr_data prop (rule_data_init data.rd_xf data.rd_prf)).2.rd_res := by
  obtain ⟨-, -, a3, a4, a5, a6, a7, a8, a9, a10, a11, a12⟩ :=
    match_rule_prop_cb_accept_fields encr_data prop data ha
  obtain ⟨-, -, b3, b4, b5, b6, b7, b8, b9, b10, b11, b12⟩ :=
    match_rule_prop_cb_accept_fields encr_data prop (rule_data_init data.rd_xf data.rd_prf) ha
  apply sa_result_ext
  · exact a3.trans b3.symm
  · exact a4.trans b4.symm
  · exact a5.trans b5.symm
  · exact a6.trans b6.symm
  · exact a7.trans b7.symm
  · exact a8.trans b8.symm
  · exact a9.trans b9.symm
  · exact a10.trans b10.symm
  · exact a11.trans b11.symm
  · intro t
    exact (a12 t).trans (b12 t).symm

/-- The walk of the proposals for a pair the payload matches: the walk passes
over leading IKE proposals that are not acceptable and stops at the first
acceptable one, whose result, evaluated from the fresh cookie of the pair, is
the result of the walk. -/
theorem walk_props_result (encr_data : Nat → encr_data_t) (pay : List ikev2_sa_proposal_t)
    (data : rule_data_s) (hm : data.rd_match = false)
    (h : pair_matches encr_data data.rd_xf data.rd_prf pay = true) :
    ∃ pre q post, pay = pre ++ q :: post ∧
      (∀ p ∈ pre, p.proto_protoid = IKEV2_PROTO_IKE ∧
        prop_acceptable encr_data data.rd_xf data.rd_prf p = false) ∧
      prop_acceptable encr_data data.rd_xf data.rd_prf q = true ∧
      (ikev2_walk (match_rule_prop_cb encr_data) pay data).rd_res =
        (match_rule_prop_cb encr_data q (rule_data_init data.rd_xf data.rd_prf)).2.rd_res := by
  induction pay generalizing data with
  | nil => simp [pair_matches] at h
  | cons p rest ih =>
    rw [ikev2_walk_cons]
    by_cases hp : p.proto_protoid = IKEV2_PROTO_IKE
    · obtain ⟨h1, h2, h3, h4⟩ := match_rule_prop_cb_ike encr_data p data hp
      cases ha : prop_acceptable encr_data data.rd_xf data.rd_prf p
      · rw [ha, hm] at h2
        simp only [ha, Bool.not_false] at h1
        have h' : pair_matches encr_data (match_rule_prop_cb encr_data p data).2.rd_xf
            (match_rule_prop_cb encr_data p data).2.rd_prf rest = true := by
          rw [h3, h4]
          simpa [pair_matches, List.takeWhile_cons, hp, ha] using h
        obtain ⟨pre, q, post, e1, e2, e3, e4⟩ := ih _ h2 h'
        rw [h3, h4] at e2 e3 e4
        refine ⟨p :: pre, q, post, by rw [e1]; rfl, ?_, e3, ?_⟩
        · intro x hx
          rcases List.mem_cons.1 hx with hx | hx
          · subst hx
            exact ⟨hp, ha⟩
          · exact e2 x hx
        · simp only [h1, if_true]
          exact e4
      · simp only [ha, Bool.not_true] at h1
        refine ⟨[], p, rest, rfl, by simp, ha, ?_⟩
        simp only [h1]
        exact match_rule_prop_cb_accept_fresh encr_data p data ha
    · simp [pair_matches, List.takeWhile_cons, hp] at h

/-- The proposal walk for a pair over a payload of one proposal is one call of
the proposal visitor on the fresh cookie. -/
theorem match_rule_pair_single (encr_data : Nat → encr_data_t) (cfg : config_xf_t)
    (prf : Nat) (q : ikev2_sa_proposal_t) :
    match_rule_pair encr_data cfg prf [q] =
      (match_rule_prop_cb encr_data q (rule_data_init cfg prf)).2 := by
  unfold match_rule_pair
  rw [ikev2_walk_cons]
  split_ifs <;> rfl

/-- When the rule matcher returns matched, the result is that of the first
(rule entry, PRF) pair the payload matches, and it is the result of the first
acceptable proposal of the payload evaluated from the fresh cookie of the pair. -/
theorem ikev2_sa_match_rule_accepted (encr_data : Nat → encr_data_t)
    (rule : config_rule_t) (pay : List ikev2_sa_proposal_t) (result res : ikev2_sa_result_t)
    (h : ikev2_sa_match_rule encr_data rule pay result = (true, res)) :
    ∃ cfg prf pre q post,
      (rule_pairs rule).find? (fun cp => pair_matches encr_data cp.1 cp.2 pay) =
        some (cfg, prf) ∧
      pay = pre ++ q :: post ∧
      (∀ p ∈ pre, p.proto_protoid = IKEV2_PROTO_IKE ∧
        prop_acceptable encr_data cfg prf p = false) ∧
      prop_acceptable encr_data cfg prf q = true ∧
      res = (match_rule_prop_cb encr_data q (rule_data_init cfg prf)).2.rd_res := by
  have hf := ikev2_sa_match_rule_first_pair encr_data rule pay result
  cases hc : (rule_pairs rule).find? (fun cp => pair_matches encr_data cp.1 cp.2 pay) with
  | none =>
    rw [hc] at hf
    simp only at hf
    rw [h] at hf
    simp at hf
  | some cp =>
    obtain ⟨cfg, prf⟩ := cp
    rw [hc] at hf
    simp only at hf
    rw [h] at hf
    simp only [Prod.mk.injEq, true_and] at hf
    have hpm : pair_matches encr_data cfg prf pay = true := by
      have := List.find?_some hc
      simpa using this
    obtain ⟨pre, q, post, e1, e2, e3, e4⟩ :=
      walk_props_result encr_data pay (rule_data_init cfg prf) rfl hpm
    refine ⟨cfg, prf, pre, q, post, rfl, e1, e2, e3, ?_⟩
    rw [hf]
    exact e4

/-- C12. Whenever `ikev2_sa_match_rule` returns matched, there are a rule entry
`cfg` of the rule, a supported PRF `prf` (the first pair, in rule-major order,
that the payload matches) and a proposal `q` of the payload (the first one
acceptable to the pair, after IKE proposals only) such that the result records
protocol type IKE, the SPI and the number of `q`, the encryption id and the DH
group of `cfg` and the PRF `prf`, flags ENCR, PRF and DH in its match bitset,
and, unless the encryption algorithm of `cfg` is a combined mode, also flags
AUTH and records the authentication id of `cfg`. -/
theorem ikev2_sa_match_rule_result_fields (encr_data : Nat → encr_data_t)
    (rule : config_rule_t) (pay : List ikev2_sa_proposal_t) (result res : ikev2_sa_result_t)
    (h : ikev2_sa_match_rule encr_data rule pay result = (true, res)) :
    ∃ cfg prf pre q post,
      (rule_pairs rule).find? (fun cp => pair_matches encr_data cp.1 cp.2 pay) =
        some (cfg, prf) ∧
      cfg ∈ rule.rule_xf ∧ prf ∈ prf_supported ∧
      pay = pre ++ q :: post ∧
      (∀ p ∈ pre, p.proto_protoid = IKEV2_PROTO_IKE ∧
        prop_acceptable encr_data cfg prf p = false) ∧
      prop_acceptable encr_data cfg prf q = true ∧
      res.sar_proto = IKEV2_PROTO_IKE ∧ res.sar_spi = q.spi ∧
      res.sar_propnum = q.proto_proposalnr ∧
      res.sar_encr = cfg.xf_encr ∧ res.sar_dh = cfg.xf_dh ∧ res.sar_prf = prf ∧
      SA_RESULT_HAS res IKEV2_XF_ENCR = true ∧ SA_RESULT_HAS res IKEV2_XF_PRF = true ∧
      SA_RESULT_HAS res IKEV2_XF_DH = true ∧
      (MODE_IS_COMBINED (encr_data cfg.xf_encr).ed_mode = false →
        SA_RESULT_HAS res IKEV2_XF_AUTH = true ∧ res.sar_auth = cfg.xf_auth) := by
  obtain ⟨cfg, prf, pre, q, post, e0, e1, e2, e3, e4⟩ :=
    ikev2_sa_match_rule_accepted encr_data rule pay result res h
  have hmem : (cfg, prf) ∈ rule_pairs rule := List.mem_of_find?_eq_some e0
  have hmem2 : cfg ∈ rule.rule_xf ∧ prf ∈ prf_supported := by
    simp only [rule_pairs, List.mem_flatMap, List.mem_map, Prod.mk.injEq] at hmem
    obtain ⟨c, hc, p, hp, rfl, rfl⟩ := hmem
    exact ⟨hc, hp⟩
  obtain ⟨-, -, a3, a4, a5, a6, -, a8, a9, a10, -, a12⟩ :=
    match_rule_prop_cb_accept_fields encr_data q (rule_data_init cfg prf) e3
  rw [← e4] at a3 a4 a5 a6 a8 a9 a10 a12
  have e3' := e3
  simp only [prop_acceptable, Bool.and_eq_true, Bool.or_eq_true, decide_eq_true_eq] at e3'
  obtain ⟨⟨⟨⟨-, b1⟩, b2⟩, b3⟩, b4⟩ := e3'
  refine ⟨cfg, prf, pre, q, post, e0, hmem2.1, hmem2.2, e1, e2, e3, a3, a4, a5, a6, a10, a9,
    ?_, ?_, ?_, ?_⟩
  · rw [SA_RESULT_HAS_eq_testBit, a12]
    exact b1
  · rw [SA_RESULT_HAS_eq_testBit, a12]
    exact b2
  · rw [SA_RESULT_HAS_eq_testBit, a12]
    exact b3
  · intro hc
    rw [hc] at b4
    have b5 : xfs_have cfg prf q.xfs IKEV2_XF_AUTH = true := by simpa using b4
    refine ⟨?_, ?_⟩
    · rw [SA_RESULT_HAS_eq_testBit, a12]
      exact b5
    · rw [a8]
      simp [rule_data_init, b5]

/-- C12, witness: the rule entries AES-GCM-16 and AES-CBC against a payload of
a proposal that no entry accepts followed by `example_prop_cbc`. -/
theorem ikev2_sa_match_rule_result_fields_witness :
    ∃ cfg prf pre q post,
      (rule_pairs { rule_xf := [example_xf_gcm, example_xf_cbc] }).find?
        (fun cp => pair_matches encr_data_example cp.1 cp.2
          [example_prop_incomplete, example_prop_cbc]) = some (cfg, prf) ∧
      cfg ∈ [example_xf_gcm, example_xf_cbc] ∧ prf ∈ prf_supported ∧
      [example_prop_incomplete, example_prop_cbc] = pre ++ q :: post ∧
      (∀ p ∈ pre, p.proto_protoid = IKEV2_PROTO_IKE ∧
        prop_acceptable encr_data_example cfg prf p = false) ∧
      prop_acceptable encr_data_example cfg prf q = true ∧
      example_result_cbc.sar_proto = IKEV2_PROTO_IKE ∧ example_result_cbc.sar_spi = q.spi ∧
      example_result_cbc.sar_propnum = q.proto_proposalnr ∧
      example_result_cbc.sar_encr = cfg.xf_encr ∧ example_result_cbc.sar_dh = cfg.xf_dh ∧
      example_result_cbc.sar_prf = prf ∧
      SA_RESULT_HAS example_result_cbc IKEV2_XF_ENCR = true ∧
      SA_RESULT_HAS example_result_cbc IKEV2_XF_PRF = true ∧
      SA_RESULT_HAS example_result_cbc IKEV2_XF_DH = true ∧
      (MODE_IS_COMBINED (encr_data_example cfg.xf_encr).ed_mode = false →
        SA_RESULT_HAS example_result_cbc IKEV2_XF_AUTH = true ∧
        example_result_cbc.sar_auth = cfg.xf_auth) :=
  ikev2_sa_match_rule_result_fields encr_data_example
    { rule_xf := [example_xf_gcm, example_xf_cbc] } [example_prop_incomplete, example_prop_cbc]
    sa_result_zero example_result_cbc (by decide)

/-- C13. No leak between attempts: whenever `ikev2_sa_match_rule` returns
matched, with `(cfg, prf)` the first (rule entry, PRF) pair the payload matches
and `q` the first proposal of the payload acceptable to it, the whole result
record is the one that the pair gives on the payload made of `q` alone,
starting from the cleared result; what earlier proposals and earlier pairs
left, and the record the caller passed, have no part in it. -/
theorem ikev2_sa_match_rule_no_leak (encr_data : Nat → encr_data_t)
    (rule : config_rule_t) (pay : List ikev2_sa_proposal_t) (result res : ikev2_sa_result_t)
    (h : ikev2_sa_match_rule encr_data rule pay result = (true, res)) :
    ∃ cfg prf pre q post,
      (rule_pairs rule).find? (fun cp => pair_matches encr_data cp.1 cp.2 pay) =
        some (cfg, prf) ∧
      pay = pre ++ q :: post ∧
      (∀ p ∈ pre, p.proto_protoid = IKEV2_PROTO_IKE ∧
        prop_acceptable encr_data cfg prf p = false) ∧
      prop_acceptable encr_data cfg prf q = true ∧
      (match_rule_pair encr_data cfg prf [q]).rd_match = true ∧
      res = (match_rule_pair encr_data cfg prf [q]).rd_res := by
  obtain ⟨cfg, prf, pre, q, post, e0, e1, e2, e3, e4⟩ :=
    ikev2_sa_match_rule_accepted encr_data rule pay result res h
  refine ⟨cfg, prf, pre, q, post, e0, e1, e2, e3, ?_, ?_⟩
  · rw [match_rule_pair_single]
    exact (match_rule_prop_cb_accept_fields encr_data q (rule_data_init cfg prf) e3).2.1
  · rw [match_rule_pair_single]
    exact e4

/-- C13, witness: the rule entries AES-GCM-16 and AES-CBC against a payload of
a proposal that no entry accepts (and that leaves a key length of 192 and the
AUTH flag behind) followed by `example_prop_cbc`; the caller passes a record
that is not cleared. -/
theorem ikev2_sa_match_rule_no_leak_witness :
    ∃ cfg prf pre q post,
      (rule_pairs { rule_xf := [example_xf_gcm, example_xf_cbc] }).find?
        (fun cp => pair_matches encr_data_example cp.1 cp.2
          [example_prop_incomplete, example_prop_cbc]) = some (cfg, prf) ∧
      [example_prop_incomplete, example_prop_cbc] = pre ++ q :: post ∧
      (∀ p ∈ pre, p.proto_protoid = IKEV2_PROTO_IKE ∧
        prop_acceptable encr_data_example cfg prf p = false) ∧
      prop_acceptable encr_data_example cfg prf q = true ∧
      (match_rule_pair encr_data_example cfg prf [q]).rd_match = true ∧
      example_result_cbc = (match_rule_pair encr_data_example cfg prf [q]).rd_res :=
  ikev2_sa_match_rule_no_leak encr_data_example
    { rule_xf := [example_xf_gcm, example_xf_cbc] } [example_prop_incomplete, example_prop_cbc]
    { sa_result_zero with sar_encr_keylen := 64, sar_match := 255 } example_result_cbc
    (by decide)

/-! ## Lemmas on sequences of additions -/

theorem pkt_add_all_append (r : Bool × pkt_sa_state_t) (l1 l2 : List pkt_add_t) :
    pkt_add_all r (l1 ++ l2) = pkt_add_all (pkt_add_all r l1) l2 := by
  induction l1 generalizing r with
  | nil => rfl
  | cons a rest ih => exact ih _

theorem pkt_add_all_singleton (r : Bool × pkt_sa_state_t) (a : pkt_add_t) :
    pkt_add_all r [a] = pkt_and r (fun pss => pkt_try pss a) := rfl

/-- The flag on entry only enters the flag on exit, as a conjunct. -/
theorem pkt_add_all_flag (b : Bool) (pss : pkt_sa_state_t) (l : List pkt_add_t) :
    pkt_add_all (b, pss) l =
      (b && (pkt_add_all (true, pss) l).1, (pkt_add_all (true, pss) l).2) := by
  induction l generalizing b pss with
  | nil => simp [pkt_add_all]
  | cons a rest ih =>
    simp only [pkt_add_all, pkt_and]
    rw [ih (b && (pkt_try pss a).1), ih (true && (pkt_try pss a).1)]
    simp [Bool.and_assoc]

/-- What a run of additions does: every addition is attempted, the oracle is
unchanged, the flag is the conjunction of the flag on entry and of all the
outcomes, and when the flag on exit is true everything was added. -/
theorem pkt_add_all_spec (r : Bool × pkt_sa_state_t) (l : List pkt_add_t) :
    (pkt_add_all r l).2.pkt_calls = r.2.pkt_calls ++ l ∧
    (pkt_add_all r l).2.pkt_fits = r.2.pkt_fits ∧
    (pkt_add_all r l).1 = (r.1 && (pkt_outcomes r.2.pkt_fits r.2.pkt_added l).all id) ∧
    ((pkt_add_all r l).1 = true → (pkt_add_all r l).2.pkt_added = r.2.pkt_added ++ l) ∧
    ((∀ x y, r.2.pkt_fits x y = true) → (pkt_add_all r l).1 = r.1) := by
  induction l generalizing r with
  | nil => simp [pkt_add_all, pkt_outcomes]
  | cons a rest ih =>
    obtain ⟨b, pss⟩ := r
    obtain ⟨i1, i2, i3, i4, i5⟩ := ih (pkt_and (b, pss) (fun pss => pkt_try pss a))
    simp only [pkt_add_all]
    by_cases hf : pss.pkt_fits pss.pkt_added a = true
    · simp only [pkt_and, pkt_try, hf, if_true, Bool.and_true] at i1 i2 i3 i4 i5 ⊢
      refine ⟨by rw [i1]; simp, i2, ?_, ?_, i5⟩
      · rw [i3]
        simp [pkt_outcomes, hf]
      · intro h
        rw [i4 h]
        simp
    · simp only [pkt_and, pkt_try, hf, Bool.and_false] at i1 i2 i3 i4 i5 ⊢
      refine ⟨by rw [i1]; simp, i2, ?_, ?_, ?_⟩
      · rw [i3]
        simp [pkt_outcomes, hf]
      · intro h
        rw [i3] at h
        simp at h
      · intro hfit
        exact absurd (hfit _ _) hf

/-- The function `ikev2_sa_add_result` requests the SA payload header and
then `result_adds`, each addition whatever the outcome of the ones before. -/
theorem ikev2_sa_add_result_eq (pkt : pkt_t) (result : ikev2_sa_result_t) :
    ikev2_sa_add_result pkt result =
      pkt_add_all (true, pkt) (pkt_add_t.sa :: result_adds result) := by
  unfold ikev2_sa_add_result result_adds
  simp only [ikev2_add_sa, ikev2_add_prop, ikev2_add_xform, ikev2_add_xf_attr]
  have h0 : pkt_try pkt pkt_add_t.sa = pkt_add_all (true, pkt) [pkt_add_t.sa] := by
    simp [pkt_add_all, pkt_and]
  rw [h0]
  simp only [← pkt_add_all_singleton]
  split_ifs <;> simp only [← pkt_add_all_append, List.append_nil, List.singleton_append,
    List.cons_append, List.nil_append]

theorem result_adds_xform (result : ikev2_sa_result_t) (t id : Nat) :
    pkt_add_t.xform t id ∈ result_adds result ↔
      (t = IKEV2_XF_ENCR ∨ t = IKEV2_XF_AUTH ∨ t = IKEV2_XF_DH ∨ t = IKEV2_XF_PRF ∨
        t = IKEV2_XF_ESN) ∧
      SA_RESULT_HAS result t = true ∧ id = result_xf_id result t := by
  unfold result_adds result_xf_id
  simp only [List.mem_append, List.mem_singleton, List.mem_ite_nil_right, reduceCtorEq,
    pkt_add_t.xform.injEq, false_or, or_false, false_and, and_false]
  by_cases h1 : t = IKEV2_XF_ENCR
  · subst h1
    simp [IKEV2_XF_ENCR, IKEV2_XF_AUTH, IKEV2_XF_DH, IKEV2_XF_PRF, IKEV2_XF_ESN]
  · by_cases h2 : t = IKEV2_XF_AUTH
    · subst h2
      simp [IKEV2_XF_ENCR, IKEV2_XF_AUTH, IKEV2_XF_DH, IKEV2_XF_PRF, IKEV2_XF_ESN]
    · by_cases h3 : t = IKEV2_XF_DH
      · subst h3
        simp [IKEV2_XF_ENCR, IKEV2_XF_AUTH, IKEV2_XF_DH, IKEV2_XF_PRF, IKEV2_XF_ESN]
      · by_cases h4 : t = IKEV2_XF_PRF
        · subst h4
          simp [IKEV2_XF_ENCR, IKEV2_XF_AUTH, IKEV2_XF_DH, IKEV2_XF_PRF, IKEV2_XF_ESN]
        · by_cases h5 : t = IKEV2_XF_ESN
          · subst h5
            simp [IKEV2_XF_ENCR, IKEV2_XF_AUTH, IKEV2_XF_DH, IKEV2_XF_PRF, IKEV2_XF_ESN]
          · simp [h1, h2, h3, h4, h5]

theorem result_adds_order (result : ikev2_sa_result_t) :
    (result_adds result).filterMap pkt_add_xf_type =
      [IKEV2_XF_ENCR, IKEV2_XF_AUTH, IKEV2_XF_DH, IKEV2_XF_PRF, IKEV2_XF_ESN].filter
        (fun t => SA_RESULT_HAS result t) := by
  unfold result_adds
  cases h1 : SA_RESULT_HAS result IKEV2_XF_ENCR <;>
  cases h2 : SA_RESULT_HAS result IKEV2_XF_AUTH <;>
  cases h3 : SA_RESULT_HAS result IKEV2_XF_DH <;>
  cases h4 : SA_RESULT_HAS result IKEV2_XF_PRF <;>
  cases h5 : SA_RESULT_HAS result IKEV2_XF_ESN <;>
  by_cases h6 : result.sar_encr_keylen = 0 <;>
  simp [h1, h2, h3, h4, h5, h6, pkt_add_xf_type, List.filter_cons]

theorem result_adds_attr (result : ikev2_sa_result_t) (ty v : Nat) :
    pkt_add_t.xf_attr ty v ∈ result_adds result ↔
      SA_RESULT_HAS result IKEV2_XF_ENCR = true ∧ result.sar_encr_keylen ≠ 0 ∧
      ty = IKEV2_XF_ATTR_KEYLEN ∧ v = result.sar_encr_keylen := by
  unfold result_adds
  simp only [List.mem_append, List.mem_singleton, List.mem_ite_nil_right, reduceCtorEq,
    pkt_add_t.xf_attr.injEq, false_or, or_false, false_and, and_false]

theorem result_adds_head (result : ikev2_sa_result_t) :
    ∃ l, result_adds result =
      pkt_add_t.prop result.sar_propnum result.sar_proto result.sar_spi :: l ∧
      l.filter pkt_add_is_prop = [] ∧
      (SA_RESULT_HAS result IKEV2_XF_ENCR = true →
        ∃ l1, l = pkt_add_t.xform IKEV2_XF_ENCR result.sar_encr :: l1 ∧
          (result.sar_encr_keylen ≠ 0 →
            l1.head? = some (pkt_add_t.xf_attr IKEV2_XF_ATTR_KEYLEN result.sar_encr_keylen))) := by
  have hx : ∀ (c : Bool) (t id : Nat),
      (if c = true then [pkt_add_t.xform t id] else []).filter pkt_add_is_prop = [] := by
    intro c t id
    cases c <;> rfl
  have hk : (if result.sar_encr_keylen ≠ 0 then
      [pkt_add_t.xf_attr IKEV2_XF_ATTR_KEYLEN result.sar_encr_keylen]
      else []).filter pkt_add_is_prop = [] := by
    split_ifs <;> rfl
  unfold result_adds
  simp only [List.append_assoc, List.singleton_append]
  refine ⟨_, rfl, ?_, ?_⟩
  · simp only [List.append_eq, List.filter_append, hx, List.append_nil]
    cases SA_RESULT_HAS result IKEV2_XF_ENCR
    · rfl
    · simp [List.filter_cons, pkt_add_is_prop, hk]
  · intro h
    simp only [h, if_true, List.cons_append]
    refine ⟨_, rfl, ?_⟩
    intro h6
    simp only [h6, ne_eq, not_false_eq_true, if_true]
    rfl

/-- C14. For every negotiation result and every message, `ikev2_sa_add_result`
requests, after the SA payload header, the additions `result_adds`, all of
which are in the message when it returns success (as it does when every
addition succeeds). These are: first the one proposal, with the result's
proposal number, protocol type and SPI; then plain transforms whose types are
exactly the types flagged in the match bitset, in the order ENCR, AUTH, DH,
PRF, ESN, each with the identifier the result holds for its type; and a
key-length attribute, right after the ENCR transform, exactly when ENCR is
flagged and the result's key length is not zero. -/
theorem ikev2_sa_add_result_adds (pkt : pkt_t) (result : ikev2_sa_result_t) :
    (ikev2_sa_add_result pkt result).2.pkt_calls =
      pkt.pkt_calls ++ pkt_add_t.sa :: result_adds result ∧
    ((ikev2_sa_add_result pkt result).1 = true →
      (ikev2_sa_add_result pkt result).2.pkt_added =
        pkt.pkt_added ++ pkt_add_t.sa :: result_adds result) ∧
    ((∀ x y, pkt.pkt_fits x y = true) → (ikev2_sa_add_result pkt result).1 = true) ∧
    (∃ l, result_adds result =
      pkt_add_t.prop result.sar_propnum result.sar_proto result.sar_spi :: l ∧
      l.filter pkt_add_is_prop = [] ∧
      (SA_RESULT_HAS result IKEV2_XF_ENCR = true →
        ∃ l1, l = pkt_add_t.xform IKEV2_XF_ENCR result.sar_encr :: l1 ∧
          (result.sar_encr_keylen ≠ 0 →
            l1.head? =
              some (pkt_add_t.xf_attr IKEV2_XF_ATTR_KEYLEN result.sar_encr_keylen)))) ∧
    (result_adds result).filterMap pkt_add_xf_type =
      [IKEV2_XF_ENCR, IKEV2_XF_AUTH, IKEV2_XF_DH, IKEV2_XF_PRF, IKEV2_XF_ESN].filter
        (fun t => SA_RESULT_HAS result t) ∧
    (∀ t id, pkt_add_t.xform t id ∈ result_adds result ↔
      (t = IKEV2_XF_ENCR ∨ t = IKEV2_XF_AUTH ∨ t = IKEV2_XF_DH ∨ t = IKEV2_XF_PRF ∨
        t = IKEV2_XF_ESN) ∧
      SA_RESULT_HAS result t = true ∧ id = result_xf_id result t) ∧
    (∀ ty v, pkt_add_t.xf_attr ty v ∈ result_adds result ↔
      SA_RESULT_HAS result IKEV2_XF_ENCR = true ∧ result.sar_encr_keylen ≠ 0 ∧
      ty = IKEV2_XF_ATTR_KEYLEN ∧ v = result.sar_encr_keylen) ∧
    (∀ e a b, pkt_add_t.xf_encr e a b ∉ result_adds result) := by
  obtain ⟨s1, -, -, s4, s5⟩ := pkt_add_all_spec (true, pkt) (pkt_add_t.sa :: result_adds result)
  rw [← ikev2_sa_add_result_eq] at s1 s4 s5
  refine ⟨s1, s4, s5, result_adds_head result, result_adds_order result,
    result_adds_xform result, result_adds_attr result, ?_⟩
  intro e a b
  unfold result_adds
  simp only [List.mem_append, List.mem_singleton, List.mem_ite_nil_right, reduceCtorEq,
    false_or, or_false, false_and, and_false, not_false_eq_true]

/-! ## The proposal built for a rule entry -/

theorem rule_adds_append (encr_data : Nat → encr_data_t) (spi n : Nat)
    (pre rest : List config_xf_t) :
    rule_adds encr_data spi n (pre ++ rest) =
      rule_adds encr_data spi n pre ++ rule_adds encr_data spi (n + pre.length) rest := by
  induction pre generalizing n with
  | nil => simp [rule_adds]
  | cons x xs ih =>
    have h := ih (n + 1)
    have e : n + 1 + xs.length = n + (xs.length + 1) := by omega
    rw [e] at h
    show pkt_add_t.prop n IKEV2_PROTO_IKE spi ::
      (rule_xf_adds encr_data x ++ rule_adds encr_data spi (n + 1) (xs ++ rest)) = _
    rw [h]
    simp [rule_adds, List.append_assoc]

theorem rule_xf_adds_explicit (encr_data : Nat → encr_data_t) (xf : config_xf_t) :
    rule_xf_adds encr_data xf =
      pkt_add_t.xf_encr xf.xf_encr xf.xf_minbits xf.xf_maxbits ::
        ((if MODE_IS_COMBINED (encr_data xf.xf_encr).ed_mode then []
          else [pkt_add_t.xform IKEV2_XF_AUTH xf.xf_auth]) ++
         [pkt_add_t.xform IKEV2_XF_DH xf.xf_dh,
          pkt_add_t.xform IKEV2_XF_PRF IKEV2_PRF_HMAC_SHA2_512,
          pkt_add_t.xform IKEV2_XF_PRF IKEV2_PRF_HMAC_SHA2_384,
          pkt_add_t.xform IKEV2_XF_PRF IKEV2_PRF_HMAC_SHA2_256,
          pkt_add_t.xform IKEV2_XF_PRF IKEV2_PRF_HMAC_SHA1,
          pkt_add_t.xform IKEV2_XF_PRF IKEV2_PRF_HMAC_MD5]) := by
  unfold rule_xf_adds prf_supported
  split_ifs <;> rfl

/-- C15. When all the additions `add_rule_xform` makes for a rule entry
succeed (as they do on a message on which every addition succeeds), it has
added exactly these transforms in this order: the entry's encryption transform
with its key-length range, the entry's authentication transform unless the
encryption algorithm is a combined mode, the entry's DH transform, and the PRF
transforms HMAC-SHA2-512, HMAC-SHA2-384, HMAC-SHA2-256, HMAC-SHA1, HMAC-MD5.
And for a rule list of at most 255 entries `ikev2_sa_from_rule` returns, with
success when every addition succeeds; when it returns success, the additions
in the message contain, for each entry of the rule list (the entry after
`pre`), the proposal with the entry's number followed by exactly those
transforms; what follows is the next proposal, or nothing after the last
entry. -/
theorem ikev2_sa_from_rule_proposal_transforms (encr_data : Nat → encr_data_t) :
    (∀ (pss : pkt_sa_state_t) (xf : config_xf_t),
      ((∀ l b, pss.pkt_fits l b = true) → (add_rule_xform encr_data pss xf).1 = true) ∧
      ((add_rule_xform encr_data pss xf).1 = true →
        (add_rule_xform encr_data pss xf).2.pkt_added = pss.pkt_added ++
          (pkt_add_t.xf_encr xf.xf_encr xf.xf_minbits xf.xf_maxbits ::
            ((if MODE_IS_COMBINED (encr_data xf.xf_encr).ed_mode then []
              else [pkt_add_t.xform IKEV2_XF_AUTH xf.xf_auth]) ++
             [pkt_add_t.xform IKEV2_XF_DH xf.xf_dh,
              pkt_add_t.xform IKEV2_XF_PRF IKEV2_PRF_HMAC_SHA2_512,
              pkt_add_t.xform IKEV2_XF_PRF IKEV2_PRF_HMAC_SHA2_384,
              pkt_add_t.xform IKEV2_XF_PRF IKEV2_PRF_HMAC_SHA2_256,
              pkt_add_t.xform IKEV2_XF_PRF IKEV2_PRF_HMAC_SHA1,
              pkt_add_t.xform IKEV2_XF_PRF IKEV2_PRF_HMAC_MD5])))) ∧
    (∀ (fuel : Nat) (pkt : pkt_t) (rule : config_rule_t) (spi : Nat)
      (pre post : List config_xf_t) (xf : config_xf_t),
      rule.rule_xf = pre ++ xf :: post →
      rule.rule_xf.length ≤ 255 → rule.rule_xf.length < fuel →
      ∃ ok pkt1, ikev2_sa_from_rule encr_data fuel pkt rule spi = some (ok, pkt1) ∧
        ((∀ l b, pkt.pkt_fits l b = true) → ok = true) ∧
        (ok = true → ∃ before after,
          pkt1.pkt_added = before ++
            (pkt_add_t.prop (pre.length + 1) IKEV2_PROTO_IKE spi ::
             pkt_add_t.xf_encr xf.xf_encr xf.xf_minbits xf.xf_maxbits ::
              ((if MODE_IS_COMBINED (encr_data xf.xf_encr).ed_mode then []
                else [pkt_add_t.xform IKEV2_XF_AUTH xf.xf_auth]) ++
               [pkt_add_t.xform IKEV2_XF_DH xf.xf_dh,
                pkt_add_t.xform IKEV2_XF_PRF IKEV2_PRF_HMAC_SHA2_512,
                pkt_add_t.xform IKEV2_XF_PRF IKEV2_PRF_HMAC_SHA2_384,
                pkt_add_t.xform IKEV2_XF_PRF IKEV2_PRF_HMAC_SHA2_256,
                pkt_add_t.xform IKEV2_XF_PRF IKEV2_PRF_HMAC_SHA1,
                pkt_add_t.xform IKEV2_XF_PRF IKEV2_PRF_HMAC_MD5])) ++ after ∧
          ((post = [] ∧ after = []) ∨
            ∃ rest, after =
              pkt_add_t.prop (pre.length + 2) IKEV2_PROTO_IKE spi :: rest))) := by
  constructor
  · intro pss xf
    obtain ⟨-, a2, a3⟩ := add_rule_xform_spec encr_data pss xf
    refine ⟨a3, ?_⟩
    intro h
    rw [a2 h, rule_xf_adds_explicit]
  · intro fuel pkt rule spi pre post xf hr hN hfuel
    obtain ⟨ok, pkt1, h1, h2, h3⟩ :=
      ikev2_sa_from_rule_spec encr_data fuel pkt rule spi hN hfuel
    refine ⟨ok, pkt1, h1, h3, ?_⟩
    intro hok
    refine ⟨pkt.pkt_added ++ pkt_add_t.sa :: rule_adds encr_data spi 1 pre,
      rule_adds encr_data spi (pre.length + 2) post, ?_, ?_⟩
    · rw [h2 hok, hr, rule_adds_append]
      simp only [rule_adds, rule_xf_adds_explicit, List.append_assoc, List.cons_append]
      have e1 : 1 + pre.length = pre.length + 1 := by omega
      rw [e1]
    · cases post with
      | nil => exact Or.inl ⟨rfl, rfl⟩
      | cons y ys => exact Or.inr ⟨_, rfl⟩

/-- C15, witness: the second of two rule entries, AES-GCM-16 (a combined mode:
no authentication transform), on a message on which every addition succeeds. -/
theorem ikev2_sa_from_rule_proposal_transforms_witness :
    ∃ ok pkt1, ikev2_sa_from_rule encr_data_example 3 pkt_empty
        { rule_xf := [example_xf_cbc, example_xf_gcm] } 7 = some (ok, pkt1) ∧
      ((∀ l b, pkt_empty.pkt_fits l b = true) → ok = true) ∧
      (ok = true → ∃ before after,
        pkt1.pkt_added = before ++
          (pkt_add_t.prop ([example_xf_cbc].length + 1) IKEV2_PROTO_IKE 7 ::
           pkt_add_t.xf_encr example_xf_gcm.xf_encr example_xf_gcm.xf_minbits
             example_xf_gcm.xf_maxbits ::
            ((if MODE_IS_COMBINED (encr_data_example example_xf_gcm.xf_encr).ed_mode then []
              else [pkt_add_t.xform IKEV2_XF_AUTH example_xf_gcm.xf_auth]) ++
             [pkt_add_t.xform IKEV2_XF_DH example_xf_gcm.xf_dh,
              pkt_add_t.xform IKEV2_XF_PRF IKEV2_PRF_HMAC_SHA2_512,
              pkt_add_t.xform IKEV2_XF_PRF IKEV2_PRF_HMAC_SHA2_384,
              pkt_add_t.xform IKEV2_XF_PRF IKEV2_PRF_HMAC_SHA2_256,
              pkt_add_t.xform IKEV2_XF_PRF IKEV2_PRF_HMAC_SHA1,
              pkt_add_t.xform IKEV2_XF_PRF IKEV2_PRF_HMAC_MD5])) ++ after ∧
        ((([] : List config_xf_t) = [] ∧ after = []) ∨
          ∃ rest, after =
            pkt_add_t.prop ([example_xf_cbc].length + 2) IKEV2_PROTO_IKE 7 :: rest)) :=
  (ikev2_sa_from_rule_proposal_transforms encr_data_example).2 3 pkt_empty
    { rule_xf := [example_xf_cbc, example_xf_gcm] } 7 [example_xf_cbc] [] example_xf_gcm
    rfl (by decide) (by decide)

/-! ## Lemmas on the builder from an acquire request -/

theorem ikev2_pfkey_to_encr_some (alg x : Nat) (h : ikev2_pfkey_to_encr alg = some x) :
    x = alg := by
  unfold ikev2_pfkey_to_encr at h
  split_ifs at h
  simp only [Option.some.injEq] at h
  exact h.symm

theorem sa_from_acquire_comb_eq (spi_type spi dh i : Nat) (comb : sadb_comb_t)
    (r : Bool × pkt_sa_state_t) :
    sa_from_acquire_comb spi_type spi dh i comb r =
      if comb_ok comb then
        some (pkt_add_all r (pkt_add_t.prop (i + 1) spi_type spi :: comb_adds dh comb))
      else none := by
  unfold sa_from_acquire_comb comb_ok comb_adds
  simp only [ikev2_add_prop, ikev2_add_xf_encr, ikev2_add_xform]
  by_cases he : comb.sadb_comb_encrypt = SADB_EALG_NONE
  · by_cases ha : comb.sadb_comb_auth = SADB_AALG_NONE
    · by_cases hd : dh = IKEV2_DH_NONE
      · simp [he, ha, hd, pkt_add_all]
      · simp [he, ha, hd, pkt_add_all]
    · by_cases h1 : comb.sadb_comb_auth_minbits = 0
      · by_cases h2 : comb.sadb_comb_auth_maxbits = 0
        · cases h3 : ikev2_pfkey_to_auth comb.sadb_comb_auth with
          | none => simp [he, ha, h1, h2, h3]
          | some x =>
            by_cases hd : dh = IKEV2_DH_NONE
            · simp [he, ha, h1, h2, h3, hd, pkt_add_all]
            · simp [he, ha, h1, h2, h3, hd, pkt_add_all]
        · simp [he, ha, h1, h2]
      · simp [he, ha, h1]
  · cases h0 : ikev2_pfkey_to_encr comb.sadb_comb_encrypt with
    | none => simp [he, h0]
    | some e =>
      by_cases ha : comb.sadb_comb_auth = SADB_AALG_NONE
      · by_cases hd : dh = IKEV2_DH_NONE
        · simp [he, h0, ha, hd, pkt_add_all]
        · simp [he, h0, ha, hd, pkt_add_all]
      · by_cases h1 : comb.sadb_comb_auth_minbits = 0
        · by_cases h2 : comb.sadb_comb_auth_maxbits = 0
          · cases h3 : ikev2_pfkey_to_auth comb.sadb_comb_auth with
            | none => simp [he, h0, ha, h1, h2, h3]
            | some x =>
              by_cases hd : dh = IKEV2_DH_NONE
              · simp [he, h0, ha, h1, h2, h3, hd, pkt_add_all]
              · simp [he, h0, ha, h1, h2, h3, hd, pkt_add_all]
          · simp [he, h0, ha, h1, h2]
        · simp [he, h0, ha, h1]

theorem sa_from_acquire_combs_eq (spi_type spi dh : Nat) (combs : List sadb_comb_t)
    (i : Nat) (r : Bool × pkt_sa_state_t) :
    sa_from_acquire_combs spi_type spi dh i combs r =
      if combs.all comb_ok then
        some (pkt_add_all r (acquire_adds spi_type spi dh i combs))
      else none := by
  induction combs generalizing i r with
  | nil => simp [sa_from_acquire_combs, acquire_adds, pkt_add_all]
  | cons comb rest ih =>
    unfold sa_from_acquire_combs
    rw [sa_from_acquire_comb_eq]
    by_cases hc : comb_ok comb = true
    · simp only [hc, if_true, ih, List.all_cons, Bool.true_and, acquire_adds]
      by_cases hr : rest.all comb_ok = true
      · simp only [hr, if_true]
        rw [← pkt_add_all_append]
        rfl
      · simp [hr]
    · simp [hc]

/-- The function `ikev2_sa_from_acquire` aborts unless the request passes
`acquire_ok`, and otherwise requests the SA payload header and then
`acquire_adds`, each addition whatever the outcome of the ones before. -/
theorem ikev2_sa_from_acquire_eq (pkt : pkt_t) (pmsg : parsedmsg_t) (spi dh : Nat) :
    ikev2_sa_from_acquire pkt pmsg spi dh =
      if acquire_ok pmsg then
        some (pkt_add_all (true, pkt)
          (pkt_add_t.sa :: acquire_adds (acquire_proto pmsg) spi dh 0 pmsg.combs))
      else none := by
  unfold ikev2_sa_from_acquire acquire_ok acquire_proto
  have h0 : ikev2_add_sa pkt = pkt_add_all (true, pkt) [pkt_add_t.sa] := by
    simp [ikev2_add_sa, pkt_add_all, pkt_and]
  by_cases h1 : pmsg.sadb_msg_type = SADB_ACQUIRE
  · by_cases h2 : pmsg.sadb_msg_satype = SADB_SATYPE_AH
    · by_cases h3 : pmsg.sadb_prop_exttype = SADB_EXT_PROPOSAL
      · simp only [h1, h2, h3, ne_eq, not_true_eq_false, if_false, if_true, decide_True,
          Bool.true_or, Bool.true_and, sa_from_acquire_combs_eq, h0]
        split_ifs
        · rw [← pkt_add_all_append]
          rfl
        · rfl
      · simp [h1, h2, h3]
    · by_cases h2' : pmsg.sadb_msg_satype = SADB_SATYPE_ESP
      · have hne : ¬ (SADB_SATYPE_ESP = SADB_SATYPE_AH) := by decide
        by_cases h3 : pmsg.sadb_prop_exttype = SADB_EXT_PROPOSAL
        · simp only [h1, h2', hne, h3, ne_eq, not_true_eq_false, if_false, if_true,
            decide_True, decide_False, Bool.or_true, Bool.true_and, sa_from_acquire_combs_eq,
            h0]
          split_ifs
          · rw [← pkt_add_all_append]
            rfl
          · rfl
        · simp [h1, h2', hne, h3]
      · simp [h1, h2, h2']
  · simp [h1]

theorem acquire_adds_props (proto spi dh : Nat) (combs : List sadb_comb_t) (i : Nat) :
    (acquire_adds proto spi dh i combs).filter pkt_add_is_prop =
      (List.range combs.length).map (fun j => pkt_add_t.prop (i + j + 1) proto spi) := by
  induction combs generalizing i with
  | nil => simp [acquire_adds]
  | cons comb rest ih =>
    have hx : (comb_adds dh comb).filter pkt_add_is_prop = [] := by
      unfold comb_adds
      split_ifs <;> simp [pkt_add_is_prop]
    simp only [acquire_adds, List.filter_cons, pkt_add_is_prop, if_true, List.filter_append, hx,
      List.nil_append, ih, List.length_cons, List.range_succ_eq_map, List.map_cons,
      List.map_map, Nat.add_zero]
    congr 1
    apply List.map_congr_left
    intro j _
    simp only [Function.comp_apply]
    congr 1
    omega

theorem comb_adds_explicit (dh : Nat) (comb : sadb_comb_t) (h : comb_ok comb = true) :
    comb_adds dh comb =
      (if comb.sadb_comb_encrypt ≠ SADB_EALG_NONE then
        [pkt_add_t.xf_encr comb.sadb_comb_encrypt
          comb.sadb_comb_encrypt_minbits comb.sadb_comb_encrypt_maxbits] else []) ++
      (if comb.sadb_comb_auth ≠ SADB_AALG_NONE then
        [pkt_add_t.xform IKEV2_XF_AUTH ((ikev2_pfkey_to_auth comb.sadb_comb_auth).getD 0)]
       else []) ++
      (if dh ≠ IKEV2_DH_NONE then [pkt_add_t.xform IKEV2_XF_DH dh] else []) ++
      [pkt_add_t.xform IKEV2_XF_ESN IKEV2_ESN_NONE] := by
  unfold comb_adds
  by_cases he : comb.sadb_comb_encrypt = SADB_EALG_NONE
  · simp [he]
  · have : ikev2_pfkey_to_encr comb.sadb_comb_encrypt = some comb.sadb_comb_encrypt := by
      cases h0 : ikev2_pfkey_to_encr comb.sadb_comb_encrypt with
      | none => simp [comb_ok, he, h0] at h
      | some x => rw [ikev2_pfkey_to_encr_some _ _ h0]
    simp [he, this]

/-- C16, counterexample. An ESP acquire whose one combination names AES with
HMAC-SHA1 and, as key-size bounds of HMAC-SHA1, 160 bits: `ikev2_sa_from_acquire`
does not return, it aborts at `VERIFY3U(comb->sadb_comb_auth_minbits, ==, 0)`.
It also aborts, at `INVALID("alg")`, for an encryption algorithm that
`ikev2_pfkey_to_encr` does not list (here 99). -/
theorem ikev2_sa_from_acquire_aborts :
    (ikev2_sa_from_acquire pkt_empty
      { sadb_msg_type := SADB_ACQUIRE, sadb_msg_satype := SADB_SATYPE_ESP,
        combs := [example_comb_esp_sha1] } 4664 IKEV2_DH_NONE).isNone = true ∧
    (ikev2_sa_from_acquire pkt_empty
      { sadb_msg_type := SADB_ACQUIRE, sadb_msg_satype := SADB_SATYPE_ESP,
        combs := [{ example_comb_esp with sadb_comb_encrypt := 99 }] }
      4664 IKEV2_DH_NONE).isNone = true := by
  decide

/-- C16, as amended. For an acquire request that passes the assertions of the
function (message type ACQUIRE, SA type AH or ESP, and in every combination an
encryption algorithm that is none or known to `ikev2_pfkey_to_encr` and an
authentication algorithm that is none or known to `ikev2_pfkey_to_auth` with
both key-size bounds 0), every SPI and every DH group, `ikev2_sa_from_acquire`
returns; it has requested, after the SA payload header, for the combination
with index i (from 0) a proposal with number i + 1, the protocol type of the
SA type (AH or ESP) and the given SPI, followed by an ENCR transform with the
combination's encryption algorithm and key-length range iff that algorithm is
not none, an AUTH transform iff the authentication algorithm is not none, a DH
transform with the requested group iff it is not none, and an ESN transform
with id NONE; all of these are in the message when it returns success, as it
does when every addition succeeds. The proposals are n, numbered 1..n. -/
theorem ikev2_sa_from_acquire_adds (pkt : pkt_t) (pmsg : parsedmsg_t) (spi dh : Nat)
    (h : acquire_ok pmsg = true) :
    ∃ ok pkt1, ikev2_sa_from_acquire pkt pmsg spi dh = some (ok, pkt1) ∧
      pkt1.pkt_calls = pkt.pkt_calls ++
        pkt_add_t.sa :: acquire_adds (acquire_proto pmsg) spi dh 0 pmsg.combs ∧
      (ok = true → pkt1.pkt_added = pkt.pkt_added ++
        pkt_add_t.sa :: acquire_adds (acquire_proto pmsg) spi dh 0 pmsg.combs) ∧
      ((∀ x y, pkt.pkt_fits x y = true) → ok = true) ∧
      (acquire_adds (acquire_proto pmsg) spi dh 0 pmsg.combs).filter pkt_add_is_prop =
        (List.range pmsg.combs.length).map
          (fun i => pkt_add_t.prop (i + 1) (acquire_proto pmsg) spi) ∧
      (pmsg.sadb_msg_satype = SADB_SATYPE_AH → acquire_proto pmsg = IKEV2_PROTO_AH) ∧
      (pmsg.sadb_msg_satype = SADB_SATYPE_ESP → acquire_proto pmsg = IKEV2_PROTO_ESP) ∧
      (∀ comb ∈ pmsg.combs, comb_adds dh comb =
        (if comb.sadb_comb_encrypt ≠ SADB_EALG_NONE then
          [pkt_add_t.xf_encr comb.sadb_comb_encrypt
            comb.sadb_comb_encrypt_minbits comb.sadb_comb_encrypt_maxbits] else []) ++
        (if comb.sadb_comb_auth ≠ SADB_AALG_NONE then
          [pkt_add_t.xform IKEV2_XF_AUTH ((ikev2_pfkey_to_auth comb.sadb_comb_auth).getD 0)]
         else []) ++
        (if dh ≠ IKEV2_DH_NONE then [pkt_add_t.xform IKEV2_XF_DH dh] else []) ++
        [pkt_add_t.xform IKEV2_XF_ESN IKEV2_ESN_NONE]) := by
  obtain ⟨s1, -, -, s4, s5⟩ := pkt_add_all_spec (true, pkt)
    (pkt_add_t.sa :: acquire_adds (acquire_proto pmsg) spi dh 0 pmsg.combs)
  have hall : ∀ comb ∈ pmsg.combs, comb_ok comb = true := by
    simp only [acquire_ok, Bool.and_eq_true, List.all_eq_true] at h
    exact h.2
  refine ⟨_, _, ?_, s1, s4, s5, ?_, ?_, ?_, ?_⟩
  · rw [ikev2_sa_from_acquire_eq, h]
    rfl
  · have := acquire_adds_props (acquire_proto pmsg) spi dh pmsg.combs 0
    simpa using this
  · intro hs
    simp [acquire_proto, hs]
  · intro hs
    simp [acquire_proto, hs, SADB_SATYPE_ESP, SADB_SATYPE_AH]
  · intro comb hc
    exact comb_adds_explicit dh comb (hall comb hc)

/-- C16, witness: an ESP acquire with two combinations, SPI 4664 and the DH
group MODP-2048, on a message on which every addition succeeds. -/
theorem ikev2_sa_from_acquire_adds_witness :
    ∃ ok pkt1, ikev2_sa_from_acquire pkt_empty example_acquire_esp 4664 IKEV2_DH_MODP_2048 =
        some (ok, pkt1) ∧
      pkt1.pkt_calls = pkt_empty.pkt_calls ++
        pkt_add_t.sa :: acquire_adds (acquire_proto example_acquire_esp) 4664
          IKEV2_DH_MODP_2048 0 example_acquire_esp.combs ∧
      (ok = true → pkt1.pkt_added = pkt_empty.pkt_added ++
        pkt_add_t.sa :: acquire_adds (acquire_proto example_acquire_esp) 4664
          IKEV2_DH_MODP_2048 0 example_acquire_esp.combs) ∧
      ((∀ x y, pkt_empty.pkt_fits x y = true) → ok = true) ∧
      (acquire_adds (acquire_proto example_acquire_esp) 4664 IKEV2_DH_MODP_2048 0
          example_acquire_esp.combs).filter pkt_add_is_prop =
        (List.range example_acquire_esp.combs.length).map
          (fun i => pkt_add_t.prop (i + 1) (acquire_proto example_acquire_esp) 4664) ∧
      (example_acquire_esp.sadb_msg_satype = SADB_SATYPE_AH →
        acquire_proto example_acquire_esp = IKEV2_PROTO_AH) ∧
      (example_acquire_esp.sadb_msg_satype = SADB_SATYPE_ESP →
        acquire_proto example_acquire_esp = IKEV2_PROTO_ESP) ∧
      (∀ comb ∈ example_acquire_esp.combs, comb_adds IKEV2_DH_MODP_2048 comb =
        (if comb.sadb_comb_encrypt ≠ SADB_EALG_NONE then
          [pkt_add_t.xf_encr comb.sadb_comb_encrypt
            comb.sadb_comb_encrypt_minbits comb.sadb_comb_encrypt_maxbits] else []) ++
        (if comb.sadb_comb_auth ≠ SADB_AALG_NONE then
          [pkt_add_t.xform IKEV2_XF_AUTH ((ikev2_pfkey_to_auth comb.sadb_comb_auth).getD 0)]
         else []) ++
        (if IKEV2_DH_MODP_2048 ≠ IKEV2_DH_NONE then
          [pkt_add_t.xform IKEV2_XF_DH IKEV2_DH_MODP_2048] else []) ++
        [pkt_add_t.xform IKEV2_XF_ESN IKEV2_ESN_NONE]) :=
  ikev2_sa_from_acquire_adds pkt_empty example_acquire_esp 4664 IKEV2_DH_MODP_2048
    (by decide)

/-! ## What `ikev2_sa_from_rule` attempts when additions fail -/

theorem add_rule_xform_prfs_calls (prfs : List Nat) (ok : Bool) (pss : pkt_sa_state_t) :
    ∃ k, k ≤ prfs.length ∧
      add_rule_xform_prfs prfs ok pss =
        pkt_add_all (ok, pss)
          ((prfs.take k).map (fun prf => pkt_add_t.xform IKEV2_XF_PRF prf)) ∧
      (k < prfs.length → (add_rule_xform_prfs prfs ok pss).1 = false) := by
  induction prfs generalizing ok pss with
  | nil => exact ⟨0, Nat.le_refl _, rfl, fun h => absurd h (Nat.lt_irrefl _)⟩
  | cons prf rest ih =>
    cases ok
    · refine ⟨0, Nat.zero_le _, ?_, ?_⟩
      · simp [add_rule_xform_prfs, pkt_add_all]
      · intro _
        simp [add_rule_xform_prfs]
    · obtain ⟨k, hk, e, hlt⟩ := ih (true && (ikev2_add_xform pss IKEV2_XF_PRF prf).1)
        (ikev2_add_xform pss IKEV2_XF_PRF prf).2
      refine ⟨k + 1, by simp only [List.length_cons]; omega, ?_, ?_⟩
      · simp only [add_rule_xform_prfs, if_true, List.take_succ_cons, List.map_cons,
          pkt_add_all, pkt_and]
        exact e
      · intro h
        simp only [List.length_cons] at h
        simp only [add_rule_xform_prfs, if_true]
        exact hlt (by omega)

theorem add_rule_xform_calls (encr_data : Nat → encr_data_t) (pss : pkt_sa_state_t)
    (xf : config_xf_t) :
    ∃ k, k ≤ 5 ∧
      add_rule_xform encr_data pss xf =
        pkt_add_all (true, pss) (rule_xf_calls encr_data xf k) ∧
      (k < 5 → (add_rule_xform encr_data pss xf).1 = false) := by
  unfold add_rule_xform rule_xf_calls
  simp only [ikev2_add_xf_encr, ikev2_add_xform, Bool.true_and]
  by_cases hc : MODE_IS_COMBINED (encr_data xf.xf_encr).ed_mode = true
  · simp only [hc, Bool.not_true, if_true, List.append_nil]
    obtain ⟨k, hk, e, hlt⟩ := add_rule_xform_prfs_calls prf_supported
      ((pkt_try pss (pkt_add_t.xf_encr xf.xf_encr xf.xf_minbits xf.xf_maxbits)).1 &&
        (pkt_try (pkt_try pss (pkt_add_t.xf_encr xf.xf_encr xf.xf_minbits xf.xf_maxbits)).2
          (pkt_add_t.xform IKEV2_XF_DH xf.xf_dh)).1)
      (pkt_try (pkt_try pss (pkt_add_t.xf_encr xf.xf_encr xf.xf_minbits xf.xf_maxbits)).2
          (pkt_add_t.xform IKEV2_XF_DH xf.xf_dh)).2
    refine ⟨k, hk, ?_, hlt⟩
    simp only [Bool.false_eq_true, if_false]
    rw [e]
    simp [pkt_add_all, pkt_and]
  · simp only [hc, Bool.not_false, if_true, if_false]
    simp only [Bool.not_eq_true] at hc
    obtain ⟨k, hk, e, hlt⟩ := add_rule_xform_prfs_calls prf_supported
      ((pkt_try pss (pkt_add_t.xf_encr xf.xf_encr xf.xf_minbits xf.xf_maxbits)).1 &&
        (pkt_try (pkt_try pss (pkt_add_t.xf_encr xf.xf_encr xf.xf_minbits xf.xf_maxbits)).2
          (pkt_add_t.xform IKEV2_XF_AUTH xf.xf_auth)).1 &&
        (pkt_try (pkt_try (pkt_try pss
          (pkt_add_t.xf_encr xf.xf_encr xf.xf_minbits xf.xf_maxbits)).2
          (pkt_add_t.xform IKEV2_XF_AUTH xf.xf_auth)).2
          (pkt_add_t.xform IKEV2_XF_DH xf.xf_dh)).1)
      (pkt_try (pkt_try (pkt_try pss
          (pkt_add_t.xf_encr xf.xf_encr xf.xf_minbits xf.xf_maxbits)).2
          (pkt_add_t.xform IKEV2_XF_AUTH xf.xf_auth)).2
          (pkt_add_t.xform IKEV2_XF_DH xf.xf_dh)).2
    refine ⟨k, hk, ?_, hlt⟩
    rw [e]
    simp [pkt_add_all, pkt_and]

theorem pkt_add_all_flag_true (r : Bool × pkt_sa_state_t) (l : List pkt_add_t)
    (h : (pkt_add_all r l).1 = true) : r.1 = true := by
  have h3 := (pkt_add_all_spec r l).2.2.1
  rw [h3] at h
  simp only [Bool.and_eq_true] at h
  exact h.1

theorem sa_from_rule_loop_calls (encr_data : Nat → encr_data_t) (xfs : List config_xf_t)
    (spi : Nat) (hN : xfs.length ≤ 255) (fuel i : Nat) (ok : Bool) (pss : pkt_sa_state_t)
    (hi : i ≤ xfs.length) (hfuel : xfs.length - i < fuel) :
    ∃ ks, ks.length = xfs.length - i ∧ (∀ k ∈ ks, k ≤ 5) ∧
      sa_from_rule_loop encr_data xfs spi fuel i ok pss =
        some (pkt_add_all (ok, pss) (rule_calls encr_data spi (i + 1) (xfs.drop i) ks)) ∧
      ((pkt_add_all (ok, pss) (rule_calls encr_data spi (i + 1) (xfs.drop i) ks)).1 = true →
        ∀ k ∈ ks, k = 5) := by
  induction fuel generalizing i ok pss with
  | zero => omega
  | succ fuel ih =>
    unfold sa_from_rule_loop
    by_cases hlt : i < xfs.length
    · have hget : xfs[i]? = some xfs[i] := List.getElem?_eq_getElem hlt
      have hdrop : xfs.drop i = xfs[i] :: xfs.drop (i + 1) := List.drop_eq_getElem_cons hlt
      have hmod : (i + 1) % 256 = i + 1 := Nat.mod_eq_of_lt (by omega)
      simp only [hget, hmod]
      obtain ⟨k, hk, e, hklt⟩ := add_rule_xform_calls encr_data
        (ikev2_add_prop pss (i + 1) IKEV2_PROTO_IKE spi).2 xfs[i]
      have hstep : (ok && (ikev2_add_prop pss (i + 1) IKEV2_PROTO_IKE spi).1 &&
            (add_rule_xform encr_data (ikev2_add_prop pss (i + 1) IKEV2_PROTO_IKE spi).2
              xfs[i]).1,
          (add_rule_xform encr_data (ikev2_add_prop pss (i + 1) IKEV2_PROTO_IKE spi).2
              xfs[i]).2) =
          pkt_add_all (ok, pss) (pkt_add_t.prop (i + 1) IKEV2_PROTO_IKE spi ::
            rule_xf_calls encr_data xfs[i] k) := by
        rw [e]
        generalize rule_xf_calls encr_data xfs[i] k = L
        show _ = pkt_add_all (ok && (pkt_try pss (pkt_add_t.prop (i + 1) IKEV2_PROTO_IKE spi)).1,
          (pkt_try pss (pkt_add_t.prop (i + 1) IKEV2_PROTO_IKE spi)).2) L
        conv_rhs => rw [pkt_add_all_flag]
        rfl
      obtain ⟨ks, h1, h2, h3, h4⟩ := ih (i + 1)
        (ok && (ikev2_add_prop pss (i + 1) IKEV2_PROTO_IKE spi).1 &&
          (add_rule_xform encr_data (ikev2_add_prop pss (i + 1) IKEV2_PROTO_IKE spi).2
            xfs[i]).1)
        (add_rule_xform encr_data (ikev2_add_prop pss (i + 1) IKEV2_PROTO_IKE spi).2
          xfs[i]).2 (by omega) (by omega)
      rw [hstep] at h3 h4
      rw [← pkt_add_all_append] at h3 h4
      have hcalls : rule_calls encr_data spi (i + 1) (xfs.drop i) (k :: ks) =
          (pkt_add_t.prop (i + 1) IKEV2_PROTO_IKE spi :: rule_xf_calls encr_data xfs[i] k) ++
            rule_calls encr_data spi (i + 1 + 1) (xfs.drop (i + 1)) ks := by
        rw [hdrop]
        simp [rule_calls]
      refine ⟨k :: ks, by simp only [List.length_cons]; omega, ?_, ?_, ?_⟩
      · intro x hx
        rcases List.mem_cons.1 hx with hx | hx
        · rw [hx]; exact hk
        · exact h2 x hx
      · rw [h3, hcalls]
      · intro hok x hx
        rw [hcalls] at hok
        rcases List.mem_cons.1 hx with hx | hx
        · rw [pkt_add_all_append] at hok
          have hf := pkt_add_all_flag_true _ _ hok
          rw [← hstep] at hf
          simp only [Bool.and_eq_true] at hf
          have hnot : ¬ k < 5 := by
            intro hk5
            have := hklt hk5
            rw [hf.2] at this
            exact Bool.noConfusion this
          rw [hx]
          omega
        · exact h4 hok x hx
    · have hieq : i = xfs.length := by omega
      have hget : xfs[i]? = none := by
        rw [List.getElem?_eq_none_iff]
        omega
      simp only [hget]
      refine ⟨[], by simp only [List.length_nil]; omega, by simp, ?_, by simp⟩
      rw [hieq, List.drop_length]
      simp [rule_calls, pkt_add_all]

/-- What `ikev2_sa_from_rule` attempts. For a rule list of at most 255 entries
the function returns. When beginning the SA payload fails it has attempted
nothing else. Otherwise it has attempted, for every rule entry in turn, the
proposal, the encryption transform, the authentication transform (unless the
mode is combined) and the DH transform, whatever failed before, and then a
leading part of the five PRF transforms, which is all five when the function
returns success. -/
theorem ikev2_sa_from_rule_calls (encr_data : Nat → encr_data_t) (fuel : Nat) (pkt : pkt_t)
    (rule : config_rule_t) (spi : Nat)
    (hN : rule.rule_xf.length ≤ 255) (hfuel : rule.rule_xf.length < fuel) :
    (pkt.pkt_fits pkt.pkt_added pkt_add_t.sa = false ∧
      ikev2_sa_from_rule encr_data fuel pkt rule spi =
        some (pkt_add_all (true, pkt) [pkt_add_t.sa])) ∨
    (pkt.pkt_fits pkt.pkt_added pkt_add_t.sa = true ∧
      ∃ ks, ks.length = rule.rule_xf.length ∧ (∀ k ∈ ks, k ≤ 5) ∧
        ikev2_sa_from_rule encr_data fuel pkt rule spi =
          some (pkt_add_all (true, pkt)
            (pkt_add_t.sa :: rule_calls encr_data spi 1 rule.rule_xf ks)) ∧
        ((pkt_add_all (true, pkt)
            (pkt_add_t.sa :: rule_calls encr_data spi 1 rule.rule_xf ks)).1 = true →
          ∀ k ∈ ks, k = 5)) := by
  unfold ikev2_sa_from_rule
  by_cases hf : pkt.pkt_fits pkt.pkt_added pkt_add_t.sa = true
  · right
    obtain ⟨ks, h1, h2, h3, h4⟩ := sa_from_rule_loop_calls encr_data rule.rule_xf spi hN fuel 0
      true (ikev2_add_sa pkt).2 (Nat.zero_le _) (by omega)
    have hsa : ikev2_add_sa pkt = (true, (ikev2_add_sa pkt).2) := by
      simp [ikev2_add_sa, pkt_try, hf]
    have hall : pkt_add_all (true, pkt) [pkt_add_t.sa] = (true, (ikev2_add_sa pkt).2) := by
      simp [pkt_add_all, pkt_and, ikev2_add_sa, pkt_try, hf]
    simp only [List.drop_zero, Nat.sub_zero, Nat.zero_add] at h1 h3 h4
    rw [← hall, ← pkt_add_all_append] at h3 h4
    refine ⟨hf, ks, h1, h2, ?_, h4⟩
    rw [hsa]
    exact h3
  · left
    simp only [Bool.not_eq_true] at hf
    refine ⟨hf, ?_⟩
    simp [ikev2_add_sa, pkt_try, hf, pkt_add_all, pkt_and]

/-- C17, counterexample. On a message on which every addition succeeds, two
builders do not return success although every addition they invoke returns
success. `ikev2_sa_from_acquire`, for an ESP acquire whose one combination
names AES with HMAC-SHA1 and 160 as key-size bounds of HMAC-SHA1, aborts at
`VERIFY3U(comb->sadb_comb_auth_minbits, ==, 0)` after three additions. And
`ikev2_sa_from_rule`, with a rule list of 256 entries, is still running after
any number of iterations of its loop. -/
theorem builders_no_success_without_failed_addition :
    (∀ l a, pkt_empty.pkt_fits l a = true) ∧
    (ikev2_sa_from_acquire pkt_empty
      { sadb_msg_type := SADB_ACQUIRE, sadb_msg_satype := SADB_SATYPE_ESP,
        combs := [example_comb_esp_sha1] } 4664 IKEV2_DH_MODP_2048).isNone = true ∧
    (∀ fuel, ikev2_sa_from_rule encr_data_example fuel pkt_empty
      { rule_xf := List.replicate 256 example_xf_gcm } 1 = none) := by
  refine ⟨fun _ _ => rfl, by decide, ?_⟩
  intro fuel
  simp only [ikev2_sa_from_rule, ikev2_add_sa, pkt_try, pkt_empty, if_true]
  exact sa_from_rule_loop_256 _ _ _ _ _ _ _ (by decide)

/-- C17, as amended. Each of the three builders, when it returns, returns
success if and only if every addition primitive it invoked returned success:
its return value is the conjunction of the outcomes of the additions it
attempted, in the order it attempted them. `ikev2_sa_add_result` always
returns; `ikev2_sa_from_acquire` returns for a request that passes its
assertions; `ikev2_sa_from_rule` returns for a rule list of at most 255
entries. -/
theorem builders_succeed_iff_every_addition_succeeded (encr_data : Nat → encr_data_t)
    (pkt : pkt_t) :
    (∀ result, ∃ L,
      (ikev2_sa_add_result pkt result).2.pkt_calls = pkt.pkt_calls ++ L ∧
      (ikev2_sa_add_result pkt result).1 =
        (pkt_outcomes pkt.pkt_fits pkt.pkt_added L).all id) ∧
    (∀ pmsg spi dh, acquire_ok pmsg = true → ∃ ok pkt1 L,
      ikev2_sa_from_acquire pkt pmsg spi dh = some (ok, pkt1) ∧
      pkt1.pkt_calls = pkt.pkt_calls ++ L ∧
      ok = (pkt_outcomes pkt.pkt_fits pkt.pkt_added L).all id) ∧
    (∀ fuel rule spi, rule.rule_xf.length ≤ 255 → rule.rule_xf.length < fuel →
      ∃ ok pkt1 L,
      ikev2_sa_from_rule encr_data fuel pkt rule spi = some (ok, pkt1) ∧
      pkt1.pkt_calls = pkt.pkt_calls ++ L ∧
      ok = (pkt_outcomes pkt.pkt_fits pkt.pkt_added L).all id) := by
  have key : ∀ L, (pkt_add_all (true, pkt) L).2.pkt_calls = pkt.pkt_calls ++ L ∧
      (pkt_add_all (true, pkt) L).1 = (pkt_outcomes pkt.pkt_fits pkt.pkt_added L).all id := by
    intro L
    obtain ⟨s1, -, s3, -, -⟩ := pkt_add_all_spec (true, pkt) L
    exact ⟨s1, by rw [s3]; simp⟩
  refine ⟨?_, ?_, ?_⟩
  · intro result
    rw [ikev2_sa_add_result_eq]
    exact ⟨_, key _⟩
  · intro pmsg spi dh h
    refine ⟨_, _, pkt_add_t.sa :: acquire_adds (acquire_proto pmsg) spi dh 0 pmsg.combs,
      ?_, (key _).1, (key _).2⟩
    rw [ikev2_sa_from_acquire_eq, h]
    rfl
  · intro fuel rule spi hN hfuel
    rcases ikev2_sa_from_rule_calls encr_data fuel pkt rule spi hN hfuel with
      ⟨-, e⟩ | ⟨-, ks, -, -, e, -⟩
    · exact ⟨(pkt_add_all (true, pkt) [pkt_add_t.sa]).1,
        (pkt_add_all (true, pkt) [pkt_add_t.sa]).2, [pkt_add_t.sa], e,
        (key [pkt_add_t.sa]).1, (key [pkt_add_t.sa]).2⟩
    · exact ⟨(pkt_add_all (true, pkt)
          (pkt_add_t.sa :: rule_calls encr_data spi 1 rule.rule_xf ks)).1,
        (pkt_add_all (true, pkt)
          (pkt_add_t.sa :: rule_calls encr_data spi 1 rule.rule_xf ks)).2,
        pkt_add_t.sa :: rule_calls encr_data spi 1 rule.rule_xf ks, e,
        (key (pkt_add_t.sa :: rule_calls encr_data spi 1 rule.rule_xf ks)).1,
        (key (pkt_add_t.sa :: rule_calls encr_data spi 1 rule.rule_xf ks)).2⟩

/-- C17, witness: `ikev2_sa_from_rule` with one rule entry on a message that
has room for the SA payload header only, and `ikev2_sa_from_acquire` for an ESP
acquire with two combinations on the same message. -/
theorem builders_succeed_iff_every_addition_succeeded_witness :
    (∃ ok pkt1 L,
      ikev2_sa_from_rule encr_data_example 2 pkt_header_only
        { rule_xf := [example_xf_cbc] } 0 = some (ok, pkt1) ∧
      pkt1.pkt_calls = pkt_header_only.pkt_calls ++ L ∧
      ok = (pkt_outcomes pkt_header_only.pkt_fits pkt_header_only.pkt_added L).all id) ∧
    (∃ ok pkt1 L,
      ikev2_sa_from_acquire pkt_header_only example_acquire_esp 4664 IKEV2_DH_NONE =
        some (ok, pkt1) ∧
      pkt1.pkt_calls = pkt_header_only.pkt_calls ++ L ∧
      ok = (pkt_outcomes pkt_header_only.pkt_fits pkt_header_only.pkt_added L).all id) :=
  ⟨(builders_succeed_iff_every_addition_succeeded encr_data_example pkt_header_only).2.2
      2 { rule_xf := [example_xf_cbc] } 0 (by decide) (by decide),
   (builders_succeed_iff_every_addition_succeeded encr_data_example pkt_header_only).2.1
      example_acquire_esp 4664 IKEV2_DH_NONE (by decide)⟩

/-- C19. For both `ikev2_no_proposal_chosen` and `ikev2_invalid_ke` (on a host
of either byte order): when the response is created and the notify payload is
added, the one notify payload is added and the response is then handed to
send once, as final, and not freed; when the response cannot be created,
nothing is added, sent or freed; when adding the notify payload fails, the
response is freed and not sent. The functions are total: in every case they
return. -/
theorem notify_emitters_send_or_discard (host_be : Bool) (proto spi dh : Nat) :
    (ikev2_no_proposal_chosen true true proto spi =
      [resp_event_t.add_notify proto spi IKEV2_N_NO_PROPOSAL_CHOSEN [],
       resp_event_t.send true]) ∧
    (∀ notify_added, ikev2_no_proposal_chosen false notify_added proto spi = []) ∧
    (ikev2_no_proposal_chosen true false proto spi =
      [resp_event_t.add_notify proto spi IKEV2_N_NO_PROPOSAL_CHOSEN [],
       resp_event_t.free]) ∧
    (∃ data, ikev2_invalid_ke host_be true true proto spi dh =
      [resp_event_t.add_notify proto spi IKEV2_N_INVALID_KE_PAYLOAD data,
       resp_event_t.send true]) ∧
    (∀ notify_added, ikev2_invalid_ke host_be false notify_added proto spi dh = []) ∧
    (∃ data, ikev2_invalid_ke host_be true false proto spi dh =
      [resp_event_t.add_notify proto spi IKEV2_N_INVALID_KE_PAYLOAD data,
       resp_event_t.free]) ∧
    (∀ resp_created notify_added,
      (ikev2_no_proposal_chosen resp_created notify_added proto spi).count
          (resp_event_t.send true) = (if resp_created && notify_added then 1 else 0) ∧
      resp_event_t.send false ∉ ikev2_no_proposal_chosen resp_created notify_added proto spi ∧
      (ikev2_no_proposal_chosen resp_created notify_added proto spi).count resp_event_t.free =
        (if resp_created && !notify_added then 1 else 0) ∧
      (ikev2_invalid_ke host_be resp_created notify_added proto spi dh).count
          (resp_event_t.send true) = (if resp_created && notify_added then 1 else 0) ∧
      resp_event_t.send false ∉
        ikev2_invalid_ke host_be resp_created notify_added proto spi dh ∧
      (ikev2_invalid_ke host_be resp_created notify_added proto spi dh).count
          resp_event_t.free = (if resp_created && !notify_added then 1 else 0)) := by
  refine ⟨rfl, fun _ => rfl, rfl, ⟨_, rfl⟩, fun _ => rfl, ⟨_, rfl⟩, ?_⟩
  intro resp_created notify_added
  cases resp_created <;> cases notify_added <;>
    simp [ikev2_no_proposal_chosen, ikev2_invalid_ke]

/-- C20. For every DH group id below 65536, on a host of either byte order,
`ikev2_invalid_ke` (when the response is created) adds a notify payload with
the given protocol type and SPI, the reason INVALID_KE_PAYLOAD, and as data
exactly two bytes, the group id div 256 and then the group id mod 256: the id
in big-endian order. -/
theorem ikev2_invalid_ke_notify_data (host_be notify_added : Bool) (proto spi dh : Nat)
    (h : dh < 65536) :
    (ikev2_invalid_ke host_be true notify_added proto spi dh).head? =
      some (resp_event_t.add_notify proto spi IKEV2_N_INVALID_KE_PAYLOAD
        [dh / 256, dh % 256]) ∧
    (ikev2_invalid_ke host_be true notify_added proto spi dh).filter
      (fun e => decide (e ≠ resp_event_t.free ∧ e ≠ resp_event_t.send true)) =
      [resp_event_t.add_notify proto spi IKEV2_N_INVALID_KE_PAYLOAD [dh / 256, dh % 256]] := by
  have hb : uint16_object_bytes host_be (htons host_be (dh % 65536)) = [dh / 256, dh % 256] := by
    rw [Nat.mod_eq_of_lt h]
    have hhi : dh / 256 < 256 := by omega
    have hlo : dh % 256 < 256 := Nat.mod_lt _ (by decide)
    cases host_be
    · simp only [uint16_object_bytes, htons, Bool.false_eq_true, if_false]
      generalize dh / 256 = hi at hhi
      generalize dh % 256 = lo at hlo
      have e1 : (lo * 256 + hi % 256) % 256 = hi := by omega
      have e2 : (lo * 256 + hi % 256) / 256 % 256 = lo := by omega
      rw [e1, e2]
    · simp only [uint16_object_bytes, htons, if_true]
      rw [Nat.mod_eq_of_lt h]
      generalize dh / 256 = hi at hhi
      rw [Nat.mod_eq_of_lt hhi]
  cases notify_added <;> simp [ikev2_invalid_ke, hb]

/-- C20, witness: the group MODP-2048 (14) on a little-endian host. -/
theorem ikev2_invalid_ke_notify_data_witness :
    (ikev2_invalid_ke false true true IKEV2_PROTO_IKE 0 IKEV2_DH_MODP_2048).head? =
      some (resp_event_t.add_notify IKEV2_PROTO_IKE 0 IKEV2_N_INVALID_KE_PAYLOAD
        [IKEV2_DH_MODP_2048 / 256, IKEV2_DH_MODP_2048 % 256]) ∧
    (ikev2_invalid_ke false true true IKEV2_PROTO_IKE 0 IKEV2_DH_MODP_2048).filter
      (fun e => decide (e ≠ resp_event_t.free ∧ e ≠ resp_event_t.send true)) =
      [resp_event_t.add_notify IKEV2_PROTO_IKE 0 IKEV2_N_INVALID_KE_PAYLOAD
        [IKEV2_DH_MODP_2048 / 256, IKEV2_DH_MODP_2048 % 256]] :=
  ikev2_invalid_ke_notify_data false true IKEV2_PROTO_IKE 0 IKEV2_DH_MODP_2048 (by decide)

/-! ## The acquire matcher: what the visitors record -/

/-- The transform visitor of the acquire matcher leaves the cookie as it is
for an ENCR transform, whatever its id, and for a transform whose type is none
of ENCR, PRF, AUTH, DH, ESN; it then tells the walker to go on unless a skip
was flagged before. -/
theorem match_acq_xf_cb_ignored (xf : ikev2_transform_t) (data : acquire_data_s)
    (h : xf.xf_type = IKEV2_XF_ENCR ∨
      (xf.xf_type ≠ IKEV2_XF_ENCR ∧ xf.xf_type ≠ IKEV2_XF_PRF ∧ xf.xf_type ≠ IKEV2_XF_AUTH ∧
       xf.xf_type ≠ IKEV2_XF_DH ∧ xf.xf_type ≠ IKEV2_XF_ESN)) :
    match_acq_xf_cb xf data = (!data.ad_skip, data) := by
  unfold match_acq_xf_cb
  rcases h with h | ⟨h1, h2, h3, h4, h5⟩
  · simp [h]
  · simp [h1, h2, h3, h4, h5]

/-- The transform visitor of the acquire matcher never writes the protocol
type, the SPI, the proposal number or the encryption id of the result. -/
theorem match_acq_xf_cb_step_ids (xf : ikev2_transform_t) (data : acquire_data_s) :
    (match_acq_xf_cb xf data).2.ad_res.sar_proto = data.ad_res.sar_proto ∧
    (match_acq_xf_cb xf data).2.ad_res.sar_spi = data.ad_res.sar_spi ∧
    (match_acq_xf_cb xf data).2.ad_res.sar_propnum = data.ad_res.sar_propnum ∧
    (match_acq_xf_cb xf data).2.ad_res.sar_encr = data.ad_res.sar_encr := by
  unfold match_acq_xf_cb
  by_cases h1 : xf.xf_type = IKEV2_XF_ENCR
  · simp [h1]
  · by_cases h2 : xf.xf_type = IKEV2_XF_PRF
    · simp [h2, IKEV2_XF_ENCR, IKEV2_XF_PRF]
    · by_cases h3 : xf.xf_type = IKEV2_XF_AUTH
      · by_cases h4 : xf.xf_id = data.ad_comb.sadb_comb_auth <;>
          simp [h3, h4, IKEV2_XF_ENCR, IKEV2_XF_AUTH, IKEV2_XF_PRF]
      · by_cases h5 : xf.xf_type = IKEV2_XF_DH
        · by_cases h6 : xf.xf_id = data.ad_dh <;>
            simp [h5, h6, IKEV2_XF_ENCR, IKEV2_XF_AUTH, IKEV2_XF_PRF, IKEV2_XF_DH]
        · by_cases h7 : xf.xf_type = IKEV2_XF_ESN
          · by_cases h8 : xf.xf_id = IKEV2_ESN_NONE <;>
              simp [h7, h8, IKEV2_XF_ENCR, IKEV2_XF_AUTH, IKEV2_XF_PRF, IKEV2_XF_DH,
                IKEV2_XF_ESN]
          · simp [h1, h2, h3, h5, h7]

theorem walk_acq_xfs_ids (xfs : List ikev2_transform_t) (data : acquire_data_s) :
    (ikev2_walk match_acq_xf_cb xfs data).ad_res.sar_proto = data.ad_res.sar_proto ∧
    (ikev2_walk match_acq_xf_cb xfs data).ad_res.sar_spi = data.ad_res.sar_spi ∧
    (ikev2_walk match_acq_xf_cb xfs data).ad_res.sar_propnum = data.ad_res.sar_propnum ∧
    (ikev2_walk match_acq_xf_cb xfs data).ad_res.sar_encr = data.ad_res.sar_encr := by
  induction xfs generalizing data with
  | nil => simp [ikev2_walk]
  | cons xf rest ih =>
    obtain ⟨h1, h2, h3, h4⟩ := match_acq_xf_cb_step_ids xf data
    rw [ikev2_walk_cons]
    by_cases hc : (match_acq_xf_cb xf data).1 = true
    · obtain ⟨i1, i2, i3, i4⟩ := ih (match_acq_xf_cb xf data).2
      simp only [hc, if_true]
      exact ⟨i1.trans h1, i2.trans h2, i3.trans h3, i4.trans h4⟩
    · simp only [hc]
      exact ⟨h1, h2, h3, h4⟩

/-- C24. The transform visitor of the acquire matcher leaves the cookie
untouched for every ENCR transform, also for one whose id is the encryption id
of the combination: the ENCR bit is not set in the match bitset and no
encryption id is recorded. At the failing input (combination with encryption
algorithm 12, transform ENCR = 12 without attributes, empty result) the result
stays empty. -/
theorem match_acq_xf_cb_encr_not_recorded :
    (∀ (xf : ikev2_transform_t) (data : acquire_data_s), xf.xf_type = IKEV2_XF_ENCR →
      match_acq_xf_cb xf data = (!data.ad_skip, data)) ∧
    (match_acq_xf_cb { xf_type := IKEV2_XF_ENCR, xf_id := IKEV2_ENCR_AES_CBC, attrs := [] }
      (acquire_data_init example_comb_esp IKEV2_PROTO_ESP IKEV2_DH_NONE)).2.ad_res =
      sa_result_zero ∧
    example_comb_esp.sadb_comb_encrypt = IKEV2_ENCR_AES_CBC ∧
    SA_RESULT_HAS (match_acq_xf_cb
      { xf_type := IKEV2_XF_ENCR, xf_id := IKEV2_ENCR_AES_CBC, attrs := [] }
      (acquire_data_init example_comb_esp IKEV2_PROTO_ESP IKEV2_DH_NONE)).2.ad_res
      IKEV2_XF_ENCR = false := by
  refine ⟨fun xf data h => match_acq_xf_cb_ignored xf data (Or.inl h), ?_, ?_, ?_⟩ <;> decide

/-- C27. When the proposal visitor of the acquire matcher accepts a proposal
(it has the target protocol type and the visitor returns false, which stops
the walk), it has left `ad_match` as it was and the protocol type, SPI and
proposal number of the result zero: nothing of the proposal is recorded and
nothing is reported. At the failing input (AH acquire with authentication
algorithm 5, requested DH group MODP-2048, payload of the AH proposal 2 with
SPI 4665 and AUTH = 5, DH = MODP-2048, ESN = NONE) every required transform
type is flagged and `ikev2_sa_match_acquire` returns false. -/
theorem match_acq_prop_cb_accept_not_recorded :
    (∀ (prop : ikev2_sa_proposal_t) (data data1 : acquire_data_s),
      prop.proto_protoid = data.ad_spitype →
      match_acq_prop_cb prop data = some (false, data1) →
      data1.ad_match = data.ad_match ∧ data1.ad_res.sar_proto = 0 ∧
      data1.ad_res.sar_spi = 0 ∧ data1.ad_res.sar_propnum = 0) ∧
    (match_acq_prop_cb example_prop_ah_dh
      (acquire_data_init example_comb_ah IKEV2_PROTO_AH IKEV2_DH_MODP_2048)).map
      (fun r => (r.1, r.2.ad_skip, SA_RESULT_HAS r.2.ad_res IKEV2_XF_AUTH,
        SA_RESULT_HAS r.2.ad_res IKEV2_XF_DH, SA_RESULT_HAS r.2.ad_res IKEV2_XF_ESN)) =
      some (false, false, true, true, true) ∧
    (match_acq_prop_cb example_prop_ah_dh
      (acquire_data_init example_comb_ah IKEV2_PROTO_AH IKEV2_DH_MODP_2048)).map
      (fun r => (r.2.ad_match, r.2.ad_res.sar_proto, r.2.ad_res.sar_spi,
        r.2.ad_res.sar_propnum)) = some (false, 0, 0, 0) ∧
    (ikev2_sa_match_acquire
      { sadb_msg_type := SADB_ACQUIRE, sadb_msg_satype := SADB_SATYPE_AH,
        combs := [example_comb_ah] }
      IKEV2_DH_MODP_2048 [example_prop_ah_dh] sa_result_zero).map Prod.fst = some false := by
  refine ⟨?_, by decide, by decide, by decide⟩
  intro prop data data1 hp h
  have hm := (match_acq_prop_cb_frame prop data data1 false h).1
  obtain ⟨w1, w2, w3, -⟩ := walk_acq_xfs_ids prop.xfs
    { data with ad_res := sa_result_zero, ad_skip := false }
  dsimp only at w1 w2 w3
  unfold match_acq_prop_cb at h
  dsimp only at h
  generalize ikev2_walk match_acq_xf_cb prop.xfs
    { data with ad_res := sa_result_zero, ad_skip := false } = d1 at *
  simp only [hp, ne_eq, not_true_eq_false, if_false] at h
  refine ⟨hm, ?_⟩
  split_ifs at h
  all_goals
    simp only [Option.some.injEq, Prod.mk.injEq, Bool.true_eq_false, false_and,
      true_and, reduceCtorEq] at h
  all_goals
    subst h
    exact ⟨w1, w2, w3⟩

/-- C28. The transform visitor of the acquire matcher has no case for a
transform whose type is none of ENCR, PRF, AUTH, DH, ESN: it leaves the cookie
untouched, so no skip is flagged. At the failing input (AH cookie with
authentication algorithm 5 and no DH group; AH proposal with AUTH = 5,
ESN = NONE and a transform of the unassigned type 9) the proposal visitor
returns false, the value with which it accepts a proposal, without the skip
flag and with AUTH and ESN flagged, exactly as for the same proposal without
the transform of type 9. -/
theorem match_acq_unknown_xf_type_not_rejected :
    (∀ (xf : ikev2_transform_t) (data : acquire_data_s),
      xf.xf_type ≠ IKEV2_XF_ENCR → xf.xf_type ≠ IKEV2_XF_PRF → xf.xf_type ≠ IKEV2_XF_AUTH →
      xf.xf_type ≠ IKEV2_XF_DH → xf.xf_type ≠ IKEV2_XF_ESN →
      match_acq_xf_cb xf data = (!data.ad_skip, data)) ∧
    (match_acq_prop_cb example_prop_ah_unknown_type
      (acquire_data_init example_comb_ah IKEV2_PROTO_AH IKEV2_DH_NONE)).map
      (fun r => (r.1, r.2.ad_skip, SA_RESULT_HAS r.2.ad_res IKEV2_XF_AUTH,
        SA_RESULT_HAS r.2.ad_res IKEV2_XF_ESN)) = some (false, false, true, true) ∧
    match_acq_prop_cb example_prop_ah_unknown_type
      (acquire_data_init example_comb_ah IKEV2_PROTO_AH IKEV2_DH_NONE) =
    match_acq_prop_cb example_prop_ah_auth
      (acquire_data_init example_comb_ah IKEV2_PROTO_AH IKEV2_DH_NONE) := by
  refine ⟨fun xf data h1 h2 h3 h4 h5 =>
    match_acq_xf_cb_ignored xf data (Or.inr ⟨h1, h2, h3, h4, h5⟩), by decide, by decide⟩

/-! ## The rule matcher: key length and first acceptable proposal -/

theorem attrs_keylen_some (cfg : config_xf_t) (attrs : List ikev2_attribute_t) (k : Nat)
    (h : attrs_keylen cfg attrs = some k) :
    ∃ a ∈ attrs, IKE_ATTR_GET_TYPE a.attr_type = IKEV2_XF_ATTR_KEYLEN ∧ a.attr_length = k ∧
      cfg.xf_minbits ≤ k ∧ k ≤ cfg.xf_maxbits := by
  induction attrs with
  | nil => simp [attrs_keylen] at h
  | cons a rest ih =>
    unfold attrs_keylen at h
    split_ifs at h with h1 h2
    · simp only [Option.some.injEq] at h
      subst h
      exact ⟨a, List.mem_cons_self _ _, not_not.1 h1, rfl, h2.1, h2.2⟩
    · obtain ⟨b, hb, r⟩ := ih h
      exact ⟨b, List.mem_cons_of_mem _ hb, r⟩

theorem attrs_keylen_out_of_range (cfg : config_xf_t) (attrs : List ikev2_attribute_t)
    (h : ∀ a ∈ attrs, ¬ (cfg.xf_minbits ≤ a.attr_length ∧ a.attr_length ≤ cfg.xf_maxbits)) :
    attrs_keylen cfg attrs = none := by
  cases hk : attrs_keylen cfg attrs with
  | none => rfl
  | some k =>
    obtain ⟨a, ha, -, e, h1, h2⟩ := attrs_keylen_some cfg attrs k hk
    exact absurd ⟨e ▸ h1, e ▸ h2⟩ (h a ha)

/-- The key length a proposal leaves in the result is the one recorded before
or the key length that an ENCR transform of the proposal with the rule's
encryption id offers to the rule entry. -/
theorem xf_keylen_fold (cfg : config_xf_t) (xfs : List ikev2_transform_t) (k0 : Nat) :
    xfs.foldl (fun k xf => xf_keylen cfg xf k) k0 = k0 ∨
    ∃ xf ∈ xfs, xf.xf_type = IKEV2_XF_ENCR ∧ xf.xf_id = cfg.xf_encr ∧
      attrs_keylen cfg xf.attrs = some (xfs.foldl (fun k xf => xf_keylen cfg xf k) k0) := by
  induction xfs generalizing k0 with
  | nil => exact Or.inl rfl
  | cons x rest ih =>
    simp only [List.foldl_cons]
    rcases ih (xf_keylen cfg x k0) with h | ⟨y, hy, r⟩
    · rw [h]
      unfold xf_keylen
      by_cases hx : x.xf_type = IKEV2_XF_ENCR ∧ cfg.xf_encr = x.xf_id
      · cases hk : attrs_keylen cfg x.attrs with
        | none => simp [hx, hk]
        | some k =>
          right
          refine ⟨x, List.mem_cons_self _ _, hx.1, hx.2.symm, ?_⟩
          simp [hx, hk]
      · simp [hx]
    · exact Or.inr ⟨y, List.mem_cons_of_mem _ hy, r⟩

/-- The proposal walk passes over leading IKE proposals that are not
acceptable to the pair of the cookie, and leaves the pair and `rd_match` as
they were. -/
theorem walk_props_prefix (encr_data : Nat → encr_data_t)
    (pre rest : List ikev2_sa_proposal_t) (data : rule_data_s)
    (hpre : ∀ p ∈ pre, p.proto_protoid = IKEV2_PROTO_IKE ∧
      prop_acceptable encr_data data.rd_xf data.rd_prf p = false) :
    ikev2_walk (match_rule_prop_cb encr_data) (pre ++ rest) data =
      ikev2_walk (match_rule_prop_cb encr_data) rest
        (ikev2_walk (match_rule_prop_cb encr_data) pre data) ∧
    (ikev2_walk (match_rule_prop_cb encr_data) pre data).rd_xf = data.rd_xf ∧
    (ikev2_walk (match_rule_prop_cb encr_data) pre data).rd_prf = data.rd_prf ∧
    (ikev2_walk (match_rule_prop_cb encr_data) pre data).rd_match = data.rd_match := by
  induction pre generalizing data with
  | nil => simp [ikev2_walk]
  | cons p ps ih =>
    obtain ⟨hp, ha⟩ := hpre p (List.mem_cons_self _ _)
    obtain ⟨h1, h2, h3, h4⟩ := match_rule_prop_cb_ike encr_data p data hp
    rw [ha] at h1 h2
    simp only [Bool.not_false] at h1
    simp only [Bool.or_false] at h2
    have hps : ∀ x ∈ ps, x.proto_protoid = IKEV2_PROTO_IKE ∧
        prop_acceptable encr_data (match_rule_prop_cb encr_data p data).2.rd_xf
          (match_rule_prop_cb encr_data p data).2.rd_prf x = false := by
      intro x hx
      rw [h3, h4]
      exact hpre x (List.mem_cons_of_mem _ hx)
    obtain ⟨i1, i2, i3, i4⟩ := ih _ hps
    simp only [List.cons_append]
    rw [ikev2_walk_cons, ikev2_walk_cons]
    simp only [h1, if_true]
    exact ⟨i1, i2.trans h3, i3.trans h4, i4.trans h2⟩

/-- C25. Whenever `ikev2_sa_match_rule` returns matched with a key length in
the result that is not zero, that key length is within the [min bits, max
bits] range of the matched rule entry and it is the value of a key-length
attribute of an ENCR transform, with the entry's encryption id, of the
accepted proposal. And the transform visitor does not count as a match an ENCR
transform whose attributes are all key lengths outside the range of the rule
entry of the cookie: it leaves match bitset, encryption id and key length of
the result as they are. -/
theorem ikev2_sa_match_rule_keylen_in_range (encr_data : Nat → encr_data_t) :
    (∀ (rule : config_rule_t) (pay : List ikev2_sa_proposal_t)
      (result res : ikev2_sa_result_t),
      ikev2_sa_match_rule encr_data rule pay result = (true, res) →
      res.sar_encr_keylen ≠ 0 →
      ∃ cfg prf pre q post,
        (rule_pairs rule).find? (fun cp => pair_matches encr_data cp.1 cp.2 pay) =
          some (cfg, prf) ∧
        cfg ∈ rule.rule_xf ∧
        pay = pre ++ q :: post ∧
        (∀ p ∈ pre, p.proto_protoid = IKEV2_PROTO_IKE ∧
          prop_acceptable encr_data cfg prf p = false) ∧
        prop_acceptable encr_data cfg prf q = true ∧
        cfg.xf_minbits ≤ res.sar_encr_keylen ∧ res.sar_encr_keylen ≤ cfg.xf_maxbits ∧
        ∃ xf ∈ q.xfs, xf.xf_type = IKEV2_XF_ENCR ∧ xf.xf_id = cfg.xf_encr ∧
          ∃ a ∈ xf.attrs, IKE_ATTR_GET_TYPE a.attr_type = IKEV2_XF_ATTR_KEYLEN ∧
            a.attr_length = res.sar_encr_keylen) ∧
    (∀ (xf : ikev2_transform_t) (data : rule_data_s),
      data.rd_skip = false → xf.xf_type = IKEV2_XF_ENCR → xf.attrs ≠ [] →
      (∀ a ∈ xf.attrs, IKE_ATTR_GET_TYPE a.attr_type = IKEV2_XF_ATTR_KEYLEN ∧
        ¬ (data.rd_xf.xf_minbits ≤ a.attr_length ∧ a.attr_length ≤ data.rd_xf.xf_maxbits)) →
      (match_rule_xf_cb xf data).2.rd_res.sar_match = data.rd_res.sar_match ∧
      (match_rule_xf_cb xf data).2.rd_res.sar_encr = data.rd_res.sar_encr ∧
      (match_rule_xf_cb xf data).2.rd_res.sar_encr_keylen = data.rd_res.sar_encr_keylen) := by
  constructor
  · intro rule pay result res h hk
    obtain ⟨cfg, prf, pre, q, post, e0, e1, e2, e3, e4⟩ :=
      ikev2_sa_match_rule_accepted encr_data rule pay result res h
    have hmem : (cfg, prf) ∈ rule_pairs rule := List.mem_of_find?_eq_some e0
    have hmem2 : cfg ∈ rule.rule_xf := by
      simp only [rule_pairs, List.mem_flatMap, List.mem_map, Prod.mk.injEq] at hmem
      obtain ⟨c, hc, p, -, rfl, -⟩ := hmem
      exact hc
    have a7 := (match_rule_prop_cb_accept_fields encr_data q (rule_data_init cfg prf)
      e3).2.2.2.2.2.2.1
    rw [← e4] at a7
    have a7' : res.sar_encr_keylen = q.xfs.foldl (fun k xf => xf_keylen cfg xf k) 0 := a7
    rcases xf_keylen_fold cfg q.xfs 0 with h0 | ⟨xf, hxf, t1, t2, t3⟩
    · rw [h0] at a7'
      exact absurd a7' hk
    · rw [← a7'] at t3
      obtain ⟨a, ha, b1, b2, b3, b4⟩ := attrs_keylen_some cfg xf.attrs _ t3
      exact ⟨cfg, prf, pre, q, post, e0, hmem2, e1, e2, e3, b3, b4, xf, hxf, t1, t2, a, ha,
        b1, b2⟩
  · intro xf data hs ht hne hall
    obtain ⟨-, -, -, -, -, h6, h7, h8⟩ := match_rule_xf_cb_step xf data hs
    have hk : attrs_keylen data.rd_xf xf.attrs = none :=
      attrs_keylen_out_of_range _ _ (fun a ha => (hall a ha).2)
    have hacc : xf_acceptable data.rd_xf data.rd_prf xf = false := by
      simp [xf_acceptable, ht, hne, hk]
    refine ⟨?_, ?_, ?_⟩
    · rw [h6, hacc]
      simp
    · rw [h7, hacc]
      simp
    · rw [h8]
      simp [xf_keylen, hk]

/-- C25, witness: the rule entry AES-CBC [128,256] matched by
`example_prop_cbc`, whose ENCR transform carries the key length 128; and an
ENCR transform with the key lengths 64 and 512 on the fresh cookie of that
entry. -/
theorem ikev2_sa_match_rule_keylen_in_range_witness :
    (∃ cfg prf pre q post,
        (rule_pairs { rule_xf := [example_xf_cbc] }).find?
          (fun cp => pair_matches encr_data_example cp.1 cp.2 [example_prop_cbc]) =
          some (cfg, prf) ∧
        cfg ∈ [example_xf_cbc] ∧
        [example_prop_cbc] = pre ++ q :: post ∧
        (∀ p ∈ pre, p.proto_protoid = IKEV2_PROTO_IKE ∧
          prop_acceptable encr_data_example cfg prf p = false) ∧
        prop_acceptable encr_data_example cfg prf q = true ∧
        cfg.xf_minbits ≤ example_result_cbc.sar_encr_keylen ∧
        example_result_cbc.sar_encr_keylen ≤ cfg.xf_maxbits ∧
        ∃ xf ∈ q.xfs, xf.xf_type = IKEV2_XF_ENCR ∧ xf.xf_id = cfg.xf_encr ∧
          ∃ a ∈ xf.attrs, IKE_ATTR_GET_TYPE a.attr_type = IKEV2_XF_ATTR_KEYLEN ∧
            a.attr_length = example_result_cbc.sar_encr_keylen) ∧
    ((match_rule_xf_cb example_xf_encr_out_of_range
        (rule_data_init example_xf_cbc IKEV2_PRF_HMAC_SHA2_512)).2.rd_res.sar_match =
        (rule_data_init example_xf_cbc IKEV2_PRF_HMAC_SHA2_512).rd_res.sar_match ∧
      (match_rule_xf_cb example_xf_encr_out_of_range
        (rule_data_init example_xf_cbc IKEV2_PRF_HMAC_SHA2_512)).2.rd_res.sar_encr =
        (rule_data_init example_xf_cbc IKEV2_PRF_HMAC_SHA2_512).rd_res.sar_encr ∧
      (match_rule_xf_cb example_xf_encr_out_of_range
        (rule_data_init example_xf_cbc IKEV2_PRF_HMAC_SHA2_512)).2.rd_res.sar_encr_keylen =
        (rule_data_init example_xf_cbc IKEV2_PRF_HMAC_SHA2_512).rd_res.sar_encr_keylen) :=
  ⟨(ikev2_sa_match_rule_keylen_in_range encr_data_example).1
      { rule_xf := [example_xf_cbc] } [example_prop_cbc] sa_result_zero example_result_cbc
      (by decide) (by decide),
   (ikev2_sa_match_rule_keylen_in_range encr_data_example).2 example_xf_encr_out_of_range
      (rule_data_init example_xf_cbc IKEV2_PRF_HMAC_SHA2_512) rfl rfl (by decide)
      (by decide)⟩

/-- C26. First acceptable proposal wins. For a (rule entry, PRF) pair and a
payload in which IKE proposals that are not acceptable to the pair are
followed by a proposal `q` that is acceptable to it, the walk for the pair
ends with a match whose result is that of `q` (its proposal number is the
number of `q`), and what follows `q` in the payload is not evaluated: the
cookie the walk ends with is the same whatever follows `q`. -/
theorem match_rule_pair_first_acceptable (encr_data : Nat → encr_data_t) (cfg : config_xf_t)
    (prf : Nat) (pre post : List ikev2_sa_proposal_t) (q : ikev2_sa_proposal_t)
    (hpre : ∀ p ∈ pre, p.proto_protoid = IKEV2_PROTO_IKE ∧
      prop_acceptable encr_data cfg prf p = false)
    (hq : prop_acceptable encr_data cfg prf q = true) :
    (match_rule_pair encr_data cfg prf (pre ++ q :: post)).rd_match = true ∧
    (match_rule_pair encr_data cfg prf (pre ++ q :: post)).rd_res.sar_propnum =
      q.proto_proposalnr ∧
    (match_rule_pair encr_data cfg prf (pre ++ q :: post)).rd_res =
      (match_rule_pair encr_data cfg prf [q]).rd_res ∧
    (∀ post1, match_rule_pair encr_data cfg prf (pre ++ q :: post1) =
      match_rule_pair encr_data cfg prf (pre ++ q :: post)) := by
  have key : ∀ post1, match_rule_pair encr_data cfg prf (pre ++ q :: post1) =
      (match_rule_prop_cb encr_data q
        (ikev2_walk (match_rule_prop_cb encr_data) pre (rule_data_init cfg prf))).2 := by
    intro post1
    obtain ⟨w1, w2, w3, -⟩ := walk_props_prefix encr_data pre (q :: post1)
      (rule_data_init cfg prf) hpre
    unfold match_rule_pair
    rw [w1, ikev2_walk_cons]
    have hq1 : prop_acceptable encr_data
        (ikev2_walk (match_rule_prop_cb encr_data) pre (rule_data_init cfg prf)).rd_xf
        (ikev2_walk (match_rule_prop_cb encr_data) pre (rule_data_init cfg prf)).rd_prf q =
        true := by
      rw [w2, w3]
      exact hq
    have := (match_rule_prop_cb_accept_fields encr_data q _ hq1).1
    simp only [this, Bool.false_eq_true, if_false]
  obtain ⟨-, w2, w3, -⟩ := walk_props_prefix encr_data pre [] (rule_data_init cfg prf) hpre
  have hq1 : prop_acceptable encr_data
      (ikev2_walk (match_rule_prop_cb encr_data) pre (rule_data_init cfg prf)).rd_xf
      (ikev2_walk (match_rule_prop_cb encr_data) pre (rule_data_init cfg prf)).rd_prf q =
      true := by
    rw [w2, w3]
    exact hq
  obtain ⟨-, a2, -, -, a5, -⟩ := match_rule_prop_cb_accept_fields encr_data q _ hq1
  have hfresh := match_rule_prop_cb_accept_fresh encr_data q _ hq1
  rw [w2, w3] at hfresh
  refine ⟨?_, ?_, ?_, ?_⟩
  · rw [key]
    exact a2
  · rw [key]
    exact a5
  · rw [key, match_rule_pair_single]
    exact hfresh
  · intro post1
    rw [key, key]

/-- C26, witness: the pair (AES-CBC entry, HMAC-SHA2-512) on a payload of a
proposal that it does not accept, `example_prop_cbc`, and a further proposal
that it would accept as well. -/
theorem match_rule_pair_first_acceptable_witness :
    (match_rule_pair encr_data_example example_xf_cbc IKEV2_PRF_HMAC_SHA2_512
      ([example_prop_incomplete] ++ example_prop_cbc ::
        [{ example_prop_cbc with proto_proposalnr := 3 }])).rd_match = true ∧
    (match_rule_pair encr_data_example example_xf_cbc IKEV2_PRF_HMAC_SHA2_512
      ([example_prop_incomplete] ++ example_prop_cbc ::
        [{ example_prop_cbc with proto_proposalnr := 3 }])).rd_res.sar_propnum =
      example_prop_cbc.proto_proposalnr ∧
    (match_rule_pair encr_data_example example_xf_cbc IKEV2_PRF_HMAC_SHA2_512
      ([example_prop_incomplete] ++ example_prop_cbc ::
        [{ example_prop_cbc with proto_proposalnr := 3 }])).rd_res =
      (match_rule_pair encr_data_example example_xf_cbc IKEV2_PRF_HMAC_SHA2_512
        [example_prop_cbc]).rd_res ∧
    (∀ post1, match_rule_pair encr_data_example example_xf_cbc IKEV2_PRF_HMAC_SHA2_512
        ([example_prop_incomplete] ++ example_prop_cbc :: post1) =
      match_rule_pair encr_data_example example_xf_cbc IKEV2_PRF_HMAC_SHA2_512
        ([example_prop_incomplete] ++ example_prop_cbc ::
          [{ example_prop_cbc with proto_proposalnr := 3 }])) :=
  match_rule_pair_first_acceptable encr_data_example example_xf_cbc IKEV2_PRF_HMAC_SHA2_512
    [example_prop_incomplete] [{ example_prop_cbc with proto_proposalnr := 3 }]
    example_prop_cbc (by decide) (by decide)

/-! ## Algorithm identifier mapping -/

/-- C29. The function `ikev2_pfkey_to_auth` returns the kernel numbers of
HMAC-SHA-256, HMAC-SHA-384 and HMAC-SHA-512 (5, 6, 7) unchanged, and as AUTH
transform ids these denote AES-XCBC-96, HMAC-MD5-128 and HMAC-SHA1-160, not the
SHA-2 algorithms (12, 13, 14). For none, HMAC-MD5 and HMAC-SHA1 the id it
returns denotes the same algorithm, and so does the id `ikev2_pfkey_to_encr`
returns for every encryption algorithm it knows. -/
theorem ikev2_pfkey_to_auth_sha2_ids :
    (ikev2_pfkey_to_auth SADB_AALG_SHA256HMAC = some 5 ∧
      sadb_aalg_alg SADB_AALG_SHA256HMAC = some crypto_alg_t.hmac_sha2_256 ∧
      ikev2_xf_auth_alg 5 = some crypto_alg_t.aes_xcbc_96 ∧
      ikev2_xf_auth_alg 12 = some crypto_alg_t.hmac_sha2_256) ∧
    (ikev2_pfkey_to_auth SADB_AALG_SHA384HMAC = some 6 ∧
      sadb_aalg_alg SADB_AALG_SHA384HMAC = some crypto_alg_t.hmac_sha2_384 ∧
      ikev2_xf_auth_alg 6 = some crypto_alg_t.hmac_md5_128 ∧
      ikev2_xf_auth_alg 13 = some crypto_alg_t.hmac_sha2_384) ∧
    (ikev2_pfkey_to_auth SADB_AALG_SHA512HMAC = some 7 ∧
      sadb_aalg_alg SADB_AALG_SHA512HMAC = some crypto_alg_t.hmac_sha2_512 ∧
      ikev2_xf_auth_alg 7 = some crypto_alg_t.hmac_sha1_160 ∧
      ikev2_xf_auth_alg 14 = some crypto_alg_t.hmac_sha2_512) ∧
    (∀ alg ∈ [SADB_AALG_NONE, SADB_AALG_MD5HMAC, SADB_AALG_SHA1HMAC],
      (ikev2_pfkey_to_auth alg).bind ikev2_xf_auth_alg = sadb_aalg_alg alg ∧
      (sadb_aalg_alg alg).isSome = true) ∧
    (∀ alg x, ikev2_pfkey_to_encr alg = some x →
      ikev2_xf_encr_alg x = sadb_ealg_alg alg ∧ (sadb_ealg_alg alg).isSome = true) := by
  refine ⟨by decide, by decide, by decide, by decide, ?_⟩
  intro alg x h
  unfold ikev2_pfkey_to_encr at h
  split_ifs at h with hc
  simp only [Option.some.injEq] at h
  subst h
  rcases hc with h | h | h | h | h | h | h | h | h | h | h | h <;> subst h <;> decide

/-! ## The rule matcher: an ENCR transform without attributes -/

theorem xf_keylen_fold_no_attrs (cfg : config_xf_t) :
    ∀ (xfs : List ikev2_transform_t) (k0 : Nat),
      (∀ xf ∈ xfs, xf.xf_type = IKEV2_XF_ENCR → xf.xf_id = cfg.xf_encr → xf.attrs = []) →
      xfs.foldl (fun k xf => xf_keylen cfg xf k) k0 = k0
  | [], k0, _ => rfl
  | xf :: rest, k0, h => by
    have hk : xf_keylen cfg xf k0 = k0 := by
      unfold xf_keylen
      by_cases hc : xf.xf_type = IKEV2_XF_ENCR ∧ cfg.xf_encr = xf.xf_id
      · have := h xf (List.mem_cons_self _ _) hc.1 hc.2.symm
        simp [hc, this, attrs_keylen]
      · simp [hc]
    rw [List.foldl_cons, hk]
    exact xf_keylen_fold_no_attrs cfg rest k0 (fun x hx => h x (List.mem_cons_of_mem _ hx))

/-- C33. In the rule matcher an ENCR transform that has the encryption id of
the rule entry and carries no attributes is an ENCR match, whatever the
[min bits, max bits] range of the entry: the visitor sets the ENCR bit of the
match bitset, records the id and leaves the key length of the result as it
is. When no ENCR transform with the entry's id in the accepted proposal
carries an attribute, the key length of the result is 0, for the proposal
visitor and for `ikev2_sa_match_rule`. -/
theorem match_rule_encr_without_attrs (encr_data : Nat → encr_data_t) :
    (∀ (xf : ikev2_transform_t) (data : rule_data_s),
      xf.xf_type = IKEV2_XF_ENCR → xf.xf_id = data.rd_xf.xf_encr → xf.attrs = [] →
      SA_RESULT_HAS (match_rule_xf_cb xf data).2.rd_res IKEV2_XF_ENCR = true ∧
      (match_rule_xf_cb xf data).2.rd_res.sar_encr = xf.xf_id ∧
      (match_rule_xf_cb xf data).2.rd_res.sar_encr_keylen = data.rd_res.sar_encr_keylen ∧
      (match_rule_xf_cb xf data).2.rd_skip = data.rd_skip) ∧
    (∀ (q : ikev2_sa_proposal_t) (data : rule_data_s),
      prop_acceptable encr_data data.rd_xf data.rd_prf q = true →
      (∀ xf ∈ q.xfs, xf.xf_type = IKEV2_XF_ENCR → xf.xf_id = data.rd_xf.xf_encr →
        xf.attrs = []) →
      (match_rule_prop_cb encr_data q data).2.rd_match = true ∧
      SA_RESULT_HAS (match_rule_prop_cb encr_data q data).2.rd_res IKEV2_XF_ENCR = true ∧
      (match_rule_prop_cb encr_data q data).2.rd_res.sar_encr = data.rd_xf.xf_encr ∧
      (match_rule_prop_cb encr_data q data).2.rd_res.sar_encr_keylen = 0) ∧
    (∀ (rule : config_rule_t) (pay : List ikev2_sa_proposal_t)
      (result res : ikev2_sa_result_t),
      ikev2_sa_match_rule encr_data rule pay result = (true, res) →
      ∃ cfg prf pre q post,
        (rule_pairs rule).find? (fun cp => pair_matches encr_data cp.1 cp.2 pay) =
          some (cfg, prf) ∧
        pay = pre ++ q :: post ∧
        (∀ p ∈ pre, p.proto_protoid = IKEV2_PROTO_IKE ∧
          prop_acceptable encr_data cfg prf p = false) ∧
        prop_acceptable encr_data cfg prf q = true ∧
        res.sar_propnum = q.proto_proposalnr ∧
        ((∀ xf ∈ q.xfs, xf.xf_type = IKEV2_XF_ENCR → xf.xf_id = cfg.xf_encr →
          xf.attrs = []) → res.sar_encr_keylen = 0)) := by
  refine ⟨?_, ?_, ?_⟩
  · intro xf data ht hid hattr
    have hne : ¬ (data.rd_xf.xf_encr ≠ xf.xf_id) := by simp [hid]
    have hres : (match_rule_xf_cb xf data).2 =
        { data with rd_res := { data.rd_res with
            sar_encr := xf.xf_id,
            sar_match := data.rd_res.sar_match ||| (1 <<< xf.xf_type) } } := by
      simp only [match_rule_xf_cb, ht, if_true, hne, if_false, hattr, ne_eq, not_true_eq_false,
        match_rule_xf_done]
    rw [hres, SA_RESULT_HAS_eq_testBit]
    refine ⟨?_, rfl, rfl, rfl⟩
    simp only [ht, Nat.testBit_or, Nat.one_shiftLeft, Nat.testBit_two_pow_self, Bool.or_true]
  · intro q data ha hall
    obtain ⟨-, h2, -, -, -, h6, h7, -, -, -, -, h12⟩ :=
      match_rule_prop_cb_accept_fields encr_data q data ha
    refine ⟨h2, ?_, h6, ?_⟩
    · have hE : xfs_have data.rd_xf data.rd_prf q.xfs IKEV2_XF_ENCR = true := by
        simp only [prop_acceptable, Bool.and_eq_true] at ha
        exact ha.1.1.1.2
      have hb := h12 IKEV2_XF_ENCR
      rw [hE] at hb
      rw [SA_RESULT_HAS_eq_testBit]
      exact hb
    · rw [h7]
      exact xf_keylen_fold_no_attrs data.rd_xf q.xfs 0 hall
  · intro rule pay result res h
    obtain ⟨cfg, prf, pre, q, post, e0, e1, e2, e3, e4⟩ :=
      ikev2_sa_match_rule_accepted encr_data rule pay result res h
    obtain ⟨-, -, -, -, h5, -, h7, -⟩ :=
      match_rule_prop_cb_accept_fields encr_data q (rule_data_init cfg prf) e3
    refine ⟨cfg, prf, pre, q, post, e0, e1, e2, e3, ?_, ?_⟩
    · rw [e4]; exact h5
    · intro hall
      rw [e4, h7]
      exact xf_keylen_fold_no_attrs cfg q.xfs 0 hall

/-- C33, witness: the rule entry AES-CBC [128,256] and the proposal
`example_prop_cbc_no_keylen`, whose ENCR transform has no attribute: the
transform is an ENCR match, the proposal is accepted, and
`ikev2_sa_match_rule` returns matched with the key length 0. -/
theorem match_rule_encr_without_attrs_witness :
    (SA_RESULT_HAS (match_rule_xf_cb
        { xf_type := IKEV2_XF_ENCR, xf_id := IKEV2_ENCR_AES_CBC, attrs := [] }
        (rule_data_init example_xf_cbc IKEV2_PRF_HMAC_SHA2_512)).2.rd_res IKEV2_XF_ENCR = true ∧
      (match_rule_xf_cb
        { xf_type := IKEV2_XF_ENCR, xf_id := IKEV2_ENCR_AES_CBC, attrs := [] }
        (rule_data_init example_xf_cbc IKEV2_PRF_HMAC_SHA2_512)).2.rd_res.sar_encr =
        IKEV2_ENCR_AES_CBC ∧
      (match_rule_xf_cb
        { xf_type := IKEV2_XF_ENCR, xf_id := IKEV2_ENCR_AES_CBC, attrs := [] }
        (rule_data_init example_xf_cbc IKEV2_PRF_HMAC_SHA2_512)).2.rd_res.sar_encr_keylen =
        (rule_data_init example_xf_cbc IKEV2_PRF_HMAC_SHA2_512).rd_res.sar_encr_keylen ∧
      (match_rule_xf_cb
        { xf_type := IKEV2_XF_ENCR, xf_id := IKEV2_ENCR_AES_CBC, attrs := [] }
        (rule_data_init example_xf_cbc IKEV2_PRF_HMAC_SHA2_512)).2.rd_skip =
        (rule_data_init example_xf_cbc IKEV2_PRF_HMAC_SHA2_512).rd_skip) ∧
    ((match_rule_prop_cb encr_data_example example_prop_cbc_no_keylen
        (rule_data_init example_xf_cbc IKEV2_PRF_HMAC_SHA2_512)).2.rd_match = true ∧
      SA_RESULT_HAS (match_rule_prop_cb encr_data_example example_prop_cbc_no_keylen
        (rule_data_init example_xf_cbc IKEV2_PRF_HMAC_SHA2_512)).2.rd_res IKEV2_XF_ENCR = true ∧
      (match_rule_prop_cb encr_data_example example_prop_cbc_no_keylen
        (rule_data_init example_xf_cbc IKEV2_PRF_HMAC_SHA2_512)).2.rd_res.sar_encr =
        (rule_data_init example_xf_cbc IKEV2_PRF_HMAC_SHA2_512).rd_xf.xf_encr ∧
      (match_rule_prop_cb encr_data_example example_prop_cbc_no_keylen
        (rule_data_init example_xf_cbc IKEV2_PRF_HMAC_SHA2_512)).2.rd_res.sar_encr_keylen = 0) ∧
    (ikev2_sa_match_rule encr_data_example { rule_xf := [example_xf_cbc] }
      [example_prop_cbc_no_keylen] sa_result_zero).1 = true ∧
    (ikev2_sa_match_rule encr_data_example { rule_xf := [example_xf_cbc] }
      [example_prop_cbc_no_keylen] sa_result_zero).2.sar_encr_keylen = 0 :=
  ⟨(match_rule_encr_without_attrs encr_data_example).1
      { xf_type := IKEV2_XF_ENCR, xf_id := IKEV2_ENCR_AES_CBC, attrs := [] }
      (rule_data_init example_xf_cbc IKEV2_PRF_HMAC_SHA2_512) rfl rfl rfl,
   (match_rule_encr_without_attrs encr_data_example).2.1 example_prop_cbc_no_keylen
      (rule_data_init example_xf_cbc IKEV2_PRF_HMAC_SHA2_512) (by decide) (by decide),
   by decide, by decide⟩

/-! ## Builder and matcher on the acquire path -/

/-- C32. The acquire matcher compares the id of an AUTH transform with the
kernel number `sadb_comb_auth` of the combination, not with
`ikev2_pfkey_to_auth(sadb_comb_auth)`, the id that `ikev2_sa_from_acquire`
emits: on a fresh cookie the AUTH transform that the builder emits for a
combination is recorded as a match exactly when the conversion leaves the
number unchanged. It does for HMAC-SHA-256, -384 and -512 and does not for
HMAC-MD5 and HMAC-SHA1 (`ikev2_pfkey_to_encr` leaves every number it accepts
unchanged). At the failing input (AH acquire for HMAC-SHA1) the
builder emits AUTH = 2, the matcher on the same combination does not flag it,
rejects the builder's own proposal, and flags AUTH = 3 instead. -/
theorem match_acq_auth_id_not_converted :
    (∀ (comb : sadb_comb_t) (spitype dh a : Nat),
      ikev2_pfkey_to_auth comb.sadb_comb_auth = some a →
      SA_RESULT_HAS (match_acq_xf_cb { xf_type := IKEV2_XF_AUTH, xf_id := a, attrs := [] }
        (acquire_data_init comb spitype dh)).2.ad_res IKEV2_XF_AUTH =
        decide (a = comb.sadb_comb_auth)) ∧
    (∀ alg ∈ [SADB_AALG_SHA256HMAC, SADB_AALG_SHA384HMAC, SADB_AALG_SHA512HMAC],
      ikev2_pfkey_to_auth alg = some alg) ∧
    (∀ alg x, ikev2_pfkey_to_encr alg = some x → x = alg) ∧
    (ikev2_pfkey_to_auth SADB_AALG_MD5HMAC = some 1 ∧ SADB_AALG_MD5HMAC = 2) ∧
    (ikev2_pfkey_to_auth SADB_AALG_SHA1HMAC = some 2 ∧ SADB_AALG_SHA1HMAC = 3) ∧
    (ikev2_sa_from_acquire pkt_empty example_acquire_ah_sha1 4666 IKEV2_DH_NONE).map
        (fun r => (r.1, r.2.pkt_added)) =
      some (true, [pkt_add_t.sa, pkt_add_t.prop 1 IKEV2_PROTO_AH 4666,
        pkt_add_t.xform IKEV2_XF_AUTH 2, pkt_add_t.xform IKEV2_XF_ESN IKEV2_ESN_NONE]) ∧
    SA_RESULT_HAS (match_acq_xf_cb { xf_type := IKEV2_XF_AUTH, xf_id := 2, attrs := [] }
      (acquire_data_init example_comb_ah_sha1 IKEV2_PROTO_AH IKEV2_DH_NONE)).2.ad_res
      IKEV2_XF_AUTH = false ∧
    SA_RESULT_HAS (match_acq_xf_cb { xf_type := IKEV2_XF_AUTH, xf_id := 3, attrs := [] }
      (acquire_data_init example_comb_ah_sha1 IKEV2_PROTO_AH IKEV2_DH_NONE)).2.ad_res
      IKEV2_XF_AUTH = true ∧
    (match_acq_prop_cb example_prop_ah_sha1
      (acquire_data_init example_comb_ah_sha1 IKEV2_PROTO_AH IKEV2_DH_NONE)).map
      (fun r => (r.1, r.2.ad_skip, SA_RESULT_HAS r.2.ad_res IKEV2_XF_AUTH,
        SA_RESULT_HAS r.2.ad_res IKEV2_XF_ESN)) = some (true, false, false, true) ∧
    (ikev2_sa_match_acquire example_acquire_ah_sha1 IKEV2_DH_NONE [example_prop_ah_sha1]
      sa_result_zero).map Prod.fst = some false := by
  refine ⟨?_, by decide, ?_, by decide, by decide, by decide, by decide, by decide, by decide,
    by decide⟩
  rotate_left
  · intro alg x h
    unfold ikev2_pfkey_to_encr at h
    split_ifs at h
    exact (Option.some.inj h).symm
  intro comb spitype dh a _
  obtain ⟨-, -, -, -, -, -, h7⟩ := match_acq_xf_cb_step
    { xf_type := IKEV2_XF_AUTH, xf_id := a, attrs := [] } (acquire_data_init comb spitype dh)
  rw [SA_RESULT_HAS_eq_testBit, h7]
  by_cases ha : a = comb.sadb_comb_auth
  · simp [acq_xf_matches, acquire_data_init, ha, sa_result_zero, Nat.one_shiftLeft]
  · simp [acq_xf_matches, acquire_data_init, ha, sa_result_zero, IKEV2_XF_AUTH, IKEV2_XF_DH,
      IKEV2_XF_ESN]

end Ikev2

namespace DkiocFree

/-! ## Lemmas on `ext_iter` and `process_exts` -/

theorem ext_iter_blk_len_arg {σ τ : Type} (dfa : dkioc_free_align_t) (bshift : Nat)
    (ne nb : Nat) (nr : Bool) (a : σ) (b : τ) (length : Nat) :
    ext_iter_blk_len dfa bshift ({ n_exts := ne, n_blk := nb, newreq := nr, arg := a } : ext_iter_st σ) length
      = ext_iter_blk_len dfa bshift ({ n_exts := ne, n_blk := nb, newreq := nr, arg := b } : ext_iter_st τ) length := rfl

theorem ext_run_append {σ : Type} (fn : ext_iter_fn_t σ) :
    ∀ (l1 l2 : List (dkioc_free_list_ext_t × Bool)) (a : σ),
      ext_run fn (l1 ++ l2) a =
        if (ext_run fn l1 a).1 ≠ some 0 then ext_run fn l1 a
        else ext_run fn l2 (ext_run fn l1 a).2
  | [], l2, a => by simp [ext_run]
  | x :: l1, l2, a => by
    simp only [List.cons_append, ext_run]
    by_cases h : (fn x.1 x.2 a).1 = some 0
    · simp only [h, ne_eq, not_true_eq_false, if_false]
      exact ext_run_append fn l1 l2 _
    · simp [h]

/-- The `while` loop of `ext_iter` with any callback is the run of the callback
on the extents of `ext_emits_while`. -/
theorem ext_iter_while_eq {σ : Type} (dfa : dkioc_free_align_t) (bshift : Nat)
    (fn : ext_iter_fn_t σ) :
    ∀ (fuel start length ne nb : Nat) (nr : Bool) (a : σ),
      ext_iter_while dfa bshift fn fuel start length
          { n_exts := ne, n_blk := nb, newreq := nr, arg := a } =
        if (ext_run fn (ext_emits_while dfa bshift fuel start length
            { n_exts := ne, n_blk := nb, newreq := nr, arg := () }).1 a).1 ≠ some 0 then
          some (.error (ext_run fn (ext_emits_while dfa bshift fuel start length
            { n_exts := ne, n_blk := nb, newreq := nr, arg := () }).1 a))
        else (ext_emits_while dfa bshift fuel start length
            { n_exts := ne, n_blk := nb, newreq := nr, arg := () }).2.map (fun st =>
           .ok { n_exts := st.n_exts, n_blk := st.n_blk, newreq := st.newreq,
                 arg := (ext_run fn (ext_emits_while dfa bshift fuel start length
            { n_exts := ne, n_blk := nb, newreq := nr, arg := () }).1 a).2 })
  | 0, start, length, ne, nb, nr, a => by
    simp [ext_iter_while, ext_emits_while, ext_run]
  | fuel + 1, start, length, ne, nb, nr, a => by
    unfold ext_iter_while ext_emits_while
    by_cases hl : length > 0
    · simp only [hl, if_true]
      rw [ext_iter_blk_len_arg dfa bshift ne nb nr a ()]
      cases hb : ext_iter_blk_len dfa bshift
          ({ n_exts := ne, n_blk := nb, newreq := nr, arg := () } : ext_iter_st Unit) length with
      | none =>
        simp only []
        exact ext_iter_while_eq dfa bshift fn fuel start length 0 0 true a
      | some bl =>
        simp only [ext_run]
        by_cases hr : (fn { dfle_start := start, dfle_length := bl } nr a).1 = some 0
        · simp only [hr, ne_eq, not_true_eq_false, if_false]
          exact ext_iter_while_eq dfa bshift fn fuel _ _ _ _ false _
        · simp [hr]
    · simp [hl, ext_run]

/-- The `for` loop of `ext_iter` with any callback is the run of the callback
on the extents of `ext_emits_for`. -/
theorem ext_iter_for_eq {σ : Type} (dfl : dkioc_free_list_t) (dfa : dkioc_free_align_t)
    (bshift : Nat) (fn : ext_iter_fn_t σ) (fuel : Nat) :
    ∀ (exts : List dkioc_free_list_ext_t) (ne nb : Nat) (nr : Bool) (a : σ),
      ext_iter_for dfl dfa bshift fn fuel exts
          { n_exts := ne, n_blk := nb, newreq := nr, arg := a } =
        if (ext_run fn (ext_emits_for dfl dfa bshift fuel exts
            { n_exts := ne, n_blk := nb, newreq := nr, arg := () }).1 a).1 ≠ some 0 then
          some (ext_run fn (ext_emits_for dfl dfa bshift fuel exts
            { n_exts := ne, n_blk := nb, newreq := nr, arg := () }).1 a)
        else (ext_emits_for dfl dfa bshift fuel exts
            { n_exts := ne, n_blk := nb, newreq := nr, arg := () }).2.map (fun rc =>
           (some rc, (ext_run fn (ext_emits_for dfl dfa bshift fuel exts
            { n_exts := ne, n_blk := nb, newreq := nr, arg := () }).1 a).2))
  | [], ne, nb, nr, a => by
    simp [ext_iter_for, ext_emits_for, ext_run]
  | ext :: rest, ne, nb, nr, a => by
    unfold ext_iter_for ext_emits_for
    cases hx : ext_xlate dfl ext dfa bshift with
    | error r => simp [ext_run]
    | ok sl =>
      obtain ⟨start, length⟩ := sl
      simp only []
      rw [ext_iter_while_eq]
      cases hw : ext_emits_while dfa bshift fuel start length
          { n_exts := ne, n_blk := nb, newreq := nr, arg := () } with
      | mk em ost =>
        cases ost with
        | none =>
          simp only [Option.map_none']
          by_cases hr : (ext_run fn em a).1 = some 0
          · simp [hr]
          · simp [hr]
        | some st1 =>
          simp only [Option.map_some']
          rw [ext_run_append]
          by_cases hr : (ext_run fn em a).1 = some 0
          · simp only [hr, ne_eq, not_true_eq_false, if_false]
            exact ext_iter_for_eq dfl dfa bshift fn fuel rest _ _ _ _
          · simp [hr]

/-- The function `ext_iter` with any callback is the run of the callback on
the extents of `ext_emits`. -/
theorem ext_iter_eq {σ : Type} (fuel : Nat) (dfl : dkioc_free_list_t)
    (dfa : dkioc_free_align_t) (bshift : Nat) (fn : ext_iter_fn_t σ) (a : σ) :
    ext_iter fuel dfl dfa bshift fn a =
      if (ext_run fn (ext_emits fuel dfl dfa bshift).1 a).1 ≠ some 0 then
        some (ext_run fn (ext_emits fuel dfl dfa bshift).1 a)
      else (ext_emits fuel dfl dfa bshift).2.map (fun rc =>
        (some rc, (ext_run fn (ext_emits fuel dfl dfa bshift).1 a).2)) :=
  ext_iter_for_eq dfl dfa bshift fn fuel dfl.dfl_exts 0 0 true a

theorem ext_run_count_exts :
    ∀ (em : List (dkioc_free_list_ext_t × Bool)) (n : Nat),
      ext_run count_exts em n = (some 0, if em = [] then n else (n + em.length) % U64)
  | [], n => by simp [ext_run]
  | x :: rest, n => by
    simp only [ext_run, count_exts, ne_eq, not_true_eq_false, if_false]
    rw [ext_run_count_exts rest]
    cases rest with
    | nil => simp
    | cons y r => simp [Nat.add_assoc, Nat.add_comm 1]

theorem ext_run_record_exts :
    ∀ (em l : List (dkioc_free_list_ext_t × Bool)),
      ext_run record_exts em l = (some 0, l ++ em)
  | [], l => by simp [ext_run]
  | x :: rest, l => by
    simp only [ext_run, record_exts, ne_eq, not_true_eq_false, if_false]
    rw [ext_run_record_exts rest]
    simp

/-- A callback that records what it is passed gets the extents of `ext_emits`. -/
theorem ext_iter_record_exts (fuel : Nat) (dfl : dkioc_free_list_t)
    (dfa : dkioc_free_align_t) (bshift : Nat) :
    ext_iter fuel dfl dfa bshift record_exts [] =
      (ext_emits fuel dfl dfa bshift).2.map (fun rc =>
        (some rc, (ext_emits fuel dfl dfa bshift).1)) := by
  rw [ext_iter_eq]
  simp [ext_run_record_exts]

/-- The first pass counts the extents of `ext_emits`. -/
theorem ext_iter_count_exts (fuel : Nat) (dfl : dkioc_free_list_t)
    (dfa : dkioc_free_align_t) (bshift : Nat) :
    ext_iter fuel dfl dfa bshift count_exts 0 =
      (ext_emits fuel dfl dfa bshift).2.map (fun rc =>
        (some rc, (ext_emits fuel dfl dfa bshift).1.length % U64)) := by
  rw [ext_iter_eq]
  simp only [ext_run_count_exts, ne_eq, not_true_eq_false, if_false, Nat.zero_add]
  by_cases h : (ext_emits fuel dfl dfa bshift).1 = []
  · simp [h]
  · simp [h]

/-! ### The run of `process_exts` -/

theorem take_drop_set_append {α : Type} (buf : List α) (base cnt : Nat) (e : α)
    (h : base + cnt < buf.length) :
    ((buf.set (base + cnt) e).drop base).take (cnt + 1) = (buf.drop base).take cnt ++ [e] := by
  apply List.ext_getElem?
  intro i
  rcases Nat.lt_trichotomy i cnt with hi | hi | hi
  · rw [List.getElem?_take_of_lt (by omega), List.getElem?_drop, List.getElem?_set_ne (by omega),
      List.getElem?_append_left (by simp; omega), List.getElem?_take_of_lt hi, List.getElem?_drop]
  · subst hi
    rw [List.getElem?_take_of_lt (by omega), List.getElem?_drop, List.getElem?_set_eq_of_lt _ h,
      List.getElem?_append_right (by simp)]
    have : (List.take i (List.drop base buf)).length = i := by simp; omega
    simp [this]
  · rw [List.getElem?_eq_none (by simp; omega), List.getElem?_eq_none (by simp; omega)]

theorem process_exts_store_agrees (e : dkioc_free_list_ext_t) (args : ext_arg)
    (cur : List dkioc_free_list_ext_t)
    (hq : ext_arg_queued args = cur) (hc : args.ea_ext_cnt = cur.length) :
    (args.ea_exts + args.ea_ext_cnt < args.ea_buf.length →
      (process_exts_store (some e) args).1 = some 0 ∧
      ext_arg_queued (process_exts_store (some e) args).2 = cur ++ [e] ∧
      (process_exts_store (some e) args).2.ea_ext_cnt = (cur ++ [e]).length ∧
      (process_exts_store (some e) args).2.ea_exts +
        (process_exts_store (some e) args).2.ea_ext_cnt ≤
          (process_exts_store (some e) args).2.ea_buf.length) ∧
    (¬ args.ea_exts + args.ea_ext_cnt < args.ea_buf.length →
      (process_exts_store (some e) args).1 = none) ∧
    (process_exts_store (some e) args).2.ea_calls = args.ea_calls ∧
    (process_exts_store (some e) args).2.ea_fn = args.ea_fn ∧
    (process_exts_store (some e) args).2.ea_buf.length = args.ea_buf.length := by
  unfold process_exts_store
  by_cases h : args.ea_exts + args.ea_ext_cnt < args.ea_buf.length
  · simp only [h, if_true, not_true_eq_false, false_implies, true_implies, and_true, true_and,
      List.length_set, List.length_append, List.length_singleton]
    refine ⟨?_, by omega, by omega⟩
    unfold ext_arg_queued at hq ⊢
    simp only []
    rw [take_drop_set_append _ _ _ _ h, hq]
  · simp [h]

/-- One call of `process_exts` on an extent, from a cookie that agrees with a
division into requests. -/
theorem process_exts_step (e : dkioc_free_list_ext_t) (nr : Bool) (args : ext_arg)
    (s : List (List dkioc_free_list_ext_t) × List dkioc_free_list_ext_t)
    (h : ext_arg_agrees args s) :
    ((process_exts (some e) nr args).1 = some 0 →
      ext_arg_agrees (process_exts (some e) nr args).2 (req_step s (e, nr))) ∧
    ((process_exts (some e) nr args).1 ≠ some 0 →
      ((process_exts (some e) nr args).2.ea_calls.map (fun c => c.exts) = s.1 ∨
       (process_exts (some e) nr args).2.ea_calls.map (fun c => c.exts) =
          (req_step s (e, nr)).1) ∧
      ∀ c ∈ (process_exts (some e) nr args).2.ea_calls,
        c.n_ext = c.exts.length ∧ c.last = false ∧ c.exts ≠ []) ∧
    (process_exts (some e) nr args).2.ea_fn = args.ea_fn ∧
    (process_exts (some e) nr args).2.ea_buf.length = args.ea_buf.length := by
  obtain ⟨hq, hc, hcalls, hmeta, hb⟩ := h
  have hcnt : args.ea_ext_cnt > 0 ↔ s.2 ≠ [] := by
    rw [hc]; exact ⟨fun h => List.ne_nil_of_length_pos h, fun h => List.length_pos.mpr h⟩
  unfold process_exts
  by_cases hn : nr = true ∧ args.ea_ext_cnt > 0
  · have hs2 : s.2 ≠ [] := hcnt.mp hn.2
    obtain ⟨hnr, hpos⟩ := hn
    subst hnr
    have hstep : req_step s (e, true) = (s.1 ++ [s.2], [e]) := by
      simp [req_step, hs2]
    have hq2 : (List.drop args.ea_exts args.ea_buf).take args.ea_ext_cnt = s.2 := hq
    simp only [hpos, and_self, if_true, Option.isNone_some, hq2]
    have hmeta2 : ∀ c ∈ args.ea_calls ++
        [({ exts := s.2, n_ext := args.ea_ext_cnt, last := false } : dfl_call_t)],
        c.n_ext = c.exts.length ∧ c.last = false ∧ c.exts ≠ [] := by
      intro c hcm
      rcases List.mem_append.mp hcm with hcm | hcm
      · exact hmeta c hcm
      · rw [List.mem_singleton] at hcm
        subst hcm
        exact ⟨hc, rfl, hs2⟩
    by_cases hr : args.ea_fn args.ea_calls
        { exts := s.2, n_ext := args.ea_ext_cnt, last := false } = 0
    · simp only [hr, ne_eq, not_true_eq_false, if_false, Bool.false_eq_true]
      have hst := process_exts_store_agrees e
        { ea_ext_cnt := 0, ea_fn := args.ea_fn, ea_exts := args.ea_exts + args.ea_ext_cnt,
          ea_buf := args.ea_buf,
          ea_calls := args.ea_calls ++
            [({ exts := s.2, n_ext := args.ea_ext_cnt, last := false } : dfl_call_t)] }
        [] (by simp [ext_arg_queued]) rfl
      obtain ⟨hok, hfail, hca, hfn, hlen⟩ := hst
      refine ⟨?_, ?_, hfn, hlen⟩
      · intro h0
        by_cases hfit : args.ea_exts + args.ea_ext_cnt + 0 < args.ea_buf.length
        · obtain ⟨_, h2, h3, h4⟩ := hok hfit
          rw [hstep]
          refine ⟨by simpa using h2, by simpa using h3, ?_, ?_, h4⟩
          · rw [hca]; simp [hcalls]
          · rw [hca]; exact hmeta2
        · rw [hfail hfit] at h0
          cases h0
      · intro _
        rw [hca]
        refine ⟨Or.inr ?_, hmeta2⟩
        rw [hstep]
        simp [hcalls]
    · simp only [hr, ne_eq, not_false_eq_true, if_true]
      refine ⟨?_, ?_, trivial, trivial⟩
      · intro h0
        exact absurd (Option.some.inj h0) hr
      · intro _
        refine ⟨Or.inr ?_, hmeta2⟩
        rw [hstep]
        simp [hcalls]
  · have hstep : req_step s (e, nr) = (s.1, s.2 ++ [e]) := by
      have : ¬ (nr = true ∧ s.2 ≠ []) := fun hx => hn ⟨hx.1, hcnt.mpr hx.2⟩
      simp only [req_step, this, if_false]
    simp only [hn, if_false]
    obtain ⟨hok, hfail, hca, hfn, hlen⟩ := process_exts_store_agrees e args s.2 hq hc
    refine ⟨?_, ?_, hfn, hlen⟩
    · intro h0
      by_cases hfit : args.ea_exts + args.ea_ext_cnt < args.ea_buf.length
      · obtain ⟨_, h2, h3, h4⟩ := hok hfit
        rw [hstep]
        refine ⟨h2, h3, ?_, ?_, h4⟩
        · rw [hca]; exact hcalls
        · rw [hca]; exact hmeta
      · rw [hfail hfit] at h0
        cases h0
    · intro _
      rw [hca]
      exact ⟨Or.inl hcalls, hmeta⟩

/-- The run of `process_exts` over a list of extents, from a cookie that
agrees with a division into requests. -/
theorem process_exts_run :
    ∀ (em : List (dkioc_free_list_ext_t × Bool)) (args : ext_arg)
      (s : List (List dkioc_free_list_ext_t) × List dkioc_free_list_ext_t),
      ext_arg_agrees args s →
      ((ext_run process_exts_fn em args).1 = some 0 →
        ext_arg_agrees (ext_run process_exts_fn em args).2 (em.foldl req_step s)) ∧
      ((ext_run process_exts_fn em args).1 ≠ some 0 →
        (∃ p, p <+: em ∧
          (ext_run process_exts_fn em args).2.ea_calls.map (fun c => c.exts) =
            (p.foldl req_step s).1) ∧
        ∀ c ∈ (ext_run process_exts_fn em args).2.ea_calls,
          c.n_ext = c.exts.length ∧ c.last = false ∧ c.exts ≠ []) ∧
      (ext_run process_exts_fn em args).2.ea_fn = args.ea_fn ∧
      (ext_run process_exts_fn em args).2.ea_buf.length = args.ea_buf.length
  | [], args, s, h => by
    simp only [ext_run, List.foldl_nil, ne_eq, not_true_eq_false, false_implies, and_self,
      and_true, true_and]
    exact fun _ => h
  | x :: rest, args, s, h => by
    obtain ⟨hok, hfail, hfn, hlen⟩ := process_exts_step x.1 x.2 args s h
    simp only [ext_run, process_exts_fn, List.foldl_cons]
    by_cases hr : (process_exts (some x.1) x.2 args).1 = some 0
    · simp only [hr, ne_eq, not_true_eq_false, if_false]
      obtain ⟨iok, ifail, ifn, ilen⟩ :=
        process_exts_run rest (process_exts (some x.1) x.2 args).2 (req_step s x) (hok hr)
      refine ⟨iok, ?_, ifn.trans hfn, ilen.trans hlen⟩
      intro hne
      obtain ⟨⟨p, hp, hpc⟩, hm⟩ := ifail hne
      exact ⟨⟨x :: p, by simpa using hp, by simpa using hpc⟩, hm⟩
    · simp only [hr, ne_eq, not_false_eq_true, if_true, true_implies, false_implies, true_and]
      obtain ⟨hcs, hm⟩ := hfail hr
      refine ⟨⟨?_, hm⟩, hfn, hlen⟩
      rcases hcs with hcs | hcs
      · exact ⟨[], List.nil_prefix, by simpa using hcs⟩
      · exact ⟨[x], by simp, by simpa using hcs⟩

theorem req_step_join (s : List (List dkioc_free_list_ext_t) × List dkioc_free_list_ext_t)
    (x : dkioc_free_list_ext_t × Bool) :
    (req_step s x).1.flatten ++ (req_step s x).2 = s.1.flatten ++ s.2 ++ [x.1] := by
  unfold req_step
  by_cases h : x.2 = true ∧ s.2 ≠ []
  · simp [h]
  · simp [h]

theorem req_fold_join :
    ∀ (em : List (dkioc_free_list_ext_t × Bool))
      (s : List (List dkioc_free_list_ext_t) × List dkioc_free_list_ext_t),
      (em.foldl req_step s).1.flatten ++ (em.foldl req_step s).2 =
        s.1.flatten ++ s.2 ++ em.map Prod.fst
  | [], s => by simp
  | x :: rest, s => by
    rw [List.foldl_cons, req_fold_join rest, req_step_join]
    simp

theorem req_step_open_ne_nil (s : List (List dkioc_free_list_ext_t) × List dkioc_free_list_ext_t)
    (x : dkioc_free_list_ext_t × Bool) : (req_step s x).2 ≠ [] := by
  unfold req_step
  by_cases h : x.2 = true ∧ s.2 ≠ []
  · simp [h]
  · simp [h]

theorem req_fold_open_ne_nil :
    ∀ (em : List (dkioc_free_list_ext_t × Bool))
      (s : List (List dkioc_free_list_ext_t) × List dkioc_free_list_ext_t),
      (em ≠ [] ∨ s.2 ≠ []) → (em.foldl req_step s).2 ≠ []
  | [], s, h => by
    rcases h with h | h
    · exact absurd rfl h
    · simpa using h
  | x :: rest, s, _ => by
    rw [List.foldl_cons]
    exact req_fold_open_ne_nil rest _ (Or.inr (req_step_open_ne_nil s x))

/-- The call of `process_exts` with a null extent that ends the second pass. -/
theorem process_exts_final (args : ext_arg)
    (s : List (List dkioc_free_list_ext_t) × List dkioc_free_list_ext_t)
    (h : ext_arg_agrees args s) :
    (s.2 = [] → process_exts none true args = (none, args)) ∧
    (s.2 ≠ [] →
      (process_exts none true args).2.ea_calls =
        args.ea_calls ++ [{ exts := s.2, n_ext := s.2.length, last := true }] ∧
      (process_exts none true args).1 =
        some (args.ea_fn args.ea_calls { exts := s.2, n_ext := s.2.length, last := true })) := by
  obtain ⟨hq, hc, hcalls, hmeta, hb⟩ := h
  have hq2 : (List.drop args.ea_exts args.ea_buf).take args.ea_ext_cnt = s.2 := hq
  unfold process_exts
  constructor
  · intro h2
    have : ¬ (args.ea_ext_cnt > 0) := by rw [hc, h2]; simp
    simp [this, process_exts_store]
  · intro h2
    have hpos : 0 < s.2.length := List.length_pos.mpr h2
    rw [hc] at hq2
    simp only [hc, gt_iff_lt, hpos, and_self, if_true, Option.isNone_none, hq2]
    by_cases hr : args.ea_fn args.ea_calls { exts := s.2, n_ext := s.2.length, last := true } = 0
    · simp [hr]
    · simp [hr]

theorem ext_arg_agrees_init (func : dfl_iter_fn_t) (cap : Nat) :
    ext_arg_agrees
      { ea_ext_cnt := 0, ea_fn := func, ea_exts := 0,
        ea_buf := List.replicate cap { dfle_start := 0, dfle_length := 0 }, ea_calls := [] }
      ([], []) := by
  simp [ext_arg_agrees, ext_arg_queued]

/-- The second pass in terms of the run of `process_exts` on the extents of
`ext_emits`. -/
theorem dfl_iter_second_pass_eq (fuel : Nat) (dfl : dkioc_free_list_t)
    (dfa : dkioc_free_align_t) (bshift : Nat) (func : dfl_iter_fn_t) (n_exts cap : Nat) :
    dfl_iter_second_pass fuel dfl dfa bshift func n_exts cap =
      (let earg : ext_arg :=
        { ea_ext_cnt := n_exts, ea_fn := func, ea_exts := 0,
          ea_buf := List.replicate cap { dfle_start := 0, dfle_length := 0 }, ea_calls := [] }
       let run := ext_run process_exts_fn (ext_emits fuel dfl dfa bshift).1 earg
       if run.1 ≠ some 0 then some { calls := run.2.ea_calls, ret := run.1 }
       else match (ext_emits fuel dfl dfa bshift).2 with
         | none => none
         | some rc =>
           if rc ≠ 0 then some { calls := run.2.ea_calls, ret := some rc }
           else some { calls := (process_exts none true run.2).2.ea_calls,
                       ret := (process_exts none true run.2).1 }) := by
  unfold dfl_iter_second_pass
  have hfn : (fun ext newreq args => process_exts (some ext) newreq args) = process_exts_fn := rfl
  simp only [hfn]
  rw [ext_iter_eq]
  by_cases hr : (ext_run process_exts_fn (ext_emits fuel dfl dfa bshift).1
      { ea_ext_cnt := n_exts, ea_fn := func, ea_exts := 0,
        ea_buf := List.replicate cap { dfle_start := 0, dfle_length := 0 },
        ea_calls := [] }).1 = some 0
  · simp only [hr, ne_eq, not_true_eq_false, if_false]
    cases (ext_emits fuel dfl dfa bshift).2 with
    | none => rfl
    | some rc =>
      simp only [Option.map_some']
      by_cases h0 : rc = 0
      · simp [h0]
      · simp [h0]
  · simp [hr]

/-- A second pass that returns 0: the extents of `ext_emits` are all
delivered, request by request, and the last invocation alone has the flag. -/
theorem dfl_iter_second_pass_ok (fuel : Nat) (dfl : dkioc_free_list_t)
    (dfa : dkioc_free_align_t) (bshift : Nat) (func : dfl_iter_fn_t) (cap : Nat)
    (calls : List dfl_call_t)
    (h : dfl_iter_second_pass fuel dfl dfa bshift func 0 cap =
      some { calls := calls, ret := some 0 }) :
    (ext_emits fuel dfl dfa bshift).2 = some 0 ∧
    (ext_emits fuel dfl dfa bshift).1 ≠ [] ∧
    (calls.map (fun c => c.exts)).flatten = (ext_emits fuel dfl dfa bshift).1.map Prod.fst ∧
    calls.map (fun c => c.exts) =
      ((ext_emits fuel dfl dfa bshift).1.foldl req_step ([], [])).1 ++
        [((ext_emits fuel dfl dfa bshift).1.foldl req_step ([], [])).2] ∧
    (∃ init c, calls = init ++ [c] ∧ c.last = true ∧ ∀ d ∈ init, d.last = false) ∧
    ∀ c ∈ calls, c.n_ext = c.exts.length ∧ c.exts ≠ [] := by
  rw [dfl_iter_second_pass_eq] at h
  simp only [] at h
  obtain ⟨hok, -, -, -⟩ := process_exts_run (ext_emits fuel dfl dfa bshift).1 _ _
    (ext_arg_agrees_init func cap)
  generalize hrun : ext_run process_exts_fn (ext_emits fuel dfl dfa bshift).1
      { ea_ext_cnt := 0, ea_fn := func, ea_exts := 0,
        ea_buf := List.replicate cap { dfle_start := 0, dfle_length := 0 },
        ea_calls := [] } = run at h hok
  by_cases hr : run.1 = some 0
  · simp only [hr, ne_eq, not_true_eq_false, if_false] at h
    have hag := hok hr
    generalize hs : (ext_emits fuel dfl dfa bshift).1.foldl req_step ([], []) = s at hag
    cases hrc : (ext_emits fuel dfl dfa bshift).2 with
    | none => rw [hrc] at h; cases h
    | some rc =>
      rw [hrc] at h
      simp only [] at h
      by_cases h0 : rc = 0
      · subst h0
        simp only [ne_eq, not_true_eq_false, if_false, Option.some.injEq,
          dfl_result.mk.injEq] at h
        obtain ⟨hcalls, hret⟩ := h
        obtain ⟨hnil, hfin⟩ := process_exts_final run.2 s hag
        have hs2 : s.2 ≠ [] := by
          intro h2
          rw [hnil h2] at hret
          cases hret
        obtain ⟨hfc, -⟩ := hfin hs2
        rw [hfc] at hcalls
        obtain ⟨-, -, hmap, hmeta, -⟩ := hag
        have hem : (ext_emits fuel dfl dfa bshift).1 ≠ [] := by
          intro hnil2
          rw [hnil2] at hs
          apply hs2
          rw [← hs]
          rfl
        have hmap2 : calls.map (fun c => c.exts) = s.1 ++ [s.2] := by
          rw [← hcalls]; simp [hmap]
        refine ⟨rfl, hem, ?_, hmap2, ⟨run.2.ea_calls, _, hcalls.symm, rfl, ?_⟩, ?_⟩
        · rw [hmap2, ← hs]
          have := req_fold_join (ext_emits fuel dfl dfa bshift).1 ([], [])
          simpa using this
        · intro d hd
          exact (hmeta d hd).2.1
        · intro c hc
          rw [← hcalls] at hc
          rcases List.mem_append.mp hc with hc | hc
          · exact ⟨(hmeta c hc).1, (hmeta c hc).2.2⟩
          · rw [List.mem_singleton] at hc
            subst hc
            exact ⟨rfl, hs2⟩
      · simp only [ne_eq, h0, not_false_eq_true, if_true, Option.some.injEq,
          dfl_result.mk.injEq] at h
        exact h.2.elim
  · simp only [ne_eq, hr, not_false_eq_true, if_true, Option.some.injEq,
      dfl_result.mk.injEq] at h
    exact h.2.elim

/-- How a call of `dfl_iter` ends: with an error and no invocation, with 0 and
no invocation when the first pass counts no extent, or as the second pass ends
on the array allocated, which has no element. -/
theorem dfl_iter_cases (fuel : Nat) (kmem_zalloc : Nat → Nat → Bool) (dfl : dkioc_free_list_t)
    (dfa : dkioc_free_align_t) (func : dfl_iter_fn_t) (kmflag dfl_flag : Nat)
    (res : dfl_result)
    (h : dfl_iter fuel kmem_zalloc dfl dfa func kmflag dfl_flag = some res) :
    (res.calls = [] ∧ res.ret ≠ some 0 ∧ res.ret ≠ none) ∨
    (res = { calls := [], ret := some 0 } ∧
      ext_iter fuel dfl dfa (ddi_ffsll dfa.dfa_bsize - 1) count_exts 0 = some (some 0, 0)) ∨
    (∃ n, n ≠ 0 ∧
      ext_iter fuel dfl dfa (ddi_ffsll dfa.dfa_bsize - 1) count_exts 0 = some (some 0, n) ∧
      dfl_iter_second_pass fuel dfl dfa (ddi_ffsll dfa.dfa_bsize - 1) func 0 0 = some res) := by
  unfold dfl_iter at h
  have hE : (some EINVAL : Option Nat) ≠ some 0 := by decide
  have hO : (some EOVERFLOW : Option Nat) ≠ some 0 := by decide
  by_cases h1 : dfl_flag ≠ 0
  · rw [if_pos h1] at h; cases h; exact Or.inl ⟨rfl, hE, by simp⟩
  rw [if_neg h1] at h
  by_cases h2 : dfa.dfa_bsize = 0 ∨ (!ISP2 dfa.dfa_bsize) = true
  · rw [if_pos h2] at h; cases h; exact Or.inl ⟨rfl, hE, by simp⟩
  rw [if_neg h2] at h
  by_cases h3 : dfa.dfa_align = 0 ∨ (!ISP2 dfa.dfa_align) = true
  · rw [if_pos h3] at h; cases h; exact Or.inl ⟨rfl, hE, by simp⟩
  rw [if_neg h3] at h
  by_cases h4 : dfa.dfa_align < dfa.dfa_bsize
  · rw [if_pos h4] at h; cases h; exact Or.inl ⟨rfl, hE, by simp⟩
  rw [if_neg h4] at h
  simp only [] at h
  by_cases h5 : dfa.dfa_max_blocks > 0 ∧
      dfa.dfa_max_blocks >>> (ddi_ffsll dfa.dfa_bsize - 1) < dfa.dfa_align
  · rw [if_pos h5] at h; cases h; exact Or.inl ⟨rfl, hE, by simp⟩
  rw [if_neg h5] at h
  · rw [ext_iter_count_exts] at h ⊢
    cases hrc : (ext_emits fuel dfl dfa (ddi_ffsll dfa.dfa_bsize - 1)).2 with
    | none => rw [hrc] at h; cases h
    | some rc =>
      rw [hrc] at h
      simp only [Option.map_some'] at h ⊢
      split_ifs at h with h6 h7 h8
      · cases h; exact Or.inl ⟨rfl, h6, by simp⟩
      · cases h
        have h0 : rc = 0 := by
          by_contra hne
          exact h6 (fun hx => hne (Option.some.inj hx))
        subst h0
        exact Or.inr (Or.inl ⟨rfl, by rw [h7]⟩)
      · cases h; exact Or.inl ⟨rfl, hO, by simp⟩
      · have h0 : rc = 0 := by
          by_contra hne
          exact h6 (fun hx => hne (Option.some.inj hx))
        subst h0
        refine Or.inr (Or.inr ⟨_, h7, rfl, ?_⟩)
        simpa [ext_arg_zero] using h

/-! ### The limits of the device -/

theorem U64_eq : U64 = 18446744073709551616 := by decide

theorem P2ALIGN_le (x a : Nat) : P2ALIGN x a ≤ x := Nat.and_le_left

/-- Every invocation `process_exts` adds is on extents that lie in the array. -/
theorem process_exts_calls_length (ext : Option dkioc_free_list_ext_t) (nr : Bool)
    (args : ext_arg) :
    (∀ c ∈ (process_exts ext nr args).2.ea_calls,
      c ∈ args.ea_calls ∨ c.exts.length ≤ args.ea_buf.length) ∧
    (process_exts ext nr args).2.ea_buf.length = args.ea_buf.length := by
  have hstore : ∀ (a : ext_arg), (process_exts_store ext a).2.ea_calls = a.ea_calls ∧
      (process_exts_store ext a).2.ea_buf.length = a.ea_buf.length := by
    intro a
    unfold process_exts_store
    cases ext with
    | none => simp
    | some e =>
      by_cases h : a.ea_exts + a.ea_ext_cnt < a.ea_buf.length
      · simp [h]
      · simp [h]
  have hlen : ((args.ea_buf.drop args.ea_exts).take args.ea_ext_cnt).length ≤
      args.ea_buf.length := by
    simp only [List.length_take, List.length_drop]
    omega
  unfold process_exts
  by_cases hn : nr = true ∧ args.ea_ext_cnt > 0
  · simp only [hn, and_self, if_true]
    have hmem : ∀ c ∈ args.ea_calls ++
        [({ exts := (args.ea_buf.drop args.ea_exts).take args.ea_ext_cnt,
            n_ext := args.ea_ext_cnt, last := ext.isNone } : dfl_call_t)],
        c ∈ args.ea_calls ∨ c.exts.length ≤ args.ea_buf.length := by
      intro c hc
      rcases List.mem_append.mp hc with hc | hc
      · exact Or.inl hc
      · rw [List.mem_singleton] at hc
        subst hc
        exact Or.inr hlen
    split_ifs with h1 h2
    · exact ⟨hmem, rfl⟩
    · exact ⟨hmem, rfl⟩
    · obtain ⟨s1, s2⟩ := hstore
        { ea_ext_cnt := 0, ea_fn := args.ea_fn, ea_exts := args.ea_exts + args.ea_ext_cnt,
          ea_buf := args.ea_buf,
          ea_calls := args.ea_calls ++
            [({ exts := (args.ea_buf.drop args.ea_exts).take args.ea_ext_cnt,
                n_ext := args.ea_ext_cnt, last := ext.isNone } : dfl_call_t)] }
      rw [s1, s2]
      exact ⟨hmem, rfl⟩
  · simp only [hn, if_false]
    obtain ⟨s1, s2⟩ := hstore args
    rw [s1, s2]
    exact ⟨fun c hc => Or.inl hc, rfl⟩

theorem process_exts_run_calls_length :
    ∀ (em : List (dkioc_free_list_ext_t × Bool)) (args : ext_arg),
      (∀ c ∈ (ext_run process_exts_fn em args).2.ea_calls,
        c ∈ args.ea_calls ∨ c.exts.length ≤ args.ea_buf.length) ∧
      (ext_run process_exts_fn em args).2.ea_buf.length = args.ea_buf.length
  | [], args => by
    simp only [ext_run, and_true]
    exact fun c hc => Or.inl hc
  | x :: rest, args => by
    obtain ⟨h1, h2⟩ := process_exts_calls_length (some x.1) x.2 args
    simp only [ext_run, process_exts_fn]
    by_cases hr : (process_exts (some x.1) x.2 args).1 = some 0
    · simp only [hr, ne_eq, not_true_eq_false, if_false]
      obtain ⟨i1, i2⟩ := process_exts_run_calls_length rest (process_exts (some x.1) x.2 args).2
      refine ⟨?_, i2.trans h2⟩
      intro c hc
      rcases i1 c hc with hc | hc
      · exact h1 c hc
      · exact Or.inr (h2 ▸ hc)
    · simp only [hr, ne_eq, not_false_eq_true, if_true]
      exact ⟨h1, h2⟩

/-- Every invocation of the second pass is on one of the requests that an
initial part of the extents of `ext_emits` divides into, and its extents lie
in the array. -/
theorem dfl_iter_second_pass_calls (fuel : Nat) (dfl : dkioc_free_list_t)
    (dfa : dkioc_free_align_t) (bshift : Nat) (func : dfl_iter_fn_t) (cap : Nat)
    (res : dfl_result)
    (h : dfl_iter_second_pass fuel dfl dfa bshift func 0 cap = some res) :
    ∃ p, p <+: (ext_emits fuel dfl dfa bshift).1 ∧
      ∀ c ∈ res.calls, c.n_ext = c.exts.length ∧ c.exts ≠ [] ∧ c.exts.length ≤ cap ∧
        (c.exts ∈ (p.foldl req_step ([], [])).1 ∨ c.exts = (p.foldl req_step ([], [])).2) := by
  rw [dfl_iter_second_pass_eq] at h
  simp only [] at h
  obtain ⟨hok, hfail, -, -⟩ := process_exts_run (ext_emits fuel dfl dfa bshift).1 _ _
    (ext_arg_agrees_init func cap)
  obtain ⟨hlen, hbuf⟩ := process_exts_run_calls_length (ext_emits fuel dfl dfa bshift).1
      { ea_ext_cnt := 0, ea_fn := func, ea_exts := 0,
        ea_buf := List.replicate cap { dfle_start := 0, dfle_length := 0 },
        ea_calls := [] }
  generalize hrun : ext_run process_exts_fn (ext_emits fuel dfl dfa bshift).1
      { ea_ext_cnt := 0, ea_fn := func, ea_exts := 0,
        ea_buf := List.replicate cap { dfle_start := 0, dfle_length := 0 },
        ea_calls := [] } = run at h hok hfail hlen hbuf
  simp only [List.not_mem_nil, false_or, List.length_replicate] at hlen hbuf
  have hmain : ∀ (p : List (dkioc_free_list_ext_t × Bool)),
      run.2.ea_calls.map (fun c => c.exts) = (p.foldl req_step ([], [])).1 →
      (∀ c ∈ run.2.ea_calls, c.n_ext = c.exts.length ∧ c.last = false ∧ c.exts ≠ []) →
      ∀ c ∈ run.2.ea_calls, c.n_ext = c.exts.length ∧ c.exts ≠ [] ∧ c.exts.length ≤ cap ∧
        (c.exts ∈ (p.foldl req_step ([], [])).1 ∨ c.exts = (p.foldl req_step ([], [])).2) := by
    intro p hp hm c hc
    refine ⟨(hm c hc).1, (hm c hc).2.2, hlen c hc, Or.inl ?_⟩
    rw [← hp]
    exact List.mem_map_of_mem _ hc
  by_cases hr : run.1 = some 0
  · simp only [hr, ne_eq, not_true_eq_false, if_false] at h
    have hag := hok hr
    have hfull := hmain (ext_emits fuel dfl dfa bshift).1 hag.2.2.1 hag.2.2.2.1
    cases hrc : (ext_emits fuel dfl dfa bshift).2 with
    | none => rw [hrc] at h; cases h
    | some rc =>
      rw [hrc] at h
      simp only [] at h
      by_cases h0 : rc = 0
      · subst h0
        simp only [ne_eq, not_true_eq_false, if_false, Option.some.injEq] at h
        subst h
        refine ⟨_, List.prefix_refl _, ?_⟩
        simp only []
        obtain ⟨hnil, hfin⟩ := process_exts_final run.2 _ hag
        obtain ⟨flen, -⟩ := process_exts_calls_length none true run.2
        by_cases hs2 : ((ext_emits fuel dfl dfa bshift).1.foldl req_step ([], [])).2 = []
        · rw [hnil hs2]
          exact hfull
        · obtain ⟨hfc, -⟩ := hfin hs2
          intro c hc
          have hcl := flen c hc
          rw [hfc] at hc
          rcases List.mem_append.mp hc with hc | hc
          · exact hfull c hc
          · rw [List.mem_singleton] at hc
            refine ⟨by rw [hc], by rw [hc]; exact hs2, ?_, Or.inr (by rw [hc])⟩
            rcases hcl with hcl | hcl
            · exact hlen c hcl
            · rw [hbuf] at hcl
              exact hcl
      · simp only [ne_eq, h0, not_false_eq_true, if_true, Option.some.injEq] at h
        subst h
        exact ⟨_, List.prefix_refl _, hfull⟩
  · simp only [ne_eq, hr, not_false_eq_true, if_true, Option.some.injEq] at h
    subst h
    obtain ⟨⟨p, hp, hpc⟩, hm⟩ := hfail hr
    exact ⟨p, hp, hmain p hpc hm⟩

/-- On an array without elements the second pass makes no invocation and
does not return 0. -/
theorem dfl_iter_second_pass_no_room (fuel : Nat) (dfl : dkioc_free_list_t)
    (dfa : dkioc_free_align_t) (bshift : Nat) (func : dfl_iter_fn_t) (res : dfl_result)
    (h : dfl_iter_second_pass fuel dfl dfa bshift func 0 0 = some res) :
    res.calls = [] ∧ res.ret ≠ some 0 := by
  obtain ⟨p, -, hc⟩ := dfl_iter_second_pass_calls fuel dfl dfa bshift func 0 res h
  have hnil : res.calls = [] := by
    cases hcs : res.calls with
    | nil => rfl
    | cons c rest =>
      have hmem : c ∈ res.calls := by rw [hcs]; exact List.mem_cons_self _ _
      obtain ⟨-, hne, hle, -⟩ := hc c hmem
      exact absurd (List.length_eq_zero.mp (Nat.le_zero.mp hle)) hne
  refine ⟨hnil, ?_⟩
  intro hret
  have hres : res = { calls := res.calls, ret := some 0 } := by rw [← hret]
  rw [hres] at h
  obtain ⟨-, -, -, -, ⟨init, c, h5, -⟩, -⟩ :=
    dfl_iter_second_pass_ok fuel dfl dfa bshift func 0 res.calls h
  rw [hnil] at h5
  simp at h5

/-- No call of `dfl_iter` invokes the callback, and a call returns 0 only when
the first pass counts no extent: the array allocated for the second pass has
`earg.ea_ext_cnt` elements, and that is 0. -/
theorem dfl_iter_no_room (fuel : Nat) (kmem_zalloc : Nat → Nat → Bool)
    (dfl : dkioc_free_list_t) (dfa : dkioc_free_align_t) (func : dfl_iter_fn_t)
    (kmflag dfl_flag : Nat) (res : dfl_result)
    (h : dfl_iter fuel kmem_zalloc dfl dfa func kmflag dfl_flag = some res) :
    res.calls = [] ∧
    (res.ret = some 0 →
      ext_iter fuel dfl dfa (ddi_ffsll dfa.dfa_bsize - 1) count_exts 0 = some (some 0, 0)) := by
  rcases dfl_iter_cases fuel kmem_zalloc dfl dfa func kmflag dfl_flag res h with
    h1 | h1 | ⟨n, -, -, h1⟩
  · exact ⟨h1.1, fun hr => absurd hr h1.2.1⟩
  · exact ⟨by rw [h1.1], fun _ => h1.2⟩
  · obtain ⟨h2, h3⟩ := dfl_iter_second_pass_no_room fuel dfl dfa _ func res h1
    exact ⟨h2, fun hr => absurd hr h3⟩

/-! ### Powers of two: `ISP2`, `ddi_ffsll`, `P2ALIGN` and `P2ROUNDUP` -/

theorem two_pow_and_pred (k : Nat) : 2 ^ k &&& (2 ^ k - 1) = 0 := by
  apply Nat.eq_of_testBit_eq
  intro i
  simp only [Nat.testBit_and, Nat.zero_testBit, Nat.testBit_two_pow, Nat.testBit_two_pow_sub_one]
  by_cases h : k = i <;> simp [h]

theorem two_pow_lt_U64 (k : Nat) (hk : k < 64) : 2 ^ k < U64 :=
  Nat.pow_lt_pow_right (by decide) hk

/-- A power of two below 2^64 passes `ISP2`. -/
theorem ISP2_two_pow (k : Nat) (hk : k < 64) : ISP2 (2 ^ k) = true := by
  have h1 : 2 ^ k < U64 := two_pow_lt_U64 k hk
  have h0 : 0 < 2 ^ k := Nat.pos_pow_of_pos k (by decide)
  have e : (2 ^ k + U64 - 1) % U64 = 2 ^ k - 1 := by
    have : 2 ^ k + U64 - 1 = (2 ^ k - 1) + U64 := by omega
    rw [this, Nat.add_mod_right, Nat.mod_eq_of_lt (by omega)]
  unfold ISP2
  rw [e, two_pow_and_pred]
  rfl

theorem ffs_from_two_pow (k : Nat) :
    ∀ (fuel i : Nat), i ≤ k → k < i + fuel → ffs_from (2 ^ k) fuel i = k + 1
  | 0, i, h1, h2 => by omega
  | fuel + 1, i, h1, h2 => by
    unfold ffs_from
    rw [Nat.testBit_two_pow]
    by_cases h : k = i
    · simp [h]
    · simp only [h, decide_False, Bool.false_eq_true, if_false]
      exact ffs_from_two_pow k fuel (i + 1) (by omega) (by omega)

/-- The number of the only bit of a power of two below 2^64, counted from 1. -/
theorem ddi_ffsll_two_pow (k : Nat) (hk : k < 64) : ddi_ffsll (2 ^ k) = k + 1 :=
  ffs_from_two_pow k 64 0 (Nat.zero_le _) (by omega)

/-- The checks of `dfl_iter` on a block size 2^b and an alignment 2^a with
`b ≤ a < 64`: the call returns `EINVAL` when the block limit is not 0 and is
below 2^a * 2^b, and else goes on to the first pass. -/
theorem dfl_iter_checks_two_pow (fuel : Nat) (kmem_zalloc : Nat → Nat → Bool)
    (dfl : dkioc_free_list_t) (func : dfl_iter_fn_t) (kmflag a b max_ext max_blocks : Nat)
    (hab : b ≤ a) (ha : a < 64) :
    dfl_iter fuel kmem_zalloc dfl
        { dfa_bsize := 2 ^ b, dfa_max_ext := max_ext, dfa_max_blocks := max_blocks,
          dfa_align := 2 ^ a } func kmflag 0 =
      if 0 < max_blocks ∧ max_blocks < 2 ^ a * 2 ^ b then
        some { calls := [], ret := some EINVAL }
      else
        match ext_iter fuel dfl
            { dfa_bsize := 2 ^ b, dfa_max_ext := max_ext, dfa_max_blocks := max_blocks,
              dfa_align := 2 ^ a } b count_exts 0 with
        | none => none
        | some (r, n_exts) =>
          if r ≠ some 0 then some { calls := [], ret := r }
          else if n_exts = 0 then some { calls := [], ret := some 0 }
          else if !kmem_zalloc 0 kmflag then some { calls := [], ret := some EOVERFLOW }
          else dfl_iter_second_pass fuel dfl
            { dfa_bsize := 2 ^ b, dfa_max_ext := max_ext, dfa_max_blocks := max_blocks,
              dfa_align := 2 ^ a } b func 0 0 := by
  have hb : b < 64 := by omega
  have h1 : ISP2 (2 ^ b) = true := ISP2_two_pow b hb
  have h2 : ISP2 (2 ^ a) = true := ISP2_two_pow a ha
  have h3 : ddi_ffsll (2 ^ b) - 1 = b := by rw [ddi_ffsll_two_pow b hb]; rfl
  have h4 : (2 : Nat) ^ b ≠ 0 := by positivity
  have h5 : (2 : Nat) ^ a ≠ 0 := by positivity
  have h6 : ¬ ((2 : Nat) ^ a < 2 ^ b) := Nat.not_lt.mpr (Nat.pow_le_pow_right (by decide) hab)
  have h7 : (max_blocks >>> b < 2 ^ a) ↔ max_blocks < 2 ^ a * 2 ^ b := by
    rw [Nat.shiftRight_eq_div_pow]
    exact Nat.div_lt_iff_lt_mul (by positivity)
  unfold dfl_iter
  simp only [ne_eq, not_true_eq_false, if_false, h1, h2, h3, h4, h5, h6, h7, Bool.not_true,
    Bool.false_eq_true, or_false, gt_iff_lt, ext_arg_zero, Nat.zero_mul, Nat.zero_mod,
    Nat.zero_div]

theorem neg64_two_pow (k : Nat) (hk : k < 64) : neg64 (2 ^ k) = 2 ^ k * (2 ^ (64 - k) - 1) := by
  have h1 : 2 ^ k < U64 := two_pow_lt_U64 k hk
  have h0 : 0 < 2 ^ k := Nat.two_pow_pos k
  have h2 : U64 = 2 ^ k * 2 ^ (64 - k) := by
    rw [← pow_add, U64]
    congr 1
    omega
  unfold neg64
  rw [Nat.mod_eq_of_lt h1, Nat.mod_eq_of_lt (by omega), Nat.mul_sub_one, ← h2]

/-- For an alignment of 2^k, `P2ALIGN` rounds down to a multiple of it. -/
theorem P2ALIGN_two_pow (x k : Nat) (hx : x < U64) (hk : k < 64) :
    P2ALIGN x (2 ^ k) = x / 2 ^ k * 2 ^ k := by
  unfold P2ALIGN
  rw [neg64_two_pow k hk, Nat.mul_comm (x / 2 ^ k), ← Nat.shiftRight_eq_div_pow]
  apply Nat.eq_of_testBit_eq
  intro j
  rw [Nat.testBit_and, Nat.testBit_mul_pow_two, Nat.testBit_mul_pow_two,
    Nat.testBit_two_pow_sub_one, Nat.testBit_shiftRight]
  by_cases hj : j ≥ k
  · have e : k + (j - k) = j := by omega
    rw [e]
    by_cases h64 : j < 64
    · have : j - k < 64 - k := by omega
      simp [hj, this]
    · have hxj : x.testBit j = false := by
        apply Nat.testBit_lt_two_pow
        calc x < U64 := hx
          _ = 2 ^ 64 := rfl
          _ ≤ 2 ^ j := Nat.pow_le_pow_right (by decide) (by omega)
      simp [hxj]
  · simp [hj]

/-- For an alignment of 2^k, `P2ROUNDUP` rounds up to a multiple of it, and
the result is taken modulo 2^64. -/
theorem P2ROUNDUP_two_pow (x k : Nat) (hx : x < U64) (hk : k < 64) :
    P2ROUNDUP x (2 ^ k) = (x + 2 ^ k - 1) / 2 ^ k * 2 ^ k % U64 := by
  have hfold : P2ROUNDUP x (2 ^ k) = neg64 (P2ALIGN (neg64 x) (2 ^ k)) := rfl
  have hneg : neg64 x < U64 := Nat.mod_lt _ (by decide)
  rw [hfold, P2ALIGN_two_pow _ k hneg hk]
  have hN : U64 = 2 ^ k * 2 ^ (64 - k) := by
    rw [← pow_add, U64]
    congr 1
    omega
  generalize 2 ^ (64 - k) = M at hN
  have ha0 : 0 < 2 ^ k := Nat.two_pow_pos k
  generalize 2 ^ k = a at hN ha0 ⊢
  have hdm : a * (x / a) + x % a = x := Nat.div_add_mod x a
  have hr : x % a < a := Nat.mod_lt _ ha0
  have hq : x / a < M := by
    apply Nat.div_lt_of_lt_mul
    rw [← hN]
    exact hx
  generalize x / a = q at hdm hq
  generalize x % a = r at hdm hr
  obtain ⟨d, hd⟩ : ∃ d, M = q + 1 + d := ⟨M - (q + 1), by omega⟩
  subst hd
  have hN2 : U64 = a * q + a + a * d := by rw [hN]; ring
  clear hN hq
  unfold neg64
  rw [Nat.mod_eq_of_lt hx]
  by_cases hr0 : r = 0
  · subst hr0
    have hup : (x + a - 1) / a = q := by
      have : x + a - 1 = (a - 1) + a * q := by omega
      rw [this, Nat.add_mul_div_left _ _ ha0, Nat.div_eq_of_lt (by omega)]
      omega
    rw [hup]
    by_cases hq0 : q = 0
    · subst hq0
      have hx0 : x = 0 := by omega
      subst hx0
      simp
    · have hqa : a ≤ a * q := Nat.le_mul_of_pos_right a (Nat.pos_of_ne_zero hq0)
      have h1 : (U64 - x) % U64 = a * (1 + d) := by
        rw [Nat.mod_eq_of_lt (by omega)]
        have : a * (1 + d) = a + a * d := by ring
        omega
      rw [h1, Nat.mul_div_cancel_left _ ha0]
      have h2 : (1 + d) * a = a + a * d := by ring
      have h3 : q * a = a * q := Nat.mul_comm _ _
      have e1 : (a + a * d) % U64 = a + a * d := Nat.mod_eq_of_lt (by omega)
      have e2 : U64 - (a + a * d) = a * q := by omega
      rw [h2, h3, e1, e2]
  · have hup : (x + a - 1) / a = q + 1 := by
      have : x + a - 1 = (r - 1) + a * (q + 1) := by
        have : a * (q + 1) = a * q + a := by ring
        omega
      rw [this, Nat.add_mul_div_left _ _ ha0, Nat.div_eq_of_lt (by omega)]
      omega
    rw [hup]
    have h1 : (U64 - x) % U64 = (a - r) + a * d := by
      rw [Nat.mod_eq_of_lt (by omega)]
      omega
    rw [h1, Nat.add_mul_div_left _ _ ha0, Nat.div_eq_of_lt (by omega), Nat.zero_add]
    have h2 : d * a = a * d := Nat.mul_comm _ _
    have h3 : (q + 1) * a = a * q + a := by ring
    have e1 : a * d % U64 = a * d := Nat.mod_eq_of_lt (by omega)
    have e2 : U64 - a * d = a * q + a := by omega
    rw [h2, h3, e1, e2]

/-! ### The block ranges of the extents -/

theorem neg64_lt (x : Nat) : neg64 x < U64 := Nat.mod_lt _ (by decide)

theorem shiftRight_le_self (x b : Nat) : x >>> b ≤ x := by
  rw [Nat.shiftRight_eq_div_pow]
  exact Nat.div_le_self _ _

/-- What `ext_xlate` returns without an error, in terms of the byte range of
the extent. -/
theorem ext_xlate_ok (dfl : dkioc_free_list_t) (ext : dkioc_free_list_ext_t)
    (dfa : dkioc_free_align_t) (bshift s l : Nat)
    (h : ext_xlate dfl ext dfa bshift = .ok (s, l)) :
    s = P2ROUNDUP ((dfl.dfl_offset + ext.dfle_start) % U64) dfa.dfa_align >>> bshift ∧
    l = (P2ALIGN (((dfl.dfl_offset + ext.dfle_start) % U64 + ext.dfle_length) % U64)
          dfa.dfa_bsize >>> bshift) - s := by
  unfold ext_xlate at h
  simp only [] at h
  split_ifs at h with h1 h2 h3
  · simp only [Except.ok.injEq, Prod.mk.injEq] at h
    obtain ⟨hs, hl⟩ := h
    subst hs
    exact ⟨rfl, hl.symm⟩
  · simp only [Except.ok.injEq, Prod.mk.injEq] at h
    obtain ⟨hs, hl⟩ := h
    subst hs
    refine ⟨rfl, ?_⟩
    omega

/-- The block range that `ext_xlate` gives ends below 2^64. -/
theorem ext_xlate_range_lt (dfl : dkioc_free_list_t) (ext : dkioc_free_list_ext_t)
    (dfa : dkioc_free_align_t) (bshift s l : Nat)
    (h : ext_xlate dfl ext dfa bshift = .ok (s, l)) : s + l < U64 := by
  obtain ⟨hs, hl⟩ := ext_xlate_ok dfl ext dfa bshift s l h
  have h1 : s < U64 := by
    rw [hs]
    exact Nat.lt_of_le_of_lt (shiftRight_le_self _ _) (neg64_lt _)
  have h2 : P2ALIGN (((dfl.dfl_offset + ext.dfle_start) % U64 + ext.dfle_length) % U64)
      dfa.dfa_bsize >>> bshift < U64 :=
    Nat.lt_of_le_of_lt (shiftRight_le_self _ _)
      (Nat.lt_of_le_of_lt (P2ALIGN_le _ _) (Nat.mod_lt _ (by decide)))
  omega

/-- The extents of one `while` loop lie in the block range the loop starts
with. -/
theorem ext_emits_while_range (dfa : dkioc_free_align_t) (bshift : Nat) :
    ∀ (fuel start length : Nat) (st : ext_iter_st Unit),
      (st.newreq = true → st.n_blk = 0) → start + length < U64 →
      (∀ x ∈ (ext_emits_while dfa bshift fuel start length st).1,
        0 < length ∧ start ≤ x.1.dfle_start ∧
        x.1.dfle_start + x.1.dfle_length ≤ start + length) ∧
      ∀ st1, (ext_emits_while dfa bshift fuel start length st).2 = some st1 →
        (st1.newreq = true → st1.n_blk = 0)
  | 0, start, length, st, _, _ => by
    simp [ext_emits_while]
  | fuel + 1, start, length, st, hnb, hlt => by
    unfold ext_emits_while
    by_cases hl : length > 0
    · rw [if_pos hl]
      cases hb : ext_iter_blk_len dfa bshift st length with
      | none =>
        simp only []
        obtain ⟨i1, i2⟩ := ext_emits_while_range dfa bshift fuel start length
          { st with newreq := true, n_exts := 0, n_blk := 0 } (fun _ => rfl) hlt
        exact ⟨i1, i2⟩
      | some bl =>
        simp only []
        have hble : bl ≤ length := by
          unfold ext_iter_blk_len at hb
          have hP := P2ALIGN_le dfa.dfa_max_blocks (dfa.dfa_align >>> bshift)
          rw [U64_eq] at hb hlt
          split_ifs at hb with h1 h2 h3
          · have hbl : P2ALIGN dfa.dfa_max_blocks (dfa.dfa_align >>> bshift) = bl :=
              Option.some.inj hb
            have hn : st.newreq = true := by simpa using h3
            have h0 := hnb hn
            rw [h0] at h2
            rw [← hbl]
            omega
          · exact Nat.le_of_eq (Option.some.inj hb).symm
        have e1 : (start + bl) % U64 = start + bl := Nat.mod_eq_of_lt (by omega)
        have e2 : (length + U64 - bl) % U64 = length - bl := by
          have : length + U64 - bl = (length - bl) + U64 := by omega
          rw [this, Nat.add_mod_right, Nat.mod_eq_of_lt (by omega)]
        rw [e1, e2]
        obtain ⟨i1, i2⟩ := ext_emits_while_range dfa bshift fuel (start + bl) (length - bl)
          { n_exts := (st.n_exts + 1) % U64, n_blk := (st.n_blk + bl) % U64, newreq := false,
            arg := () } (fun h => by cases h) (by omega)
        refine ⟨?_, i2⟩
        intro x hx
        rcases List.mem_cons.mp hx with hx | hx
        · subst hx
          exact ⟨hl, Nat.le_refl _, by simp only []; omega⟩
        · obtain ⟨-, j2, j3⟩ := i1 x hx
          exact ⟨hl, by omega, by omega⟩
    · simp only [hl, if_false, List.not_mem_nil, false_implies, implies_true, true_and,
        Option.some.injEq]
      intro st1 h
      rw [← h]
      exact hnb

/-- Each extent of `ext_iter` lies in the block range that `ext_xlate` gives
for an extent of the request, and that range is not empty. -/
theorem ext_emits_for_range (dfl : dkioc_free_list_t) (dfa : dkioc_free_align_t)
    (bshift : Nat) (fuel : Nat) :
    ∀ (exts : List dkioc_free_list_ext_t) (st : ext_iter_st Unit),
      (st.newreq = true → st.n_blk = 0) →
      ∀ x ∈ (ext_emits_for dfl dfa bshift fuel exts st).1,
        ∃ ext ∈ exts, ∃ s l, ext_xlate dfl ext dfa bshift = .ok (s, l) ∧ 0 < l ∧
          s ≤ x.1.dfle_start ∧ x.1.dfle_start + x.1.dfle_length ≤ s + l
  | [], st, _ => by
    simp [ext_emits_for]
  | ext :: rest, st, hnb => by
    unfold ext_emits_for
    cases hx : ext_xlate dfl ext dfa bshift with
    | error r => simp
    | ok sl =>
      obtain ⟨start, length⟩ := sl
      simp only []
      obtain ⟨h1, h2⟩ := ext_emits_while_range dfa bshift fuel start length st hnb
        (ext_xlate_range_lt dfl ext dfa bshift start length hx)
      cases hw : ext_emits_while dfa bshift fuel start length st with
      | mk em ost =>
        rw [hw] at h1 h2
        have hhead : ∀ x ∈ em, ∃ e ∈ ext :: rest, ∃ s l,
            ext_xlate dfl e dfa bshift = .ok (s, l) ∧ 0 < l ∧
            s ≤ x.1.dfle_start ∧ x.1.dfle_start + x.1.dfle_length ≤ s + l := by
          intro x hxm
          obtain ⟨j1, j2, j3⟩ := h1 x hxm
          exact ⟨ext, List.mem_cons_self _ _, start, length, hx, j1, j2, j3⟩
        cases ost with
        | none => exact hhead
        | some st1 =>
          simp only []
          intro x hxm
          rcases List.mem_append.mp hxm with hxm | hxm
          · exact hhead x hxm
          · obtain ⟨e, he, r⟩ := ext_emits_for_range dfl dfa bshift fuel rest st1 (h2 st1 rfl)
              x hxm
            exact ⟨e, List.mem_cons_of_mem _ he, r⟩

/-- For a block size 2^b and an alignment 2^a with `b ≤ a < 64`, the block
range that `ext_xlate` gives an extent that starts at least one alignment unit
below 2^64 lies, in bytes, inside the extent. -/
theorem ext_xlate_inside (dfl : dkioc_free_list_t) (ext : dkioc_free_list_ext_t)
    (a b max_ext max_blocks s l : Nat) (hab : b ≤ a) (ha : a < 64)
    (htop : dfl.dfl_offset + ext.dfle_start + 2 ^ a ≤ U64)
    (h : ext_xlate dfl ext
      { dfa_bsize := 2 ^ b, dfa_max_ext := max_ext, dfa_max_blocks := max_blocks,
        dfa_align := 2 ^ a } b = .ok (s, l))
    (hl : 0 < l) :
    dfl.dfl_offset + ext.dfle_start ≤ s * 2 ^ b ∧
    (s + l) * 2 ^ b ≤ dfl.dfl_offset + ext.dfle_start + ext.dfle_length := by
  obtain ⟨hs, hlen⟩ := ext_xlate_ok dfl ext _ b s l h
  simp only [] at hs hlen
  have ha0 : 0 < 2 ^ a := Nat.two_pow_pos a
  have hS0 : dfl.dfl_offset + ext.dfle_start < U64 := by omega
  rw [Nat.mod_eq_of_lt hS0] at hs hlen
  constructor
  · rw [P2ROUNDUP_two_pow _ a hS0 ha] at hs
    have hle : (dfl.dfl_offset + ext.dfle_start + 2 ^ a - 1) / 2 ^ a * 2 ^ a ≤
        dfl.dfl_offset + ext.dfle_start + 2 ^ a - 1 := Nat.div_mul_le_self _ _
    have hgt := Nat.lt_div_mul_add (a := dfl.dfl_offset + ext.dfle_start + 2 ^ a - 1) ha0
    rw [Nat.mod_eq_of_lt (by omega)] at hs
    have hsplit : (2 : Nat) ^ a = 2 ^ (a - b) * 2 ^ b := by
      rw [← pow_add]
      congr 1
      omega
    have hdiv : s * 2 ^ b = (dfl.dfl_offset + ext.dfle_start + 2 ^ a - 1) / 2 ^ a * 2 ^ a := by
      rw [hs, Nat.shiftRight_eq_div_pow]
      generalize (dfl.dfl_offset + ext.dfle_start + 2 ^ a - 1) / 2 ^ a = c
      rw [hsplit, ← Nat.mul_assoc, Nat.mul_div_cancel _ (Nat.two_pow_pos b)]
    rw [hdiv]
    omega
  · have hE : s + l = P2ALIGN ((dfl.dfl_offset + ext.dfle_start + ext.dfle_length) % U64)
        (2 ^ b) >>> b := by omega
    rw [hE, Nat.shiftRight_eq_div_pow]
    calc P2ALIGN ((dfl.dfl_offset + ext.dfle_start + ext.dfle_length) % U64) (2 ^ b) / 2 ^ b
          * 2 ^ b
        ≤ P2ALIGN ((dfl.dfl_offset + ext.dfle_start + ext.dfle_length) % U64) (2 ^ b) :=
          Nat.div_mul_le_self _ _
      _ ≤ (dfl.dfl_offset + ext.dfle_start + ext.dfle_length) % U64 := P2ALIGN_le _ _
      _ ≤ dfl.dfl_offset + ext.dfle_start + ext.dfle_length := Nat.mod_le _ _

/-- For a block size 2^b and an alignment 2^a with `b ≤ a < 64`, and a request
whose extents all start at least one alignment unit below 2^64, every extent
that `ext_iter` passes to its callback lies inside an extent of the request. -/
theorem ext_emits_inside (fuel : Nat) (dfl : dkioc_free_list_t)
    (a b max_ext max_blocks : Nat) (hab : b ≤ a) (ha : a < 64)
    (htop : ∀ ext ∈ dfl.dfl_exts, dfl.dfl_offset + ext.dfle_start + 2 ^ a ≤ U64) :
    ∀ x ∈ (ext_emits fuel dfl
        { dfa_bsize := 2 ^ b, dfa_max_ext := max_ext, dfa_max_blocks := max_blocks,
          dfa_align := 2 ^ a } b).1,
      ∃ ext ∈ dfl.dfl_exts,
        ext_inside dfl
          { dfa_bsize := 2 ^ b, dfa_max_ext := max_ext, dfa_max_blocks := max_blocks,
            dfa_align := 2 ^ a } x.1 ext := by
  intro x hx
  obtain ⟨ext, he, s, l, hxl, hl, h1, h2⟩ := ext_emits_for_range dfl _ b fuel dfl.dfl_exts
    { n_exts := 0, n_blk := 0, newreq := true, arg := () } (fun _ => rfl) x hx
  obtain ⟨k1, k2⟩ := ext_xlate_inside dfl ext a b max_ext max_blocks s l hab ha
    (htop ext he) hxl hl
  refine ⟨ext, he, ?_, ?_⟩
  · exact Nat.le_trans k1 (Nat.mul_le_mul_right _ h1)
  · exact Nat.le_trans (Nat.mul_le_mul_right _ h2) k2

/-- Every extent of an invocation of the second pass is one that `ext_iter`
passes to its callback. -/
theorem dfl_iter_second_pass_exts (fuel : Nat) (dfl : dkioc_free_list_t)
    (dfa : dkioc_free_align_t) (bshift : Nat) (func : dfl_iter_fn_t) (cap : Nat)
    (res : dfl_result)
    (h : dfl_iter_second_pass fuel dfl dfa bshift func 0 cap = some res) :
    ∀ c ∈ res.calls, ∀ e ∈ c.exts, ∃ x ∈ (ext_emits fuel dfl dfa bshift).1, x.1 = e := by
  obtain ⟨p, ⟨rest, hp⟩, hc⟩ := dfl_iter_second_pass_calls fuel dfl dfa bshift func cap res h
  intro c hcm e he
  obtain ⟨-, -, -, hmem⟩ := hc c hcm
  have hjoin := req_fold_join p ([], [])
  simp only [List.flatten_nil, List.nil_append] at hjoin
  have hin : e ∈ p.map Prod.fst := by
    rw [← hjoin]
    rcases hmem with hmem | hmem
    · exact List.mem_append_left _ (List.mem_flatten.mpr ⟨c.exts, hmem, he⟩)
    · exact List.mem_append_right _ (hmem ▸ he)
  obtain ⟨x, hx, hxe⟩ := List.mem_map.mp hin
  exact ⟨x, by rw [← hp]; exact List.mem_append_left _ hx, hxe⟩

/-- C21. The claim fails for an extent that starts within one alignment unit
of 2^64, and holds otherwise. For a block size 2^b and an alignment 2^a
(`b ≤ a < 64`) and a request whose extents all start at least one alignment
unit below 2^64, every extent that `ext_iter` passes to its callback, and
every extent of an invocation of the second pass, lies inside an extent of the
request. But on a device of 512 byte blocks with an alignment of 4096 bytes,
which `dfl_iter` accepts (the call goes on to the allocation), take the extent
of 1023 bytes that starts at 2^64 - 1024. `P2ROUNDUP` rounds the start up to
2^64, which a 64 bit integer holds as 0, so `ext_xlate` gives the start block
0 and the length 2^55 - 1: `ext_iter` passes that extent to its callback, the
first pass counts it, and the second pass, on an array of one element, hands
it to the driver, though it lies inside no extent of the request. -/
theorem dfl_iter_extents_inside_unless_wrap :
    (∀ (fuel : Nat) (dfl : dkioc_free_list_t) (a b max_ext max_blocks : Nat),
      b ≤ a → a < 64 →
      (∀ ext ∈ dfl.dfl_exts, dfl.dfl_offset + ext.dfle_start + 2 ^ a ≤ U64) →
      (∀ rc em, ext_iter fuel dfl
          { dfa_bsize := 2 ^ b, dfa_max_ext := max_ext, dfa_max_blocks := max_blocks,
            dfa_align := 2 ^ a } b record_exts [] = some (rc, em) →
        ∀ x ∈ em, ∃ ext ∈ dfl.dfl_exts,
          ext_inside dfl
            { dfa_bsize := 2 ^ b, dfa_max_ext := max_ext, dfa_max_blocks := max_blocks,
              dfa_align := 2 ^ a } x.1 ext) ∧
      (∀ (func : dfl_iter_fn_t) (cap : Nat) (res : dfl_result),
        dfl_iter_second_pass fuel dfl
          { dfa_bsize := 2 ^ b, dfa_max_ext := max_ext, dfa_max_blocks := max_blocks,
            dfa_align := 2 ^ a } b func 0 cap = some res →
        ∀ c ∈ res.calls, ∀ e ∈ c.exts, ∃ ext ∈ dfl.dfl_exts,
          ext_inside dfl
            { dfa_bsize := 2 ^ b, dfa_max_ext := max_ext, dfa_max_blocks := max_blocks,
              dfa_align := 2 ^ a } e ext)) ∧
    ddi_ffsll example_dfa_4k.dfa_bsize - 1 = 9 ∧
    dfl_iter 10 (fun _ _ => false) example_dfl_top example_dfa_4k (fun _ _ => 0) 0 0 =
      some { calls := [], ret := some EOVERFLOW } ∧
    P2ROUNDUP (2 ^ 64 - 1024) 4096 = 0 ∧
    ext_xlate example_dfl_top { dfle_start := 2 ^ 64 - 1024, dfle_length := 1023 }
      example_dfa_4k 9 = .ok (0, 2 ^ 55 - 1) ∧
    ext_iter 10 example_dfl_top example_dfa_4k 9 record_exts [] =
      some (some 0, [({ dfle_start := 0, dfle_length := 2 ^ 55 - 1 }, true)]) ∧
    ext_iter 10 example_dfl_top example_dfa_4k 9 count_exts 0 = some (some 0, 1) ∧
    dfl_iter_second_pass 10 example_dfl_top example_dfa_4k 9 (fun _ _ => 0) 0 1 =
      some { calls := [{ exts := [{ dfle_start := 0, dfle_length := 2 ^ 55 - 1 }],
                         n_ext := 1, last := true }],
             ret := some 0 } ∧
    ¬ ∃ ext ∈ example_dfl_top.dfl_exts,
      ext_inside example_dfl_top example_dfa_4k
        { dfle_start := 0, dfle_length := 2 ^ 55 - 1 } ext := by
  refine ⟨?_, by decide, by decide, by decide, by decide, by decide, by decide, by decide,
    by decide⟩
  intro fuel dfl a b max_ext max_blocks hab ha htop
  have hin := ext_emits_inside fuel dfl a b max_ext max_blocks hab ha htop
  constructor
  · intro rc em hrec x hx
    rw [ext_iter_record_exts] at hrec
    cases hrc : (ext_emits fuel dfl
        { dfa_bsize := 2 ^ b, dfa_max_ext := max_ext, dfa_max_blocks := max_blocks,
          dfa_align := 2 ^ a } b).2 with
    | none => rw [hrc] at hrec; cases hrec
    | some r =>
      rw [hrc] at hrec
      simp only [Option.map_some', Option.some.injEq, Prod.mk.injEq] at hrec
      rw [← hrec.2] at hx
      exact hin x hx
  · intro func cap res hres c hc e he
    obtain ⟨x, hx, hxe⟩ := dfl_iter_second_pass_exts fuel dfl _ b func cap res hres c hc e he
    rw [← hxe]
    exact hin x hx

/-! ## The check of the block limit (C23) -/

/-- C23. The check of the block limit in `dfl_iter` shifts `dfa_max_blocks`,
a number of blocks, right by `bshift` and compares the result with
`dfa_align`, a number of bytes. For a block size 2^b and an alignment 2^a
(`b ≤ a < 64`), a limit that is not 0 is rejected with `EINVAL` when it is
below 2^a * 2^b, whatever the request, and passes the check otherwise (a
request without extents then returns 0); the alignment in blocks is
2^a / 2^b. With a block size of 512 and an alignment of 4096, which is 8
blocks, every limit from 1 to 2097151 blocks is rejected, the limit of 8
blocks among them, and 2097152 is the least limit that passes. -/
theorem dfl_iter_block_limit_check :
    (∀ (fuel : Nat) (kmem_zalloc : Nat → Nat → Bool) (dfl : dkioc_free_list_t)
      (func : dfl_iter_fn_t) (kmflag a b max_ext max_blocks : Nat),
      b ≤ a → a < 64 → 0 < max_blocks → max_blocks < 2 ^ a * 2 ^ b →
      dfl_iter fuel kmem_zalloc dfl
        { dfa_bsize := 2 ^ b, dfa_max_ext := max_ext, dfa_max_blocks := max_blocks,
          dfa_align := 2 ^ a } func kmflag 0 = some { calls := [], ret := some EINVAL }) ∧
    (∀ (fuel : Nat) (kmem_zalloc : Nat → Nat → Bool) (dfl_offset : Nat)
      (func : dfl_iter_fn_t) (kmflag a b max_ext max_blocks : Nat),
      b ≤ a → a < 64 → 2 ^ a * 2 ^ b ≤ max_blocks →
      dfl_iter fuel kmem_zalloc { dfl_offset := dfl_offset, dfl_exts := [] }
        { dfa_bsize := 2 ^ b, dfa_max_ext := max_ext, dfa_max_blocks := max_blocks,
          dfa_align := 2 ^ a } func kmflag 0 = some { calls := [], ret := some 0 }) ∧
    example_dfa_4k.dfa_align / example_dfa_4k.dfa_bsize = 8 ∧
    (∀ (fuel : Nat) (kmem_zalloc : Nat → Nat → Bool) (dfl : dkioc_free_list_t)
      (func : dfl_iter_fn_t) (kmflag max_blocks : Nat),
      0 < max_blocks → max_blocks < 2097152 →
      dfl_iter fuel kmem_zalloc dfl { example_dfa_4k with dfa_max_blocks := max_blocks }
        func kmflag 0 = some { calls := [], ret := some EINVAL }) ∧
    dfl_iter 10 (fun _ _ => true) { dfl_offset := 0, dfl_exts := [] }
      { example_dfa_4k with dfa_max_blocks := 8 } (fun _ _ => 0) 0 0 =
        some { calls := [], ret := some EINVAL } ∧
    dfl_iter 10 (fun _ _ => true) { dfl_offset := 0, dfl_exts := [] }
      { example_dfa_4k with dfa_max_blocks := 2097152 } (fun _ _ => 0) 0 0 =
        some { calls := [], ret := some 0 } := by
  refine ⟨?_, ?_, by decide, ?_, by decide, by decide⟩
  · intro fuel kmem_zalloc dfl func kmflag a b max_ext max_blocks hab ha h0 h1
    rw [dfl_iter_checks_two_pow fuel kmem_zalloc dfl func kmflag a b max_ext max_blocks hab ha,
      if_pos ⟨h0, h1⟩]
  · intro fuel kmem_zalloc dfl_offset func kmflag a b max_ext max_blocks hab ha h1
    rw [dfl_iter_checks_two_pow fuel kmem_zalloc _ func kmflag a b max_ext max_blocks hab ha,
      if_neg (fun h => absurd h.2 (Nat.not_lt.mpr h1))]
    rfl
  · intro fuel kmem_zalloc dfl func kmflag max_blocks h0 h1
    have := dfl_iter_checks_two_pow fuel kmem_zalloc dfl func kmflag 12 9 0 max_blocks
      (by decide) (by decide)
    rw [if_pos ⟨h0, by omega⟩] at this
    exact this

/-! ### Alignment descriptions that pass the checks -/

theorem and_pred_eq_zero (x : Nat) (h0 : x ≠ 0) (h : x &&& (x - 1) = 0) : ∃ k, x = 2 ^ k := by
  induction x using Nat.strong_induction_on with
  | _ x ih =>
    rcases Nat.even_or_odd x with ⟨m, hm⟩ | ⟨m, hm⟩
    · have hm1 : m ≠ 0 := by omega
      have hx : x = 2 * m := by omega
      have h2 : m &&& (m - 1) = 0 := by
        apply Nat.eq_of_testBit_eq
        intro i
        have := congrArg (fun t => t.testBit (i + 1)) h
        simp only [Nat.testBit_and, Nat.zero_testBit] at this ⊢
        rw [Nat.testBit_succ, Nat.testBit_succ] at this
        have e1 : x / 2 = m := by omega
        have e2 : (x - 1) / 2 = m - 1 := by omega
        rw [e1, e2] at this
        exact this
      obtain ⟨k, hk⟩ := ih m (by omega) hm1 h2
      exact ⟨k + 1, by rw [hx, hk, pow_succ]; ring⟩
    · have h2 : m = 0 := by
        by_contra hne
        have hb : ∃ i, m.testBit i = true := by
          by_contra hno
          push_neg at hno
          apply hne
          apply Nat.eq_of_testBit_eq
          intro i
          simp [hno i]
        obtain ⟨i, hi⟩ := hb
        have := congrArg (fun t => t.testBit (i + 1)) h
        simp only [Nat.testBit_and, Nat.zero_testBit] at this
        rw [Nat.testBit_succ, Nat.testBit_succ] at this
        have e1 : x / 2 = m := by omega
        have e2 : (x - 1) / 2 = m := by omega
        rw [e1, e2, hi] at this
        simp at this
      exact ⟨0, by omega⟩

/-- A `size_t` that is not 0 and passes `ISP2` is a power of two. -/
theorem ISP2_eq_two_pow (x : Nat) (h0 : x ≠ 0) (hx : x < U64) (h : ISP2 x = true) :
    ∃ k, k < 64 ∧ x = 2 ^ k := by
  unfold ISP2 at h
  have e : (x + U64 - 1) % U64 = x - 1 := by
    have : x + U64 - 1 = (x - 1) + U64 := by omega
    rw [this, Nat.add_mod_right, Nat.mod_eq_of_lt (by omega)]
  rw [e] at h
  obtain ⟨k, hk⟩ := and_pred_eq_zero x h0 (by simpa using h)
  refine ⟨k, ?_, hk⟩
  by_contra hge
  have : (2 : Nat) ^ 64 ≤ 2 ^ k := Nat.pow_le_pow_right (by decide) (by omega)
  rw [← hk] at this
  have : U64 = 2 ^ 64 := rfl
  omega

/-- An alignment description that passes the checks of `dfl_iter` has a block
size 2^b and an alignment 2^a with `b ≤ a < 64`, `bshift` is `b`, and a block
limit that is not 0 is at least 2^a * 2^b. -/
theorem dfa_accepted_two_pow (dfa : dkioc_free_align_t) (hwf : dfa_wf dfa)
    (hacc : dfa_accepted dfa) :
    ∃ a b, b ≤ a ∧ a < 64 ∧ dfa.dfa_bsize = 2 ^ b ∧ dfa.dfa_align = 2 ^ a ∧
      ddi_ffsll dfa.dfa_bsize - 1 = b ∧
      (0 < dfa.dfa_max_blocks → 2 ^ a * 2 ^ b ≤ dfa.dfa_max_blocks) := by
  obtain ⟨w1, -, -, w4⟩ := hwf
  obtain ⟨h1, h2, h3, h4⟩ := hacc
  simp only [not_or, Bool.not_eq_true', Bool.not_eq_false] at h1 h2
  obtain ⟨b, hb, eb⟩ := ISP2_eq_two_pow _ h1.1 w1 (by simpa using h1.2)
  obtain ⟨a, ha, ea⟩ := ISP2_eq_two_pow _ h2.1 w4 (by simpa using h2.2)
  have hff : ddi_ffsll dfa.dfa_bsize - 1 = b := by rw [eb, ddi_ffsll_two_pow b hb]; rfl
  refine ⟨a, b, ?_, ha, eb, ea, hff, ?_⟩
  · rw [ea, eb] at h3
    by_contra hlt
    exact h3 (Nat.pow_lt_pow_right (by decide) (by omega))
  · intro hpos
    rw [hff, ea, Nat.shiftRight_eq_div_pow] at h4
    have : ¬ (dfa.dfa_max_blocks / 2 ^ b < 2 ^ a) := fun h => h4 ⟨hpos, h⟩
    have h5 := Nat.le_of_not_lt this
    exact (Nat.le_div_iff_mul_le (Nat.two_pow_pos b)).mp h5

/-! ### The checks of `dfl_iter` and the length of the pieces -/

/-- The call of `dfl_iter` on an alignment description that does not pass the
checks returns `EINVAL`. -/
theorem dfl_iter_not_accepted (fuel : Nat) (kmem_zalloc : Nat → Nat → Bool)
    (dfl : dkioc_free_list_t) (dfa : dkioc_free_align_t) (func : dfl_iter_fn_t)
    (kmflag dfl_flag : Nat) (h : ¬ dfa_accepted dfa) :
    dfl_iter fuel kmem_zalloc dfl dfa func kmflag dfl_flag =
      some { calls := [], ret := some EINVAL } := by
  unfold dfl_iter
  unfold dfa_accepted at h
  by_cases h0 : dfl_flag ≠ 0
  · rw [if_pos h0]
  rw [if_neg h0]
  by_cases h1 : dfa.dfa_bsize = 0 ∨ (!ISP2 dfa.dfa_bsize) = true
  · rw [if_pos h1]
  rw [if_neg h1]
  by_cases h2 : dfa.dfa_align = 0 ∨ (!ISP2 dfa.dfa_align) = true
  · rw [if_pos h2]
  rw [if_neg h2]
  by_cases h3 : dfa.dfa_align < dfa.dfa_bsize
  · rw [if_pos h3]
  rw [if_neg h3]
  simp only []
  by_cases h4 : dfa.dfa_max_blocks > 0 ∧
      dfa.dfa_max_blocks >>> (ddi_ffsll dfa.dfa_bsize - 1) < dfa.dfa_align
  · rw [if_pos h4]
  exact absurd ⟨h1, h2, h3, h4⟩ h

/-- The call of `dfl_iter` without flags on an alignment description that
passes the checks goes on to the first pass. -/
theorem dfl_iter_accepted (fuel : Nat) (kmem_zalloc : Nat → Nat → Bool)
    (dfl : dkioc_free_list_t) (dfa : dkioc_free_align_t) (func : dfl_iter_fn_t)
    (kmflag : Nat) (h : dfa_accepted dfa) :
    dfl_iter fuel kmem_zalloc dfl dfa func kmflag 0 =
      match ext_iter fuel dfl dfa (ddi_ffsll dfa.dfa_bsize - 1) count_exts 0 with
      | none => none
      | some (r, n_exts) =>
        if r ≠ some 0 then some { calls := [], ret := r }
        else if n_exts = 0 then some { calls := [], ret := some 0 }
        else if !kmem_zalloc 0 kmflag then some { calls := [], ret := some EOVERFLOW }
        else dfl_iter_second_pass fuel dfl dfa (ddi_ffsll dfa.dfa_bsize - 1) func 0 0 := by
  obtain ⟨h1, h2, h3, h4⟩ := h
  unfold dfl_iter
  rw [if_neg (by simp), if_neg h1, if_neg h2, if_neg h3]
  simp only []
  rw [if_neg h4]
  simp only [ext_arg_zero, Nat.zero_mul, Nat.zero_mod, Nat.zero_div]

/-- The alignment in blocks, `dfa_align >> bshift`, is `dfa_align / dfa_bsize`
and a power of two; the length of the piece cut from an extent that is over
the block limit is a multiple of it, is not 0 and is at most the limit. -/
theorem P2ALIGN_max_blocks (dfa : dkioc_free_align_t) (hwf : dfa_wf dfa)
    (hacc : dfa_accepted dfa) :
    dfa.dfa_align >>> (ddi_ffsll dfa.dfa_bsize - 1) = dfa.dfa_align / dfa.dfa_bsize ∧
    0 < dfa.dfa_align / dfa.dfa_bsize ∧
    (dfa.dfa_align / dfa.dfa_bsize) ∣
      P2ALIGN dfa.dfa_max_blocks (dfa.dfa_align >>> (ddi_ffsll dfa.dfa_bsize - 1)) ∧
    P2ALIGN dfa.dfa_max_blocks (dfa.dfa_align >>> (ddi_ffsll dfa.dfa_bsize - 1)) ≤
      dfa.dfa_max_blocks ∧
    (0 < dfa.dfa_max_blocks →
      0 < P2ALIGN dfa.dfa_max_blocks (dfa.dfa_align >>> (ddi_ffsll dfa.dfa_bsize - 1))) := by
  obtain ⟨a, b, hab, ha, eb, ea, hff, hmb⟩ := dfa_accepted_two_pow dfa hwf hacc
  have hsh : dfa.dfa_align >>> (ddi_ffsll dfa.dfa_bsize - 1) = dfa.dfa_align / dfa.dfa_bsize := by
    rw [hff, Nat.shiftRight_eq_div_pow, eb]
  have hdiv : dfa.dfa_align / dfa.dfa_bsize = 2 ^ (a - b) := by
    rw [ea, eb, Nat.pow_div hab (by decide)]
  have hP := P2ALIGN_two_pow dfa.dfa_max_blocks (a - b) hwf.2.2.1 (by omega)
  rw [hsh, hdiv, hP]
  have hA : 0 < 2 ^ (a - b) := Nat.two_pow_pos _
  refine ⟨rfl, hA, Dvd.intro_left _ rfl, Nat.div_mul_le_self _ _, ?_⟩
  intro hpos
  have h1 := hmb hpos
  have h2 : 2 ^ (a - b) ≤ 2 ^ a := Nat.pow_le_pow_right (by decide) (by omega)
  have h3 : 2 ^ a ≤ 2 ^ a * 2 ^ b := Nat.le_mul_of_pos_right _ (Nat.two_pow_pos b)
  have h4 : 1 ≤ dfa.dfa_max_blocks / 2 ^ (a - b) :=
    (Nat.le_div_iff_mul_le hA).mpr (by omega)
  exact Nat.mul_pos h4 hA

/-! ### Termination of `ext_iter` -/

/-- An iteration of the `while` loop that passes an extent to the callback:
its length is not 0 and is at most the remaining length, so the remaining
length decreases; a piece shorter than the remaining length is a multiple of
the alignment in blocks. -/
theorem ext_iter_blk_len_some {σ : Type} (dfa : dkioc_free_align_t) (hwf : dfa_wf dfa)
    (hacc : dfa_accepted dfa) (st : ext_iter_st σ) (length bl : Nat) (hl : 0 < length)
    (hlt : length < U64) (hinv : st.newreq = true → st.n_blk = 0)
    (h : ext_iter_blk_len dfa (ddi_ffsll dfa.dfa_bsize - 1) st length = some bl) :
    0 < bl ∧ bl ≤ length ∧ (length + U64 - bl) % U64 = length - bl ∧
    (bl < length → (dfa.dfa_align / dfa.dfa_bsize) ∣ bl) := by
  obtain ⟨-, -, hdvd, hle, hpos⟩ := P2ALIGN_max_blocks dfa hwf hacc
  unfold ext_iter_blk_len at h
  have key : 0 < bl ∧ bl ≤ length ∧ (bl < length → (dfa.dfa_align / dfa.dfa_bsize) ∣ bl) := by
    rw [U64_eq] at h hlt
    split_ifs at h with h1 h2 h3
    · have hbl : P2ALIGN dfa.dfa_max_blocks
          (dfa.dfa_align >>> (ddi_ffsll dfa.dfa_bsize - 1)) = bl := Option.some.inj h
      have hn : st.newreq = true := by simpa using h3
      have h0 := hinv hn
      rw [h0] at h2
      rw [hbl] at hdvd hle hpos
      exact ⟨hpos h2.1, by omega, fun _ => hdvd⟩
    · have hbl : length = bl := Option.some.inj h
      subst hbl
      exact ⟨hl, Nat.le_refl _, fun hx => absurd hx (Nat.lt_irrefl _)⟩
  refine ⟨key.1, key.2.1, ?_, key.2.2⟩
  have : length + U64 - bl = (length - bl) + U64 := by omega
  rw [this, Nat.add_mod_right, Nat.mod_eq_of_lt (by omega)]

/-- An iteration of the `while` loop that starts a new request is followed by
one that passes an extent to the callback. -/
theorem ext_iter_blk_len_none {σ : Type} (dfa : dkioc_free_align_t) (bshift : Nat)
    (st : ext_iter_st σ) (length : Nat) :
    ∃ bl, ext_iter_blk_len dfa bshift
      { st with newreq := true, n_exts := 0, n_blk := 0 } length = some bl := by
  unfold ext_iter_blk_len
  simp only []
  have h1 : ¬ (dfa.dfa_max_ext > 0 ∧ (0 + 1) % U64 > dfa.dfa_max_ext) := by
    rw [U64_eq]
    omega
  rw [if_neg h1]
  split_ifs with h2 h3
  · simp at h3
  · exact ⟨_, rfl⟩
  · exact ⟨_, rfl⟩

/-- The `while` loop of `ext_iter` ends within `2 * length + 1` iterations. -/
theorem ext_emits_while_fuel (dfa : dkioc_free_align_t) (hwf : dfa_wf dfa)
    (hacc : dfa_accepted dfa) :
    ∀ (fuel start length : Nat) (st : ext_iter_st Unit),
      (st.newreq = true → st.n_blk = 0) → length < U64 →
      (2 * length + 1 ≤ fuel ∨
        (st.newreq = true ∧ st.n_exts = 0 ∧ 2 * length ≤ fuel ∧ 0 < length)) →
      ∃ st1, (ext_emits_while dfa (ddi_ffsll dfa.dfa_bsize - 1) fuel start length st).2 =
        some st1
  | 0, start, length, st, _, _, hf => by
    rcases hf with hf | ⟨-, -, h1, h2⟩ <;> omega
  | fuel + 1, start, length, st, hinv, hlt, hf => by
    unfold ext_emits_while
    by_cases hl : length > 0
    · rw [if_pos hl]
      cases hb : ext_iter_blk_len dfa (ddi_ffsll dfa.dfa_bsize - 1) st length with
      | none =>
        simp only []
        apply ext_emits_while_fuel dfa hwf hacc fuel start length _ (fun _ => rfl) hlt
        rcases hf with hf | ⟨h1, h2, -, -⟩
        · exact Or.inr ⟨rfl, rfl, by omega, hl⟩
        · exfalso
          obtain ⟨bl, hbl⟩ := ext_iter_blk_len_none dfa (ddi_ffsll dfa.dfa_bsize - 1) st length
          have hst : ({ st with newreq := true, n_exts := 0, n_blk := 0 } : ext_iter_st Unit)
              = st := by
            obtain ⟨ne, nb, nr, u⟩ := st
            simp only [] at h1 h2 hinv ⊢
            have := hinv h1
            subst h1
            subst h2
            subst this
            rfl
          rw [hst, hb] at hbl
          cases hbl
      | some bl =>
        simp only []
        obtain ⟨k1, k2, k3, -⟩ := ext_iter_blk_len_some dfa hwf hacc st length bl hl hlt hinv hb
        rw [k3]
        apply ext_emits_while_fuel dfa hwf hacc fuel _ (length - bl) _ (fun h => by cases h)
          (by omega)
        left
        rcases hf with hf | ⟨-, -, h3, -⟩ <;> omega
    · rw [if_neg hl]
      exact ⟨st, rfl⟩

/-- The `for` loop of `ext_iter` ends when each `while` loop has twice the
length of its extent in blocks, and one more, as iterations. -/
theorem ext_emits_for_fuel (dfl : dkioc_free_list_t) (dfa : dkioc_free_align_t)
    (hwf : dfa_wf dfa) (hacc : dfa_accepted dfa) (fuel : Nat) :
    ∀ (exts : List dkioc_free_list_ext_t) (st : ext_iter_st Unit),
      (st.newreq = true → st.n_blk = 0) →
      (∀ ext ∈ exts,
        2 * ext_xlate_length dfl ext dfa (ddi_ffsll dfa.dfa_bsize - 1) + 1 ≤ fuel) →
      ∃ rc, (ext_emits_for dfl dfa (ddi_ffsll dfa.dfa_bsize - 1) fuel exts st).2 = some rc
  | [], st, _, _ => ⟨0, rfl⟩
  | ext :: rest, st, hinv, hf => by
    unfold ext_emits_for
    have hfe := hf ext (List.mem_cons_self _ _)
    unfold ext_xlate_length at hfe
    cases hx : ext_xlate dfl ext dfa (ddi_ffsll dfa.dfa_bsize - 1) with
    | error r => exact ⟨r, rfl⟩
    | ok sl =>
      obtain ⟨start, length⟩ := sl
      rw [hx] at hfe
      simp only [] at hfe ⊢
      have hr := ext_xlate_range_lt dfl ext dfa _ start length hx
      obtain ⟨st1, hst1⟩ := ext_emits_while_fuel dfa hwf hacc fuel start length st hinv
        (by omega) (Or.inl hfe)
      obtain ⟨-, h2⟩ := ext_emits_while_range dfa (ddi_ffsll dfa.dfa_bsize - 1) fuel start
        length st hinv hr
      cases hw : ext_emits_while dfa (ddi_ffsll dfa.dfa_bsize - 1) fuel start length st with
      | mk em ost =>
        rw [hw] at hst1 h2
        simp only [] at hst1
        subst hst1
        simp only []
        exact ext_emits_for_fuel dfl dfa hwf hacc fuel rest st1 (h2 st1 rfl)
          (fun e he => hf e (List.mem_cons_of_mem _ he))

theorem ext_xlate_length_lt (dfl : dkioc_free_list_t) (ext : dkioc_free_list_ext_t)
    (dfa : dkioc_free_align_t) (bshift : Nat) : ext_xlate_length dfl ext dfa bshift < U64 := by
  unfold ext_xlate_length
  cases hx : ext_xlate dfl ext dfa bshift with
  | error r => exact (by decide : 0 < U64)
  | ok sl =>
    obtain ⟨s, l⟩ := sl
    have := ext_xlate_range_lt dfl ext dfa bshift s l hx
    simp only []
    omega

/-- With any callback, `ext_iter` on an alignment description that passes the
checks returns when each `while` loop has enough iterations. -/
theorem ext_iter_returns {σ : Type} (fuel : Nat) (dfl : dkioc_free_list_t)
    (dfa : dkioc_free_align_t) (hwf : dfa_wf dfa) (hacc : dfa_accepted dfa)
    (fn : ext_iter_fn_t σ) (a : σ)
    (hf : ∀ ext ∈ dfl.dfl_exts,
      2 * ext_xlate_length dfl ext dfa (ddi_ffsll dfa.dfa_bsize - 1) + 1 ≤ fuel) :
    (∃ rc, (ext_emits fuel dfl dfa (ddi_ffsll dfa.dfa_bsize - 1)).2 = some rc) ∧
    ∃ r, ext_iter fuel dfl dfa (ddi_ffsll dfa.dfa_bsize - 1) fn a = some r := by
  obtain ⟨rc, hrc⟩ := ext_emits_for_fuel dfl dfa hwf hacc fuel dfl.dfl_exts
    { n_exts := 0, n_blk := 0, newreq := true, arg := () } (fun _ => rfl) hf
  refine ⟨⟨rc, hrc⟩, ?_⟩
  rw [ext_iter_eq]
  have hrc2 : (ext_emits fuel dfl dfa (ddi_ffsll dfa.dfa_bsize - 1)).2 = some rc := hrc
  rw [hrc2]
  split_ifs
  · exact ⟨_, rfl⟩
  · exact ⟨_, rfl⟩

/-! ### Alignment of the extents -/

/-- The start block that `ext_xlate` gives is a multiple of the alignment in
blocks. -/
theorem ext_xlate_start_aligned (dfl : dkioc_free_list_t) (ext : dkioc_free_list_ext_t)
    (dfa : dkioc_free_align_t) (hwf : dfa_wf dfa) (hacc : dfa_accepted dfa) (s l : Nat)
    (h : ext_xlate dfl ext dfa (ddi_ffsll dfa.dfa_bsize - 1) = .ok (s, l)) :
    (dfa.dfa_align / dfa.dfa_bsize) ∣ s := by
  obtain ⟨a, b, hab, ha, eb, ea, hff, -⟩ := dfa_accepted_two_pow dfa hwf hacc
  obtain ⟨hs, -⟩ := ext_xlate_ok dfl ext dfa _ s l h
  rw [hff, ea, P2ROUNDUP_two_pow _ a (Nat.mod_lt _ (by decide)) ha,
    Nat.shiftRight_eq_div_pow] at hs
  have hdiv : dfa.dfa_align / dfa.dfa_bsize = 2 ^ (a - b) := by
    rw [ea, eb, Nat.pow_div hab (by decide)]
  have hU : (2 : Nat) ^ a ∣ U64 := by
    have : U64 = 2 ^ 64 := rfl
    rw [this]
    exact Nat.pow_dvd_pow 2 (by omega)
  have hR : (2 : Nat) ^ a ∣
      ((dfl.dfl_offset + ext.dfle_start) % U64 + 2 ^ a - 1) / 2 ^ a * 2 ^ a % U64 :=
    (Nat.dvd_mod_iff hU).mpr (Dvd.intro_left _ rfl)
  obtain ⟨d, hd⟩ := hR
  have hsplit : (2 : Nat) ^ a = 2 ^ b * 2 ^ (a - b) := by
    rw [← pow_add]
    congr 1
    omega
  rw [hdiv, hs, hd, hsplit, Nat.mul_assoc, Nat.mul_div_cancel_left _ (Nat.two_pow_pos b)]
  exact Dvd.intro _ rfl

/-- The extents of one `while` loop that starts at a multiple of the alignment
in blocks start at multiples of it. -/
theorem ext_emits_while_aligned (dfa : dkioc_free_align_t) (hwf : dfa_wf dfa)
    (hacc : dfa_accepted dfa) :
    ∀ (fuel start length : Nat) (st : ext_iter_st Unit),
      (st.newreq = true → st.n_blk = 0) → start + length < U64 →
      (0 < length → (dfa.dfa_align / dfa.dfa_bsize) ∣ start) →
      ∀ x ∈ (ext_emits_while dfa (ddi_ffsll dfa.dfa_bsize - 1) fuel start length st).1,
        (dfa.dfa_align / dfa.dfa_bsize) ∣ x.1.dfle_start
  | 0, start, length, st, _, _, _ => by
    simp [ext_emits_while]
  | fuel + 1, start, length, st, hinv, hlt, hal => by
    unfold ext_emits_while
    by_cases hl : length > 0
    · rw [if_pos hl]
      cases hb : ext_iter_blk_len dfa (ddi_ffsll dfa.dfa_bsize - 1) st length with
      | none =>
        simp only []
        exact ext_emits_while_aligned dfa hwf hacc fuel start length _ (fun _ => rfl) hlt hal
      | some bl =>
        simp only []
        obtain ⟨k1, k2, k3, k4⟩ := ext_iter_blk_len_some dfa hwf hacc st length bl hl
          (by omega) hinv hb
        have e1 : (start + bl) % U64 = start + bl := Nat.mod_eq_of_lt (by omega)
        rw [e1, k3]
        have ih := ext_emits_while_aligned dfa hwf hacc fuel (start + bl) (length - bl)
          { n_exts := (st.n_exts + 1) % U64, n_blk := (st.n_blk + bl) % U64, newreq := false,
            arg := () } (fun h => by cases h) (by omega)
          (fun hpos => (Nat.dvd_add_right (hal hl)).mpr (k4 (by omega)))
        intro x hx
        rcases List.mem_cons.mp hx with hx | hx
        · subst hx
          exact hal hl
        · exact ih x hx
    · rw [if_neg hl]
      intro x hx
      cases hx

/-- Every extent that `ext_iter` passes to its callback starts at a multiple
of the alignment in blocks. -/
theorem ext_emits_aligned (fuel : Nat) (dfl : dkioc_free_list_t) (dfa : dkioc_free_align_t)
    (hwf : dfa_wf dfa) (hacc : dfa_accepted dfa) :
    ∀ x ∈ (ext_emits fuel dfl dfa (ddi_ffsll dfa.dfa_bsize - 1)).1,
      (dfa.dfa_align / dfa.dfa_bsize) ∣ x.1.dfle_start := by
  have hfor : ∀ (exts : List dkioc_free_list_ext_t) (st : ext_iter_st Unit),
      (st.newreq = true → st.n_blk = 0) →
      ∀ x ∈ (ext_emits_for dfl dfa (ddi_ffsll dfa.dfa_bsize - 1) fuel exts st).1,
        (dfa.dfa_align / dfa.dfa_bsize) ∣ x.1.dfle_start := by
    intro exts
    induction exts with
    | nil => intro st _ x hx; simp [ext_emits_for] at hx
    | cons ext rest ih =>
      intro st hinv x hx
      unfold ext_emits_for at hx
      cases hxl : ext_xlate dfl ext dfa (ddi_ffsll dfa.dfa_bsize - 1) with
      | error r => rw [hxl] at hx; simp at hx
      | ok sl =>
        obtain ⟨start, length⟩ := sl
        rw [hxl] at hx
        simp only [] at hx
        have hr := ext_xlate_range_lt dfl ext dfa _ start length hxl
        have hw := ext_emits_while_aligned dfa hwf hacc fuel start length st hinv hr
          (fun _ => ext_xlate_start_aligned dfl ext dfa hwf hacc start length hxl)
        obtain ⟨-, h2⟩ := ext_emits_while_range dfa (ddi_ffsll dfa.dfa_bsize - 1) fuel start
          length st hinv hr
        cases hwe : ext_emits_while dfa (ddi_ffsll dfa.dfa_bsize - 1) fuel start length st with
        | mk em ost =>
          rw [hwe] at hx hw h2
          cases ost with
          | none => exact hw x hx
          | some st1 =>
            simp only [] at hx
            rcases List.mem_append.mp hx with hx | hx
            · exact hw x hx
            · exact ih st1 (h2 st1 rfl) x hx
  exact hfor dfl.dfl_exts _ (fun _ => rfl)

/-! ### The block range of an extent is passed on piece by piece -/

/-- The extents of one `while` loop that runs to its end are contiguous pieces
that cover the block range the loop starts with. -/
theorem ext_emits_while_cover (dfa : dkioc_free_align_t) (hwf : dfa_wf dfa)
    (hacc : dfa_accepted dfa) :
    ∀ (fuel start length : Nat) (st st1 : ext_iter_st Unit),
      (st.newreq = true → st.n_blk = 0) → start + length < U64 →
      (ext_emits_while dfa (ddi_ffsll dfa.dfa_bsize - 1) fuel start length st).2 = some st1 →
      exts_cover start (start + length)
        ((ext_emits_while dfa (ddi_ffsll dfa.dfa_bsize - 1) fuel start length st).1.map
          Prod.fst)
  | 0, start, length, st, st1, _, _, h => by
    simp [ext_emits_while] at h
  | fuel + 1, start, length, st, st1, hinv, hlt, h => by
    unfold ext_emits_while at h ⊢
    by_cases hl : length > 0
    · rw [if_pos hl] at h ⊢
      cases hb : ext_iter_blk_len dfa (ddi_ffsll dfa.dfa_bsize - 1) st length with
      | none =>
        rw [hb] at h
        simp only [] at h ⊢
        exact ext_emits_while_cover dfa hwf hacc fuel start length _ st1 (fun _ => rfl) hlt h
      | some bl =>
        rw [hb] at h
        simp only [] at h ⊢
        obtain ⟨k1, k2, k3, -⟩ := ext_iter_blk_len_some dfa hwf hacc st length bl hl
          (by omega) hinv hb
        have e1 : (start + bl) % U64 = start + bl := Nat.mod_eq_of_lt (by omega)
        rw [e1, k3] at h ⊢
        have ih := ext_emits_while_cover dfa hwf hacc fuel (start + bl) (length - bl)
          { n_exts := (st.n_exts + 1) % U64, n_blk := (st.n_blk + bl) % U64, newreq := false,
            arg := () } st1 (fun h => by cases h) (by omega) h
        have e2 : start + bl + (length - bl) = start + length := by omega
        rw [e2] at ih
        simp only [List.map_cons, exts_cover]
        exact ⟨trivial, k1, ih⟩
    · rw [if_neg hl]
      have : length = 0 := by omega
      subst this
      simp [exts_cover]

/-- When `ext_iter` runs to its end and returns 0, the extents it passes to
its callback are, for each extent of the request in turn, contiguous pieces
that cover the block range `ext_xlate` gives it. -/
theorem ext_emits_for_cover (dfl : dkioc_free_list_t) (dfa : dkioc_free_align_t)
    (hwf : dfa_wf dfa) (hacc : dfa_accepted dfa) (fuel : Nat)
    (P : dkioc_free_list_ext_t → Prop) :
    ∀ (exts : List dkioc_free_list_ext_t) (st : ext_iter_st Unit),
      (st.newreq = true → st.n_blk = 0) → (∀ ext ∈ exts, P ext) →
      (ext_emits_for dfl dfa (ddi_ffsll dfa.dfa_bsize - 1) fuel exts st).2 = some 0 →
      ∃ parts : List (List dkioc_free_list_ext_t),
        (ext_emits_for dfl dfa (ddi_ffsll dfa.dfa_bsize - 1) fuel exts st).1.map Prod.fst =
          parts.flatten ∧
        List.Forall₂ (fun ext part => P ext ∧ ∃ s l,
          ext_xlate dfl ext dfa (ddi_ffsll dfa.dfa_bsize - 1) = .ok (s, l) ∧
          exts_cover s (s + l) part) exts parts
  | [], st, _, _, _ => ⟨[], by simp [ext_emits_for], List.Forall₂.nil⟩
  | ext :: rest, st, hinv, hP, h => by
    unfold ext_emits_for at h ⊢
    cases hx : ext_xlate dfl ext dfa (ddi_ffsll dfa.dfa_bsize - 1) with
    | error r =>
      rw [hx] at h
      simp only [Option.some.injEq] at h
      unfold ext_xlate at hx
      simp only [] at hx
      split_ifs at hx <;> simp only [Except.error.injEq, reduceCtorEq] at hx
      all_goals
        rw [← hx] at h
        exact absurd h (by decide)
    | ok sl =>
      obtain ⟨start, length⟩ := sl
      rw [hx] at h
      simp only [] at h ⊢
      have hr := ext_xlate_range_lt dfl ext dfa _ start length hx
      obtain ⟨-, h2⟩ := ext_emits_while_range dfa (ddi_ffsll dfa.dfa_bsize - 1) fuel start
        length st hinv hr
      have hc := ext_emits_while_cover dfa hwf hacc fuel start length st
      cases hw : ext_emits_while dfa (ddi_ffsll dfa.dfa_bsize - 1) fuel start length st with
      | mk em ost =>
        rw [hw] at h h2 hc
        cases ost with
        | none => simp at h
        | some st1 =>
          simp only [] at h ⊢
          obtain ⟨parts, hp1, hp2⟩ := ext_emits_for_cover dfl dfa hwf hacc fuel P rest st1
            (h2 st1 rfl) (fun e he => hP e (List.mem_cons_of_mem _ he)) h
          refine ⟨em.map Prod.fst :: parts, ?_, List.Forall₂.cons ?_ hp2⟩
          · simp [hp1]
          · exact ⟨hP ext (List.mem_cons_self _ _), start, length, hx, hc st1 hinv hr rfl⟩

/-- The return code of `ext_iter` when no callback fails: 0, or the error of
`ext_xlate` on an extent of the request. -/
theorem ext_emits_for_rc (dfl : dkioc_free_list_t) (dfa : dkioc_free_align_t) (bshift : Nat)
    (fuel : Nat) :
    ∀ (exts : List dkioc_free_list_ext_t) (st : ext_iter_st Unit) (rc : Nat),
      (ext_emits_for dfl dfa bshift fuel exts st).2 = some rc →
      rc = 0 ∨ ∃ ext ∈ exts, ext_xlate dfl ext dfa bshift = .error rc
  | [], st, rc, h => by
    simp only [ext_emits_for, Option.some.injEq] at h
    exact Or.inl h.symm
  | ext :: rest, st, rc, h => by
    unfold ext_emits_for at h
    cases hx : ext_xlate dfl ext dfa bshift with
    | error r =>
      rw [hx] at h
      simp only [Option.some.injEq] at h
      exact Or.inr ⟨ext, List.mem_cons_self _ _, by rw [← h]; exact hx⟩
    | ok sl =>
      obtain ⟨start, length⟩ := sl
      rw [hx] at h
      simp only [] at h
      cases hw : ext_emits_while dfa bshift fuel start length st with
      | mk em ost =>
        rw [hw] at h
        cases ost with
        | none => simp at h
        | some st1 =>
          simp only [] at h
          rcases ext_emits_for_rc dfl dfa bshift fuel rest st1 rc h with h0 | ⟨e, he, hxe⟩
          · exact Or.inl h0
          · exact Or.inr ⟨e, List.mem_cons_of_mem _ he, hxe⟩

theorem exts_cover_le :
    ∀ (l : List dkioc_free_list_ext_t) (s e : Nat), exts_cover s e l →
      s ≤ e ∧ (l ≠ [] → s < e)
  | [], s, e, h => by
    simp only [exts_cover] at h
    subst h
    exact ⟨Nat.le_refl _, fun hne => absurd rfl hne⟩
  | x :: rest, s, e, h => by
    obtain ⟨-, h2, h3⟩ := h
    obtain ⟨i1, -⟩ := exts_cover_le rest _ e h3
    exact ⟨by omega, fun _ => by omega⟩

/-- For a block size 2^b and an alignment 2^a with `b ≤ a < 64`, what
`ext_xlate` gives an extent whose byte range ends below 2^64 and starts at
least one alignment unit below 2^64: the start rounded up to the alignment and
the end rounded down to the block size, in blocks. -/
theorem ext_xlate_two_pow (dfl : dkioc_free_list_t) (ext : dkioc_free_list_ext_t)
    (a b max_ext max_blocks : Nat) (ha : a < 64) (hb : b < 64)
    (hend : dfl.dfl_offset + ext.dfle_start + ext.dfle_length < U64)
    (htop : dfl.dfl_offset + ext.dfle_start + 2 ^ a ≤ U64) :
    ext_xlate dfl ext
      { dfa_bsize := 2 ^ b, dfa_max_ext := max_ext, dfa_max_blocks := max_blocks,
        dfa_align := 2 ^ a } b =
      .ok ((dfl.dfl_offset + ext.dfle_start + 2 ^ a - 1) / 2 ^ a * 2 ^ a / 2 ^ b,
        (dfl.dfl_offset + ext.dfle_start + ext.dfle_length) / 2 ^ b * 2 ^ b / 2 ^ b -
          (dfl.dfl_offset + ext.dfle_start + 2 ^ a - 1) / 2 ^ a * 2 ^ a / 2 ^ b) := by
  have ha0 : 0 < 2 ^ a := Nat.two_pow_pos a
  have hS0 : dfl.dfl_offset + ext.dfle_start < U64 := by omega
  have e1 : (dfl.dfl_offset + ext.dfle_start) % U64 = dfl.dfl_offset + ext.dfle_start :=
    Nat.mod_eq_of_lt hS0
  have e2 : (dfl.dfl_offset + ext.dfle_start + ext.dfle_length) % U64 =
      dfl.dfl_offset + ext.dfle_start + ext.dfle_length := Nat.mod_eq_of_lt hend
  have hle : (dfl.dfl_offset + ext.dfle_start + 2 ^ a - 1) / 2 ^ a * 2 ^ a ≤
      dfl.dfl_offset + ext.dfle_start + 2 ^ a - 1 := Nat.div_mul_le_self _ _
  have e3 : (dfl.dfl_offset + ext.dfle_start + 2 ^ a - 1) / 2 ^ a * 2 ^ a % U64 =
      (dfl.dfl_offset + ext.dfle_start + 2 ^ a - 1) / 2 ^ a * 2 ^ a :=
    Nat.mod_eq_of_lt (by omega)
  unfold ext_xlate
  simp only [e1, e2]
  rw [if_neg (by omega), if_neg (by omega), P2ROUNDUP_two_pow _ a hS0 ha, e3,
    P2ALIGN_two_pow _ b hend hb, Nat.shiftRight_eq_div_pow, Nat.shiftRight_eq_div_pow]
  congr 2
  split_ifs with h
  · rfl
  · omega

/-! ## Alignment of the extents passed on (C31) -/

/-- C31. For an alignment description that passes the checks of `dfl_iter`,
every extent passed on starts at a block number that is a multiple of the
alignment in blocks, `dfa_align / dfa_bsize`, the pieces of an extent that is
over the block limit among them: every extent that `ext_iter` passes to its
callback, every extent of an invocation of the second pass on an array of any
capacity, and so every extent of an invocation of `dfl_iter`. -/
theorem dfl_iter_extents_aligned (dfa : dkioc_free_align_t) (hwf : dfa_wf dfa)
    (hacc : dfa_accepted dfa) :
    (∀ (fuel : Nat) (dfl : dkioc_free_list_t) (rc : Option Nat)
      (em : List (dkioc_free_list_ext_t × Bool)),
      ext_iter fuel dfl dfa (ddi_ffsll dfa.dfa_bsize - 1) record_exts [] = some (rc, em) →
      ∀ x ∈ em, (dfa.dfa_align / dfa.dfa_bsize) ∣ x.1.dfle_start) ∧
    (∀ (fuel : Nat) (dfl : dkioc_free_list_t) (func : dfl_iter_fn_t) (cap : Nat)
      (res : dfl_result),
      dfl_iter_second_pass fuel dfl dfa (ddi_ffsll dfa.dfa_bsize - 1) func 0 cap = some res →
      ∀ c ∈ res.calls, ∀ e ∈ c.exts, (dfa.dfa_align / dfa.dfa_bsize) ∣ e.dfle_start) ∧
    (∀ (fuel : Nat) (kmem_zalloc : Nat → Nat → Bool) (dfl : dkioc_free_list_t)
      (func : dfl_iter_fn_t) (kmflag dfl_flag : Nat) (res : dfl_result),
      dfl_iter fuel kmem_zalloc dfl dfa func kmflag dfl_flag = some res →
      ∀ c ∈ res.calls, ∀ e ∈ c.exts, (dfa.dfa_align / dfa.dfa_bsize) ∣ e.dfle_start) := by
  have hsp : ∀ (fuel : Nat) (dfl : dkioc_free_list_t) (func : dfl_iter_fn_t) (cap : Nat)
      (res : dfl_result),
      dfl_iter_second_pass fuel dfl dfa (ddi_ffsll dfa.dfa_bsize - 1) func 0 cap = some res →
      ∀ c ∈ res.calls, ∀ e ∈ c.exts, (dfa.dfa_align / dfa.dfa_bsize) ∣ e.dfle_start := by
    intro fuel dfl func cap res hres c hc e he
    obtain ⟨x, hx, hxe⟩ := dfl_iter_second_pass_exts fuel dfl dfa _ func cap res hres c hc e he
    rw [← hxe]
    exact ext_emits_aligned fuel dfl dfa hwf hacc x hx
  refine ⟨?_, hsp, ?_⟩
  · intro fuel dfl rc em hrec x hx
    rw [ext_iter_record_exts] at hrec
    cases hrc : (ext_emits fuel dfl dfa (ddi_ffsll dfa.dfa_bsize - 1)).2 with
    | none => rw [hrc] at hrec; cases hrec
    | some r =>
      rw [hrc] at hrec
      simp only [Option.map_some', Option.some.injEq, Prod.mk.injEq] at hrec
      rw [← hrec.2] at hx
      exact ext_emits_aligned fuel dfl dfa hwf hacc x hx
  · intro fuel kmem_zalloc dfl func kmflag dfl_flag res hres
    rcases dfl_iter_cases fuel kmem_zalloc dfl dfa func kmflag dfl_flag res hres with
      h | h | ⟨n, -, -, h⟩
    · rw [h.1]; intro c hc; cases hc
    · rw [h.1]; intro c hc; cases hc
    · exact hsp fuel dfl func 0 res h

/-- C31, witness: on a device of 512 byte blocks with an alignment of 4096
bytes, 8 blocks, and a limit of 2097152 blocks, the extent of 2^31 bytes at
the byte 1000 is passed on in two pieces, at the blocks 8 and 2097160. -/
theorem dfl_iter_extents_aligned_witness :
    dfa_wf example_dfa_4k_limit ∧ dfa_accepted example_dfa_4k_limit ∧
    example_dfa_4k_limit.dfa_align / example_dfa_4k_limit.dfa_bsize = 8 ∧
    dfl_iter_second_pass 10 example_dfl_long example_dfa_4k_limit 9 (fun _ _ => 0) 0 2 =
      some { calls := example_calls_long, ret := some 0 } ∧
    ∀ c ∈ example_calls_long, ∀ e ∈ c.exts,
      (example_dfa_4k_limit.dfa_align / example_dfa_4k_limit.dfa_bsize) ∣ e.dfle_start :=
  ⟨by decide, by decide, by decide, by decide,
   (dfl_iter_extents_aligned example_dfa_4k_limit (by decide) (by decide)).2.1 10
     example_dfl_long (fun _ _ => 0) 2 { calls := example_calls_long, ret := some 0 }
     (by decide)⟩

/-! ## The array of the second pass (C34) -/

/-- On an array without elements, the second pass of a request with an extent
to pass on stores outside the array before any invocation. -/
theorem dfl_iter_second_pass_store_outside (fuel : Nat) (dfl : dkioc_free_list_t)
    (dfa : dkioc_free_align_t) (bshift : Nat) (func : dfl_iter_fn_t)
    (h : (ext_emits fuel dfl dfa bshift).1 ≠ []) :
    dfl_iter_second_pass fuel dfl dfa bshift func 0 0 = some { calls := [], ret := none } := by
  rw [dfl_iter_second_pass_eq]
  cases hem : (ext_emits fuel dfl dfa bshift).1 with
  | nil => exact absurd hem h
  | cons x rest =>
    simp [ext_run, process_exts_fn, process_exts, process_exts_store]

/-- C34. The array that `dfl_iter` allocates for the second pass does not have
the capacity that the first pass counts: `n_exts` is overwritten with
`earg.ea_ext_cnt`, which is 0, before the allocation, so the size passed to
`kmem_zalloc` is 0 in every call (the result of `dfl_iter` depends on the
allocator only through its answer for the size 0). When the first pass counts
an extent, the call either returns `EOVERFLOW`, when the allocator gives
nothing for the size 0, or makes the first store of `process_exts` outside
the array; the callback is never invoked. For a request of three extents the
first pass counts 3, and the second pass succeeds on an array of 3
elements. -/
theorem dfl_iter_array_without_room :
    (∀ (fuel : Nat) (kmem_zalloc : Nat → Nat → Bool) (dfl : dkioc_free_list_t)
      (dfa : dkioc_free_align_t) (func : dfl_iter_fn_t) (kmflag dfl_flag : Nat),
      dfl_iter fuel kmem_zalloc dfl dfa func kmflag dfl_flag =
        dfl_iter fuel (fun _ flag => kmem_zalloc 0 flag) dfl dfa func kmflag dfl_flag) ∧
    (∀ (fuel : Nat) (kmem_zalloc : Nat → Nat → Bool) (dfl : dkioc_free_list_t)
      (dfa : dkioc_free_align_t) (func : dfl_iter_fn_t) (kmflag n : Nat),
      dfa_accepted dfa →
      ext_iter fuel dfl dfa (ddi_ffsll dfa.dfa_bsize - 1) count_exts 0 = some (some 0, n) →
      n ≠ 0 →
      dfl_iter fuel kmem_zalloc dfl dfa func kmflag 0 =
        some { calls := [],
               ret := if kmem_zalloc 0 kmflag then none else some EOVERFLOW }) ∧
    (∀ (fuel : Nat) (kmem_zalloc : Nat → Nat → Bool) (dfl : dkioc_free_list_t)
      (dfa : dkioc_free_align_t) (func : dfl_iter_fn_t) (kmflag dfl_flag : Nat)
      (res : dfl_result),
      dfl_iter fuel kmem_zalloc dfl dfa func kmflag dfl_flag = some res → res.calls = []) ∧
    dfa_accepted example_dfa_two ∧
    ext_iter 10 example_dfl_three example_dfa_two
      (ddi_ffsll example_dfa_two.dfa_bsize - 1) count_exts 0 = some (some 0, 3) ∧
    dfl_iter 10 (fun _ _ => true) example_dfl_three example_dfa_two (fun _ _ => 0) 0 0 =
      some { calls := [], ret := none } ∧
    dfl_iter 10 (fun size _ => size != 0) example_dfl_three example_dfa_two (fun _ _ => 0) 0 0 =
      some { calls := [], ret := some EOVERFLOW } ∧
    dfl_iter_second_pass 10 example_dfl_three example_dfa_two 9 (fun _ _ => 0) 0 3 =
      some { calls := example_calls_three, ret := some 0 } := by
  refine ⟨?_, ?_, ?_, by decide, by decide, by decide, by decide, by decide⟩
  · intro fuel kmem_zalloc dfl dfa func kmflag dfl_flag
    unfold dfl_iter
    simp only [ext_arg_zero, Nat.zero_mul, Nat.zero_mod]
  · intro fuel kmem_zalloc dfl dfa func kmflag n hacc hcount hn
    rw [dfl_iter_accepted fuel kmem_zalloc dfl dfa func kmflag hacc, hcount]
    simp only [ne_eq, not_true_eq_false, if_false, hn]
    have hem : (ext_emits fuel dfl dfa (ddi_ffsll dfa.dfa_bsize - 1)).1 ≠ [] := by
      intro hnil
      rw [ext_iter_count_exts, hnil] at hcount
      cases hrc : (ext_emits fuel dfl dfa (ddi_ffsll dfa.dfa_bsize - 1)).2 with
      | none => rw [hrc] at hcount; cases hcount
      | some rc =>
        rw [hrc] at hcount
        simp only [Option.map_some', List.length_nil, Nat.zero_mod, Option.some.injEq,
          Prod.mk.injEq] at hcount
        exact hn hcount.2.symm
    rw [dfl_iter_second_pass_store_outside fuel dfl dfa _ func hem]
    cases kmem_zalloc 0 kmflag <;> simp
  · intro fuel kmem_zalloc dfl dfa func kmflag dfl_flag res h
    exact (dfl_iter_no_room fuel kmem_zalloc dfl dfa func kmflag dfl_flag res h).1

/-! ## Termination of `ext_iter` (C35) -/

theorem dfl_iter_second_pass_some (fuel : Nat) (dfl : dkioc_free_list_t)
    (dfa : dkioc_free_align_t) (bshift : Nat) (func : dfl_iter_fn_t) (n_exts cap : Nat)
    (h : ∃ rc, (ext_emits fuel dfl dfa bshift).2 = some rc) :
    ∃ res, dfl_iter_second_pass fuel dfl dfa bshift func n_exts cap = some res := by
  obtain ⟨rc, hrc⟩ := h
  rw [dfl_iter_second_pass_eq, hrc]
  simp only []
  split_ifs
  · exact ⟨_, rfl⟩
  · exact ⟨_, rfl⟩
  · exact ⟨_, rfl⟩

/-- C35. For an alignment description that passes the checks of `dfl_iter`,
`ext_iter` terminates, with any request and any callback: it returns when each
`while` loop is given twice the length in blocks of its extent, and one more,
as iterations, so also when it is given 2 * 2^64 of them, and then `dfl_iter`
returns. In the `while` loop an iteration that passes an extent to the
callback passes one whose length is not 0 and is at most the remaining length,
which decreases; and an iteration that starts a new request is followed by one
that passes an extent. -/
theorem ext_iter_terminates (dfa : dkioc_free_align_t) (hwf : dfa_wf dfa)
    (hacc : dfa_accepted dfa) :
    (∀ (σ : Type) (fn : ext_iter_fn_t σ) (a : σ) (dfl : dkioc_free_list_t) (fuel : Nat),
      (∀ ext ∈ dfl.dfl_exts,
        2 * ext_xlate_length dfl ext dfa (ddi_ffsll dfa.dfa_bsize - 1) + 1 ≤ fuel) →
      ∃ r, ext_iter fuel dfl dfa (ddi_ffsll dfa.dfa_bsize - 1) fn a = some r) ∧
    (∀ (σ : Type) (fn : ext_iter_fn_t σ) (a : σ) (dfl : dkioc_free_list_t) (fuel : Nat),
      2 * U64 ≤ fuel →
      ∃ r, ext_iter fuel dfl dfa (ddi_ffsll dfa.dfa_bsize - 1) fn a = some r) ∧
    (∀ (kmem_zalloc : Nat → Nat → Bool) (dfl : dkioc_free_list_t) (func : dfl_iter_fn_t)
      (kmflag dfl_flag fuel : Nat),
      2 * U64 ≤ fuel →
      ∃ res, dfl_iter fuel kmem_zalloc dfl dfa func kmflag dfl_flag = some res) ∧
    (∀ (σ : Type) (st : ext_iter_st σ) (length bl : Nat),
      0 < length → length < U64 → (st.newreq = true → st.n_blk = 0) →
      ext_iter_blk_len dfa (ddi_ffsll dfa.dfa_bsize - 1) st length = some bl →
      0 < bl ∧ bl ≤ length ∧ (length + U64 - bl) % U64 < length) ∧
    (∀ (σ : Type) (st : ext_iter_st σ) (length : Nat),
      0 < length → length < U64 →
      ext_iter_blk_len dfa (ddi_ffsll dfa.dfa_bsize - 1) st length = none →
      ∃ bl, ext_iter_blk_len dfa (ddi_ffsll dfa.dfa_bsize - 1)
          { st with newreq := true, n_exts := 0, n_blk := 0 } length = some bl ∧
        0 < bl ∧ bl ≤ length ∧ (length + U64 - bl) % U64 < length) := by
  have hall : ∀ (dfl : dkioc_free_list_t) (fuel : Nat), 2 * U64 ≤ fuel →
      ∀ ext ∈ dfl.dfl_exts,
        2 * ext_xlate_length dfl ext dfa (ddi_ffsll dfa.dfa_bsize - 1) + 1 ≤ fuel := by
    intro dfl fuel hf ext _
    have := ext_xlate_length_lt dfl ext dfa (ddi_ffsll dfa.dfa_bsize - 1)
    omega
  have hstep : ∀ (σ : Type) (st : ext_iter_st σ) (length bl : Nat),
      0 < length → length < U64 → (st.newreq = true → st.n_blk = 0) →
      ext_iter_blk_len dfa (ddi_ffsll dfa.dfa_bsize - 1) st length = some bl →
      0 < bl ∧ bl ≤ length ∧ (length + U64 - bl) % U64 < length := by
    intro σ st length bl hl hlt hinv hb
    obtain ⟨k1, k2, k3, -⟩ := ext_iter_blk_len_some dfa hwf hacc st length bl hl hlt hinv hb
    exact ⟨k1, k2, by omega⟩
  refine ⟨?_, ?_, ?_, hstep, ?_⟩
  · intro σ fn a dfl fuel hf
    exact (ext_iter_returns fuel dfl dfa hwf hacc fn a hf).2
  · intro σ fn a dfl fuel hf
    exact (ext_iter_returns fuel dfl dfa hwf hacc fn a (hall dfl fuel hf)).2
  · intro kmem_zalloc dfl func kmflag dfl_flag fuel hf
    by_cases h0 : dfl_flag = 0
    · subst h0
      obtain ⟨hem, r, hr⟩ := ext_iter_returns fuel dfl dfa hwf hacc count_exts 0
        (hall dfl fuel hf)
      rw [dfl_iter_accepted fuel kmem_zalloc dfl dfa func kmflag hacc, hr]
      obtain ⟨rc, n⟩ := r
      simp only []
      split_ifs
      · exact ⟨_, rfl⟩
      · exact ⟨_, rfl⟩
      · exact ⟨_, rfl⟩
      · exact dfl_iter_second_pass_some fuel dfl dfa _ func 0 0 hem
    · refine ⟨{ calls := [], ret := some EINVAL }, ?_⟩
      unfold dfl_iter
      rw [if_pos h0]
  · intro σ st length hl hlt _
    obtain ⟨bl, hbl⟩ := ext_iter_blk_len_none dfa (ddi_ffsll dfa.dfa_bsize - 1) st length
    exact ⟨bl, hbl, hstep σ _ length bl hl hlt (fun _ => rfl) hbl⟩

/-- C35, witness: the device `example_dfa_limits` passes the checks. -/
theorem ext_iter_terminates_witness :
    dfa_wf example_dfa_limits ∧ dfa_accepted example_dfa_limits ∧
    (∀ (σ : Type) (fn : ext_iter_fn_t σ) (a : σ) (dfl : dkioc_free_list_t) (fuel : Nat),
      (∀ ext ∈ dfl.dfl_exts,
        2 * ext_xlate_length dfl ext example_dfa_limits
          (ddi_ffsll example_dfa_limits.dfa_bsize - 1) + 1 ≤ fuel) →
      ∃ r, ext_iter fuel dfl example_dfa_limits (ddi_ffsll example_dfa_limits.dfa_bsize - 1)
        fn a = some r) ∧
    (∀ ext ∈ example_dfl_limits.dfl_exts,
      2 * ext_xlate_length example_dfl_limits ext example_dfa_limits 9 + 1 ≤ 1048577) ∧
    ext_iter 5 example_dfl_limits example_dfa_limits 9 count_exts 0 = some (some 0, 5) ∧
    ext_iter 4 example_dfl_limits example_dfa_limits 9 count_exts 0 = none :=
  ⟨by decide, by decide,
   (ext_iter_terminates example_dfa_limits (by decide) (by decide)).1,
   by decide, by decide, by decide⟩

/-! ## The pieces of an extent (C36) -/

/-- C36. The claim holds for extents that start at least one alignment unit
below 2^64 and fails otherwise. For an alignment description that passes the
checks of `dfl_iter` and a request in which the byte range of every extent
ends below 2^64 and starts at least one alignment unit below 2^64, `ext_iter`,
given enough iterations, passes to its callback, for each extent of the
request in turn, contiguous pieces of lengths that are not 0, which cover the
block range from the start rounded up to the alignment to the end rounded down
to the block size, both divided by the block size, and no piece when that
range is empty; so the extent of 2^31 bytes at the byte 1000 is passed on as
the blocks 8 to 4194305 in two pieces. But for the extent of 1023 bytes that starts at 2^64 - 1024,
on a device of 512 byte blocks and an alignment of 4096 bytes, the start
rounded up is 2^64, the range is empty, and `ext_iter` passes the extent of
2^55 - 1 blocks at the block 0: `P2ROUNDUP` gives 0 for the start. -/
theorem ext_iter_covers_unless_wrap :
    (∀ (dfa : dkioc_free_align_t) (dfl : dkioc_free_list_t) (fuel : Nat),
      dfa_wf dfa → dfa_accepted dfa →
      (∀ ext ∈ dfl.dfl_exts,
        dfl.dfl_offset + ext.dfle_start + ext.dfle_length < U64 ∧
        dfl.dfl_offset + ext.dfle_start + dfa.dfa_align ≤ U64) →
      (∀ ext ∈ dfl.dfl_exts,
        2 * ext_xlate_length dfl ext dfa (ddi_ffsll dfa.dfa_bsize - 1) + 1 ≤ fuel) →
      ∃ (em : List (dkioc_free_list_ext_t × Bool)) (parts : List (List dkioc_free_list_ext_t)),
        ext_iter fuel dfl dfa (ddi_ffsll dfa.dfa_bsize - 1) record_exts [] =
          some (some 0, em) ∧
        em.map Prod.fst = parts.flatten ∧
        List.Forall₂ (fun ext part =>
          exts_cover
            ((dfl.dfl_offset + ext.dfle_start + dfa.dfa_align - 1) / dfa.dfa_align *
              dfa.dfa_align / dfa.dfa_bsize)
            ((dfl.dfl_offset + ext.dfle_start + dfa.dfa_align - 1) / dfa.dfa_align *
              dfa.dfa_align / dfa.dfa_bsize +
              ((dfl.dfl_offset + ext.dfle_start + ext.dfle_length) / dfa.dfa_bsize *
                  dfa.dfa_bsize / dfa.dfa_bsize -
                (dfl.dfl_offset + ext.dfle_start + dfa.dfa_align - 1) / dfa.dfa_align *
                  dfa.dfa_align / dfa.dfa_bsize))
            part ∧
          ((dfl.dfl_offset + ext.dfle_start + ext.dfle_length) / dfa.dfa_bsize *
              dfa.dfa_bsize / dfa.dfa_bsize ≤
            (dfl.dfl_offset + ext.dfle_start + dfa.dfa_align - 1) / dfa.dfa_align *
              dfa.dfa_align / dfa.dfa_bsize → part = []))
          dfl.dfl_exts parts) ∧
    ext_iter 10 example_dfl_long example_dfa_4k_limit 9 record_exts [] =
      some (some 0, [({ dfle_start := 8, dfle_length := 2097152 }, true),
        ({ dfle_start := 2097160, dfle_length := 2097145 }, true)]) ∧
    exts_cover ((0 + 1000 + 4096 - 1) / 4096 * 4096 / 512) ((0 + 1000 + 2 ^ 31) / 512 * 512 / 512)
      [{ dfle_start := 8, dfle_length := 2097152 },
       { dfle_start := 2097160, dfle_length := 2097145 }] ∧
    dfa_wf example_dfa_4k ∧ dfa_accepted example_dfa_4k ∧
    ddi_ffsll example_dfa_4k.dfa_bsize - 1 = 9 ∧
    example_dfl_top.dfl_exts = [{ dfle_start := 2 ^ 64 - 1024, dfle_length := 1023 }] ∧
    (0 + (2 ^ 64 - 1024) + 1023 < U64 ∧ ¬ (0 + (2 ^ 64 - 1024) + 4096 ≤ U64)) ∧
    (0 + (2 ^ 64 - 1024) + 4096 - 1) / 4096 * 4096 / 512 = 2 ^ 55 ∧
    (0 + (2 ^ 64 - 1024) + 1023) / 512 * 512 / 512 = 2 ^ 55 - 1 ∧
    ext_iter 10 example_dfl_top example_dfa_4k 9 record_exts [] =
      some (some 0, [({ dfle_start := 0, dfle_length := 2 ^ 55 - 1 }, true)]) := by
  refine ⟨?_, by decide, by decide, by decide, by decide, by decide, by decide, by decide,
    by decide, by decide, by decide⟩
  intro dfa dfl fuel hwf hacc hrange hfuel
  obtain ⟨a, b, hab, ha, eb, ea, hff, -⟩ := dfa_accepted_two_pow dfa hwf hacc
  obtain ⟨⟨rc, hrc⟩, -⟩ := ext_iter_returns fuel dfl dfa hwf hacc count_exts 0 hfuel
  have hxl : ∀ ext ∈ dfl.dfl_exts,
      ext_xlate dfl ext dfa (ddi_ffsll dfa.dfa_bsize - 1) =
        .ok ((dfl.dfl_offset + ext.dfle_start + dfa.dfa_align - 1) / dfa.dfa_align *
            dfa.dfa_align / dfa.dfa_bsize,
          (dfl.dfl_offset + ext.dfle_start + ext.dfle_length) / dfa.dfa_bsize *
              dfa.dfa_bsize / dfa.dfa_bsize -
            (dfl.dfl_offset + ext.dfle_start + dfa.dfa_align - 1) / dfa.dfa_align *
              dfa.dfa_align / dfa.dfa_bsize) := by
    intro ext he
    obtain ⟨h1, h2⟩ := hrange ext he
    have hdfa : dfa = ⟨2 ^ b, dfa.dfa_max_ext, dfa.dfa_max_blocks, 2 ^ a⟩ := by
      obtain ⟨x1, x2, x3, x4⟩ := dfa
      simp only [] at eb ea
      subst eb
      subst ea
      rfl
    rw [hff, ea, eb]
    rw [ea] at h2
    have := ext_xlate_two_pow dfl ext a b dfa.dfa_max_ext dfa.dfa_max_blocks ha (by omega)
      h1 h2
    rw [← hdfa] at this
    exact this
  have hrc0 : rc = 0 := by
    rcases ext_emits_for_rc dfl dfa _ fuel dfl.dfl_exts _ rc hrc with h0 | ⟨e, he, hxe⟩
    · exact h0
    · rw [hxl e he] at hxe
      cases hxe
  subst hrc0
  obtain ⟨parts, hp1, hp2⟩ := ext_emits_for_cover dfl dfa hwf hacc fuel
    (fun ext => ext ∈ dfl.dfl_exts) dfl.dfl_exts
    { n_exts := 0, n_blk := 0, newreq := true, arg := () } (fun _ => rfl) (fun _ h => h) hrc
  refine ⟨(ext_emits fuel dfl dfa (ddi_ffsll dfa.dfa_bsize - 1)).1, parts, ?_, hp1, ?_⟩
  · rw [ext_iter_record_exts]
    have : (ext_emits fuel dfl dfa (ddi_ffsll dfa.dfa_bsize - 1)).2 = some 0 := hrc
    rw [this]
    rfl
  · refine List.Forall₂.imp ?_ hp2
    intro ext part ⟨he, s, l, hx, hc⟩
    rw [hxl ext he] at hx
    simp only [Except.ok.injEq, Prod.mk.injEq] at hx
    obtain ⟨hs, hl⟩ := hx
    subst hs
    subst hl
    refine ⟨hc, ?_⟩
    intro hle
    by_contra hne
    have := (exts_cover_le part _ _ hc).2 hne
    omega

end DkiocFree
